import Mathlib

/-!
# scream: environments, iterators, calls, control flow, operators, lexer and parser

A shallow embedding of parts of the `scream` interpreter (package `object`:
`environment.go` and the `object_*.go` files of the value types; package
`evaluator`: `evaluator.go`; package `token`: `token.go`; package `lexer`:
`lexer.go`; package `parser`: the expression parser of `parser.go`) together with
theorems about them.

Conventions of the embedding

* Go mutates environments and iterator cursors in place; here every operation
  returns the new state next to its result.  The namespaces `object` and
  `evaluator` hand environments around as values; the namespace `machine` embeds
  the whole of `EvalContext`, function values and calls included, with environments
  as pointers into a memory.
* `os.Exit(c)`, a Go run-time panic and an exhausted fuel budget are the ways an
  operation can fail to return; they are the constructors of `Abort`.
* Text written to stdout or stderr is not modelled.
* `int` and `int64` are 64 bits wide; a Go string is the sequence of its code points.
* The lexer works on the `[]rune` of its input, a list of characters here; where the
  code counts bytes of a string, the embedding counts the bytes of its UTF-8 form.
-/

set_option autoImplicit false

/-- The ways in which a call does not return to its caller. -/
inductive Abort where
  /-- The call `os.Exit(code)` in the code of the interpreter itself. -/
  | exit (code : Nat)
  /-- The call `os.Exit(code)` of the builtin `exit`, with the code that the
  program hands to it. -/
  | quit (code : Int)
  /-- A Go run-time panic (nil dereference, failed type assertion, negative `make`, ...) -/
  | panic
  /-- The fuel given to a bounded loop of the embedding ran out -/
  | outOfFuel
  deriving DecidableEq, Repr

namespace ast

/-- Modelled from the spec: package `ast` is not among the sources.  These are the
node kinds of the data model (section 3) that the embedded evaluator takes apart,
each with the fields the evaluator reads; an identifier is given by its name. -/
inductive Node where
  | IntegerLiteral (Value : Int)
  | StringLiteral (Value : String)
  | Boolean (Value : Bool)
  | NullLiteral
  | Identifier (Value : String)
  | ExpressionStatement (Expression : Node)
  | LetStatement (Name : String) (Value : Node)
  | ConstStatement (Name : String) (Value : Node)
  | AssignStatement (Name : String) (Operator : String) (Value : Node)
  | BlockStatement (Statements : List Node)
  | IfExpression (Condition : Node) (Consequence : Node) (Alternative : Option Node)
  | ReturnStatement (ReturnValue : Node)
  | Program (Statements : List Node)
  /-- The nil interface value, as the parser returns it for an expression it cannot
  parse. -/
  | nil
  | PrefixExpression (Operator : String) (Right : Node)
  | InfixExpression (Operator : String) (Left : Node) (Right : Node)
  /-- A postfix expression; `Name` is the literal of its field `Token`, the name the
  operator is applied to. -/
  | PostfixExpression (Name : String) (Operator : String)
  | TernaryExpression (Condition : Node) (IfTrue : Node) (IfFalse : Node)
  | RegexpLiteral (Value : String) (Flags : String)

instance : Inhabited Node := ⟨Node.NullLiteral⟩

end ast

namespace object

/-- The struct `object.HashKey`: the type name of the key and its 64-bit hash. -/
structure HashKey where
  Type_ : String
  Value : Nat
  deriving DecidableEq, Repr

/-- A value of the Go interface type `object.Object`: `nil`, or a pointer to one of
the structs of package `object`.  `String`, `Array` and `Hash` carry the private
cursor field `offset` of their struct.  Pointer identity is kept where the code
looks at it: `canonical` tells whether a `Boolean` or `Null` is the package-level
value `TRUE`, `FALSE` or `NULL` of the evaluator (as opposed to a fresh allocation;
`Null` being a struct of size zero, every pointer to one that Go hands out is
identical to `NULL` and carries `true`),
and a `Function` or `Builtin` is known by its identity alone.  A `Float` carries the
64 bits of its IEEE-754 value; the map `Pairs` of a `Hash` is the list of its
entries (hash key, key object, value object), a `File` is given by its name. -/
inductive Object where
  | nil
  | Integer (Value : Int)
  | Boolean (Value : Bool) (canonical : Bool)
  | Null (canonical : Bool)
  | String (Value : String) (offset : Nat)
  | Array (Elements : List Object) (offset : Nat)
  | ReturnValue (Value : Object)
  | Error (Message : String)
  | Function (ref : Nat)
  | Builtin (name : String)
  | Float (Value : Nat)
  | Regexp (Value : String) (Flags : String)
  | Hash (Pairs : List (HashKey × Object × Object)) (offset : Nat)
  | File (Filename : String)

instance : Inhabited Object := ⟨Object.nil⟩

/-- The Go test `obj == nil` on an interface value. -/
def Object.isNil : Object → Bool
  | .nil => true
  | _ => false

/-- A value of type `*Environment`: the nil pointer, or a pointer to
`Environment{store, readonly, outer, permit}`.  The Go maps `store` and `readonly`
are functions from names; a name absent from `store` maps to `none`, a name absent
from `readonly` to `false`. -/
inductive Environment where
  | nil
  | mk (store : String → Option Object) (readonly : String → Bool)
       (outer : Environment) (permit : List String)

instance : Inhabited Environment := ⟨Environment.nil⟩

/-- The map write `m[name] = val`. -/
def mapSet {β : Type} (m : String → β) (name : String) (val : β) : String → β :=
  fun k => if k = name then val else m k

/-- Go's `NewEnvironment`: empty maps, no outer scope, no permit list. -/
def NewEnvironment : Environment :=
  .mk (fun _ => none) (fun _ => false) .nil []

/-- Go's `NewEnclosedEnvironment(outer)`. -/
def NewEnclosedEnvironment (outer : Environment) : Environment :=
  .mk (fun _ => none) (fun _ => false) outer []

/-- Go's `NewTemporaryScope(outer, keys)`. -/
def NewTemporaryScope (outer : Environment) (keys : List String) : Environment :=
  .mk (fun _ => none) (fun _ => false) outer keys

/-- Go's `Environment.Get`: the binding of `name` in the nearest scope that has one.
No call site invokes it on a nil pointer (the recursion is guarded by
`e.outer != nil`); the nil case gives the result of that guard failing. -/
def Environment.Get : Environment → String → Object × Bool
  | .nil, _ => (Object.nil, false)
  | .mk store _ outer _, name =>
    match store name with
    | some obj => (obj, true)
    | none => outer.Get name

/-- The Go test `e == nil` on a `*Environment`. -/
def Environment.isNil : Environment → Bool
  | .nil => true
  | .mk _ _ _ _ => false

/-- Go's `Environment.Set`.  Returns the environment after the write and the value
`Set` returns; `os.Exit(3)` and `os.Exit(5)` are `Abort.exit`, a call on a nil
pointer is a panic. -/
def Environment.Set : Environment → String → Object → Except Abort (Environment × Object)
  | .nil, _, _ => .error .panic
  | .mk store readonly outer permit, name, val =>
    let cur := (store name).getD Object.nil
    if !cur.isNil && readonly name then
      .error (.exit 3)
    else if permit.length > 0 then
      if permit.contains name then
        .ok (.mk (mapSet store name (some val)) readonly outer permit, val)
      else if !outer.isNil then
        match outer.Set name val with
        | .ok (o', r) => .ok (.mk store readonly o' permit, r)
        | .error a => .error a
      else
        .error (.exit 5)
    else
      .ok (.mk (mapSet store name (some val)) readonly outer permit, val)

/-- Go's `Environment.SetConst`: binds `name` in the scope itself and marks it read-only.
It is never called on a nil pointer; the nil case is there to make the function
total. -/
def Environment.SetConst : Environment → String → Object → Environment × Object
  | .nil, _, val => (.nil, val)
  | .mk store readonly outer permit, name, val =>
    (.mk (mapSet store name (some val)) (mapSet readonly name true) outer permit, val)

/-- The shape of an environment made by the three constructors and changed through
`Set` and `SetConst` only: in a scope with a permit list, a name bound in the
scope's own store is on the permit list or marked read-only. -/
def Environment.Built : Environment → Prop
  | .nil => True
  | .mk store readonly outer permit =>
    (permit ≠ [] → ∀ n, (store n).isSome = true → n ∈ permit ∨ readonly n = true) ∧ outer.Built

/-- No scope of the chain holds `name` as a constant whose value is nil. -/
def Environment.noNilConst (name : String) : Environment → Prop
  | .nil => True
  | .mk store readonly outer _ =>
    ¬ (store name = some Object.nil ∧ readonly name = true) ∧ outer.noNilConst name

/-- Whether some scope of the chain marks `name` read-only. -/
def Environment.hasConst (name : String) : Environment → Bool
  | .nil => false
  | .mk _ readonly outer _ => readonly name || outer.hasConst name

/-- Follow the `outer` pointer `j` times. -/
def Environment.nthOuter : Nat → Environment → Environment
  | 0, e => e
  | _ + 1, .nil => .nil
  | j + 1, .mk _ _ outer _ => outer.nthOuter j

/-- The scope's own `store` map (the empty map for the nil pointer). -/
def Environment.ownStore : Environment → String → Option Object
  | .nil => fun _ => none
  | .mk store _ _ _ => store

/-- The `store` map of the `i`-th scope of the chain, counting outward from 0. -/
def Environment.storeAt (e : Environment) (i : Nat) : String → Option Object :=
  (e.nthOuter i).ownStore

/-- Whether a write of `name` through a scope with this permit list stays in
the scope: the list is empty (a plain scope) or holds `name`. -/
def landsHere (permit : List String) (name : String) : Bool :=
  permit.length == 0 || permit.contains name

/-- The index of the first scope, counting outward from 0, that is plain or has
`name` on its permit list; `none` when the chain ends before one is found. -/
def Environment.target (name : String) : Environment → Option Nat
  | .nil => none
  | .mk _ _ outer permit =>
    if landsHere permit name then some 0 else (outer.target name).map (· + 1)

/-- Whether each of the first `j` scopes of the chain is a temporary scope whose
non-empty permit list does not hold `name`. -/
def Environment.bubbles (name : String) : Nat → Environment → Bool
  | 0, _ => true
  | _ + 1, .nil => false
  | j + 1, .mk _ _ outer permit => !landsHere permit name && outer.bubbles name j

/-- The method `Type()`, by the constants of `object.go`; calling it on the nil
interface value is a nil dereference, hence `none`. -/
def Type_ : Object → Option String
  | .nil => none
  | .Integer _ => some "INTEGER"
  | .Boolean _ _ => some "BOOLEAN"
  | .Null _ => some "NULL"
  | .String _ _ => some "STRING"
  | .Array _ _ => some "ARRAY"
  | .ReturnValue _ => some "RETURN_VALUE"
  | .Error _ => some "ERROR"
  | .Function _ => some "FUNCTION"
  | .Builtin _ => some "BUILTIN"
  | .Float _ => some "FLOAT"
  | .Regexp _ _ => some "REGEXP"
  | .Hash _ _ => some "HASH"
  | .File _ => some "FILE"

/-- Go's `(*Array).Next` on the fields of the receiver: the triple it returns and the
new value of `offset`. -/
def Array_Next (Elements : List Object) (offset : Nat) : (Object × Object × Bool) × Nat :=
  if h : offset < Elements.length then
    ((Elements[offset], Object.Integer offset, true), offset + 1)
  else
    ((Object.nil, Object.Integer 0, false), offset)

/-- Go's `(*String).Next` on the fields of the receiver.  A Go string is taken as the
sequence of its code points: `utf8.RuneCountInString` is `String.length` and
`[]rune(s.Value)` is `String.data`. -/
def String_Next (Value : String) (offset : Nat) : (Object × Object × Bool) × Nat :=
  if h : offset < Value.length then
    let chars := Value.data
    ((Object.String (String.singleton (chars.get ⟨offset, h⟩)) 0, Object.Integer offset, true),
      offset + 1)
  else
    ((Object.nil, Object.Integer 0, false), offset)

/-- Go's `(*Hash).Next` on the fields of the receiver.  The entry handed out is the
one the `range` loop over the map reaches at position `offset`.  Go starts a new
`range` on every call and leaves the order of each open: the list `Pairs` stands for
the order of the call at hand, and two calls are described together only as far as
their orders agree (when they do not, an entry may be handed out twice or not at
all). -/
def Hash_Next (Pairs : List (HashKey × Object × Object)) (offset : Nat) :
    (Object × Object × Bool) × Nat :=
  if h : offset < Pairs.length then
    ((Pairs[offset].2.1, Pairs[offset].2.2, true), offset + 1)
  else
    ((Object.nil, Object.Integer 0, false), offset)

/-- The method `Reset` of the interface `Iterable` (`(*Array).Reset`,
`(*String).Reset`, `(*Hash).Reset`): the receiver with `offset = 0`; `none` for a
value whose type does not implement the interface. -/
def Object.Reset : Object → Option Object
  | .Array Elements _ => some (.Array Elements 0)
  | .String Value _ => some (.String Value 0)
  | .Hash Pairs _ => some (.Hash Pairs 0)
  | _ => none

/-- The method `Next` of the interface `Iterable`: the triple
`(value, index, has_more)` and the receiver after the call. -/
def Object.Next : Object → Option ((Object × Object × Bool) × Object)
  | .Array Elements offset =>
    some ((Array_Next Elements offset).1, .Array Elements (Array_Next Elements offset).2)
  | .String Value offset =>
    some ((String_Next Value offset).1, .String Value (String_Next Value offset).2)
  | .Hash Pairs offset =>
    some ((Hash_Next Pairs offset).1, .Hash Pairs (Hash_Next Pairs offset).2)
  | _ => none

/-- The field `outer` (nil for the nil pointer). -/
def Environment.outer : Environment → Environment
  | .nil => .nil
  | .mk _ _ outer _ => outer

/-- Whether `Set` of `name` exits with code 3: the scope itself holds the name as a
constant with a value other than nil, or the scope is temporary, does not permit
the name, and the write, handed to the outer scope, is refused there. -/
def Environment.refuses (name : String) : Environment → Bool
  | .nil => false
  | .mk store readonly outer permit =>
    (!((store name).getD Object.nil).isNil && readonly name) ||
      (!landsHere permit name && outer.refuses name)

/-- The struct `object.Function`.  `Parameters` holds the names of the parameter
identifiers; `Defaults` lists the entries of the Go map in the order in which the
`range` loop of `extendFunctionEnv` visits them (Go leaves that order open). -/
structure Function where
  Parameters : List String
  Body : ast.Node
  Defaults : List (String × ast.Node)
  Env : Environment

end object

namespace evaluator

open object ast

/-- The package-level value `NULL`. -/
def NULL : Object := .Null true
/-- The package-level value `TRUE`. -/
def TRUE : Object := .Boolean true true
/-- The package-level value `FALSE`. -/
def FALSE : Object := .Boolean false true

/-- The result of evaluating a node: the value and the environment as the
evaluation left it. -/
abbrev Result := Except Abort (Object × Environment)

/-- The type of `Eval` once the process-wide state is fixed. -/
abbrev Evaluator := Node → Environment → Result

/-- Reduction of a signed 64-bit result to its two's-complement value. -/
def wrap64 (x : Int) : Int := (x + 2 ^ 63) % 2 ^ 64 - 2 ^ 63

/-- Go's `nativeBoolToBooleanObject`: the package-level `TRUE` or `FALSE`. -/
def nativeBoolToBooleanObject (input : Bool) : Object :=
  if input then TRUE else FALSE

/-- Go's `isError`: `obj != nil` and `obj.Type() == ERROR_OBJ`. -/
def isError (obj : Object) : Bool :=
  !obj.isNil && Type_ obj == some "ERROR"

/-- Go's `isTruthy`: a comparison by identity with `NULL`, `TRUE` and `FALSE`. -/
def isTruthy : Object → Bool
  | .Null true => false
  | .Boolean true true => true
  | .Boolean false true => false
  | _ => true

/-- The loop of the `..` case of `evalIntegerInfixExpression`: `n` elements are
still to be written, the next one is `leftVal`. -/
def rangeLoop : Nat → Int → List Object
  | 0, _ => []
  | n + 1, leftVal => Object.Integer leftVal :: rangeLoop n (wrap64 (leftVal + 1))

/-- Go's `evalIntegerInfixExpression`.  The operands are `int64`, `int` is 64 bits wide.
`pow l r` stands for `int64(math.Pow(float64(l), float64(r)))`, which is not
modelled.  Integer division by zero, a failed type assertion and `make` with a
negative length are run-time panics; `make` is taken to succeed for every
non-negative length. -/
def evalIntegerInfixExpression (pow : Int → Int → Int) (operator : String)
    (left right : Object) : Except Abort Object :=
  match left, right with
  | .Integer leftVal, .Integer rightVal =>
    if operator = "+" then .ok (.Integer (wrap64 (leftVal + rightVal)))
    else if operator = "+=" then .ok (.Integer (wrap64 (leftVal + rightVal)))
    else if operator = "%" then
      if rightVal = 0 then .error .panic else .ok (.Integer (wrap64 (leftVal.tmod rightVal)))
    else if operator = "**" then .ok (.Integer (pow leftVal rightVal))
    else if operator = "-" then .ok (.Integer (wrap64 (leftVal - rightVal)))
    else if operator = "-=" then .ok (.Integer (wrap64 (leftVal - rightVal)))
    else if operator = "*" then .ok (.Integer (wrap64 (leftVal * rightVal)))
    else if operator = "*=" then .ok (.Integer (wrap64 (leftVal * rightVal)))
    else if operator = "/" then
      if rightVal = 0 then .error .panic else .ok (.Integer (wrap64 (leftVal.tdiv rightVal)))
    else if operator = "/=" then
      if rightVal = 0 then .error .panic else .ok (.Integer (wrap64 (leftVal.tdiv rightVal)))
    else if operator = "<" then .ok (nativeBoolToBooleanObject (leftVal < rightVal))
    else if operator = "<=" then .ok (nativeBoolToBooleanObject (leftVal ≤ rightVal))
    else if operator = ">" then .ok (nativeBoolToBooleanObject (leftVal > rightVal))
    else if operator = ">=" then .ok (nativeBoolToBooleanObject (leftVal ≥ rightVal))
    else if operator = "==" then .ok (nativeBoolToBooleanObject (leftVal = rightVal))
    else if operator = "!=" then .ok (nativeBoolToBooleanObject (leftVal ≠ rightVal))
    else if operator = ".." then
      let len := wrap64 (wrap64 (rightVal - leftVal) + 1)
      if len < 0 then .error .panic
      else .ok (.Array (rangeLoop len.toNat leftVal) 0)
    else .ok (.Error ("unknown operator: INTEGER " ++ operator ++ " INTEGER"))
  | _, _ => .error .panic

/-- Go's `evalIdentifier`: the environment first, then the registry of builtins; an
unknown name exits under the strict pragma and is an `Error` value otherwise.  The
message is the format string handed to `fmt.Sprintf` itself, the name being free of
`%` (the lexer admits letters, digits, `.`, `?`, `$` and `_` in a name). -/
def evalIdentifier (PRAGMAS : String → Int) (builtins : String → Option Object)
    (Value : String) (env : Environment) : Except Abort Object :=
  match env.Get Value with
  | (val, true) => .ok val
  | (_, false) =>
    match builtins Value with
    | some builtin => .ok builtin
    | none =>
      if PRAGMAS "strict" = 1 then .error (.exit 1)
      else .ok (.Error ("identifier not found: " ++ Value))

/-- The body shared by the cases `+=`, `-=`, `*=`, `/=` of `evalAssignStatement`. -/
def compoundAssign
    (evalInfixExpression : String → Object → Object → Environment → Result)
    (operator Name : String) (evaluated : Object) (env : Environment) : Result :=
  match env.Get Name with
  | (_, false) => .ok (.Error (Name ++ " is unknown"), env)
  | (current, true) =>
    match evalInfixExpression operator current evaluated env with
    | .error a => .error a
    | .ok (res, env1) =>
      if isError res then .ok (res, env1)
      else
        match env1.Set Name res with
        | .error a => .error a
        | .ok (env2, _) => .ok (res, env2)

/-- Go's `evalAssignStatement`.  `Eval` is the evaluator it calls back into and
`evalInfixExpression` the infix dispatch used by the compound operators. -/
def evalAssignStatement (Eval : Evaluator)
    (evalInfixExpression : String → Object → Object → Environment → Result)
    (PRAGMAS : String → Int) (Name Operator : String) (Value : Node)
    (env : Environment) : Result :=
  match Eval Value env with
  | .error a => .error a
  | .ok (evaluated, env1) =>
    if isError evaluated then .ok (evaluated, env1)
    else if Operator = "+=" then compoundAssign evalInfixExpression "+=" Name evaluated env1
    else if Operator = "-=" then compoundAssign evalInfixExpression "-=" Name evaluated env1
    else if Operator = "*=" then compoundAssign evalInfixExpression "*=" Name evaluated env1
    else if Operator = "/=" then compoundAssign evalInfixExpression "/=" Name evaluated env1
    else if Operator = "=" then
      if PRAGMAS "strict" = 1 ∧ (env1.Get Name).2 = false then .error (.exit 1)
      else
        match env1.Set Name evaluated with
        | .error a => .error a
        | .ok (env2, _) => .ok (evaluated, env2)
    else .ok (evaluated, env1)

/-- Go's `evalBlockStatement`: the statements that remain, the value of `result` and
the environment so far. -/
def evalBlockStatement (Eval : Evaluator) : List Node → Object → Environment → Result
  | [], result, env => .ok (result, env)
  | statement :: rest, _, env =>
    match Eval statement env with
    | .error a => .error a
    | .ok (result, env1) =>
      if !result.isNil &&
          (Type_ result == some "RETURN_VALUE" || Type_ result == some "ERROR") then
        .ok (result, env1)
      else evalBlockStatement Eval rest result env1

/-- Go's `evalProgram`: the statements that remain, the value of `result` and the
environment so far. -/
def evalProgram (Eval : Evaluator) : List Node → Object → Environment → Result
  | [], result, env => .ok (result, env)
  | statement :: rest, _, env =>
    match Eval statement env with
    | .error a => .error a
    | .ok (.ReturnValue Value, env1) => .ok (Value, env1)
    | .ok (.Error Message, env1) => .ok (.Error Message, env1)
    | .ok (result, env1) => evalProgram Eval rest result env1

/-- Go's `upwrapReturnValue`: the value inside a `ReturnValue`, any other value as
it is. -/
def upwrapReturnValue : Object → Object
  | .ReturnValue Value => Value
  | obj => obj

/-- The permit list built by `evalIfExpression`: `$1`, ..., `$31`. -/
def ifPermit : List String :=
  (List.range' 1 31).map (fun i => "$" ++ toString i)

/-- Go's `evalIfExpression`: condition and branch are evaluated in a temporary scope
over `env`; what the caller keeps is the outer scope of that temporary scope. -/
def evalIfExpression (Eval : Evaluator) (Condition Consequence : Node)
    (Alternative : Option Node) (env : Environment) : Result :=
  let nEnv := NewTemporaryScope env ifPermit
  match Eval Condition nEnv with
  | .error a => .error a
  | .ok (condition, nEnv1) =>
    if isError condition then .ok (condition, nEnv1.outer)
    else if isTruthy condition then
      (Eval Consequence nEnv1).map (fun p => (p.1, p.2.outer))
    else
      match Alternative with
      | some alt => (Eval alt nEnv1).map (fun p => (p.1, p.2.outer))
      | none => .ok (NULL, nEnv1.outer)

/-- Go's `evalBangOperatorExpression`: a comparison by identity with `TRUE`,
`FALSE` and `NULL`. -/
def evalBangOperatorExpression : Object → Object
  | .Boolean true true => FALSE
  | .Boolean false true => TRUE
  | .Null true => TRUE
  | _ => FALSE

/-- Go's `evalMinusPrefixOperatorExpression`.  The negation of a `float64` flips
the sign bit. -/
def evalMinusPrefixOperatorExpression : Object → Except Abort Object
  | .Integer Value => .ok (.Integer (wrap64 (-Value)))
  | .Float Value => .ok (.Float (if Value < 2 ^ 63 then Value + 2 ^ 63 else Value - 2 ^ 63))
  | right =>
    match Type_ right with
    | none => .error .panic
    | some t => .ok (.Error ("unknown operator: -" ++ t))

/-- Go's `evalPrefixExpression`. -/
def evalPrefixExpression (operator : String) (right : Object) : Except Abort Object :=
  if operator = "!" then .ok (evalBangOperatorExpression right)
  else if operator = "-" then evalMinusPrefixOperatorExpression right
  else
    match Type_ right with
    | none => .error .panic
    | some t => .ok (.Error ("unknown operator: " ++ operator ++ t))

/-- Go's `evalPostfixExpression`; `Name` is `node.Token.Literal`. -/
def evalPostfixExpression (env : Environment) (operator Name : String) : Result :=
  if operator = "++" then
    match env.Get Name with
    | (_, false) => .ok (.Error (Name ++ " is unknown"), env)
    | (.Integer v, true) =>
      match env.Set Name (.Integer (wrap64 (v + 1))) with
      | .error a => .error a
      | .ok (env1, _) => .ok (.Integer v, env1)
    | (_, true) => .ok (.Error (Name ++ " is not an int"), env)
  else if operator = "--" then
    match env.Get Name with
    | (_, false) => .ok (.Error (Name ++ " is unknown"), env)
    | (.Integer v, true) =>
      match env.Set Name (.Integer (wrap64 (v - 1))) with
      | .error a => .error a
      | .ok (env1, _) => .ok (.Integer v, env1)
    | (_, true) => .ok (.Error (Name ++ " is not an int"), env)
  else .ok (.Error ("unknown operator: " ++ operator), env)

/-- Go's `evalTernaryExpression`. -/
def evalTernaryExpression (Eval : Evaluator) (Condition IfTrue IfFalse : Node)
    (env : Environment) : Result :=
  match Eval Condition env with
  | .error a => .error a
  | .ok (condition, env1) =>
    if isError condition then .ok (condition, env1)
    else if isTruthy condition then Eval IfTrue env1
    else Eval IfFalse env1

/-- Go's `Eval` (`EvalContext` with a context that is never cancelled) on the node
kinds of `Node`, with `fuel` bounding the depth of the recursion.  `PRAGMAS` and
`builtins` are the package-level maps, `evalInfixExpression` the infix dispatch. -/
def Eval (PRAGMAS : String → Int) (builtins : String → Option Object)
    (evalInfixExpression : String → Object → Object → Environment → Result) :
    Nat → Node → Environment → Result
  | 0, _, _ => .error .outOfFuel
  | fuel + 1, node, env =>
    match node with
    | .ExpressionStatement Expression =>
      Eval PRAGMAS builtins evalInfixExpression fuel Expression env
    | .IntegerLiteral Value => .ok (.Integer Value, env)
    | .Boolean Value => .ok (nativeBoolToBooleanObject Value, env)
    | .NullLiteral => .ok (NULL, env)
    | .BlockStatement Statements =>
      evalBlockStatement (Eval PRAGMAS builtins evalInfixExpression fuel) Statements .nil env
    | .IfExpression Condition Consequence Alternative =>
      evalIfExpression (Eval PRAGMAS builtins evalInfixExpression fuel)
        Condition Consequence Alternative env
    | .LetStatement Name Value =>
      match Eval PRAGMAS builtins evalInfixExpression fuel Value env with
      | .error a => .error a
      | .ok (val, env1) =>
        if isError val then .ok (val, env1)
        else
          match env1.Set Name val with
          | .error a => .error a
          | .ok (env2, _) => .ok (val, env2)
    | .ConstStatement Name Value =>
      match Eval PRAGMAS builtins evalInfixExpression fuel Value env with
      | .error a => .error a
      | .ok (val, env1) =>
        if isError val then .ok (val, env1)
        else .ok (val, (env1.SetConst Name val).1)
    | .Identifier Value => (evalIdentifier PRAGMAS builtins Value env).map (fun v => (v, env))
    | .StringLiteral Value => .ok (.String Value 0, env)
    | .AssignStatement Name Operator Value =>
      evalAssignStatement (Eval PRAGMAS builtins evalInfixExpression fuel) evalInfixExpression
        PRAGMAS Name Operator Value env
    | .Program Statements =>
      evalProgram (Eval PRAGMAS builtins evalInfixExpression fuel) Statements .nil env
    | .ReturnStatement ReturnValue =>
      match Eval PRAGMAS builtins evalInfixExpression fuel ReturnValue env with
      | .error a => .error a
      | .ok (val, env1) =>
        if isError val then .ok (val, env1)
        else .ok (.ReturnValue val, env1)
    | .nil => .ok (.nil, env)
    | .PrefixExpression Operator Right =>
      match Eval PRAGMAS builtins evalInfixExpression fuel Right env with
      | .error a => .error a
      | .ok (right, env1) =>
        if isError right then .ok (right, env1)
        else (evalPrefixExpression Operator right).map (fun v => (v, env1))
    | .InfixExpression Operator Left Right =>
      match Eval PRAGMAS builtins evalInfixExpression fuel Left env with
      | .error a => .error a
      | .ok (left, env1) =>
        if isError left then .ok (left, env1)
        else
          match Eval PRAGMAS builtins evalInfixExpression fuel Right env1 with
          | .error a => .error a
          | .ok (right, env2) =>
            if isError right then .ok (right, env2)
            else
              match evalInfixExpression Operator left right env2 with
              | .error a => .error a
              | .ok (res, env3) =>
                if isError res ∧ PRAGMAS "strict" = 1 then .error (.exit 1)
                else .ok (res, env3)
    | .PostfixExpression Name Operator => evalPostfixExpression env Operator Name
    | .TernaryExpression Condition IfTrue IfFalse =>
      evalTernaryExpression (Eval PRAGMAS builtins evalInfixExpression fuel)
        Condition IfTrue IfFalse env
    | .RegexpLiteral Value Flags => .ok (.Regexp Value Flags, env)

/-- The map `PRAGMAS` of a process in which no pragma has been set. -/
def noPragmas : String → Int := fun _ => 0

/-- The names under which `RegisterBuiltin` is called (`stdlib_core.go`,
`stdlib_env.go`, `stdlib_file.go`, `scream.go`). -/
def builtinNames : List String :=
  ["chmod", "delete", "eval", "exit", "int", "keys", "LEN", "match", "mkdir", "pragma",
   "open", "APPEND", "PRINT", "printf", "set", "sprintf", "stat", "string", "type",
   "unlink", "os.getenv", "os.setenv", "os.environment", "directory.glob", "version",
   "args"]

/-- The map `builtins` once the registrations have run. -/
def builtins : String → Option Object :=
  fun name => if builtinNames.contains name then some (.Builtin name) else none

/-- Stands for `evalInfixExpression` when a program without compound assignment
is evaluated: `Eval` never calls it there. -/
def noInfix : String → Object → Object → Environment → Result :=
  fun _ _ _ _ => .error .panic

/-- The first loop of `extendFunctionEnv`: `env.Set(key, Eval(val, env))` for
every entry of `fn.Defaults`. -/
def setDefaults (Eval : Evaluator) : List (String × Node) → Environment → Except Abort Environment
  | [], env => .ok env
  | (key, val) :: rest, env =>
    match Eval val env with
    | .error a => .error a
    | .ok (v, env1) =>
      match env1.Set key v with
      | .error a => .error a
      | .ok (env2, _) => setDefaults Eval rest env2

/-- The second loop of `extendFunctionEnv`: the parameters that remain, the index
`paramIdx` of the first of them, and the environment so far. -/
def setParams (args : List Object) : List String → Nat → Environment → Except Abort Environment
  | [], _, env => .ok env
  | param :: rest, paramIdx, env =>
    if h : paramIdx < args.length then
      match env.Set param args[paramIdx] with
      | .error a => .error a
      | .ok (env1, _) => setParams args rest (paramIdx + 1) env1
    else setParams args rest (paramIdx + 1) env

/-- Go's `extendFunctionEnv`, with the evaluator it calls for the default expressions. -/
def extendFunctionEnv (Eval : Evaluator) (fn : Function) (args : List Object) :
    Except Abort Environment :=
  let env := NewEnclosedEnvironment fn.Env
  match setDefaults Eval fn.Defaults env with
  | .error a => .error a
  | .ok env1 => setParams args fn.Parameters 0 env1

/-- What evaluating the body of a `foreach` does: from the scope it runs in and the
iterated value (a pointer the body may hold as well, so that it can move the
cursor) to the value of the body, the scope and the iterated value afterwards. -/
abbrev LoopBody := Environment → Object → Except Abort (Object × Environment × Object)

/-- The `for ok` loop of `evalForeachExpression`; `fuel` bounds the number of
iterations.  The value after the loop is `&object.Null{}`: the struct `object.Null`
has no fields, and the pointers that Go hands out for a type of size zero are one
and the same, so this value is identical to `NULL`, which the flag `true` says. -/
def foreachLoop (body : LoopBody) (Ident Index : String) :
    Nat → Object → Object → Bool → Environment → Object →
      Except Abort (Object × Environment × Object)
  | 0, _, _, _, _, _ => .error .outOfFuel
  | fuel + 1, ret, idx, ok, child, helper =>
    if ok then
      match child.Set Ident ret with
      | .error a => .error a
      | .ok (child1, _) =>
        match (if Index ≠ "" then child1.Set Index idx else .ok (child1, idx)) with
        | .error a => .error a
        | .ok (child2, _) =>
          match body child2 helper with
          | .error a => .error a
          | .ok (rt, child3, helper1) =>
            match Type_ rt with
            | none => .error .panic
            | some t =>
              if !isError rt && (t == "RETURN_VALUE" || t == "ERROR") then
                .ok (rt, child3, helper1)
              else
                match helper1.Next with
                | none => .error .panic
                | some ((ret1, idx1, ok1), helper2) =>
                  foreachLoop body Ident Index fuel ret1 idx1 ok1 child3 helper2
    else .ok (.Null true, child, helper)

/-- Go's `evalForeachExpression`.  `val` is the value of `Eval(fle.Value, env)` and
`body` the effect of `Eval(fle.Body, child)`.  Returns the value of the loop,
the caller's environment and the iterated value as the loop left them. -/
def evalForeachExpression (body : LoopBody) (Ident Index : String) (fuel : Nat)
    (val : Object) (env : Environment) : Except Abort (Object × Environment × Object) :=
  match val.Reset with
  | none =>
    match Type_ val with
    | none => .error .panic
    | some t => .ok (.Error (t ++ " object doesn't implement the Iterable interface"), env, val)
  | some helper =>
    let permit := [Ident] ++ (if Index ≠ "" then [Index] else [])
    let child := NewTemporaryScope env permit
    match helper.Next with
    | none => .error .panic
    | some ((ret, idx, ok), helper1) =>
      (foreachLoop body Ident Index fuel ret idx ok child helper1).map
        (fun p => (p.1, p.2.1.outer, p.2.2))

/-- The receiver after `k` calls of `Next`. -/
def nextN : Nat → Object → Option Object
  | 0, helper => some helper
  | k + 1, helper => (helper.Next).bind (fun r => nextN k r.2)

/-- The values that `Next` yields, call after call, until it reports
`has_more = false` (at most `fuel` of them). -/
def drain : Nat → Object → List Object
  | 0, _ => []
  | fuel + 1, helper =>
    match helper.Next with
    | some ((value, _, true), helper1) => value :: drain fuel helper1
    | _ => []

/-- What `acc += c` builds from the yielded values when `acc` starts as the empty
string: the concatenation of their `Value`s (`evalStringInfixExpression`, case
`+=`). -/
def concatValues : List Object → String
  | [] => ""
  | .String Value _ :: rest => Value ++ concatValues rest
  | _ :: rest => concatValues rest

/-- The function `FN(x, y = x = 7) { }` defined at top level: the default of `y`
is the assignment `x = 7`. -/
def assigningDefault : Function :=
  { Parameters := ["x", "y"], Body := .BlockStatement [],
    Defaults := [("y", .AssignStatement "x" "=" (.IntegerLiteral 7))],
    Env := NewEnvironment }

/-- The function `FN(n, m = 3) { ... }` of the specification's third scenario, as
the top level defines it (the body plays no part in `extendFunctionEnv`). -/
def addDefault : Function :=
  { Parameters := ["n", "m"], Body := .BlockStatement [],
    Defaults := [("m", .IntegerLiteral 3)], Env := NewEnvironment }

/-- The function `FN(a, b = a) { }` with the captured environment `Env`. -/
def earlierParam (a b : String) (Env : Environment) : Function :=
  { Parameters := [a, b], Body := .BlockStatement [],
    Defaults := [(b, .Identifier a)], Env := Env }

/-- What the evaluator takes from the Go run time and its library and the embedding
leaves open: `float64` arithmetic (on bit patterns), the rendering of a float and
of a function, pointer equality of two interface values, and the regular-expression
engine (a compiled expression is known by its pattern text). -/
structure Host where
  /-- The conversion `int64(math.Pow(float64(l), float64(r)))`. -/
  ipow : Int → Int → Int
  /-- The sum `l + r` of two `float64`. -/
  fadd : Nat → Nat → Nat
  /-- The difference `l - r` of two `float64`. -/
  fsub : Nat → Nat → Nat
  /-- The product `l * r` of two `float64`. -/
  fmul : Nat → Nat → Nat
  /-- The quotient `l / r` of two `float64`. -/
  fdiv : Nat → Nat → Nat
  /-- The power `math.Pow(l, r)`. -/
  fpow : Nat → Nat → Nat
  /-- The comparison `l < r` of two `float64`. -/
  flt : Nat → Nat → Bool
  /-- The comparison `l <= r` of two `float64`. -/
  fle : Nat → Nat → Bool
  /-- The comparison `l == r` of two `float64`. -/
  feq : Nat → Nat → Bool
  /-- The conversion `float64(i)` of an `int64`. -/
  ofInt : Int → Nat
  /-- The text `strconv.FormatFloat(v, 'f', -1, 64)`. -/
  formatFloat : Nat → String
  /-- The text `(*Function).Inspect()` of the function with this identity. -/
  inspectFunction : Nat → String
  /-- The comparison `left == right` of two interface values. -/
  identical : Object → Object → Bool
  /-- Whether `regexp.Compile` accepts the pattern. -/
  compiles : String → Bool
  /-- The text of the error `regexp.Compile` returns for a pattern it rejects. -/
  compileError : String → String
  /-- The result of `FindStringSubmatch` of the compiled pattern on a string. -/
  FindStringSubmatch : String → String → List String
  /-- The result of `MatchString` of the compiled pattern on a string. -/
  MatchString : String → String → Bool

mutual
/-- The method `Inspect()`; `none` where it dereferences nil. -/
def Inspect (host : Host) : Object → Option String
  | .nil => none
  | .Integer Value => some (toString Value)
  | .Boolean Value _ => some (if Value then "true" else "false")
  | .Null _ => some "null"
  | .String Value _ => some Value
  | .Array Elements _ =>
    (inspectElements host Elements).map (fun l => "[" ++ ", ".intercalate l ++ "]")
  | .ReturnValue Value => Inspect host Value
  | .Error Message => some ("ERROR: " ++ Message)
  | .Function ref => some (host.inspectFunction ref)
  | .Builtin _ => some "builtin function"
  | .Float Value => some (host.formatFloat Value)
  | .Regexp Value _ => some Value
  | .Hash Pairs _ =>
    (inspectPairs host Pairs).map (fun l => "\x7b" ++ ", ".intercalate l ++ "\x7d")
  | .File Filename => some ("<file:" ++ Filename ++ ">")
/-- The loop of `(*Array).Inspect` over the elements. -/
def inspectElements (host : Host) : List Object → Option (List String)
  | [] => some []
  | e :: rest =>
    match Inspect host e, inspectElements host rest with
    | some a, some l => some (a :: l)
    | _, _ => none
/-- The loop of `(*Hash).Inspect` over the pairs. -/
def inspectPairs (host : Host) : List (HashKey × Object × Object) → Option (List String)
  | [] => some []
  | (_, Key, Value) :: rest =>
    match Inspect host Key, Inspect host Value, inspectPairs host rest with
    | some k, some v, some l => some ((k ++ ": " ++ v) :: l)
    | _, _, _ => none
end

/-- The test `obj.Value == 0.0` on the bits of a `float64`: plus or minus zero. -/
def floatIsZero (bits : Nat) : Bool :=
  bits == 0 || bits == 2 ^ 63

/-- Go's `objectToNativeBoolean`. -/
def objectToNativeBoolean (o : Object) : Bool :=
  let o := match o with
    | .ReturnValue Value => Value
    | other => other
  match o with
  | .Boolean Value _ => Value
  | .String Value _ => Value != ""
  | .Regexp Value _ => Value != ""
  | .Null _ => false
  | .Integer Value => if Value = 0 then false else true
  | .Float Value => if floatIsZero Value then false else true
  | .Array Elements _ => if Elements.length = 0 then false else true
  | .Hash Pairs _ => if Pairs.length = 0 then false else true
  | _ => true

/-- The text `unknown operator: L op R` of the `default` cases. -/
def unknownOperator (leftType operator rightType : String) : Object :=
  .Error ("unknown operator: " ++ leftType ++ " " ++ operator ++ " " ++ rightType)

/-- Go's `evalStringInfixExpression`.  Go compares strings byte by byte, which on
UTF-8 text is the order of the code points. -/
def evalStringInfixExpression (operator : String) (left right : Object) : Except Abort Object :=
  match left, right with
  | .String l _, .String r _ =>
    if operator = "==" then .ok (nativeBoolToBooleanObject (l = r))
    else if operator = "!=" then .ok (nativeBoolToBooleanObject (l ≠ r))
    else if operator = ">=" then .ok (nativeBoolToBooleanObject (!decide (l < r)))
    else if operator = ">" then .ok (nativeBoolToBooleanObject (r < l))
    else if operator = "<=" then .ok (nativeBoolToBooleanObject (!decide (r < l)))
    else if operator = "<" then .ok (nativeBoolToBooleanObject (l < r))
    else if operator = "+" then .ok (.String (l ++ r) 0)
    else if operator = "+=" then .ok (.String (l ++ r) 0)
    else .ok (unknownOperator "STRING" operator "STRING")
  | _, _ => .error .panic

/-- Go's `evalBooleanInfixExpression`: the comparison of the two inspected texts. -/
def evalBooleanInfixExpression (host : Host) (operator : String) (left right : Object) :
    Except Abort Object :=
  match Inspect host left, Inspect host right, Type_ left, Type_ right with
  | some l, some r, some lt, some rt =>
    if operator = "<" then evalStringInfixExpression operator (.String l 0) (.String r 0)
    else if operator = "<=" then evalStringInfixExpression operator (.String l 0) (.String r 0)
    else if operator = ">" then evalStringInfixExpression operator (.String l 0) (.String r 0)
    else if operator = ">=" then evalStringInfixExpression operator (.String l 0) (.String r 0)
    else .ok (unknownOperator lt operator rt)
  | _, _, _, _ => .error .panic

/-- The `switch` that `evalFloatInfixExpression`, `evalFloatIntegerInfixExpression`
and `evalIntegerFloatInfixExpression` each apply to their two `float64` operands;
`leftType` and `rightType` are the type names of the operands, for the message. -/
def floatInfix (host : Host) (operator : String) (leftVal rightVal : Nat)
    (leftType rightType : String) : Object :=
  if operator = "+" then .Float (host.fadd leftVal rightVal)
  else if operator = "+=" then .Float (host.fadd leftVal rightVal)
  else if operator = "-" then .Float (host.fsub leftVal rightVal)
  else if operator = "-=" then .Float (host.fsub leftVal rightVal)
  else if operator = "*" then .Float (host.fmul leftVal rightVal)
  else if operator = "*=" then .Float (host.fmul leftVal rightVal)
  else if operator = "**" then .Float (host.fpow leftVal rightVal)
  else if operator = "/" then .Float (host.fdiv leftVal rightVal)
  else if operator = "/=" then .Float (host.fdiv leftVal rightVal)
  else if operator = "<" then nativeBoolToBooleanObject (host.flt leftVal rightVal)
  else if operator = "<=" then nativeBoolToBooleanObject (host.fle leftVal rightVal)
  else if operator = ">" then nativeBoolToBooleanObject (host.flt rightVal leftVal)
  else if operator = ">=" then nativeBoolToBooleanObject (host.fle rightVal leftVal)
  else if operator = "==" then nativeBoolToBooleanObject (host.feq leftVal rightVal)
  else if operator = "!=" then nativeBoolToBooleanObject (!host.feq leftVal rightVal)
  else unknownOperator leftType operator rightType

/-- Go's `evalFloatInfixExpression`. -/
def evalFloatInfixExpression (host : Host) (operator : String) (left right : Object) :
    Except Abort Object :=
  match left, right with
  | .Float leftVal, .Float rightVal =>
    .ok (floatInfix host operator leftVal rightVal "FLOAT" "FLOAT")
  | _, _ => .error .panic

/-- Go's `evalFloatIntegerInfixExpression`. -/
def evalFloatIntegerInfixExpression (host : Host) (operator : String) (left right : Object) :
    Except Abort Object :=
  match left, right with
  | .Float leftVal, .Integer rightVal =>
    .ok (floatInfix host operator leftVal (host.ofInt rightVal) "FLOAT" "INTEGER")
  | _, _ => .error .panic

/-- Go's `evalIntegerFloatInfixExpression`. -/
def evalIntegerFloatInfixExpression (host : Host) (operator : String) (left right : Object) :
    Except Abort Object :=
  match left, right with
  | .Integer leftVal, .Float rightVal =>
    .ok (floatInfix host operator (host.ofInt leftVal) rightVal "INTEGER" "FLOAT")
  | _, _ => .error .panic

/-- The pattern that `matches` and `notMatches` compile: the value of the Regexp,
behind its flags when it has any. -/
def regexpPattern (Value Flags : String) : String :=
  if Flags ≠ "" then "(?" ++ Flags ++ ")" ++ Value else Value

/-- The loop of `matches` that binds the captures: `rest` are the submatches still
to bind, `i` the number of the first of them. -/
def setCaptures : List String → Nat → Environment → Except Abort Environment
  | [], _, env => .ok env
  | capture :: rest, i, env =>
    match env.Set ("$" ++ toString i) (.String capture 0) with
    | .error a => .error a
    | .ok (env1, _) => setCaptures rest (i + 1) env1

/-- Go's `matches`. -/
def matches_ (host : Host) (left right : Object) (env : Environment) : Result :=
  match Inspect host left with
  | none => .error .panic
  | some str =>
    match right with
    | .nil => .error .panic
    | .Regexp Value Flags =>
      if host.compiles (regexpPattern Value Flags) then
        let res := host.FindStringSubmatch (regexpPattern Value Flags) str
        match (if res.length > 1 then setCaptures (res.drop 1) 1 env else .ok env) with
        | .error a => .error a
        | .ok env1 => if res.length > 0 then .ok (TRUE, env1) else .ok (FALSE, env1)
      else
        .ok (.Error ("error compiling regexp '" ++ Value ++ "': " ++
          host.compileError (regexpPattern Value Flags)), env)
    | other =>
      .ok (.Error ("regexp required for regexp-match, given " ++ (Type_ other).getD ""), env)

/-- Go's `notMatches`. -/
def notMatches (host : Host) (left right : Object) : Except Abort Object :=
  match Inspect host left with
  | none => .error .panic
  | some str =>
    match right with
    | .nil => .error .panic
    | .Regexp Value Flags =>
      if host.compiles (regexpPattern Value Flags) then
        if host.MatchString (regexpPattern Value Flags) str then .ok FALSE else .ok TRUE
      else
        .ok (.Error ("error compiling regexp '" ++ Value ++ "': " ++
          host.compileError (regexpPattern Value Flags)))
    | other =>
      .ok (.Error ("regexp required for regexp-match, given " ++ (Type_ other).getD ""))

/-- The test `obj.Type() == t`; `none` where it dereferences nil. -/
def isType (obj : Object) (t : String) : Option Bool :=
  (Type_ obj).map (fun s => s == t)

/-- Go's `a && b` on two tests that may dereference nil: `b` is looked at only when
`a` holds. -/
def andAlso (a b : Option Bool) : Option Bool :=
  match a with
  | none => none
  | some false => some false
  | some true => b

/-- An operation that leaves the environment alone, as a `Result`. -/
def keepEnv (env : Environment) (r : Except Abort Object) : Result :=
  r.map (fun v => (v, env))

/-- Go's `evalInfixExpression`: the cases of its `switch`, in their order. -/
def evalInfixExpression (host : Host) (operator : String) (left right : Object)
    (env : Environment) : Result :=
  match andAlso (isType left "INTEGER") (isType right "INTEGER") with
  | none => .error .panic
  | some true => keepEnv env (evalIntegerInfixExpression host.ipow operator left right)
  | some false =>
  match andAlso (isType left "FLOAT") (isType right "FLOAT") with
  | none => .error .panic
  | some true => keepEnv env (evalFloatInfixExpression host operator left right)
  | some false =>
  match andAlso (isType left "FLOAT") (isType right "INTEGER") with
  | none => .error .panic
  | some true => keepEnv env (evalFloatIntegerInfixExpression host operator left right)
  | some false =>
  match andAlso (isType left "INTEGER") (isType right "FLOAT") with
  | none => .error .panic
  | some true => keepEnv env (evalIntegerFloatInfixExpression host operator left right)
  | some false =>
  match andAlso (isType left "STRING") (isType right "STRING") with
  | none => .error .panic
  | some true => keepEnv env (evalStringInfixExpression operator left right)
  | some false =>
  if operator = "&&" then
    .ok (nativeBoolToBooleanObject
      (objectToNativeBoolean left && objectToNativeBoolean right), env)
  else if operator = "||" then
    .ok (nativeBoolToBooleanObject
      (objectToNativeBoolean left || objectToNativeBoolean right), env)
  else if operator = "!~" then keepEnv env (notMatches host left right)
  else if operator = "~=" then matches_ host left right env
  else if operator = "==" then .ok (nativeBoolToBooleanObject (host.identical left right), env)
  else if operator = "!=" then .ok (nativeBoolToBooleanObject (!host.identical left right), env)
  else
  match andAlso (isType left "BOOLEAN") (isType right "BOOLEAN") with
  | none => .error .panic
  | some true => keepEnv env (evalBooleanInfixExpression host operator left right)
  | some false =>
  match Type_ left, Type_ right with
  | some lt, some rt =>
    if lt ≠ rt then
      .ok (.Error ("type mismatch: " ++ lt ++ " " ++ operator ++ " " ++ rt), env)
    else .ok (unknownOperator lt operator rt, env)
  | _, _ => .error .panic

/-- Go's `evalForLoopExpression` (the `WHILE` loop); `fuel` bounds the number of
iterations.  The value after `break` is the `Boolean` allocated on entry. -/
def evalForLoopExpression (Eval : Evaluator) (Condition Consequence : Node) :
    Nat → Environment → Result
  | 0, _ => .error .outOfFuel
  | fuel + 1, env =>
    match Eval Condition env with
    | .error a => .error a
    | .ok (condition, env1) =>
      if isError condition then .ok (condition, env1)
      else if isTruthy condition then
        match Eval Consequence env1 with
        | .error a => .error a
        | .ok (rt, env2) =>
          match Type_ rt with
          | none => .error .panic
          | some t =>
            if !isError rt && (t == "RETURN_VALUE" || t == "ERROR") then .ok (rt, env2)
            else evalForLoopExpression Eval Condition Consequence fuel env2
      else .ok (.Boolean true false, env1)

/-- The body of a `foreach` that leaves the iterated value alone: `Eval(fle.Body,
child)` as a `LoopBody`. -/
def plainBody (Eval : Evaluator) (Body : Node) : LoopBody := fun child helper =>
  (Eval Body child).map (fun p => (p.1, p.2, helper))

/-- The case `*object.Function` of Go's `applyFunction`: the value of the call.  The
environment built for the call is dropped with it. -/
def applyFunction (Eval : Evaluator) (fn : Function) (args : List Object) : Except Abort Object :=
  match extendFunctionEnv Eval fn args with
  | .error a => .error a
  | .ok extendEnv =>
    match Eval fn.Body extendEnv with
    | .error a => .error a
    | .ok (evaluated, _) => .ok (upwrapReturnValue evaluated)

/-- Modelled from the spec: package `ast` is not among the sources.  One arm of a
`switch`, with the fields that `parseSwitchStatement` fills and `evalSwitchStatement`
reads; `Block` holds the statements of the arm's block. -/
structure CaseExpression where
  /-- Whether this is the `default` arm. -/
  Default : Bool
  /-- The case expressions of the arm. -/
  Expr : List Node
  /-- The statements of the arm's block. -/
  Block : List Node

/-- The test `m == TRUE`: identity with the package-level `TRUE`. -/
def isTRUE : Object → Bool
  | .Boolean true true => true
  | _ => false

/-- The inner loop of `evalSwitchStatement` over the case expressions of one arm:
the value of the arm's block when a case expression matches, `none` when the
loop runs to its end. -/
def scanExprs (Eval : Evaluator) (host : Host) (obj : Object) (Block : List Node) :
    List Node → Environment → Except Abort (Option Object × Environment)
  | [], env => .ok (none, env)
  | val :: rest, env =>
    match Eval val env with
    | .error a => .error a
    | .ok (out, env1) =>
      match Type_ obj, Type_ out with
      | some objType, some outType =>
        match (if objType = outType then
                match Inspect host obj, Inspect host out with
                | some a, some b => some (a == b)
                | _, _ => none
              else some false) with
        | none => .error .panic
        | some true =>
          (evalBlockStatement Eval Block .nil env1).map (fun p => (some p.1, p.2))
        | some false =>
          if outType = "REGEXP" then
            match matches_ host obj out env1 with
            | .error a => .error a
            | .ok (m, env2) =>
              if isTRUE m then
                (evalBlockStatement Eval Block .nil env2).map (fun p => (some p.1, p.2))
              else scanExprs Eval host obj Block rest env2
          else scanExprs Eval host obj Block rest env1
      | _, _ => .error .panic

/-- The first loop of `evalSwitchStatement`, over the arms that are not the default. -/
def scanChoices (Eval : Evaluator) (host : Host) (obj : Object) :
    List CaseExpression → Environment → Except Abort (Option Object × Environment)
  | [], env => .ok (none, env)
  | opt :: rest, env =>
    if opt.Default then scanChoices Eval host obj rest env
    else
      match scanExprs Eval host obj opt.Block opt.Expr env with
      | .error a => .error a
      | .ok (some blockOut, env1) => .ok (some blockOut, env1)
      | .ok (none, env1) => scanChoices Eval host obj rest env1

/-- The second loop of `evalSwitchStatement`: the block of the first default arm,
and nil when there is none. -/
def defaultChoice (Eval : Evaluator) : List CaseExpression → Environment → Result
  | [], env => .ok (.nil, env)
  | opt :: rest, env =>
    if opt.Default then evalBlockStatement Eval opt.Block .nil env
    else defaultChoice Eval rest env

/-- Go's `evalSwitchStatement`. -/
def evalSwitchStatement (Eval : Evaluator) (host : Host) (Value : Node)
    (Choices : List CaseExpression) (env : Environment) : Result :=
  match Eval Value env with
  | .error a => .error a
  | .ok (obj, env1) =>
    match scanChoices Eval host obj Choices env1 with
    | .error a => .error a
    | .ok (some blockOut, env2) => .ok (blockOut, env2)
    | .ok (none, env2) => defaultChoice Eval Choices env2

/-- A host for the examples.  Of the regex engine it knows what Go's `regexp` does
with the patterns `(a)b` and `b` on the text `ab`; floats, which the examples do
not use, are all mapped to the bits of zero. -/
def sampleHost : Host where
  ipow := fun a b => a ^ b.toNat
  fadd := fun _ _ => 0
  fsub := fun _ _ => 0
  fmul := fun _ _ => 0
  fdiv := fun _ _ => 0
  fpow := fun _ _ => 0
  flt := fun _ _ => false
  fle := fun _ _ => true
  feq := fun _ _ => true
  ofInt := fun _ => 0
  formatFloat := fun _ => "0"
  inspectFunction := fun _ => "fn()"
  identical := fun a b =>
    match a, b with
    | .Boolean x true, .Boolean y true => x == y
    | .Null true, .Null true => true
    | _, _ => false
  compiles := fun p => p == "(a)b" || p == "b"
  compileError := fun _ => "error parsing regexp"
  FindStringSubmatch := fun p s =>
    if p = "(a)b" ∧ s = "ab" then ["ab", "a"]
    else if p = "b" ∧ s = "ab" then ["b"]
    else []
  MatchString := fun p s => (p == "(a)b" || p == "b") && s == "ab"

/-- The expression `IF (TRUE) { RETURN 1; }`. -/
def returningIf : Node :=
  .IfExpression (.Boolean true) (.BlockStatement [.ReturnStatement (.IntegerLiteral 1)]) none

/-- The function `FN() { RETURN IF (TRUE) { RETURN 1; }; }` defined at top level. -/
def returningFunction : Function :=
  { Parameters := [], Body := .BlockStatement [.ReturnStatement returningIf],
    Defaults := [], Env := NewEnvironment }

/-- The body `{ last = e; y; }` of a loop: an assignment, then the identifier `y`,
which nothing binds. -/
def failingBody : Node :=
  .BlockStatement [.ExpressionStatement (.AssignStatement "last" "=" (.Identifier "e")),
    .ExpressionStatement (.Identifier "y")]

/-- The body `{ y; }` of a loop: the identifier `y`, which nothing binds. -/
def unboundBody : Node :=
  .BlockStatement [.ExpressionStatement (.Identifier "y")]

/-- The truthiness rule in the words of the specification: false for Null, Boolean
false, the empty String, the empty Array, the empty Hash, Integer 0 and Float 0,
true for everything else. -/
def truthy : Object → Bool
  | .Null _ => false
  | .Boolean Value _ => Value
  | .String Value _ => Value != ""
  | .Array Elements _ => !Elements.isEmpty
  | .Hash Pairs _ => !Pairs.isEmpty
  | .Integer Value => Value != 0
  | .Float Value => !floatIsZero Value
  | _ => true

/-- The values on which `objectToNativeBoolean` has a rule of its own besides the
rule of the specification: a `ReturnValue`, which it looks through, and a Regexp,
which it takes by its pattern. -/
def specialCased : Object → Bool
  | .ReturnValue _ => true
  | .Regexp _ _ => true
  | _ => false

/-- The pairs of operand types that `evalInfixExpression` hands to the arithmetic
of Integers, Floats and Strings whatever the operator. -/
def arithmeticPairs : List (String × String) :=
  [("INTEGER", "INTEGER"), ("FLOAT", "FLOAT"), ("FLOAT", "INTEGER"), ("INTEGER", "FLOAT"),
   ("STRING", "STRING")]

/-- Whether a value is a `ReturnValue` or an Error. -/
def stops : Object → Bool
  | .ReturnValue _ => true
  | .Error _ => true
  | _ => false

/-- The statements evaluated one after the other, none skipped: their values in
order and the environment after the last. -/
def runStatements (Eval : Evaluator) :
    List Node → Environment → Except Abort (List Object × Environment)
  | [], env => .ok ([], env)
  | statement :: rest, env =>
    match Eval statement env with
    | .error a => .error a
    | .ok (v, env1) =>
      match runStatements Eval rest env1 with
      | .error a => .error a
      | .ok (vs, env2) => .ok (v :: vs, env2)

/-- The body `{ e ~= /(a)b/; }` of a `foreach` whose loop variable is `e`: the
operator `~=` applied to the value of `e` and the Regexp, in the scope of the body. -/
def matchingBody : LoopBody := fun child helper =>
  (evalInfixExpression sampleHost "~=" (child.Get "e").1 (.Regexp "(a)b" "") child).map
    (fun p => (p.1, p.2, helper))

/-- The name `$k` of the `k`-th capture. -/
def captureName (k : Nat) : String :=
  "$" ++ toString k

/-- The permit list built by `evalForeachExpression`: the loop variable, and the
index variable when there is one. -/
def foreachPermit (Ident Index : String) : List String :=
  [Ident] ++ (if Index ≠ "" then [Index] else [])

/-- The operators `+`, `-`, `*`, `/`, each with its compound assignment operator. -/
def compoundOperators : List (String × String) :=
  [("+", "+="), ("-", "-="), ("*", "*="), ("/", "/=")]

/-- The program `const k = 1; k += 1;`. -/
def constantIncrement : Node :=
  .Program [.ConstStatement "k" (.IntegerLiteral 1),
    .ExpressionStatement (.AssignStatement "k" "+=" (.IntegerLiteral 1))]

/-- A `context.Context` as `EvalContext` sees it: how many more polls of `Done()`
find it open (`none` when it is never done, as `context.Background()`), and the text
of `Err()` once it is done. -/
structure Context where
  /-- The polls that still find the context open. -/
  polls : Option Nat
  /-- The text `ctx.Err().Error()`. -/
  err : String

/-- Go's `EvalContext`.  The poll of `ctx.Done()` is the `select` at its entry; the
evaluation of the node is `Eval`, because every recursive call in the `switch` is a
call of `Eval`, which starts over with `context.Background()`. -/
def EvalContext (PRAGMAS : String → Int) (builtins : String → Option Object)
    (evalInfixExpression : String → Object → Object → Environment → Result)
    (fuel : Nat) (ctx : Context) (node : Node) (env : Environment) : Result :=
  if ctx.polls = some 0 then .ok (.Error ctx.err, env)
  else Eval PRAGMAS builtins evalInfixExpression fuel node env

/-- Go's `evalExpression`: the values so far (in `result`), the expressions that
remain. -/
def evalExpression (Eval : Evaluator) :
    List Node → List Object → Environment → Except Abort (List Object × Environment)
  | [], result, env => .ok (result, env)
  | e :: rest, result, env =>
    match Eval e env with
    | .error a => .error a
    | .ok (evaluated, env1) =>
      if isError evaluated then .ok ([evaluated], env1)
      else evalExpression Eval rest (result ++ [evaluated]) env1

/-- Go's `strings.ToLower` on ASCII text, such as the names of the types. -/
def ToLower (s : String) : String :=
  String.mk (s.data.map Char.toLower)

/-- The body of the loop of `evalObjectCallExpression` once `env.Get(name)` has found
`fn`: the call environment, `self`, the body, the unwrapping.  `heap` resolves the
reference of a Function value; a value that is not a Function fails the type
assertion. -/
def invokeUserMethod (Eval : Evaluator) (heap : Nat → Option Function) (fn obj : Object)
    (args : List Object) : Except Abort Object :=
  match fn with
  | .Function ref =>
    match heap ref with
    | none => .error .panic
    | some f =>
      match extendFunctionEnv Eval f args with
      | .error a => .error a
      | .ok extendEnv =>
        match extendEnv.Set "self" obj with
        | .error a => .error a
        | .ok (extendEnv1, _) =>
          match Eval f.Body extendEnv1 with
          | .error a => .error a
          | .ok (evaluated, _) => .ok (upwrapReturnValue evaluated)
  | _ => .error .panic

/-- The loop of `evalObjectCallExpression` over the prefixes in `attempts`; `none`
when it runs to its end. -/
def tryAttempts (Eval : Evaluator) (heap : Nat → Option Function) (obj : Object)
    (method : String) (args : List Object) (env : Environment) :
    List String → Option (Except Abort Object)
  | [] => none
  | attempt :: rest =>
    match env.Get (attempt ++ "." ++ method) with
    | (fn, true) => some (invokeUserMethod Eval heap fn obj args)
    | (_, false) => tryAttempts Eval heap obj method args env rest

/-- Go's `evalObjectCallExpression` for a call whose `Call` is a `CallExpression`
with the function name `method` and the argument expressions `Arguments`.
`InvokeMethod` is the method of that name of the value types (`none` where it
dereferences nil, the nil value where the receiver does not handle the method). -/
def evalObjectCallExpression (Eval : Evaluator)
    (InvokeMethod : Object → String → Environment → List Object → Option Object)
    (heap : Nat → Option Function) (Object_ : Node) (method : String)
    (Arguments : List Node) (env : Environment) : Result :=
  match Eval Object_ env with
  | .error a => .error a
  | .ok (obj, env1) =>
    match evalExpression Eval Arguments [] env1 with
    | .error a => .error a
    | .ok (args, env2) =>
      match InvokeMethod obj method env2 args with
      | none => .error .panic
      | some ret =>
        if !ret.isNil then .ok (ret, env2)
        else
          match Type_ obj with
          | none => .error .panic
          | some t =>
            match tryAttempts Eval heap obj method args env2 [ToLower t, "object"] with
            | some r => r.map (fun v => (v, env2))
            | none => .ok (.Error ("Failed to invoke method: " ++ method), env2)

/-- Go's `(*Null).InvokeMethod`: no method is handled. -/
def Null_InvokeMethod (_method : String) (_env : Environment) (_args : List Object) : Object :=
  .nil

/-- The method `InvokeMethod` for the examples, which call it on a Null only. -/
def sampleInvokeMethod (obj : Object) (method : String) (env : Environment)
    (args : List Object) : Option Object :=
  match obj with
  | .Null _ => some (Null_InvokeMethod method env args)
  | _ => none

/-- The function `FN() { RETURN self; }` defined at top level. -/
def selfFunction : Function :=
  { Parameters := [], Body := .BlockStatement [.ReturnStatement (.Identifier "self")],
    Defaults := [], Env := NewEnvironment }

/-- The heap of the examples: reference 0 is `selfFunction`. -/
def sampleHeap : Nat → Option Function :=
  fun ref => if ref = 0 then some selfFunction else none

/-- An environment in which `object.m` is bound to the Function of reference 0. -/
def methodEnvironment : Environment :=
  .mk (mapSet (fun _ => none) "object.m" (some (.Function 0))) (fun _ => false) .nil []

/-- The hash `fnv.New64a` of a sequence of bytes: FNV-1a with 64 bits. -/
def fnv64a (bytes : List Nat) : Nat :=
  bytes.foldl (fun h b => ((h ^^^ b) * 1099511628211) % 2 ^ 64) 14695981039346656037

/-- The bytes `[]byte(s)` of a string: its UTF-8 form. -/
def utf8Bytes (s : String) : List Nat :=
  s.data.flatMap (fun c => (String.utf8EncodeChar c).map UInt8.toNat)

/-- The method `HashKey()` of the types that implement `Hashable` (Integer, Boolean,
String, Float); `none` for a value of another type, for which the type assertion
`.(object.Hashable)` fails. -/
def hashKey (host : Host) : Object → Option HashKey
  | .Integer Value => some { Type_ := "INTEGER", Value := (Value % 2 ^ 64).toNat }
  | .Boolean Value _ => some { Type_ := "BOOLEAN", Value := if Value then 1 else 0 }
  | .String Value _ => some { Type_ := "STRING", Value := fnv64a (utf8Bytes Value) }
  | .Float Value =>
    some { Type_ := "FLOAT", Value := fnv64a (utf8Bytes (host.formatFloat Value)) }
  | _ => none

/-- The map read `m[k]` on the entries of a `map[HashKey]HashPair`. -/
def pairsLookup (Pairs : List (HashKey × Object × Object)) (k : HashKey) :
    Option (Object × Object) :=
  (Pairs.find? (fun p => p.1 == k)).map (fun p => p.2)

/-- The map write `m[k] = pair`: the entry of `k` is replaced, or a new entry is
added. -/
def pairsStore (Pairs : List (HashKey × Object × Object)) (k : HashKey)
    (pair : Object × Object) : List (HashKey × Object × Object) :=
  if Pairs.any (fun p => p.1 == k) then Pairs.map (fun p => if p.1 == k then (k, pair) else p)
  else Pairs ++ [(k, pair)]

/-- Go's `setFun`, the built-in `set`. -/
def setFun (host : Host) (args : List Object) : Except Abort Object :=
  match args with
  | [hash, key, value] =>
    match Type_ hash with
    | none => .error .panic
    | some t =>
      if t ≠ "HASH" then
        .ok (.Error ("argument to " ++ String.singleton (Char.ofNat 96) ++ "set" ++
          String.singleton (Char.ofNat 96) ++ " must be HASH, got=" ++ t))
      else
        match hashKey host key with
        | none =>
          match Type_ key with
          | none => .error .panic
          | some kt =>
            .ok (.Error ("key " ++ String.singleton (Char.ofNat 96) ++ "set" ++
              String.singleton (Char.ofNat 96) ++ " into HASH must be Hashable, got=" ++ kt))
        | some newHashKey =>
          match hash with
          | .Hash Pairs _ =>
            let newHash := Pairs.foldl (fun m p => pairsStore m p.1 p.2) []
            .ok (.Hash (pairsStore newHash newHashKey (key, value)) 0)
          | _ => .error .panic
  | _ => .ok (.Error ("wrong number of arguments. got=" ++ toString args.length ++ ", want=2"))

/-- Go's `hashKeys`, the built-in `keys`. -/
def hashKeys (args : List Object) : Except Abort Object :=
  match args with
  | [hash] =>
    match Type_ hash with
    | none => .error .panic
    | some t =>
      if t ≠ "HASH" then
        .ok (.Error ("argument to " ++ String.singleton (Char.ofNat 96) ++ "keys" ++
          String.singleton (Char.ofNat 96) ++ " must be HASH, got=" ++ t))
      else
        match hash with
        | .Hash Pairs _ => .ok (.Array (Pairs.map (fun p => p.2.1)) 0)
        | _ => .error .panic
  | _ => .ok (.Error ("wrong number of arguments. got=" ++ toString args.length ++ ", want=1"))

/-- Go's `evalArrayIndexExpression`. -/
def evalArrayIndexExpression (array index : Object) : Except Abort Object :=
  match array, index with
  | .Array Elements _, .Integer idx =>
    let max : Int := wrap64 (Elements.length - 1)
    if idx < 0 ∨ idx > max then .ok NULL
    else
      match Elements[idx.toNat]? with
      | some element => .ok element
      | none => .error .panic
  | _, _ => .error .panic

/-- Go's `evalHashIndexExpression`. -/
def evalHashIndexExpression (host : Host) (hash index : Object) : Except Abort Object :=
  match hash with
  | .Hash Pairs _ =>
    match hashKey host index with
    | none =>
      match Type_ index with
      | none => .error .panic
      | some t => .ok (.Error ("unusable as hash key: " ++ t))
    | some k =>
      match pairsLookup Pairs k with
      | none => .ok NULL
      | some pair => .ok pair.2
  | _ => .error .panic

/-- Go's `evalStringIndexExpression`: the bound `max` is `len(str)`, the number of
bytes of the string, and the index goes into `[]rune(str)`; an index past the last
element of that slice is a run-time panic, and so is an index that is not an
Integer (the type assertion fails). -/
def evalStringIndexExpression (input index : Object) : Except Abort Object :=
  match input, index with
  | .String str _, .Integer idx =>
    let max : Int := str.utf8ByteSize
    if idx < 0 ∨ idx > max then .ok NULL
    else
      match str.data[idx.toNat]? with
      | some ret => .ok (.String (String.singleton ret) 0)
      | none => .error .panic
  | _, _ => .error .panic

/-- Go's `evalIndexExpression`: the cases of its `switch`, in their order. -/
def evalIndexExpression (host : Host) (left index : Object) : Except Abort Object :=
  match Type_ left with
  | none => .error .panic
  | some lt =>
    match (if lt = "ARRAY" then (Type_ index).map (fun it => it == "INTEGER") else some false) with
    | none => .error .panic
    | some true => evalArrayIndexExpression left index
    | some false =>
      if lt = "HASH" then evalHashIndexExpression host left index
      else if lt = "STRING" then evalStringIndexExpression left index
      else .ok (.Error ("index operator not support:" ++ lt))

/-- The map write `PRAGMAS[input] = 1` on the entries of the map. -/
def pragmaStore (PRAGMAS : List (String × Int)) (input : String) : List (String × Int) :=
  if PRAGMAS.any (fun e => e.1 == input) then
    PRAGMAS.map (fun e => if e.1 == input then (input, 1) else e)
  else PRAGMAS ++ [(input, 1)]

/-- Go's `pragmaFun`, the built-in `pragma`, on the entries of the map `PRAGMAS`:
the value it returns and the entries afterwards.  The order of the list stands for
the order of Go's `range` loop over the map, which Go leaves open.  `toLower` is
`strings.ToLower`. -/
def pragmaFun (toLower : String → String) (PRAGMAS : List (String × Int))
    (args : List Object) : Except Abort (Object × List (String × Int)) :=
  let listing (P : List (String × Int)) : Except Abort (Object × List (String × Int)) :=
    .ok (.Array (P.map (fun e => Object.String e.1 0)) 0, P)
  match args with
  | [] => listing PRAGMAS
  | [.String Value _] =>
    let input := toLower Value
    if "no-".data.isPrefixOf input.data then
      listing (PRAGMAS.filter (fun e => e.1 != String.mk (input.data.drop 3)))
    else listing (pragmaStore PRAGMAS input)
  | [arg] =>
    match Type_ arg with
    | none => .error .panic
    | some t =>
      .ok (.Error ("argument to " ++ String.singleton (Char.ofNat 96) ++ "pragma" ++
        String.singleton (Char.ofNat 96) ++ " not supported, got=" ++ t), PRAGMAS)
  | _ =>
    .ok (.Error ("wrong number of arguments. got=" ++ toString args.length ++ ", want=0|1"),
      PRAGMAS)

/-- The entries of `PRAGMAS` after a sequence of calls of `pragmaFun`, starting from
the entries `P`; a call that does not return leaves them as they are. -/
def pragmaRun (toLower : String → String) (P : List (String × Int)) :
    List (List Object) → List (String × Int)
  | [] => P
  | args :: rest =>
    match pragmaFun toLower P args with
    | .ok (_, P1) => pragmaRun toLower P1 rest
    | .error _ => pragmaRun toLower P rest

end evaluator

namespace token

/-- Go's `token.Token`; its field `Type` is `Type_` here. -/
structure Token where
  /-- The kind of the token, one of the constants of `token.go`. -/
  Type_ : String
  /-- The text of the token. -/
  Literal : String
  deriving DecidableEq, Repr

/-- The constant `token.AND`. -/
abbrev AND : String := "&&"
/-- The constant `token.ASSIGN`. -/
abbrev ASSIGN : String := "="
/-- The constant `token.ASTERISK`. -/
abbrev ASTERISK : String := "*"
/-- The constant `token.ASTERISK_EQUALS`. -/
abbrev ASTERISK_EQUALS : String := "*="
/-- The constant `token.BACKTICK`, a string that holds one backtick. -/
abbrev BACKTICK : String := String.singleton (Char.ofNat 96)
/-- The constant `token.BANG`. -/
abbrev BANG : String := "!"
/-- The constant `token.COLON`. -/
abbrev COLON : String := ":"
/-- The constant `token.COMMA`. -/
abbrev COMMA : String := ","
/-- The constant `token.CONTAINS`. -/
abbrev CONTAINS : String := "~="
/-- The constant `token.DOTDOT`. -/
abbrev DOTDOT : String := ".."
/-- The constant `token.EOF`. -/
abbrev EOF : String := "EOF"
/-- The constant `token.EQ`. -/
abbrev EQ : String := "=="
/-- The constant `token.FLOAT`. -/
abbrev FLOAT : String := "FLOAT"
/-- The constant `token.GT`. -/
abbrev GT : String := ">"
/-- The constant `token.GT_EQUALS`. -/
abbrev GT_EQUALS : String := ">="
/-- The constant `token.IDENT`. -/
abbrev IDENT : String := "IDENT"
/-- The constant `token.INT`. -/
abbrev INT : String := "INT"
/-- The constant `token.LBRACE`. -/
abbrev LBRACE : String := "LBRACE"
/-- The constant `token.LBRACKET`. -/
abbrev LBRACKET : String := "["
/-- The constant `token.LPAREN`. -/
abbrev LPAREN : String := "("
/-- The constant `token.LT`. -/
abbrev LT : String := "<"
/-- The constant `token.LT_EQUALS`. -/
abbrev LT_EQUALS : String := "<="
/-- The constant `token.MINUS`. -/
abbrev MINUS : String := "-"
/-- The constant `token.MINUS_EQUALS`. -/
abbrev MINUS_EQUALS : String := "-="
/-- The constant `token.MINUS_MINUS`. -/
abbrev MINUS_MINUS : String := "--"
/-- The constant `token.MOD`. -/
abbrev MOD : String := "%"
/-- The constant `token.NOT_CONTAINS`. -/
abbrev NOT_CONTAINS : String := "!~"
/-- The constant `token.NOT_EQ`. -/
abbrev NOT_EQ : String := "!="
/-- The constant `token.OR`. -/
abbrev OR : String := "||"
/-- The constant `token.PERIOD`. -/
abbrev PERIOD : String := "."
/-- The constant `token.PLUS`. -/
abbrev PLUS : String := "+"
/-- The constant `token.PLUS_EQUALS`. -/
abbrev PLUS_EQUALS : String := "+="
/-- The constant `token.PLUS_PLUS`. -/
abbrev PLUS_PLUS : String := "++"
/-- The constant `token.POW`. -/
abbrev POW : String := "**"
/-- The constant `token.QUESTION`. -/
abbrev QUESTION : String := "?"
/-- The constant `token.RBRACE`. -/
abbrev RBRACE : String := "RBRACE"
/-- The constant `token.RBRACKET`. -/
abbrev RBRACKET : String := "]"
/-- The constant `token.REGEXP`. -/
abbrev REGEXP : String := "REGEXP"
/-- The constant `token.RPAREN`. -/
abbrev RPAREN : String := ")"
/-- The constant `token.SEMICOLON`. -/
abbrev SEMICOLON : String := ";"
/-- The constant `token.SLASH`. -/
abbrev SLASH : String := "/"
/-- The constant `token.SLASH_EQUALS`. -/
abbrev SLASH_EQUALS : String := "/="
/-- The constant `token.STRING`. -/
abbrev STRING : String := "STRING"

/-- The constant `token.DEFINE_FUNCTION`. -/
abbrev DEFINE_FUNCTION : String := "DEFINE_FUNCTION"
/-- The constant `token.FALSE`. -/
abbrev FALSE : String := "FALSE"
/-- The constant `token.FOR`. -/
abbrev FOR : String := "FOR"
/-- The constant `token.FOREACH`. -/
abbrev FOREACH : String := "FOREACH"
/-- The constant `token.FUNCTION`. -/
abbrev FUNCTION : String := "FUNCTION"
/-- The constant `token.IF`. -/
abbrev IF : String := "IF"
/-- The constant `token.ILLEGAL`. -/
abbrev ILLEGAL : String := "ILLEGAL"
/-- The constant `token.NULL`. -/
abbrev NULL : String := "null"
/-- The constant `token.SWITCH`. -/
abbrev SWITCH : String := "switch"
/-- The constant `token.TRUE`. -/
abbrev TRUE : String := "TRUE"

/-- The map `keywords`: the reserved words with the kinds of their tokens. -/
def keywords : List (String × String) :=
  [("case", "case"), ("const", "CONST"), ("default", "DEFAULT"), ("ELSE", "ELSE"),
   ("FALSE", "FALSE"), ("FN", "FUNCTION"), ("WHILE", "FOR"), ("foreach", "FOREACH"),
   ("FUNC", "DEFINE_FUNCTION"), ("IF", "IF"), ("in", "IN"), ("LET", "LET"), ("NIL", "null"),
   ("RETURN", "RETURN"), ("switch", "switch"), ("TRUE", "TRUE"), ("BEGIN", "LBRACE"),
   ("END", "RBRACE")]

/-- Go's `LookupIdentifier`. -/
def LookupIdentifier (identifier : String) : String :=
  (keywords.lookup identifier).getD IDENT

end token

namespace lexer

open token

/-- The predicates of Go's package `unicode` that the lexer calls; the embedding
leaves their tables open. -/
structure Unicode where
  /-- The predicate `unicode.IsLetter`. -/
  IsLetter : Char → Bool
  /-- The predicate `unicode.IsDigit`. -/
  IsDigit : Char → Bool

/-- Go's `lexer.Lexer`; `characters` is the `[]rune` of the input. -/
structure Lexer where
  /-- The index of `ch`. -/
  position : Nat
  /-- The index of the character after `ch`. -/
  readPosition : Nat
  /-- The character under the cursor. -/
  ch : Char
  /-- The input. -/
  characters : List Char
  /-- The token that `NextToken` returned last. -/
  prevToken : Token
  deriving DecidableEq, Repr

/-- The character `rune(0)`, which `readChar` delivers past the end of the input. -/
def NUL : Char := Char.ofNat 0
/-- The double quote. -/
def quote : Char := Char.ofNat 34
/-- The backslash. -/
def backslash : Char := Char.ofNat 92
/-- The backtick. -/
def backtick : Char := Char.ofNat 96
/-- The newline. -/
def newline : Char := Char.ofNat 10
/-- The carriage return. -/
def carriageReturn : Char := Char.ofNat 13
/-- The tab. -/
def tab : Char := Char.ofNat 9
/-- The opening brace. -/
def lbrace : Char := Char.ofNat 123
/-- The closing brace. -/
def rbrace : Char := Char.ofNat 125

/-- Go's `readChar`. -/
def readChar (l : Lexer) : Lexer :=
  { l with
    ch := if l.readPosition ≥ l.characters.length then NUL
          else l.characters.getD l.readPosition NUL,
    position := l.readPosition,
    readPosition := l.readPosition + 1 }

/-- Go's `peekChar`. -/
def peekChar (l : Lexer) : Char :=
  if l.readPosition ≥ l.characters.length then NUL
  else l.characters.getD l.readPosition NUL

/-- Go's `lexer.New`. -/
def New (input : String) : Lexer :=
  readChar { position := 0, readPosition := 0, ch := NUL, characters := input.data,
             prevToken := { Type_ := "", Literal := "" } }

/-- Go's `isIdentifier`. -/
def isIdentifier (u : Unicode) (ch : Char) : Bool :=
  u.IsLetter ch || u.IsDigit ch || ch == '.' || ch == '?' || ch == '$' || ch == '_'

/-- Go's `isWhitespace`. -/
def isWhitespace (ch : Char) : Bool :=
  ch == ' ' || ch == tab || ch == newline || ch == carriageReturn

/-- Go's `isDigit`. -/
def isDigit (ch : Char) : Bool :=
  decide ('0' ≤ ch) && decide (ch ≤ '9')

/-- Go's `newToken`. -/
def newToken (tokenType : String) (ch : Char) : Token :=
  { Type_ := tokenType, Literal := String.singleton ch }

/-- Go's `skipWhitespace`; `fuel` bounds the iterations of the loop. -/
def skipWhitespace : Nat → Lexer → Except Abort Lexer
  | 0, _ => .error .outOfFuel
  | fuel + 1, l =>
    if isWhitespace l.ch then skipWhitespace fuel (readChar l) else .ok l

/-- The loop of `skipComment`. -/
def skipCommentLoop : Nat → Lexer → Except Abort Lexer
  | 0, _ => .error .outOfFuel
  | fuel + 1, l =>
    if l.ch ≠ newline ∧ l.ch ≠ NUL then skipCommentLoop fuel (readChar l) else .ok l

/-- Go's `skipComment`. -/
def skipComment (fuel : Nat) (l : Lexer) : Except Abort Lexer :=
  match skipCommentLoop fuel l with
  | .error a => .error a
  | .ok l1 => skipWhitespace fuel l1

/-- The loop of `skipMultiLineComment`: it ends after the character at the end of the
input, or after the two characters that close the comment. -/
def skipMultiLineCommentLoop : Nat → Lexer → Except Abort Lexer
  | 0, _ => .error .outOfFuel
  | fuel + 1, l =>
    if l.ch = '*' ∧ peekChar l = '/' then .ok (readChar (readChar l))
    else if l.ch = NUL then .ok (readChar l)
    else skipMultiLineCommentLoop fuel (readChar l)

/-- Go's `skipMultiLineComment`. -/
def skipMultiLineComment (fuel : Nat) (l : Lexer) : Except Abort Lexer :=
  match skipMultiLineCommentLoop fuel l with
  | .error a => .error a
  | .ok l1 => skipWhitespace fuel l1

/-- The loop `for strings.Contains(accept, string(l.ch))` of `readNumber`. -/
def readNumberLoop (accept : List Char) : Nat → Lexer → String → Except Abort (String × Lexer)
  | 0, _, _ => .error .outOfFuel
  | fuel + 1, l, str =>
    if accept.contains l.ch then readNumberLoop accept fuel (readChar l) (str.push l.ch)
    else .ok (str, l)

/-- Go's `readNumber`. -/
def readNumber (fuel : Nat) (l : Lexer) : Except Abort (String × Lexer) :=
  let accept := "0123456789"
  let accept := if l.ch = '0' ∧ peekChar l = 'x' then "0x123456789abcdefABCDEF" else accept
  let accept := if l.ch = '0' ∧ peekChar l = 'b' then "b01" else accept
  readNumberLoop accept.data fuel l ""

/-- Go's `readDecimal`. -/
def readDecimal (fuel : Nat) (l : Lexer) : Except Abort (Token × Lexer) :=
  match readNumber fuel l with
  | .error a => .error a
  | .ok (integer, l1) =>
    if l1.ch = '.' ∧ isDigit (peekChar l1) then
      match readNumber fuel (readChar l1) with
      | .error a => .error a
      | .ok (fraction, l2) => .ok ({ Type_ := FLOAT, Literal := integer ++ "." ++ fraction }, l2)
    else .ok ({ Type_ := INT, Literal := integer }, l1)

/-- The chain of tests that `readString` applies to the character behind a
backslash, each test on the value the one before it left in `l.ch`. -/
def escaped (ch : Char) : Char :=
  let ch := if ch = 'n' then newline else ch
  let ch := if ch = 'r' then carriageReturn else ch
  let ch := if ch = 't' then tab else ch
  let ch := if ch = quote then quote else ch
  let ch := if ch = backslash then backslash else ch
  ch

/-- Go's `readString`: the loop with the string `out` built so far.  On an
input without a closing quote the loop does not end. -/
def readString : Nat → Lexer → String → Except Abort (String × Lexer)
  | 0, _, _ => .error .outOfFuel
  | fuel + 1, l, out =>
    let l1 := readChar l
    if l1.ch = quote then .ok (out, l1)
    else if l1.ch = backslash then
      let l2 := readChar l1
      let l3 := { l2 with ch := escaped l2.ch }
      readString fuel l3 (out.push l3.ch)
    else readString fuel l1 (out.push l1.ch)

/-- The loop of `readBacktick`.  On an input without a closing backtick it does not
end. -/
def readBacktickLoop : Nat → Lexer → Except Abort Lexer
  | 0, _ => .error .outOfFuel
  | fuel + 1, l =>
    let l1 := readChar l
    if l1.ch = backtick then .ok l1 else readBacktickLoop fuel l1

/-- Go's `readBacktick`. -/
def readBacktick (fuel : Nat) (l : Lexer) : Except Abort (String × Lexer) :=
  let position := l.position + 1
  match readBacktickLoop fuel l with
  | .error a => .error a
  | .ok l1 =>
    if position ≤ l1.position ∧ l1.position ≤ l1.characters.length then
      .ok (String.mk ((l1.characters.drop position).take (l1.position - position)), l1)
    else .error .panic

/-- The loop of `readRegexp` over the flags: a flag that `flags` does not hold yet
is put at its end. -/
def readFlags : Nat → Lexer → String → Except Abort (String × Lexer)
  | 0, _, _ => .error .outOfFuel
  | fuel + 1, l, flags =>
    if l.ch = 'i' ∨ l.ch = 'm' then
      readFlags fuel (readChar l) (if !flags.data.contains l.ch then flags.push l.ch else flags)
    else .ok (flags, l)

/-- Go's `readRegexp`: the loop with the string `out` built so far.  The result
is the string and whether the error is set. -/
def readRegexp : Nat → Lexer → String → Except Abort ((String × Bool) × Lexer)
  | 0, _, _ => .error .outOfFuel
  | fuel + 1, l, out =>
    let l1 := readChar l
    if l1.ch = NUL then .ok (("unterminated regular expression", true), l1)
    else if l1.ch = '/' then
      match readFlags (fuel + 1) (readChar l1) "" with
      | .error a => .error a
      | .ok (flags, l2) =>
        .ok ((if flags.length > 0 then "(?" ++ flags ++ ")" ++ out else out, false), l2)
    else readRegexp fuel l1 (out.push l1.ch)

/-- The names in the map `valid` of `readIdentifier`. -/
def valid : List String :=
  ["directory.glob", "math.abs", "math.random", "math.sqrt", "os.environment", "os.getenv",
   "os.setenv", "string.interpolate"]

/-- The list `types` of `readIdentifier`. -/
def types : List String :=
  ["string.", "array.", "integer.", "float.", "hash.", "object."]

/-- The loop `for isIdentifier(l.ch)` of `readIdentifier`. -/
def readIdentifierLoop (u : Unicode) : Nat → Lexer → String → Except Abort (String × Lexer)
  | 0, _, _ => .error .outOfFuel
  | fuel + 1, l, id =>
    if isIdentifier u l.ch then readIdentifierLoop u fuel (readChar l) (id.push l.ch)
    else .ok (id, l)

/-- The loop `for offset > 0` of `readIdentifier`. -/
def rewind : Nat → Lexer → Lexer
  | 0, l => l
  | offset + 1, l => rewind offset (readChar l)

/-- The call `strings.Index(id, ".")` on a string that holds a `.`: the number of
bytes of the UTF-8 text before the first `.`. -/
def indexOfDot (id : String) : Nat :=
  ((id.data.takeWhile (fun c => c != '.')).map Char.utf8Size).sum

/-- The slice `id[:offset]` for the `offset` of `indexOfDot`: the characters before
the first `.`. -/
def beforeDot (id : String) : String :=
  String.mk (id.data.takeWhile (fun c => c != '.'))

/-- Go's `readIdentifier`. -/
def readIdentifier (u : Unicode) (fuel : Nat) (l : Lexer) : Except Abort (String × Lexer) :=
  let position := l.position
  let rposition := l.readPosition
  match readIdentifierLoop u fuel l "" with
  | .error a => .error a
  | .ok (id, l1) =>
    if id.data.contains '.' then
      let ok := valid.contains id || types.any (fun i => i.data.isPrefixOf id.data)
      if !ok then
        let offset := indexOfDot id
        .ok (beforeDot id,
          rewind offset { l1 with position := position, readPosition := rposition })
      else .ok (id, l1)
    else .ok (id, l1)

/-- The end of `NextToken` after the `switch`: one `readChar`, and the token is
remembered as `prevToken`. -/
def advance (tok : Token) (l : Lexer) : Except Abort (Token × Lexer) :=
  .ok (tok, { readChar l with prevToken := tok })

/-- The two returns in the `default` case of `NextToken`: the token is remembered as
`prevToken`, the cursor stays. -/
def deliver (tok : Token) (l : Lexer) : Except Abort (Token × Lexer) :=
  .ok (tok, { l with prevToken := tok })

/-- The cases of `NextToken` that build a token of two characters: the character
under the cursor and, after one `readChar`, the next. -/
def twoChars (tokenType : String) (l : Lexer) : Except Abort (Token × Lexer) :=
  let l1 := readChar l
  advance { Type_ := tokenType, Literal := String.singleton l.ch ++ String.singleton l1.ch } l1

/-- The zero value of `token.Token`, which `NextToken` returns where no case of its
`switch` assigns one. -/
def noToken : Token := { Type_ := "", Literal := "" }

/-- The kinds of the previous token after which `/` is the division operator. -/
def divisionAfter : List String := [RBRACKET, RPAREN, IDENT, INT, FLOAT]

/-- Go's `NextToken`; `fuel` bounds the iterations of each loop and the depth of the
recursion after a line comment. -/
def NextToken (u : Unicode) : Nat → Lexer → Except Abort (Token × Lexer)
  | 0, _ => .error .outOfFuel
  | fuel + 1, l0 =>
    match skipWhitespace (fuel + 1) l0 with
    | .error a => .error a
    | .ok l1 =>
    if l1.ch = '#' ∨ (l1.ch = '/' ∧ peekChar l1 = '/') then
      match skipComment (fuel + 1) l1 with
      | .error a => .error a
      | .ok l2 => NextToken u fuel l2
    else
    match (if l1.ch = '/' ∧ peekChar l1 = '*' then skipMultiLineComment (fuel + 1) l1
           else .ok l1) with
    | .error a => .error a
    | .ok l =>
    if l.ch = '&' then
      if peekChar l = '&' then twoChars AND l else advance noToken l
    else if l.ch = '|' then
      if peekChar l = '|' then twoChars OR l else advance noToken l
    else if l.ch = '=' then
      if peekChar l = '=' then twoChars EQ l else advance (newToken ASSIGN l.ch) l
    else if l.ch = ';' then advance (newToken SEMICOLON l.ch) l
    else if l.ch = '?' then advance (newToken QUESTION l.ch) l
    else if l.ch = '(' then advance (newToken LPAREN l.ch) l
    else if l.ch = ')' then advance (newToken RPAREN l.ch) l
    else if l.ch = ',' then advance (newToken COMMA l.ch) l
    else if l.ch = '.' then
      if peekChar l = '.' then twoChars DOTDOT l else advance (newToken PERIOD l.ch) l
    else if l.ch = '+' then
      if peekChar l = '+' then twoChars PLUS_PLUS l
      else if peekChar l = '=' then twoChars PLUS_EQUALS l
      else advance (newToken PLUS l.ch) l
    else if l.ch = '%' then advance (newToken MOD l.ch) l
    else if l.ch = lbrace then advance (newToken LBRACE l.ch) l
    else if l.ch = rbrace then advance (newToken RBRACE l.ch) l
    else if l.ch = '-' then
      if peekChar l = '-' then twoChars MINUS_MINUS l
      else if peekChar l = '=' then twoChars MINUS_EQUALS l
      else advance (newToken MINUS l.ch) l
    else if l.ch = '/' then
      if peekChar l = '=' then twoChars SLASH_EQUALS l
      else if divisionAfter.contains l.prevToken.Type_ then advance (newToken SLASH l.ch) l
      else
        match readRegexp (fuel + 1) l "" with
        | .error a => .error a
        | .ok ((str, _), l2) => advance { Type_ := REGEXP, Literal := str } l2
    else if l.ch = '*' then
      if peekChar l = '*' then twoChars POW l
      else if peekChar l = '=' then twoChars ASTERISK_EQUALS l
      else advance (newToken ASTERISK l.ch) l
    else if l.ch = '<' then
      if peekChar l = '=' then twoChars LT_EQUALS l else advance (newToken LT l.ch) l
    else if l.ch = '>' then
      if peekChar l = '=' then twoChars GT_EQUALS l else advance (newToken GT l.ch) l
    else if l.ch = '~' then
      if peekChar l = '=' then twoChars CONTAINS l else advance noToken l
    else if l.ch = '!' then
      if peekChar l = '=' then twoChars NOT_EQ l
      else if peekChar l = '~' then twoChars NOT_CONTAINS l
      else advance (newToken BANG l.ch) l
    else if l.ch = quote then
      match readString (fuel + 1) l "" with
      | .error a => .error a
      | .ok (str, l2) => advance { Type_ := STRING, Literal := str } l2
    else if l.ch = backtick then
      match readBacktick (fuel + 1) l with
      | .error a => .error a
      | .ok (str, l2) => advance { Type_ := BACKTICK, Literal := str } l2
    else if l.ch = '[' then advance (newToken LBRACKET l.ch) l
    else if l.ch = ']' then advance (newToken RBRACKET l.ch) l
    else if l.ch = ':' then advance (newToken COLON l.ch) l
    else if l.ch = NUL then advance { Type_ := EOF, Literal := "" } l
    else if isDigit l.ch then
      match readDecimal (fuel + 1) l with
      | .error a => .error a
      | .ok (tok, l2) => deliver tok l2
    else
      match readIdentifier u (fuel + 1) l with
      | .error a => .error a
      | .ok (id, l2) => deliver { Type_ := LookupIdentifier id, Literal := id } l2

/-- The tokens that the next `n` calls of `NextToken` return. -/
def tokens (u : Unicode) (fuel : Nat) : Nat → Lexer → Except Abort (List Token)
  | 0, _ => .ok []
  | n + 1, l =>
    match NextToken u fuel l with
    | .error a => .error a
    | .ok (tok, l1) => (tokens u fuel n l1).map (fun rest => tok :: rest)

/-- The lexer with its cursor on the character of index `i` of the input `chars`,
the token returned last being `prev`. -/
def lexerAt (chars : List Char) (i : Nat) (prev : Token) : Lexer :=
  { position := i, readPosition := i + 1, ch := chars.getD i NUL, characters := chars,
    prevToken := prev }

/-- The tables of package `unicode` restricted to what the examples use: the ASCII
letters and digits, and the letter U+00E9 (e with acute accent). -/
def sampleUnicode : Unicode :=
  { IsLetter := fun c => c.isAlpha || c == Char.ofNat 233,
    IsDigit := fun c => c.isDigit }

/-- The literal of the REGEXP token for the body `p` and the flags `f`, in the words
of the specification: the body, behind `(?d)` when the flags are not empty, `d` being
the flags with repeated ones removed. -/
def regexpLiteral (p f : List Char) : String :=
  if f.eraseDups.isEmpty then String.mk p
  else "(?" ++ String.mk f.eraseDups ++ ")" ++ String.mk p

/-- A piece of the body of a string literal: a character written as it is, or a
character written behind a backslash. -/
inductive Piece where
  /-- A character that is neither the double quote nor the backslash. -/
  | plain (c : Char)
  /-- The backslash and the character behind it. -/
  | escape (c : Char)

/-- The source text of a piece. -/
def Piece.source : Piece → List Char
  | .plain c => [c]
  | .escape c => [backslash, c]

/-- What a piece stands for, in the words of the specification: behind a backslash,
`n`, `r` and `t` are the newline, the carriage return and the tab, and every other
character, the double quote and the backslash among them, is itself. -/
def Piece.value : Piece → Char
  | .plain c => c
  | .escape c =>
    if c = 'n' then newline
    else if c = 'r' then carriageReturn
    else if c = 't' then tab
    else c

/-- Whether a piece is written as its kind demands: a plain character is not the
double quote and not the backslash. -/
def Piece.wellFormed : Piece → Bool
  | .plain c => c != quote && c != backslash
  | .escape _ => true

/-- The source text of a body given by its pieces. -/
def bodySource (pieces : List Piece) : List Char :=
  pieces.flatMap Piece.source

end lexer

namespace parser

open ast token lexer

/-- The constant `LOWEST` of the precedence ladder; the constants are numbered from 1
by `iota`. -/
abbrev LOWEST : Nat := 1
/-- The constant `COND`. -/
abbrev COND : Nat := 2
/-- The constant `ASSIGN`. -/
abbrev ASSIGN : Nat := 3
/-- The constant `TERNARY`. -/
abbrev TERNARY : Nat := 4
/-- The constant `EQUALS`. -/
abbrev EQUALS : Nat := 5
/-- The constant `REGEXP_MATCH`. -/
abbrev REGEXP_MATCH : Nat := 6
/-- The constant `LESSGREATER`. -/
abbrev LESSGREATER : Nat := 7
/-- The constant `SUM`. -/
abbrev SUM : Nat := 8
/-- The constant `PRODUCT`. -/
abbrev PRODUCT : Nat := 9
/-- The constant `POWER`. -/
abbrev POWER : Nat := 10
/-- The constant `MOD`. -/
abbrev MOD : Nat := 11
/-- The constant `PREFIX`. -/
abbrev PREFIX : Nat := 12
/-- The constant `CALL`. -/
abbrev CALL : Nat := 13
/-- The constant `DOTDOT`. -/
abbrev DOTDOT : Nat := 14
/-- The constant `INDEX`. -/
abbrev INDEX : Nat := 15
/-- The constant `HIGHEST`. -/
abbrev HIGHEST : Nat := 16

/-- The map `precedences`: the kinds of token with their precedence. -/
def precedences : List (String × Nat) :=
  [(token.QUESTION, TERNARY), (token.ASSIGN, ASSIGN), (token.DOTDOT, DOTDOT),
   (token.EQ, EQUALS), (token.NOT_EQ, EQUALS), (token.LT, LESSGREATER),
   (token.LT_EQUALS, LESSGREATER), (token.GT, LESSGREATER), (token.GT_EQUALS, LESSGREATER),
   (token.CONTAINS, REGEXP_MATCH), (token.NOT_CONTAINS, REGEXP_MATCH),
   (token.PLUS, SUM), (token.PLUS_EQUALS, SUM), (token.MINUS, SUM), (token.MINUS_EQUALS, SUM),
   (token.SLASH, PRODUCT), (token.SLASH_EQUALS, PRODUCT), (token.ASTERISK, PRODUCT),
   (token.ASTERISK_EQUALS, PRODUCT), (token.POW, POWER), (token.MOD, MOD),
   (token.AND, COND), (token.OR, COND), (token.LPAREN, CALL), (token.PERIOD, CALL),
   (token.LBRACKET, INDEX)]

/-- Go's `parser.Parser`, without the three tables of parse functions: `New` fills
them once and nothing changes them, so they are the functions `prefixParseFns`,
`infixParseFns` and `postfixParseFns` below.  The field `l` is the state of the lexer
that the parser points to. -/
structure Parser where
  /-- The lexer. -/
  l : Lexer
  /-- The token before `curToken`. -/
  prevToken : Token
  /-- The token under the cursor. -/
  curToken : Token
  /-- The token after `curToken`. -/
  peekToken : Token
  /-- The messages of the errors met so far. -/
  errors : List String
  /-- Whether a ternary expression is being parsed. -/
  tern : Bool
  deriving DecidableEq, Repr

/-- The result of a parse function: the expression (`Node.nil` for Go's `nil`) and
the parser after the call. -/
abbrev Parsed : Type := Except Abort (Node × Parser)

/-- Go's `Lexer.GetLine`: the number of newlines before `readPosition`. -/
def GetLine (l : Lexer) : Nat :=
  ((l.characters.take l.readPosition).filter (fun c => c == newline)).length

/-- Go's `nextToken`; `lfuel` is the fuel of the lexer. -/
def nextToken (u : Unicode) (lfuel : Nat) (p : Parser) : Except Abort Parser :=
  match NextToken u lfuel p.l with
  | .error a => .error a
  | .ok (tok, l1) =>
    .ok { p with prevToken := p.curToken, curToken := p.peekToken, peekToken := tok, l := l1 }

/-- Go's `curTokenIs`. -/
def curTokenIs (p : Parser) (t : String) : Bool := p.curToken.Type_ == t

/-- Go's `peekTokenIs`. -/
def peekTokenIs (p : Parser) (t : String) : Bool := p.peekToken.Type_ == t

/-- Go's `peekPrecedence`. -/
def peekPrecedence (p : Parser) : Nat :=
  match precedences.lookup p.peekToken.Type_ with
  | some x => x
  | none => LOWEST

/-- Go's `curPrecedence`. -/
def curPrecedence (p : Parser) : Nat :=
  match precedences.lookup p.curToken.Type_ with
  | some x => x
  | none => LOWEST

/-- Go's `noPrefixParseFnError`. -/
def noPrefixParseFnError (p : Parser) (t : String) : Parser :=
  { p with errors := p.errors ++
      ["no prefix parse function for " ++ t ++ " found around line " ++ toString (GetLine p.l)] }

/-- Go's `parsingBroken`. -/
def parsingBroken (p : Parser) : Parsed := .ok (.nil, p)

/-- Go's `parseIdentifier`. -/
def parseIdentifier (p : Parser) : Parsed := .ok (.Identifier p.curToken.Literal, p)

/-- Go's `parseStringLiteral`. -/
def parseStringLiteral (p : Parser) : Parsed := .ok (.StringLiteral p.curToken.Literal, p)

/-- Go's `parseBoolean`. -/
def parseBoolean (p : Parser) : Parsed := .ok (.Boolean (curTokenIs p token.TRUE), p)

/-- Go's `parseNull`. -/
def parseNull (p : Parser) : Parsed := .ok (.NullLiteral, p)

/-- Go's `parsePrefixExpression`; `parseExpression` is the function of that name,
handed in because the two call each other. -/
def parsePrefixExpression (u : Unicode) (lfuel : Nat) (parseExpression : Nat → Parser → Parsed)
    (p : Parser) : Parsed :=
  let operator := p.curToken.Literal
  match nextToken u lfuel p with
  | .error a => .error a
  | .ok p1 =>
    match parseExpression PREFIX p1 with
    | .error a => .error a
    | .ok (right, p2) => .ok (.PrefixExpression operator right, p2)

/-- Go's `parseInfixExpression`. -/
def parseInfixExpression (u : Unicode) (lfuel : Nat) (parseExpression : Nat → Parser → Parsed)
    (left : Node) (p : Parser) : Parsed :=
  let operator := p.curToken.Literal
  let precedence := curPrecedence p
  match nextToken u lfuel p with
  | .error a => .error a
  | .ok p1 =>
    match parseExpression precedence p1 with
    | .error a => .error a
    | .ok (right, p2) => .ok (.InfixExpression operator left right, p2)

/-- Go's `peekError`; the message names the kind of the current token. -/
def peekError (p : Parser) (t : String) : Parser :=
  { p with errors := p.errors ++
      ["expected next token to be " ++ t ++ ", got " ++ p.curToken.Type_ ++
        " instead around line " ++ toString (GetLine p.l)] }

/-- Go's `expectPeek`. -/
def expectPeek (u : Unicode) (lfuel : Nat) (p : Parser) (t : String) :
    Except Abort (Bool × Parser) :=
  if peekTokenIs p t then (nextToken u lfuel p).map (fun p1 => (true, p1))
  else .ok (false, peekError p t)

/-- Go's `parsePostfixExpression`. -/
def parsePostfixExpression (p : Parser) : Parsed :=
  .ok (.PostfixExpression p.prevToken.Literal p.curToken.Literal, p)

/-- Go's `parseTernaryExpression`.  The deferred `p.tern = false` runs at every
return behind the `defer` statement, not at the return that reports the nesting. -/
def parseTernaryExpression (u : Unicode) (lfuel : Nat)
    (parseExpression : Nat → Parser → Parsed) (condition : Node) (p : Parser) : Parsed :=
  if p.tern then
    .ok (.nil, { p with errors := p.errors ++
      ["nested ternary expressions are illegal, around line " ++ toString (GetLine p.l)] })
  else
    match nextToken u lfuel { p with tern := true } with
    | .error a => .error a
    | .ok p1 =>
      let precedence := curPrecedence p1
      match parseExpression precedence p1 with
      | .error a => .error a
      | .ok (IfTrue, p2) =>
        match expectPeek u lfuel p2 token.COLON with
        | .error a => .error a
        | .ok (false, p3) => .ok (.nil, { p3 with tern := false })
        | .ok (true, p3) =>
          match nextToken u lfuel p3 with
          | .error a => .error a
          | .ok p4 =>
            match parseExpression precedence p4 with
            | .error a => .error a
            | .ok (IfFalse, p5) =>
              .ok (.TernaryExpression condition IfTrue IfFalse, { p5 with tern := false })

/-- Go's `parseGroupedExpression`. -/
def parseGroupedExpression (u : Unicode) (lfuel : Nat)
    (parseExpression : Nat → Parser → Parsed) (p : Parser) : Parsed :=
  match nextToken u lfuel p with
  | .error a => .error a
  | .ok p1 =>
    match parseExpression LOWEST p1 with
    | .error a => .error a
    | .ok (exp, p2) =>
      match expectPeek u lfuel p2 token.RPAREN with
      | .error a => .error a
      | .ok (false, p3) => .ok (.nil, p3)
      | .ok (true, p3) => .ok (exp, p3)

/-- Go's `parseRegexpLiteral`.  The loop goes over the bytes of the literal behind
`(?`: up to the first `)` each byte is added to `flags` as the character with that
number, and what follows that `)` is the value; without a `)` the value stays what
follows `(?`. -/
def parseRegexpLiteral (p : Parser) : Parsed :=
  let val := p.curToken.Literal
  if "(?".data.isPrefixOf val.data then
    let rest := val.data.drop 2
    let head := rest.takeWhile (fun c => c != ')')
    let flags := String.mk
      (head.flatMap (fun c => (String.utf8EncodeChar c).map (fun b => Char.ofNat b.toNat)))
    if rest.contains ')' then
      .ok (.RegexpLiteral (String.mk ((rest.dropWhile (fun c => c != ')')).drop 1)) flags, p)
    else .ok (.RegexpLiteral (String.mk rest) flags, p)
  else .ok (.RegexpLiteral val "", p)

/-- What the embedding leaves open.  First the parse functions that are not
embedded, each known by the kind of token it is registered for and handed
`parseExpression`: these are `parseBacktickLiteral`, `parseFunctionDefinition`,
`parseFloatLiteral`, `parseForLoopExpression`, `parseForEach`, `parseFunctionLiteral`,
`parseIfExpression`, `parseHashLiteral`, `parseArrayLiteral` and
`parseSwitchStatement` before an expression, `parseAssignExpression`,
`parseIndexExpression`, `parseCallExpression` and `parseMethodCallExpression` after
one.  Then the two library functions that `parseIntegerLiteral` calls. -/
structure Handlers where
  /-- The open functions registered with `registerPrefix`. -/
  before : String → (Nat → Parser → Parsed) → Parser → Parsed
  /-- The open functions registered with `registerInfix`. -/
  after : String → (Nat → Parser → Parsed) → Node → Parser → Parsed
  /-- Go's `strconv.ParseInt(s, base, 64)`; `none` stands for an error. -/
  ParseInt : String → Nat → Option Int
  /-- The verb `%q` of `fmt.Sprintf` applied to a string. -/
  Quote : String → String

/-- Go's `parseIntegerLiteral`. -/
def parseIntegerLiteral (h : Handlers) (p : Parser) : Parsed :=
  let literal := p.curToken.Literal
  let value :=
    if "0b".data.isPrefixOf literal.data then h.ParseInt (literal.drop 2) 2
    else if "0x".data.isPrefixOf literal.data then h.ParseInt (literal.drop 2) 16
    else h.ParseInt literal 10
  match value with
  | none =>
    .ok (.nil, { p with errors := p.errors ++
      ["could not parse " ++ h.Quote literal ++ " as integer around line " ++
        toString (GetLine p.l)] })
  | some v => .ok (.IntegerLiteral v, p)

/-- The kinds of token for which `New` registers `parseInfixExpression`. -/
def binaryOperators : List String :=
  [token.AND, token.ASTERISK, token.CONTAINS, token.DOTDOT, token.EQ, token.GT,
   token.GT_EQUALS, token.LT, token.LT_EQUALS, token.MINUS, token.MOD, token.NOT_CONTAINS,
   token.NOT_EQ, token.OR, token.PLUS, token.POW, token.SLASH]

/-- The table `prefixParseFns` as `New` fills it. -/
def prefixParseFns (u : Unicode) (h : Handlers) (lfuel : Nat)
    (parseExpression : Nat → Parser → Parsed) (t : String) : Option (Parser → Parsed) :=
  if t = token.BANG ∨ t = token.MINUS then some (parsePrefixExpression u lfuel parseExpression)
  else if t = token.EOF ∨ t = token.ILLEGAL then some parsingBroken
  else if t = token.FALSE ∨ t = token.TRUE then some parseBoolean
  else if t = token.IDENT then some parseIdentifier
  else if t = token.INT then some (parseIntegerLiteral h)
  else if t = token.LPAREN then some (parseGroupedExpression u lfuel parseExpression)
  else if t = token.NULL then some parseNull
  else if t = token.REGEXP then some parseRegexpLiteral
  else if t = token.STRING then some parseStringLiteral
  else if t ∈ [token.BACKTICK, token.DEFINE_FUNCTION, token.FLOAT, token.FOR, token.FOREACH,
      token.FUNCTION, token.IF, token.LBRACE, token.LBRACKET, token.SWITCH] then
    some (h.before t parseExpression)
  else none

/-- The table `infixParseFns` as `New` fills it. -/
def infixParseFns (u : Unicode) (h : Handlers) (lfuel : Nat)
    (parseExpression : Nat → Parser → Parsed) (t : String) : Option (Node → Parser → Parsed) :=
  if t ∈ binaryOperators then some (parseInfixExpression u lfuel parseExpression)
  else if t = token.QUESTION then some (parseTernaryExpression u lfuel parseExpression)
  else if t ∈ [token.ASSIGN, token.ASTERISK_EQUALS, token.LBRACKET, token.LPAREN,
      token.MINUS_EQUALS, token.PERIOD, token.PLUS_EQUALS, token.SLASH_EQUALS] then
    some (h.after t parseExpression)
  else none

/-- The table `postfixParseFns` as `New` fills it. -/
def postfixParseFns (t : String) : Option (Parser → Parsed) :=
  if t = token.MINUS_MINUS ∨ t = token.PLUS_PLUS then some parsePostfixExpression else none

/-- The loop of `parseExpression` with the expression `leftExp` parsed so far. -/
def parseExpressionLoop (u : Unicode) (h : Handlers) (lfuel : Nat)
    (parseExpression : Nat → Parser → Parsed) (precedence : Nat) :
    Nat → Node → Parser → Parsed
  | 0, _, _ => .error .outOfFuel
  | fuel + 1, leftExp, p =>
    if ¬ peekTokenIs p token.SEMICOLON ∧ precedence < peekPrecedence p then
      match infixParseFns u h lfuel parseExpression p.peekToken.Type_ with
      | none => .ok (leftExp, p)
      | some infixFn =>
        match nextToken u lfuel p with
        | .error a => .error a
        | .ok p1 =>
          match infixFn leftExp p1 with
          | .error a => .error a
          | .ok (leftExp1, p2) =>
            parseExpressionLoop u h lfuel parseExpression precedence fuel leftExp1 p2
    else .ok (leftExp, p)

/-- Go's `parseExpression`; `fuel` bounds the depth of the recursion and the
iterations of the loop. -/
def parseExpression (u : Unicode) (h : Handlers) (lfuel : Nat) : Nat → Nat → Parser → Parsed
  | 0, _, _ => .error .outOfFuel
  | fuel + 1, precedence, p =>
    match postfixParseFns p.curToken.Type_ with
    | some postfixFn => postfixFn p
    | none =>
      match prefixParseFns u h lfuel (parseExpression u h lfuel fuel) p.curToken.Type_ with
      | none => .ok (.nil, noPrefixParseFnError p p.curToken.Type_)
      | some prefixFn =>
        match prefixFn p with
        | .error a => .error a
        | .ok (leftExp, p1) =>
          parseExpressionLoop u h lfuel (parseExpression u h lfuel fuel) precedence (fuel + 1)
            leftExp p1

/-- Go's `parser.New`, the tables apart. -/
def New (u : Unicode) (lfuel : Nat) (l : Lexer) : Except Abort Parser :=
  let p : Parser := { l := l, prevToken := noToken, curToken := noToken,
                      peekToken := noToken, errors := [], tern := false }
  match nextToken u lfuel p with
  | .error a => .error a
  | .ok p1 => nextToken u lfuel p1

/-- The rank of a binary operator in the ladder of the specification, COND < EQUALS <
REGEXP_MATCH < LESSGREATER < SUM < PRODUCT < POWER < MOD < DOTDOT, by the kind of its
token. -/
def ladderRank (t : String) : Nat :=
  if t = "&&" ∨ t = "||" then 1
  else if t = "==" ∨ t = "!=" then 2
  else if t = "~=" ∨ t = "!~" then 3
  else if t = "<" ∨ t = "<=" ∨ t = ">" ∨ t = ">=" then 4
  else if t = "+" ∨ t = "-" then 5
  else if t = "*" ∨ t = "/" then 6
  else if t = "**" then 7
  else if t = "%" then 8
  else if t = ".." then 9
  else 0

/-- The expression that an atomic operand stands for, by its token: an identifier,
an integer that `ParseInt` accepts, a string, `TRUE`, `FALSE` or `NIL`. -/
def atomNode (h : Handlers) (t : Token) : Option Node :=
  if t.Type_ = token.IDENT then some (.Identifier t.Literal)
  else if t.Type_ = token.INT then
    (if "0b".data.isPrefixOf t.Literal.data then h.ParseInt (t.Literal.drop 2) 2
     else if "0x".data.isPrefixOf t.Literal.data then h.ParseInt (t.Literal.drop 2) 16
     else h.ParseInt t.Literal 10).map Node.IntegerLiteral
  else if t.Type_ = token.STRING then some (.StringLiteral t.Literal)
  else if t.Type_ = token.TRUE then some (.Boolean true)
  else if t.Type_ = token.FALSE then some (.Boolean false)
  else if t.Type_ = token.NULL then some .NullLiteral
  else none

/-- The value of a character as a digit of a numeral: `0` to `9`, then the letters,
in either case, from 10 on. -/
def digitValue (c : Char) : Option Nat :=
  if '0' ≤ c ∧ c ≤ '9' then some (c.toNat - 48)
  else if 'a' ≤ c ∧ c ≤ 'z' then some (c.toNat - 97 + 10)
  else if 'A' ≤ c ∧ c ≤ 'Z' then some (c.toNat - 65 + 10)
  else none

/-- The value of a run of digits in a base, after the value `acc` of the digits before
it; `none` when a character is not a digit of that base. -/
def parseDigits (base : Nat) : List Char → Nat → Option Nat
  | [], acc => some acc
  | c :: rest, acc =>
    match digitValue c with
    | some d => if d < base then parseDigits base rest (acc * base + d) else none
    | none => none

/-- Go's `strconv.ParseInt(s, base, 64)` for a base from 2 to 36: an optional sign
and at least one digit of the base; `none` for a syntax error and for a value
outside the 64-bit integers. -/
def ParseInt (s : String) (base : Nat) : Option Int :=
  match s.data with
  | [] => none
  | '-' :: rest =>
    if rest = [] then none
    else (parseDigits base rest 0).bind (fun n => if n ≤ 2 ^ 63 then some (-(n : Int)) else none)
  | '+' :: rest =>
    if rest = [] then none
    else (parseDigits base rest 0).bind (fun n => if n < 2 ^ 63 then some (n : Int) else none)
  | cs => (parseDigits base cs 0).bind (fun n => if n < 2 ^ 63 then some (n : Int) else none)

/-- What is left open, for the examples: each open parse function gives back `nil`,
`ParseInt` is the function above, `Quote` puts the string between double quotes. -/
def sampleHandlers : Handlers :=
  { before := fun _ _ p => .ok (.nil, p),
    after := fun _ _ _ p => .ok (.nil, p),
    ParseInt := ParseInt,
    Quote := fun s => "\"" ++ s ++ "\"" }

end parser

/-! ## The whole evaluator, on a store of environments

The definitions above hand environments around as values, which suits the node
kinds they cover.  A function value, however, holds a pointer to the environment
it was made in and sees what is written there later.  The namespace below embeds
the whole `switch` of `EvalContext` with environments as pointers: a pointer
carries the fields that never change (`outer`, `permit`, and its address), and the
maps `store` and `readonly` that it points to are kept, by address, in a
`Memory` that every operation hands on.  Values are kept as before; the one field
of a value that Go changes in place, the cursor of an iterated value, is followed
through `World.cursor`. -/

namespace machine

open object (Object Type_ HashKey mapSet)

/-- Modelled from the spec: package `ast` is not among the sources.  All the node
kinds that `EvalContext` takes apart, each with the fields the evaluator reads.  A
name (of an identifier, a parameter, a method) is given as its text; a
`FloatLiteral` carries the 64 bits of its value; the entries of the Go maps
`Defaults` and `Pairs` are listed in the order in which the `range` loop visits them
(Go leaves that order open); an arm of a `switch` is given by its fields `Default`,
`Expr` and the statements of `Block`; `ObjectCallExpression` carries the name and
the arguments of the `CallExpression` in its field `Call`, as
`parseMethodCallExpression` builds it. -/
inductive Node where
  /-- The nil interface value. -/
  | nil
  | Program (Statements : List Node)
  | ExpressionStatement (Expression : Node)
  | IntegerLiteral (Value : Int)
  | FloatLiteral (Value : Nat)
  | Boolean (Value : Bool)
  | NullLiteral
  | PrefixExpression (Operator : String) (Right : Node)
  | PostfixExpression (Name : String) (Operator : String)
  | InfixExpression (Operator : String) (Left : Node) (Right : Node)
  | BlockStatement (Statements : List Node)
  | IfExpression (Condition : Node) (Consequence : Node) (Alternative : Option Node)
  | TernaryExpression (Condition : Node) (IfTrue : Node) (IfFalse : Node)
  | ForLoopExpression (Condition : Node) (Consequence : Node)
  | ForeachStatement (Index : String) (Ident : String) (Value : Node) (Body : Node)
  | ReturnStatement (ReturnValue : Node)
  | LetStatement (Name : String) (Value : Node)
  | ConstStatement (Name : String) (Value : Node)
  | Identifier (Value : String)
  | FunctionLiteral (Parameters : List String) (Defaults : List (String × Node)) (Body : Node)
  | FunctionDefineLiteral (Name : String) (Parameters : List String)
      (Defaults : List (String × Node)) (Body : Node)
  | ObjectCallExpression (Object_ : Node) (method : String) (Arguments : List Node)
  | CallExpression (Function : Node) (Arguments : List Node)
  | ArrayLiteral (Elements : List Node)
  | StringLiteral (Value : String)
  | RegexpLiteral (Value : String) (Flags : String)
  | BacktickLiteral (Value : String)
  | IndexExpression (Left : Node) (Index : Node)
  | AssignStatement (Name : String) (Operator : String) (Value : Node)
  | HashLiteral (Pairs : List (Node × Node))
  | SwitchExpression (Value : Node) (Choices : List (Bool × List Node × List Node))

instance : Inhabited Node := ⟨Node.nil⟩

/-- A value of type `*Environment`: the nil pointer, or the address `id` of a struct
together with the fields `outer` and `permit` of that struct, which are set when it
is made and never written again. -/
inductive Environment where
  | nil
  | mk (id : Nat) (outer : Environment) (permit : List String)

instance : Inhabited Environment := ⟨Environment.nil⟩

/-- The struct `object.Function`; a value `Object.Function ref` points to one. -/
structure Function where
  Parameters : List String
  Body : Node
  Defaults : List (String × Node)
  Env : Environment

/-- What the running interpreter holds besides its values: the maps `store` and
`readonly` of the environments by address, the number of environments made so far
(the next address), the `object.Function` structs made so far (`Object.Function ref`
is the entry `ref`), the package-level map `PRAGMAS`, and the number of times the
world outside has been consulted. -/
structure Memory where
  store : Nat → String → Option Object
  readonly : Nat → String → Bool
  scopes : Nat
  functions : List Function
  PRAGMAS : String → Int
  clock : Nat

/-- The result of evaluating a node: the value and the memory afterwards. -/
abbrev Result := Except Abort (Object × Memory)

/-- The type of `Eval`. -/
abbrev Evaluator := Node → Environment → Memory → Result

/-- What a builtin other than `eval` can reach besides its arguments: the values
bound in the environments, which it shares with them, and the package-level map
`PRAGMAS`, which the builtin `pragma` changes. -/
structure Reach where
  store : Nat → String → Option Object
  PRAGMAS : String → Int

/-- An entry of the package-level map `builtins`.  Each of the builtins that the
sources register is a closure `func(env, args) { return f(args...) }`, which drops
the environment it is handed, but for `eval`, which hands it to `evalFun`. -/
inductive Builtin where
  /-- The builtin `eval`; `parse` stands for the lexer and the parser, `none` for a
  text with parse errors. -/
  | eval (parse : String → Option Node)
  /-- Any other builtin, as a function of its arguments, of what it can reach and of
  the clock, which tells apart what it finds outside the interpreter: `none` where
  it panics, an exit code where it ends the process (as `exit` does), or else its
  value and what it leaves behind. -/
  | other (Fn : List Object → Reach → Nat → Option (Except Int (Object × Reach)))

/-- What the embedding leaves open. -/
structure World where
  /-- Floats, pointer identity and the regular-expression engine. -/
  host : evaluator.Host
  /-- The package-level map `builtins`, as the calls of `RegisterBuiltin` fill it. -/
  builtins : String → Option Builtin
  /-- The method `InvokeMethod` of the value types, called with the method name, the
  map `store` of the environment (all that these methods read of it) and the
  arguments; `none` where it dereferences nil. -/
  InvokeMethod : Object → String → (String → Option Object) → List Object → Option Object
  /-- Go's `backTickOperation`, which runs a command; `none` where it panics (on a
  command without words, or on an error of `cmd.Run` that is not an `ExitError`).
  The second argument tells the consultations apart. -/
  backTickOperation : String → Nat → Option Object
  /-- The iterated value of a `foreach` as the evaluation of the body has left it:
  the loop holds a pointer to the value, and a body that iterates over the same
  value moves its cursor.  The first argument tells the consultations apart. -/
  cursor : Nat → Object → Object

/-- The field `outer` (nil for the nil pointer). -/
def Environment.outer : Environment → Environment
  | .nil => .nil
  | .mk _ outer _ => outer

/-- The Go test `e == nil` on a `*Environment`. -/
def Environment.isNil : Environment → Bool
  | .nil => true
  | .mk _ _ _ => false

/-- The maps of a struct `Environment` that has just been made: both empty. -/
def Memory.alloc (m : Memory) : Memory :=
  { m with
    store := fun a => if a = m.scopes then (fun _ => none) else m.store a,
    readonly := fun a => if a = m.scopes then (fun _ => false) else m.readonly a,
    scopes := m.scopes + 1 }

/-- The map write `store[name] = val` in the environment at address `id`. -/
def Memory.write (m : Memory) (id : Nat) (name : String) (val : Object) : Memory :=
  { m with store := fun a => if a = id then mapSet (m.store a) name (some val) else m.store a }

/-- The map write `readonly[name] = true` in the environment at address `id`. -/
def Memory.protect (m : Memory) (id : Nat) (name : String) : Memory :=
  { m with
    readonly := fun a => if a = id then mapSet (m.readonly a) name true else m.readonly a }

/-- Go's `NewEnvironment`. -/
def NewEnvironment (m : Memory) : Environment × Memory :=
  (.mk m.scopes .nil [], m.alloc)

/-- Go's `NewEnclosedEnvironment(outer)`. -/
def NewEnclosedEnvironment (outer : Environment) (m : Memory) : Environment × Memory :=
  (.mk m.scopes outer [], m.alloc)

/-- Go's `NewTemporaryScope(outer, keys)`. -/
def NewTemporaryScope (outer : Environment) (keys : List String) (m : Memory) :
    Environment × Memory :=
  (.mk m.scopes outer keys, m.alloc)

/-- Go's `Environment.Get`: the binding of `name` in the nearest scope that has one.
No call site invokes it on a nil pointer (the recursion is guarded by
`e.outer != nil`); the nil case gives the result of that guard failing. -/
def Get (m : Memory) : Environment → String → Object × Bool
  | .nil, _ => (Object.nil, false)
  | .mk id outer _, name =>
    match m.store id name with
    | some obj => (obj, true)
    | none => Get m outer name

/-- Go's `Environment.Set`: the memory after the write (the value it returns is
`val`).  `os.Exit(3)` and `os.Exit(5)` are `Abort.exit`, a call on a nil pointer is a
panic. -/
def Set (m : Memory) : Environment → String → Object → Except Abort Memory
  | .nil, _, _ => .error .panic
  | .mk id outer permit, name, val =>
    let cur := (m.store id name).getD Object.nil
    if !cur.isNil && m.readonly id name then
      .error (.exit 3)
    else if permit.length > 0 then
      if permit.contains name then .ok (m.write id name val)
      else if !outer.isNil then Set m outer name val
      else .error (.exit 5)
    else .ok (m.write id name val)

/-- Go's `Environment.SetConst`. -/
def SetConst (m : Memory) : Environment → String → Object → Except Abort Memory
  | .nil, _, _ => .error .panic
  | .mk id _ _, name, val => .ok ((m.write id name val).protect id name)

/-- Go's `evalProgram`: the statements that remain and the value of `result`. -/
def evalProgram (Eval : Evaluator) : List Node → Object → Environment → Memory → Result
  | [], result, _, mem => .ok (result, mem)
  | statement :: rest, _, env, mem =>
    match Eval statement env mem with
    | .error a => .error a
    | .ok (.ReturnValue Value, mem1) => .ok (Value, mem1)
    | .ok (.Error Message, mem1) => .ok (.Error Message, mem1)
    | .ok (result, mem1) => evalProgram Eval rest result env mem1

/-- Go's `evalBlockStatement`: the statements that remain and the value of `result`. -/
def evalBlockStatement (Eval : Evaluator) : List Node → Object → Environment → Memory → Result
  | [], result, _, mem => .ok (result, mem)
  | statement :: rest, _, env, mem =>
    match Eval statement env mem with
    | .error a => .error a
    | .ok (result, mem1) =>
      if !result.isNil &&
          (Type_ result == some "RETURN_VALUE" || Type_ result == some "ERROR") then
        .ok (result, mem1)
      else evalBlockStatement Eval rest result env mem1

/-- Go's `evalPostfixExpression`; `Name` is `node.Token.Literal`. -/
def evalPostfixExpression (env : Environment) (operator Name : String) (mem : Memory) :
    Result :=
  if operator = "++" then
    match Get mem env Name with
    | (_, false) => .ok (.Error (Name ++ " is unknown"), mem)
    | (.Integer v, true) =>
      match Set mem env Name (.Integer (evaluator.wrap64 (v + 1))) with
      | .error a => .error a
      | .ok mem1 => .ok (.Integer v, mem1)
    | (_, true) => .ok (.Error (Name ++ " is not an int"), mem)
  else if operator = "--" then
    match Get mem env Name with
    | (_, false) => .ok (.Error (Name ++ " is unknown"), mem)
    | (.Integer v, true) =>
      match Set mem env Name (.Integer (evaluator.wrap64 (v - 1))) with
      | .error a => .error a
      | .ok mem1 => .ok (.Integer v, mem1)
    | (_, true) => .ok (.Error (Name ++ " is not an int"), mem)
  else .ok (.Error ("unknown operator: " ++ operator), mem)

/-- The loop of `matches` that binds the captures: `rest` are the submatches still
to bind, `i` the number of the first of them. -/
def setCaptures : List String → Nat → Environment → Memory → Except Abort Memory
  | [], _, _, mem => .ok mem
  | capture :: rest, i, env, mem =>
    match Set mem env ("$" ++ toString i) (.String capture 0) with
    | .error a => .error a
    | .ok mem1 => setCaptures rest (i + 1) env mem1

/-- Go's `matches`. -/
def matches_ (host : evaluator.Host) (left right : Object) (env : Environment)
    (mem : Memory) : Result :=
  match evaluator.Inspect host left with
  | none => .error .panic
  | some str =>
    match right with
    | .nil => .error .panic
    | .Regexp Value Flags =>
      if host.compiles (evaluator.regexpPattern Value Flags) then
        let res := host.FindStringSubmatch (evaluator.regexpPattern Value Flags) str
        match (if res.length > 1 then setCaptures (res.drop 1) 1 env mem else .ok mem) with
        | .error a => .error a
        | .ok mem1 =>
          if res.length > 0 then .ok (evaluator.TRUE, mem1) else .ok (evaluator.FALSE, mem1)
      else
        .ok (.Error ("error compiling regexp '" ++ Value ++ "': " ++
          host.compileError (evaluator.regexpPattern Value Flags)), mem)
    | other =>
      .ok (.Error ("regexp required for regexp-match, given " ++ (Type_ other).getD ""), mem)

/-- An operation on values, which leaves the memory alone, as a `Result`. -/
def keepMem (mem : Memory) (r : Except Abort Object) : Result :=
  r.map (fun v => (v, mem))

/-- Go's `evalInfixExpression`: the cases of its `switch`, in their order. -/
def evalInfixExpression (host : evaluator.Host) (operator : String) (left right : Object)
    (env : Environment) (mem : Memory) : Result :=
  match evaluator.andAlso (evaluator.isType left "INTEGER")
      (evaluator.isType right "INTEGER") with
  | none => .error .panic
  | some true =>
    keepMem mem (evaluator.evalIntegerInfixExpression host.ipow operator left right)
  | some false =>
  match evaluator.andAlso (evaluator.isType left "FLOAT") (evaluator.isType right "FLOAT") with
  | none => .error .panic
  | some true => keepMem mem (evaluator.evalFloatInfixExpression host operator left right)
  | some false =>
  match evaluator.andAlso (evaluator.isType left "FLOAT")
      (evaluator.isType right "INTEGER") with
  | none => .error .panic
  | some true =>
    keepMem mem (evaluator.evalFloatIntegerInfixExpression host operator left right)
  | some false =>
  match evaluator.andAlso (evaluator.isType left "INTEGER")
      (evaluator.isType right "FLOAT") with
  | none => .error .panic
  | some true =>
    keepMem mem (evaluator.evalIntegerFloatInfixExpression host operator left right)
  | some false =>
  match evaluator.andAlso (evaluator.isType left "STRING")
      (evaluator.isType right "STRING") with
  | none => .error .panic
  | some true => keepMem mem (evaluator.evalStringInfixExpression operator left right)
  | some false =>
  if operator = "&&" then
    .ok (evaluator.nativeBoolToBooleanObject
      (evaluator.objectToNativeBoolean left && evaluator.objectToNativeBoolean right), mem)
  else if operator = "||" then
    .ok (evaluator.nativeBoolToBooleanObject
      (evaluator.objectToNativeBoolean left || evaluator.objectToNativeBoolean right), mem)
  else if operator = "!~" then keepMem mem (evaluator.notMatches host left right)
  else if operator = "~=" then matches_ host left right env mem
  else if operator = "==" then
    .ok (evaluator.nativeBoolToBooleanObject (host.identical left right), mem)
  else if operator = "!=" then
    .ok (evaluator.nativeBoolToBooleanObject (!host.identical left right), mem)
  else
  match evaluator.andAlso (evaluator.isType left "BOOLEAN")
      (evaluator.isType right "BOOLEAN") with
  | none => .error .panic
  | some true => keepMem mem (evaluator.evalBooleanInfixExpression host operator left right)
  | some false =>
  match Type_ left, Type_ right with
  | some lt, some rt =>
    if lt ≠ rt then
      .ok (.Error ("type mismatch: " ++ lt ++ " " ++ operator ++ " " ++ rt), mem)
    else .ok (evaluator.unknownOperator lt operator rt, mem)
  | _, _ => .error .panic

/-- Go's `evalIfExpression`: condition and branch are evaluated in a temporary scope
over `env`. -/
def evalIfExpression (Eval : Evaluator) (Condition Consequence : Node)
    (Alternative : Option Node) (env : Environment) (mem : Memory) : Result :=
  match Eval Condition (NewTemporaryScope env evaluator.ifPermit mem).1
      (NewTemporaryScope env evaluator.ifPermit mem).2 with
  | .error a => .error a
  | .ok (condition, mem1) =>
    if evaluator.isError condition then .ok (condition, mem1)
    else if evaluator.isTruthy condition then
      Eval Consequence (NewTemporaryScope env evaluator.ifPermit mem).1 mem1
    else
      match Alternative with
      | some alt => Eval alt (NewTemporaryScope env evaluator.ifPermit mem).1 mem1
      | none => .ok (evaluator.NULL, mem1)

/-- Go's `evalTernaryExpression`. -/
def evalTernaryExpression (Eval : Evaluator) (Condition IfTrue IfFalse : Node)
    (env : Environment) (mem : Memory) : Result :=
  match Eval Condition env mem with
  | .error a => .error a
  | .ok (condition, mem1) =>
    if evaluator.isError condition then .ok (condition, mem1)
    else if evaluator.isTruthy condition then Eval IfTrue env mem1
    else Eval IfFalse env mem1

/-- Go's `evalForLoopExpression` (the `WHILE` loop); `fuel` bounds the number of
iterations.  The value after `break` is the `Boolean` allocated on entry. -/
def evalForLoopExpression (Eval : Evaluator) (Condition Consequence : Node) :
    Nat → Environment → Memory → Result
  | 0, _, _ => .error .outOfFuel
  | fuel + 1, env, mem =>
    match Eval Condition env mem with
    | .error a => .error a
    | .ok (condition, mem1) =>
      if evaluator.isError condition then .ok (condition, mem1)
      else if evaluator.isTruthy condition then
        match Eval Consequence env mem1 with
        | .error a => .error a
        | .ok (rt, mem2) =>
          match Type_ rt with
          | none => .error .panic
          | some t =>
            if !evaluator.isError rt && (t == "RETURN_VALUE" || t == "ERROR") then
              .ok (rt, mem2)
            else evalForLoopExpression Eval Condition Consequence fuel env mem2
      else .ok (.Boolean true false, mem1)

/-- The `for ok` loop of `evalForeachExpression`; `fuel` bounds the number of
iterations.  Before each further call of `Next` the iterated value is taken as the
body has left it. -/
def foreachLoop (w : World) (Eval : Evaluator) (Ident Index : String) (Body : Node) :
    Nat → Object → Object → Bool → Environment → Object → Memory → Result
  | 0, _, _, _, _, _, _ => .error .outOfFuel
  | fuel + 1, ret, idx, ok, child, helper, mem =>
    if ok then
      match Set mem child Ident ret with
      | .error a => .error a
      | .ok mem1 =>
        match (if Index ≠ "" then Set mem1 child Index idx else .ok mem1) with
        | .error a => .error a
        | .ok mem2 =>
          match Eval Body child mem2 with
          | .error a => .error a
          | .ok (rt, mem3) =>
            match Type_ rt with
            | none => .error .panic
            | some t =>
              if !evaluator.isError rt && (t == "RETURN_VALUE" || t == "ERROR") then
                .ok (rt, mem3)
              else
                match (w.cursor mem3.clock helper).Next with
                | none => .error .panic
                | some ((ret1, idx1, ok1), helper1) =>
                  foreachLoop w Eval Ident Index Body fuel ret1 idx1 ok1 child helper1
                    { mem3 with clock := mem3.clock + 1 }
    else .ok (.Null true, mem)

/-- Go's `evalForeachExpression`. -/
def evalForeachExpression (w : World) (Eval : Evaluator) (Index Ident : String)
    (Value Body : Node) (fuel : Nat) (env : Environment) (mem : Memory) : Result :=
  match Eval Value env mem with
  | .error a => .error a
  | .ok (val, mem1) =>
    match val.Reset with
    | none =>
      match Type_ val with
      | none => .error .panic
      | some t =>
        .ok (.Error (t ++ " object doesn't implement the Iterable interface"), mem1)
    | some helper =>
      let permit := [Ident] ++ (if Index ≠ "" then [Index] else [])
      match helper.Next with
      | none => .error .panic
      | some ((ret, idx, ok), helper1) =>
        foreachLoop w Eval Ident Index Body fuel ret idx ok
          (NewTemporaryScope env permit mem1).1 helper1 (NewTemporaryScope env permit mem1).2

/-- Go's `evalIdentifier`: the environment first, then the registry of builtins; an
unknown name exits under the strict pragma and is an `Error` value otherwise. -/
def evalIdentifier (w : World) (Value : String) (env : Environment) (mem : Memory) :
    Except Abort Object :=
  match Get mem env Value with
  | (val, true) => .ok val
  | (_, false) =>
    if (w.builtins Value).isSome then .ok (.Builtin Value)
    else if mem.PRAGMAS "strict" = 1 then .error (.exit 1)
    else .ok (.Error ("identifier not found: " ++ Value))

/-- Go's `evalExpression`: the values so far (in `result`), the expressions that
remain. -/
def evalExpression (Eval : Evaluator) :
    List Node → List Object → Environment → Memory → Except Abort (List Object × Memory)
  | [], result, _, mem => .ok (result, mem)
  | e :: rest, result, env, mem =>
    match Eval e env mem with
    | .error a => .error a
    | .ok (evaluated, mem1) =>
      if evaluator.isError evaluated then .ok ([evaluated], mem1)
      else evalExpression Eval rest (result ++ [evaluated]) env mem1

/-- The body shared by the cases `+=`, `-=`, `*=`, `/=` of `evalAssignStatement`. -/
def compoundAssign (host : evaluator.Host) (operator Name : String) (evaluated : Object)
    (env : Environment) (mem : Memory) : Result :=
  match Get mem env Name with
  | (_, false) => .ok (.Error (Name ++ " is unknown"), mem)
  | (current, true) =>
    match evalInfixExpression host operator current evaluated env mem with
    | .error a => .error a
    | .ok (res, mem1) =>
      if evaluator.isError res then .ok (res, mem1)
      else
        match Set mem1 env Name res with
        | .error a => .error a
        | .ok mem2 => .ok (res, mem2)

/-- Go's `evalAssignStatement`. -/
def evalAssignStatement (Eval : Evaluator) (host : evaluator.Host)
    (Name Operator : String) (Value : Node) (env : Environment) (mem : Memory) : Result :=
  match Eval Value env mem with
  | .error a => .error a
  | .ok (evaluated, mem1) =>
    if evaluator.isError evaluated then .ok (evaluated, mem1)
    else if Operator = "+=" then compoundAssign host "+=" Name evaluated env mem1
    else if Operator = "-=" then compoundAssign host "-=" Name evaluated env mem1
    else if Operator = "*=" then compoundAssign host "*=" Name evaluated env mem1
    else if Operator = "/=" then compoundAssign host "/=" Name evaluated env mem1
    else if Operator = "=" then
      if mem1.PRAGMAS "strict" = 1 ∧ (Get mem1 env Name).2 = false then .error (.exit 1)
      else
        match Set mem1 env Name evaluated with
        | .error a => .error a
        | .ok mem2 => .ok (evaluated, mem2)
    else .ok (evaluated, mem1)

/-- Go's `evalHashLiteral`: the entries that remain and the map `pairs` so far. -/
def evalHashLiteral (host : evaluator.Host) (Eval : Evaluator) :
    List (Node × Node) → List (HashKey × Object × Object) → Environment → Memory → Result
  | [], pairs, _, mem => .ok (.Hash pairs 0, mem)
  | (keyNode, valueNode) :: rest, pairs, env, mem =>
    match Eval keyNode env mem with
    | .error a => .error a
    | .ok (key, mem1) =>
      if evaluator.isError key then .ok (key, mem1)
      else
        match evaluator.hashKey host key with
        | none =>
          match Type_ key with
          | none => .error .panic
          | some t => .ok (.Error ("unusable as hash key: " ++ t), mem1)
        | some hashed =>
          match Eval valueNode env mem1 with
          | .error a => .error a
          | .ok (value, mem2) =>
            if evaluator.isError value then .ok (value, mem2)
            else
              evalHashLiteral host Eval rest (evaluator.pairsStore pairs hashed (key, value))
                env mem2

/-- The inner loop of `evalSwitchStatement` over the case expressions of one arm:
the value of the arm's block when a case expression matches, `none` when the
loop runs to its end. -/
def scanExprs (Eval : Evaluator) (host : evaluator.Host) (obj : Object) (Block : List Node) :
    List Node → Environment → Memory → Except Abort (Option Object × Memory)
  | [], _, mem => .ok (none, mem)
  | val :: rest, env, mem =>
    match Eval val env mem with
    | .error a => .error a
    | .ok (out, mem1) =>
      match Type_ obj, Type_ out with
      | some objType, some outType =>
        match (if objType = outType then
                match evaluator.Inspect host obj, evaluator.Inspect host out with
                | some a, some b => some (a == b)
                | _, _ => none
              else some false) with
        | none => .error .panic
        | some true =>
          (evalBlockStatement Eval Block .nil env mem1).map (fun p => (some p.1, p.2))
        | some false =>
          if outType = "REGEXP" then
            match matches_ host obj out env mem1 with
            | .error a => .error a
            | .ok (m, mem2) =>
              if evaluator.isTRUE m then
                (evalBlockStatement Eval Block .nil env mem2).map (fun p => (some p.1, p.2))
              else scanExprs Eval host obj Block rest env mem2
          else scanExprs Eval host obj Block rest env mem1
      | _, _ => .error .panic

/-- The first loop of `evalSwitchStatement`, over the arms that are not the default. -/
def scanChoices (Eval : Evaluator) (host : evaluator.Host) (obj : Object) :
    List (Bool × List Node × List Node) → Environment → Memory →
      Except Abort (Option Object × Memory)
  | [], _, mem => .ok (none, mem)
  | opt :: rest, env, mem =>
    if opt.1 then scanChoices Eval host obj rest env mem
    else
      match scanExprs Eval host obj opt.2.2 opt.2.1 env mem with
      | .error a => .error a
      | .ok (some blockOut, mem1) => .ok (some blockOut, mem1)
      | .ok (none, mem1) => scanChoices Eval host obj rest env mem1

/-- The second loop of `evalSwitchStatement`: the block of the first default arm,
and nil when there is none. -/
def defaultChoice (Eval : Evaluator) :
    List (Bool × List Node × List Node) → Environment → Memory → Result
  | [], _, mem => .ok (.nil, mem)
  | opt :: rest, env, mem =>
    if opt.1 then evalBlockStatement Eval opt.2.2 .nil env mem
    else defaultChoice Eval rest env mem

/-- Go's `evalSwitchStatement`. -/
def evalSwitchStatement (Eval : Evaluator) (host : evaluator.Host) (Value : Node)
    (Choices : List (Bool × List Node × List Node)) (env : Environment) (mem : Memory) :
    Result :=
  match Eval Value env mem with
  | .error a => .error a
  | .ok (obj, mem1) =>
    match scanChoices Eval host obj Choices env mem1 with
    | .error a => .error a
    | .ok (some blockOut, mem2) => .ok (blockOut, mem2)
    | .ok (none, mem2) => defaultChoice Eval Choices env mem2

/-- The first loop of `extendFunctionEnv`: `env.Set(key, Eval(val, env))` for
every entry of `fn.Defaults`. -/
def setDefaults (Eval : Evaluator) :
    List (String × Node) → Environment → Memory → Except Abort Memory
  | [], _, mem => .ok mem
  | (key, val) :: rest, env, mem =>
    match Eval val env mem with
    | .error a => .error a
    | .ok (v, mem1) =>
      match Set mem1 env key v with
      | .error a => .error a
      | .ok mem2 => setDefaults Eval rest env mem2

/-- The second loop of `extendFunctionEnv`: the parameters that remain, the index
`paramIdx` of the first of them. -/
def setParams (args : List Object) : List String → Nat → Environment → Memory →
    Except Abort Memory
  | [], _, _, mem => .ok mem
  | param :: rest, paramIdx, env, mem =>
    if h : paramIdx < args.length then
      match Set mem env param args[paramIdx] with
      | .error a => .error a
      | .ok mem1 => setParams args rest (paramIdx + 1) env mem1
    else setParams args rest (paramIdx + 1) env mem

/-- Go's `extendFunctionEnv`: the environment of the call and the memory. -/
def extendFunctionEnv (Eval : Evaluator) (fn : Function) (args : List Object)
    (mem : Memory) : Except Abort (Environment × Memory) :=
  match setDefaults Eval fn.Defaults (NewEnclosedEnvironment fn.Env mem).1
      (NewEnclosedEnvironment fn.Env mem).2 with
  | .error a => .error a
  | .ok mem1 =>
    (setParams args fn.Parameters 0 (NewEnclosedEnvironment fn.Env mem).1 mem1).map
      (fun mem2 => ((NewEnclosedEnvironment fn.Env mem).1, mem2))

/-- Go's `evalFun`, the builtin `eval`: `parse` stands for the lexer and the parser,
`none` for a text with parse errors, on which the process exits with code 1. -/
def evalFun (parse : String → Option Node) (Eval : Evaluator) (env : Environment)
    (args : List Object) (mem : Memory) : Result :=
  match args with
  | [arg] =>
    match arg with
    | .String txt _ =>
      match parse txt with
      | some program => Eval program env mem
      | none => .error (.exit 1)
    | other =>
      match Type_ other with
      | none => .error .panic
      | some t =>
        .ok (.Error ("argument to " ++ String.singleton (Char.ofNat 96) ++ "eval" ++
          String.singleton (Char.ofNat 96) ++ " not supported, got=" ++ t), mem)
  | _ =>
    .ok (.Error ("wrong number of arguments. got=" ++ toString args.length ++ ", want=1"), mem)

/-- The call of a builtin other than `eval`. -/
def callOther (Fn : List Object → Reach → Nat → Option (Except Int (Object × Reach)))
    (args : List Object) (mem : Memory) : Result :=
  match Fn args { store := mem.store, PRAGMAS := mem.PRAGMAS } mem.clock with
  | none => .error .panic
  | some (.error code) => .error (.quit code)
  | some (.ok (v, reach)) =>
    .ok (v, { mem with store := reach.store, PRAGMAS := reach.PRAGMAS,
                       clock := mem.clock + 1 })

/-- Go's `applyFunction`. -/
def applyFunction (w : World) (Eval : Evaluator) (env : Environment) (fn : Object)
    (args : List Object) (mem : Memory) : Result :=
  match fn with
  | .Function ref =>
    match mem.functions[ref]? with
    | none => .error .panic
    | some f =>
      match extendFunctionEnv Eval f args mem with
      | .error a => .error a
      | .ok (extendEnv, mem1) =>
        match Eval f.Body extendEnv mem1 with
        | .error a => .error a
        | .ok (evaluated, mem2) => .ok (evaluator.upwrapReturnValue evaluated, mem2)
  | .Builtin name =>
    match w.builtins name with
    | none => .error .panic
    | some (.eval parse) => evalFun parse Eval env args mem
    | some (.other Fn) => callOther Fn args mem
  | other =>
    match Type_ other with
    | none => .error .panic
    | some t => .ok (.Error ("not a function: " ++ t), mem)

/-- The body of the loop of `evalObjectCallExpression` once `env.Get(name)` has found
`fn`: the call environment, `self`, the body, the unwrapping.  A value that is not a
Function fails the type assertion. -/
def invokeUserMethod (Eval : Evaluator) (fn obj : Object) (args : List Object)
    (mem : Memory) : Result :=
  match fn with
  | .Function ref =>
    match mem.functions[ref]? with
    | none => .error .panic
    | some f =>
      match extendFunctionEnv Eval f args mem with
      | .error a => .error a
      | .ok (extendEnv, mem1) =>
        match Set mem1 extendEnv "self" obj with
        | .error a => .error a
        | .ok mem2 =>
          match Eval f.Body extendEnv mem2 with
          | .error a => .error a
          | .ok (evaluated, mem3) => .ok (evaluator.upwrapReturnValue evaluated, mem3)
  | _ => .error .panic

/-- The loop of `evalObjectCallExpression` over the prefixes in `attempts`; `none`
when it runs to its end. -/
def tryAttempts (Eval : Evaluator) (obj : Object) (method : String) (args : List Object)
    (env : Environment) (mem : Memory) : List String → Option Result
  | [] => none
  | attempt :: rest =>
    match Get mem env (attempt ++ "." ++ method) with
    | (fn, true) => some (invokeUserMethod Eval fn obj args mem)
    | (_, false) => tryAttempts Eval obj method args env mem rest

/-- Go's `evalObjectCallExpression`. -/
def evalObjectCallExpression (w : World) (Eval : Evaluator) (Object_ : Node)
    (method : String) (Arguments : List Node) (env : Environment) (mem : Memory) : Result :=
  match Eval Object_ env mem with
  | .error a => .error a
  | .ok (obj, mem1) =>
    match evalExpression Eval Arguments [] env mem1 with
    | .error a => .error a
    | .ok (args, mem2) =>
      match env with
      | .nil => .error .panic
      | .mk id _ _ =>
        match w.InvokeMethod obj method (mem2.store id) args with
        | none => .error .panic
        | some ret =>
          if !ret.isNil then .ok (ret, mem2)
          else
            match Type_ obj with
            | none => .error .panic
            | some t =>
              match tryAttempts Eval obj method args env mem2 [evaluator.ToLower t, "object"] with
              | some r => r
              | none => .ok (.Error ("Failed to invoke method: " ++ method), mem2)

/-- Go's `Eval`: `EvalContext` with `context.Background()`, which is never done, so
the `select` at its entry does nothing.  `fuel` bounds the depth of the recursion and
the iterations of each loop. -/
def Eval (w : World) : Nat → Node → Environment → Memory → Result
  | 0, _, _, _ => .error .outOfFuel
  | fuel + 1, node, env, mem =>
    match node with
    | .Program Statements => evalProgram (Eval w fuel) Statements .nil env mem
    | .ExpressionStatement Expression => Eval w fuel Expression env mem
    | .IntegerLiteral Value => .ok (.Integer Value, mem)
    | .FloatLiteral Value => .ok (.Float Value, mem)
    | .Boolean Value => .ok (evaluator.nativeBoolToBooleanObject Value, mem)
    | .NullLiteral => .ok (evaluator.NULL, mem)
    | .PrefixExpression Operator Right =>
      match Eval w fuel Right env mem with
      | .error a => .error a
      | .ok (right, mem1) =>
        if evaluator.isError right then .ok (right, mem1)
        else keepMem mem1 (evaluator.evalPrefixExpression Operator right)
    | .PostfixExpression Name Operator => evalPostfixExpression env Operator Name mem
    | .InfixExpression Operator Left Right =>
      match Eval w fuel Left env mem with
      | .error a => .error a
      | .ok (left, mem1) =>
        if evaluator.isError left then .ok (left, mem1)
        else
          match Eval w fuel Right env mem1 with
          | .error a => .error a
          | .ok (right, mem2) =>
            if evaluator.isError right then .ok (right, mem2)
            else
              match evalInfixExpression w.host Operator left right env mem2 with
              | .error a => .error a
              | .ok (res, mem3) =>
                if evaluator.isError res ∧ mem3.PRAGMAS "strict" = 1 then .error (.exit 1)
                else .ok (res, mem3)
    | .BlockStatement Statements => evalBlockStatement (Eval w fuel) Statements .nil env mem
    | .IfExpression Condition Consequence Alternative =>
      evalIfExpression (Eval w fuel) Condition Consequence Alternative env mem
    | .TernaryExpression Condition IfTrue IfFalse =>
      evalTernaryExpression (Eval w fuel) Condition IfTrue IfFalse env mem
    | .ForLoopExpression Condition Consequence =>
      evalForLoopExpression (Eval w fuel) Condition Consequence fuel env mem
    | .ForeachStatement Index Ident Value Body =>
      evalForeachExpression w (Eval w fuel) Index Ident Value Body fuel env mem
    | .ReturnStatement ReturnValue =>
      match Eval w fuel ReturnValue env mem with
      | .error a => .error a
      | .ok (val, mem1) =>
        if evaluator.isError val then .ok (val, mem1)
        else .ok (.ReturnValue val, mem1)
    | .LetStatement Name Value =>
      match Eval w fuel Value env mem with
      | .error a => .error a
      | .ok (val, mem1) =>
        if evaluator.isError val then .ok (val, mem1)
        else
          match Set mem1 env Name val with
          | .error a => .error a
          | .ok mem2 => .ok (val, mem2)
    | .ConstStatement Name Value =>
      match Eval w fuel Value env mem with
      | .error a => .error a
      | .ok (val, mem1) =>
        if evaluator.isError val then .ok (val, mem1)
        else
          match SetConst mem1 env Name val with
          | .error a => .error a
          | .ok mem2 => .ok (val, mem2)
    | .Identifier Value => keepMem mem (evalIdentifier w Value env mem)
    | .FunctionLiteral Parameters Defaults Body =>
      .ok (.Function mem.functions.length,
        { mem with functions := mem.functions ++
            [{ Parameters := Parameters, Body := Body, Defaults := Defaults, Env := env }] })
    | .FunctionDefineLiteral Name Parameters Defaults Body =>
      match Set { mem with functions := mem.functions ++
            [{ Parameters := Parameters, Body := Body, Defaults := Defaults, Env := env }] }
          env Name (.Function mem.functions.length) with
      | .error a => .error a
      | .ok mem1 => .ok (evaluator.NULL, mem1)
    | .ObjectCallExpression Object_ method Arguments =>
      match evalObjectCallExpression w (Eval w fuel) Object_ method Arguments env mem with
      | .error a => .error a
      | .ok (res, mem1) =>
        if evaluator.isError res ∧ mem1.PRAGMAS "strict" = 1 then .error (.exit 1)
        else .ok (res, mem1)
    | .CallExpression Function Arguments =>
      match Eval w fuel Function env mem with
      | .error a => .error a
      | .ok (function, mem1) =>
        if evaluator.isError function then .ok (function, mem1)
        else
          match evalExpression (Eval w fuel) Arguments [] env mem1 with
          | .error a => .error a
          | .ok (args, mem2) =>
            if args.length = 1 ∧ evaluator.isError (args.headD .nil) then
              .ok (args.headD .nil, mem2)
            else
              match applyFunction w (Eval w fuel) env function args mem2 with
              | .error a => .error a
              | .ok (res, mem3) =>
                if evaluator.isError res ∧ mem3.PRAGMAS "strict" = 1 then .error (.exit 1)
                else .ok (res, mem3)
    | .ArrayLiteral Elements =>
      match evalExpression (Eval w fuel) Elements [] env mem with
      | .error a => .error a
      | .ok (elements, mem1) =>
        if elements.length = 1 ∧ evaluator.isError (elements.headD .nil) then
          .ok (elements.headD .nil, mem1)
        else .ok (.Array elements 0, mem1)
    | .StringLiteral Value => .ok (.String Value 0, mem)
    | .RegexpLiteral Value Flags => .ok (.Regexp Value Flags, mem)
    | .BacktickLiteral Value =>
      match w.backTickOperation Value mem.clock with
      | none => .error .panic
      | some out => .ok (out, { mem with clock := mem.clock + 1 })
    | .IndexExpression Left Index =>
      match Eval w fuel Left env mem with
      | .error a => .error a
      | .ok (left, mem1) =>
        if evaluator.isError left then .ok (left, mem1)
        else
          match Eval w fuel Index env mem1 with
          | .error a => .error a
          | .ok (index, mem2) =>
            if evaluator.isError index then .ok (index, mem2)
            else keepMem mem2 (evaluator.evalIndexExpression w.host left index)
    | .AssignStatement Name Operator Value =>
      evalAssignStatement (Eval w fuel) w.host Name Operator Value env mem
    | .HashLiteral Pairs => evalHashLiteral w.host (Eval w fuel) Pairs [] env mem
    | .SwitchExpression Value Choices =>
      evalSwitchStatement (Eval w fuel) w.host Value Choices env mem
    | .nil => .ok (.nil, mem)

/-- The permit lists of the scopes of a chain, from the scope itself outward. -/
def Environment.permits : Environment → List (List String)
  | .nil => []
  | .mk _ outer permit => permit :: outer.permits

/-- Whether the chain has a scope and its outermost scope has no permit list, as a
scope made by `NewEnvironment` has. -/
def Environment.rooted (e : Environment) : Bool :=
  e.permits.getLast? == some []

/-- The index of the first scope, counting outward from 0, that is plain or has
`name` on its permit list; `none` when the chain ends before one is found. -/
def Environment.target (name : String) : Environment → Option Nat
  | .nil => none
  | .mk _ outer permit =>
    if object.landsHere permit name then some 0 else (outer.target name).map (· + 1)

/-- The address of the `j`-th scope of the chain, counting outward from 0. -/
def Environment.address : Environment → Nat → Option Nat
  | .nil, _ => none
  | .mk id _ _, 0 => some id
  | .mk _ outer _, j + 1 => outer.address j

/-- What the proof carries along: every function value made so far holds an
environment whose outermost scope is plain. -/
def Memory.sound (m : Memory) : Prop :=
  ∀ f ∈ m.functions, f.Env.rooted = true

/-- What a step must not do and must keep: its result is not the exit with code 5,
and the memory it hands on is sound. -/
def keeps {α : Type} (r : Except Abort (α × Memory)) : Prop :=
  r ≠ .error (.exit 5) ∧ ∀ v m1, r = .ok (v, m1) → m1.sound

/-- The same for a step that hands on the memory only: its result is not the exit
with code 5, and the memory it hands on is sound. -/
def writes (r : Except Abort Memory) : Prop :=
  r ≠ .error (.exit 5) ∧ ∀ m1, r = .ok m1 → m1.sound

/-- An evaluator that keeps to this on every chain whose outermost scope is plain. -/
def Evaluator.safe (E : Evaluator) : Prop :=
  ∀ node env mem, env.rooted = true → mem.sound → keeps (E node env mem)

/-- The memory of a process that has made no environment and no function yet. -/
def Memory.empty : Memory :=
  { store := fun _ _ => none, readonly := fun _ _ => false, scopes := 0, functions := [],
    PRAGMAS := fun _ => 0, clock := 0 }

/-- Go's `exitFun`, the builtin `exit`: the code it hands to `os.Exit`; `toInt` stands
for the conversion `int(v)` of a `float64`. -/
def exitFun (toInt : Nat → Int) : List Object → Int
  | .Integer Value :: _ => Value
  | .Float Value :: _ => toInt Value
  | _ => 0

/-- Go's `lenFun`, the builtin `LEN`; `none` where it dereferences nil. -/
def lenFun (args : List Object) : Option Object :=
  match args with
  | [arg] =>
    match arg with
    | .String Value _ => some (.Integer Value.length)
    | .Null _ => some (.Integer 0)
    | .Array Elements _ => some (.Integer Elements.length)
    | other =>
      (Type_ other).map (fun t =>
        .Error ("argument to " ++ String.singleton (Char.ofNat 96) ++ "len" ++
          String.singleton (Char.ofNat 96) ++ " not supported, got=" ++ t))
  | _ =>
    some (.Error ("wrong number of arguments. got=" ++ toString args.length ++ ", want=1"))

/-- A world for the examples: the host of the examples, the builtins `eval`
(without a parser: every text has parse errors), `exit` and `LEN`, no methods, no
commands, and loop bodies that leave the cursor alone. -/
def sampleWorld : World :=
  { host := evaluator.sampleHost,
    builtins := fun name =>
      if name = "eval" then some (.eval (fun _ => none))
      else if name = "exit" then
        some (.other (fun args _ _ => some (.error (exitFun (fun _ => 0) args))))
      else if name = "LEN" then
        some (.other (fun args reach _ => (lenFun args).map (fun v => .ok (v, reach))))
      else none,
    InvokeMethod := fun _ _ _ _ => some .nil,
    backTickOperation := fun _ _ => some evaluator.NULL,
    cursor := fun _ helper => helper }

/-- The program
`LET f = FN(n) { IF (n > 0) { LET x = n; } RETURN x; };`
`foreach v in [1, 2] { LET y = f(v); }`
`y`. -/
def sampleProgram : Node :=
  .Program [
    .LetStatement "f" (.FunctionLiteral ["n"] []
      (.BlockStatement [
        .ExpressionStatement (.IfExpression
          (.InfixExpression ">" (.Identifier "n") (.IntegerLiteral 0))
          (.BlockStatement [.LetStatement "x" (.Identifier "n")]) none),
        .ReturnStatement (.Identifier "x")])),
    .ExpressionStatement (.ForeachStatement "" "v"
      (.ArrayLiteral [.IntegerLiteral 1, .IntegerLiteral 2])
      (.BlockStatement [.LetStatement "y"
        (.CallExpression (.Identifier "f") [.Identifier "v"])])),
    .ExpressionStatement (.Identifier "y")]

end machine

/-! ## Environments -/

section EnvironmentTheorems

open object ast evaluator

/-- The result of `Set` on a scope, case by case. -/
theorem Set_mk (store : String → Option Object) (readonly : String → Bool)
    (outer : Environment) (permit : List String) (name : String) (val : Object) :
    (Environment.mk store readonly outer permit).Set name val =
      if !((store name).getD Object.nil).isNil && readonly name then .error (.exit 3)
      else if landsHere permit name then
        .ok (.mk (mapSet store name (some val)) readonly outer permit, val)
      else if outer.isNil then .error (.exit 5)
      else (outer.Set name val).map (fun p => (.mk store readonly p.1 permit, p.2)) := by
  simp only [Environment.Set, landsHere]
  by_cases h1 : (!((store name).getD Object.nil).isNil && readonly name) = true
  · simp [h1]
  · by_cases h2 : permit = []
    · simp [h1, h2]
    · have h2' : permit.length > 0 := List.length_pos.mpr h2
      by_cases h3 : name ∈ permit
      · simp [h1, h2', h3]
      · cases h5 : outer.isNil
        · cases h6 : outer.Set name val with
          | error a => simp [h1, h2, h2', h3, h5, h6, Except.map]
          | ok pr => simp [h1, h2, h2', h3, h5, h6, Except.map]
        · simp [h1, h2, h2', h3, h5]

theorem Except_map_eq_ok {ε α β : Type} (f : α → β) (x : Except ε α) (b : β)
    (h : x.map f = .ok b) : ∃ a, x = .ok a ∧ f a = b := by
  cases x with
  | error e => simp [Except.map] at h
  | ok a => exact ⟨a, rfl, by simpa [Except.map] using h⟩

/-- What a completed `Set` has done, one scope at a time. -/
theorem Set_ok_cases (store : String → Option Object) (readonly : String → Bool)
    (outer : Environment) (permit : List String) (name : String) (val : Object)
    (e' : Environment) (r : Object)
    (h : (Environment.mk store readonly outer permit).Set name val = .ok (e', r)) :
    (!((store name).getD Object.nil).isNil && readonly name) = false ∧
    ((landsHere permit name = true ∧
        e' = .mk (mapSet store name (some val)) readonly outer permit ∧ r = val) ∨
     (landsHere permit name = false ∧
        ∃ o', outer.Set name val = .ok (o', r) ∧ e' = .mk store readonly o' permit)) := by
  rw [Set_mk] at h
  split at h
  · simp at h
  · rename_i h1
    refine ⟨by simpa using h1, ?_⟩
    split at h
    · rename_i h2
      left
      simp only [Except.ok.injEq, Prod.mk.injEq] at h
      exact ⟨h2, h.1.symm, h.2.symm⟩
    · rename_i h2
      right
      split at h
      · simp at h
      · obtain ⟨a, ha, hf⟩ := Except_map_eq_ok _ _ _ h
        obtain ⟨o', r'⟩ := a
        simp only [Prod.mk.injEq] at hf
        refine ⟨by simpa using h2, o', ?_, hf.1.symm⟩
        rw [ha, hf.2]

/-- A completed `Set` returns the value it was given. -/
theorem Set_result (e : Environment) (name : String) (val : Object) (e' : Environment)
    (r : Object) (h : e.Set name val = .ok (e', r)) : r = val := by
  induction e generalizing e' r with
  | nil => simp [Environment.Set] at h
  | mk store readonly outer permit ih =>
    obtain ⟨_, h2 | h2⟩ := Set_ok_cases _ _ _ _ _ _ _ _ h
    · exact h2.2.2
    · obtain ⟨_, o', ho, _⟩ := h2
      exact ih o' r ho

/-- The three constructors give environments of the shape `Built`. -/
theorem Built_constructors (outer : Environment) (keys : List String) (h : outer.Built) :
    NewEnvironment.Built ∧ (NewEnclosedEnvironment outer).Built ∧
      (NewTemporaryScope outer keys).Built := by
  simp [NewEnvironment, NewEnclosedEnvironment, NewTemporaryScope, Environment.Built, h]

/-- The shape `Built` is kept by `SetConst`. -/
theorem Built_SetConst (e : Environment) (name : String) (val : Object) (h : e.Built) :
    (e.SetConst name val).1.Built := by
  cases e with
  | nil => simpa [Environment.SetConst] using h
  | mk store readonly outer permit =>
    simp only [Environment.SetConst, Environment.Built] at h ⊢
    refine ⟨fun hp n hn => ?_, h.2⟩
    by_cases hk : n = name
    · right; simp [mapSet, hk]
    · have hn' : (store n).isSome = true := by simpa [mapSet, hk] using hn
      rcases h.1 hp n hn' with h1 | h1
      · exact Or.inl h1
      · right; simp [mapSet, hk, h1]

/-- The shape `Built` is kept by `Set`. -/
theorem Built_Set (e : Environment) (name : String) (val : Object) (e' : Environment)
    (r : Object) (h : e.Built) (hs : e.Set name val = .ok (e', r)) : e'.Built := by
  induction e generalizing e' r with
  | nil => simp [Environment.Set] at hs
  | mk store readonly outer permit ih =>
    obtain ⟨_, h2 | h2⟩ := Set_ok_cases _ _ _ _ _ _ _ _ hs
    · obtain ⟨hl, he, _⟩ := h2
      subst he
      simp only [Environment.Built] at h ⊢
      refine ⟨fun hp n hn => ?_, h.2⟩
      by_cases hk : n = name
      · left
        subst hk
        have hne : ¬ permit.length = 0 := fun h0 => hp (List.length_eq_zero.mp h0)
        simpa [landsHere, hne] using hl
      · have hn' : (store n).isSome = true := by simpa [mapSet, hk] using hn
        exact h.1 hp n hn'
    · obtain ⟨_, o', ho, he⟩ := h2
      subst he
      simp only [Environment.Built] at h ⊢
      exact ⟨h.1, ih o' r h.2 ho⟩

/-- On an environment of the shape `Built` in which `x` is nowhere a constant with
value nil, a `Set` that completes is seen by `Get`. -/
theorem Set_then_Get (e : Environment) (x : String) (v : Object) (e' : Environment)
    (r : Object) (hb : e.Built) (hn : e.noNilConst x) (hs : e.Set x v = .ok (e', r)) :
    e'.Get x = (v, true) ∧ r = v := by
  refine ⟨?_, Set_result e x v e' r hs⟩
  induction e generalizing e' r with
  | nil => simp [Environment.Set] at hs
  | mk store readonly outer permit ih =>
    obtain ⟨hg, h2 | h2⟩ := Set_ok_cases _ _ _ _ _ _ _ _ hs
    · obtain ⟨_, he, _⟩ := h2
      subst he
      simp [Environment.Get, mapSet]
    · obtain ⟨hl, o', ho, he⟩ := h2
      subst he
      simp only [Environment.Built] at hb
      simp only [Environment.noNilConst] at hn
      have hp : permit ≠ [] := by
        intro h0; simp [landsHere, h0] at hl
      have hx : x ∉ permit := by
        intro hm; simp [landsHere, hm] at hl
      have hnone : store x = none := by
        cases hsx : store x with
        | none => rfl
        | some c =>
          exfalso
          have hro : readonly x = true := by
            rcases hb.1 hp x (by simp [hsx]) with h1 | h1
            · exact absurd h1 hx
            · exact h1
          have hc : c.isNil = true := by
            cases hcn : c.isNil with
            | true => rfl
            | false => simp [hsx, hro, hcn] at hg
          cases c with
          | nil => exact hn.1 ⟨hsx, hro⟩
          | _ => simp [Object.isNil] at hc
      have := ih o' r hb.2 hn.2 ho
      simp [Environment.Get, hnone, this]

/-- C1 (evaluation of the code at the failing input): in the temporary scope of an
`if`, over a fresh root, `x` is first declared constant with the value nil.
`Set x 5`, as `LET x = 5` performs it, then completes and returns 5, yet `Get x`
on the resulting environment returns `(nil, true)` instead of `(5, true)`. -/
theorem Set_completes_Get_differs :
    (((NewTemporaryScope NewEnvironment ifPermit).SetConst "x" Object.nil).1.Set "x"
        (Object.Integer 5)).map (fun p => (p.2, p.1.Get "x"))
      = .ok (Object.Integer 5, (Object.nil, true)) := by
  have hx : "x" ∉ ifPermit := by decide
  have hp : ifPermit.length > 0 := by decide
  simp [NewTemporaryScope, NewEnvironment, Environment.SetConst, Environment.Set, mapSet,
    Object.isNil, Environment.isNil, Environment.Get, Except.map, hx, hp]

/-- The program `IF (TRUE) { const x = IF (TRUE) { }; LET x = 5; x }`, run on a fresh
root environment, evaluates to nil and not to 5: the inner `IF` has an empty block,
whose value is nil. -/
theorem let_then_identifier_program :
    (Eval noPragmas builtins noInfix 6
        (.IfExpression (.Boolean true)
          (.BlockStatement
            [.ConstStatement "x" (.IfExpression (.Boolean true) (.BlockStatement []) none),
             .LetStatement "x" (.IntegerLiteral 5),
             .ExpressionStatement (.Identifier "x")])
          none)
        NewEnvironment).map (fun p => (p.1, p.2.Get "x"))
      = .ok (Object.nil, (Object.Integer 5, true)) := by
  have hx : "x" ∉ ifPermit := by decide
  have hp : ifPermit.length > 0 := by decide
  simp [Eval, evalIfExpression, evalBlockStatement, evalIdentifier, nativeBoolToBooleanObject,
    isError, isTruthy, TRUE, FALSE, Type_, NewTemporaryScope, NewEnvironment,
    Environment.SetConst, Environment.Set, mapSet, Object.isNil, Environment.isNil,
    Environment.Get, Environment.outer, Except.map, hx, hp]

/-- After `SetConst k v` with a value `v` other than nil, `Set k w` on the same
environment exits with code 3. -/
theorem SetConst_then_Set (store : String → Option Object) (readonly : String → Bool)
    (outer : Environment) (permit : List String) (k : String) (v w : Object)
    (hv : v.isNil = false) :
    ((Environment.mk store readonly outer permit).SetConst k v).1.Set k w
      = .error (.exit 3) := by
  simp [Environment.SetConst, Set_mk, mapSet, hv]

/-- C2 (evaluation of the code at the failing input): after `SetConst k nil` on a
fresh root environment, `Set k 2` does not exit: it returns 2 and `k` is bound to 2
afterwards. -/
theorem SetConst_nil_then_Set :
    ((NewEnvironment.SetConst "k" Object.nil).1.Set "k" (Object.Integer 2)).map
        (fun p => (p.2, p.1.Get "k"))
      = .ok (Object.Integer 2, (Object.Integer 2, true)) := by
  simp [NewEnvironment, Environment.SetConst, Environment.Set, mapSet, Object.isNil,
    Environment.Get, Except.map]

/-- C3 (counterexample): `k` is a constant of the root scope with value 1; in a
function-call scope enclosed in the root, `Set k 2` does not exit: it returns 2, and
`Get k` seen from that scope then returns 2, not the constant's value. -/
theorem constant_shadowed_in_enclosed_scope :
    ((NewEnclosedEnvironment (NewEnvironment.SetConst "k" (Object.Integer 1)).1).Set "k"
        (Object.Integer 2)).map (fun p => (p.2, p.1.Get "k", p.1.outer.Get "k"))
      = .ok (Object.Integer 2, (Object.Integer 2, true), (Object.Integer 1, true)) := by
  simp [NewEnclosedEnvironment, NewEnvironment, Environment.SetConst, Environment.Set, mapSet,
    Object.isNil, Environment.Get, Environment.outer, Except.map]

/-- C3 (amended): let `S`, the scope reached from `d` by following `outer` `j`
times, hold `k` as a constant with a value other than nil.  Then `Set k w` on `d`
either exits with code 3, or completes by binding `k` to `w` in a scope nearer than
`S` (the first one that is plain or has `k` on its permit list) without touching `S`,
where `Get k` still returns the constant's value; and it does exit with code 3
whenever each of the `j` scopes between `d` and `S` is a temporary scope whose
non-empty permit list lacks `k`. -/
theorem constant_kept_in_defining_scope (d : Environment) (j : Nat)
    (store : String → Option Object) (readonly : String → Bool) (outer : Environment)
    (permit : List String) (k : String) (c w : Object)
    (hS : d.nthOuter j = .mk store readonly outer permit)
    (hc : store k = some c) (hnil : c.isNil = false) (hro : readonly k = true) :
    (d.Set k w = .error (.exit 3) ∨
      ∃ d', d.Set k w = .ok (d', w) ∧ d'.nthOuter j = .mk store readonly outer permit ∧
        (d'.nthOuter j).Get k = (c, true) ∧
        ∃ i, i < j ∧ d.target k = some i ∧ d'.storeAt i k = some w) ∧
    (d.bubbles k j = true → d.Set k w = .error (.exit 3)) := by
  induction j generalizing d with
  | zero =>
    simp only [Environment.nthOuter] at hS
    subst hS
    have : (Environment.mk store readonly outer permit).Set k w = .error (.exit 3) := by
      simp [Set_mk, hc, hnil, hro]
    exact ⟨Or.inl this, fun _ => this⟩
  | succ j ih =>
    cases d with
    | nil => simp [Environment.nthOuter] at hS
    | mk st ro o p =>
      simp only [Environment.nthOuter] at hS
      obtain ⟨ih1, ih2⟩ := ih o hS
      have hget : (Environment.mk store readonly outer permit).Get k = (c, true) := by
        simp [Environment.Get, hc]
      have ho : o.isNil = false := by
        cases o with
        | nil => cases j <;> simp [Environment.nthOuter] at hS
        | mk _ _ _ _ => rfl
      rw [Set_mk]
      refine ⟨?_, ?_⟩
      · split
        · exact Or.inl rfl
        · split
          · rename_i hl
            right
            exact ⟨_, rfl, by simpa [Environment.nthOuter] using hS,
              by simp [Environment.nthOuter, hS, hget],
              0, Nat.succ_pos j, by simp [Environment.target, hl],
              by simp [Environment.storeAt, Environment.nthOuter, Environment.ownStore, mapSet]⟩
          · rename_i hl
            simp only [ho, Bool.false_eq_true, if_false]
            rcases ih1 with h3 | ⟨o', h3, h4, _, i, hi1, hi2, hi3⟩
            · left; simp [h3, Except.map]
            · right
              refine ⟨.mk st ro o' p, by simp [h3, Except.map], ?_, ?_, i + 1, by omega, ?_, ?_⟩
              · simpa [Environment.nthOuter] using h4
              · simp [Environment.nthOuter, h4, hget]
              · simp [Environment.target, hl, hi2]
              · simpa [Environment.storeAt, Environment.nthOuter] using hi3
      · intro hb
        simp only [Environment.bubbles, Bool.and_eq_true, Bool.not_eq_true'] at hb
        split
        · rfl
        · simp [hb.1, ho, ih2 hb.2, Except.map]

/-- C3 (witness): the theorem at the temporary scope of an `if` over a root that
holds `k` as the constant 1: the assignment `k = 2` made there exits with code 3. -/
theorem constant_kept_in_defining_scope_witness :
    (NewTemporaryScope (NewEnvironment.SetConst "k" (Object.Integer 1)).1 ifPermit).nthOuter 1
        = .mk (mapSet (fun _ => none) "k" (some (Object.Integer 1)))
            (mapSet (fun _ => false) "k" true) .nil [] ∧
      mapSet (fun _ => none) "k" (some (Object.Integer 1)) "k" = some (Object.Integer 1) ∧
      (Object.Integer 1).isNil = false ∧
      mapSet (fun _ => false) "k" true "k" = true ∧
      (NewTemporaryScope (NewEnvironment.SetConst "k" (Object.Integer 1)).1 ifPermit).Set "k"
        (Object.Integer 2) = .error (.exit 3) :=
  ⟨rfl, by simp [mapSet], rfl, by simp [mapSet],
    (constant_kept_in_defining_scope
      (NewTemporaryScope (NewEnvironment.SetConst "k" (Object.Integer 1)).1 ifPermit) 1
      (mapSet (fun _ => none) "k" (some (Object.Integer 1))) (mapSet (fun _ => false) "k" true)
      .nil [] "k" (Object.Integer 1) (Object.Integer 2) rfl (by simp [mapSet]) rfl
      (by simp [mapSet])).2 (by decide)⟩

/-- Where a completed `Set` has written: in the first scope that is plain or has
the name on its permit list, and nowhere else. -/
theorem Set_effect (d : Environment) (x : String) (v : Object) (d' : Environment) (r : Object)
    (h : d.Set x v = .ok (d', r)) :
    ∃ j, d.target x = some j ∧ d'.storeAt j x = some v ∧
      ∀ i n, (i ≠ j ∨ n ≠ x) → d'.storeAt i n = d.storeAt i n := by
  induction d generalizing d' r with
  | nil => simp [Environment.Set] at h
  | mk store readonly outer permit ih =>
    obtain ⟨_, h2 | h2⟩ := Set_ok_cases _ _ _ _ _ _ _ _ h
    · obtain ⟨hl, he, _⟩ := h2
      subst he
      refine ⟨0, by simp [Environment.target, hl], by
        simp [Environment.storeAt, Environment.nthOuter, Environment.ownStore, mapSet], ?_⟩
      intro i n hin
      cases i with
      | zero =>
        have hn : n ≠ x := by
          rcases hin with h0 | h0
          · exact absurd rfl h0
          · exact h0
        simp [Environment.storeAt, Environment.nthOuter, Environment.ownStore, mapSet, hn]
      | succ i => simp [Environment.storeAt, Environment.nthOuter]
    · obtain ⟨hl, o', ho, he⟩ := h2
      subst he
      obtain ⟨j, hj1, hj2, hj3⟩ := ih o' r ho
      refine ⟨j + 1, by simp [Environment.target, hl, hj1], by
        simpa [Environment.storeAt, Environment.nthOuter] using hj2, ?_⟩
      intro i n hin
      cases i with
      | zero => simp [Environment.storeAt, Environment.nthOuter, Environment.ownStore]
      | succ i =>
        have hin' : i ≠ j ∨ n ≠ x := by
          rcases hin with h0 | h0
          · left; intro hij; exact h0 (by rw [hij])
          · exact Or.inr h0
        simpa [Environment.storeAt, Environment.nthOuter] using hj3 i n hin'

/-- A `Set` completes when no scope of the chain marks the name read-only and some
scope is plain or has the name on its permit list. -/
theorem Set_completes (d : Environment) (x : String) (v : Object) (j : Nat)
    (hc : d.hasConst x = false) (ht : d.target x = some j) :
    ∃ d', d.Set x v = .ok (d', v) := by
  induction d generalizing j with
  | nil => simp [Environment.target] at ht
  | mk store readonly outer permit ih =>
    simp only [Environment.hasConst, Bool.or_eq_false_iff] at hc
    rw [Set_mk]
    simp only [hc.1, Bool.and_false, Bool.false_eq_true, if_false]
    simp only [Environment.target] at ht
    split
    · exact ⟨_, rfl⟩
    · rename_i hl
      simp only [hl, if_false] at ht
      cases ho : outer.target x with
      | none => simp [ho] at ht
      | some j' =>
        obtain ⟨o', ho'⟩ := ih j' hc.2 ho
        have hn : outer.isNil = false := by
          cases outer with
          | nil => simp [Environment.target] at ho
          | mk _ _ _ _ => rfl
        exact ⟨.mk store readonly o' permit, by simp [hn, ho', Except.map]⟩

/-- C4 (counterexample): the root scope binds `x` to 1; the assignment `x = 2`
evaluated in a function-call scope enclosed in the root (strict pragma unset) binds
`x` in that scope and leaves the root's binding at 1, though the root is the nearest
scope that already binds `x`. -/
theorem assignment_lands_in_current_scope :
    (NewEnvironment.Set "x" (Object.Integer 1) >>= fun root =>
      (evalAssignStatement (Eval noPragmas builtins noInfix 1) noInfix noPragmas "x" "="
        (.IntegerLiteral 2) (NewEnclosedEnvironment root.1)).map
        (fun p => (p.1, p.2.storeAt 0 "x", p.2.storeAt 1 "x")))
      = .ok (Object.Integer 2, some (Object.Integer 2), some (Object.Integer 1)) := by
  simp [evalAssignStatement, Eval, isError, Type_, noPragmas, NewEnclosedEnvironment,
    NewEnvironment, Environment.Set, mapSet, Object.isNil, Environment.storeAt,
    Environment.nthOuter, Environment.ownStore, Except.map, bind, Except.bind]

/-- C4 (amended): with the strict pragma unset, let the right-hand side of `x = E`
evaluate in `d` to a value `v` that is not an Error, leaving the environment `d1`.
If the assignment completes, it returns `v` and has bound `x` to `v` in the first
scope, counting outward from the current one, that is plain or has `x` on its permit
list — whether or not any scope bound `x` before — and no other binding of any scope
has changed.  It completes whenever such a scope exists and no scope marks `x`
read-only. -/
theorem assignment_target (Eval : Evaluator)
    (evalInfixExpression : String → Object → Object → Environment → Result)
    (PRAGMAS : String → Int) (x : String) (E : Node) (d d1 : Environment) (v : Object)
    (hstrict : PRAGMAS "strict" ≠ 1) (hE : Eval E d = .ok (v, d1)) (hv : isError v = false) :
    (∀ r d', evalAssignStatement Eval evalInfixExpression PRAGMAS x "=" E d = .ok (r, d') →
      r = v ∧ ∃ j, d1.target x = some j ∧ d'.storeAt j x = some v ∧
        ∀ i n, (i ≠ j ∨ n ≠ x) → d'.storeAt i n = d1.storeAt i n) ∧
    (∀ j, d1.hasConst x = false → d1.target x = some j →
      ∃ d', evalAssignStatement Eval evalInfixExpression PRAGMAS x "=" E d = .ok (v, d')) := by
  have hunf : evalAssignStatement Eval evalInfixExpression PRAGMAS x "=" E d =
      match d1.Set x v with
      | .error a => .error a
      | .ok (env2, _) => .ok (v, env2) := by
    simp [evalAssignStatement, hE, hv, hstrict]
  rw [hunf]
  constructor
  · intro r d' h
    cases hs : d1.Set x v with
    | error a => simp [hs] at h
    | ok pr =>
      obtain ⟨e2, r2⟩ := pr
      simp only [hs, Except.ok.injEq, Prod.mk.injEq] at h
      obtain ⟨h1, h2⟩ := h
      subst h2
      exact ⟨h1.symm, Set_effect d1 x v e2 r2 hs⟩
  · intro j hc ht
    obtain ⟨d', hd'⟩ := Set_completes d1 x v j hc ht
    exact ⟨d', by simp [hd']⟩

/-- C4 (witness): the assignment `x = 2` in the temporary scope of an `if` over a
fresh root, where no scope binds `x`: it completes. -/
theorem assignment_target_witness :
    noPragmas "strict" ≠ 1 ∧
      Eval noPragmas builtins noInfix 1 (.IntegerLiteral 2)
          (NewTemporaryScope NewEnvironment ifPermit)
        = .ok (Object.Integer 2, NewTemporaryScope NewEnvironment ifPermit) ∧
      isError (Object.Integer 2) = false ∧
      ∃ d', evalAssignStatement (Eval noPragmas builtins noInfix 1) noInfix noPragmas "x" "="
          (.IntegerLiteral 2) (NewTemporaryScope NewEnvironment ifPermit)
        = .ok (Object.Integer 2, d') :=
  ⟨by decide, rfl, rfl,
    (assignment_target (Eval noPragmas builtins noInfix 1) noInfix noPragmas "x"
      (.IntegerLiteral 2) (NewTemporaryScope NewEnvironment ifPermit)
      (NewTemporaryScope NewEnvironment ifPermit) (Object.Integer 2)
      (by decide) rfl rfl).2 1 (by decide) (by decide)⟩

/-- C5: let `t` be a temporary scope with the non-empty permit list `P` and the
non-nil outer scope `o`, and `n` a name that `t` does not mark read-only.  If `n` is
on `P`, `Set n v` binds `n` to `v` in the store of `t` and leaves `o` as it is; if `n`
is not on `P`, `Set n v` leaves the store of `t` as it is and does to `o`, and returns
or aborts with, exactly what `o.Set n v` does. -/
theorem temporary_scope_Set (store : String → Option Object) (readonly : String → Bool)
    (o : Environment) (P : List String) (n : String) (v : Object)
    (hP : P ≠ []) (ho : o.isNil = false) (hn : readonly n = false) :
    (n ∈ P → (Environment.mk store readonly o P).Set n v
        = .ok (.mk (mapSet store n (some v)) readonly o P, v)) ∧
    (n ∉ P → (Environment.mk store readonly o P).Set n v
        = (o.Set n v).map (fun p => (.mk store readonly p.1 P, p.2))) := by
  have hlen : ¬ P.length = 0 := fun h0 => hP (List.length_eq_zero.mp h0)
  constructor
  · intro hmem
    simp [Set_mk, hn, landsHere, hmem]
  · intro hmem
    simp [Set_mk, hn, landsHere, hmem, hlen, ho]

/-- C5 (witness): the temporary scope of an `if` over a fresh root; the capture name
`$1` is bound in the temporary scope, the name `x` in the root. -/
theorem temporary_scope_Set_witness :
    ifPermit ≠ [] ∧ NewEnvironment.isNil = false ∧
      (NewTemporaryScope NewEnvironment ifPermit).Set "$1" (Object.Integer 7)
        = .ok (.mk (mapSet (fun _ => none) "$1" (some (Object.Integer 7))) (fun _ => false)
            NewEnvironment ifPermit, Object.Integer 7) ∧
      (NewTemporaryScope NewEnvironment ifPermit).Set "x" (Object.Integer 7)
        = (NewEnvironment.Set "x" (Object.Integer 7)).map
            (fun p => (.mk (fun _ => none) (fun _ => false) p.1 ifPermit, p.2)) :=
  ⟨by decide, rfl,
    (temporary_scope_Set (fun _ => none) (fun _ => false) NewEnvironment ifPermit "$1"
      (Object.Integer 7) (by decide) rfl rfl).1 (by decide),
    (temporary_scope_Set (fun _ => none) (fun _ => false) NewEnvironment ifPermit "x"
      (Object.Integer 7) (by decide) rfl rfl).2 (by decide)⟩

end EnvironmentTheorems

/-! ## The range operator -/

section RangeTheorems

open object ast evaluator

theorem wrap64_of_range (x : Int) (h1 : -2 ^ 63 ≤ x) (h2 : x < 2 ^ 63) : wrap64 x = x := by
  unfold wrap64
  omega

theorem rangeLoop_length (n : Nat) (l : Int) : (rangeLoop n l).length = n := by
  induction n generalizing l with
  | zero => rfl
  | succ n ih => simp [rangeLoop, ih]

theorem rangeLoop_getElem? (n : Nat) (l : Int) (i : Nat) (hi : i < n)
    (h1 : -2 ^ 63 ≤ l) (h2 : l + i < 2 ^ 63) :
    (rangeLoop n l)[i]? = some (Object.Integer (l + i)) := by
  induction n generalizing l i with
  | zero => omega
  | succ n ih =>
    cases i with
    | zero => simp [rangeLoop]
    | succ i =>
      have hw : wrap64 (l + 1) = l + 1 := wrap64_of_range _ (by omega) (by push_cast at h2; omega)
      simp only [rangeLoop, List.getElem?_cons_succ, hw]
      rw [ih (l + 1) i (by omega) (by omega) (by push_cast at h2 ⊢; omega)]
      congr 2
      push_cast
      ring

/-- C6 (counterexample): for `lo = -2^63` and `hi = 2^63 - 1` the length
`int(hi - lo) + 1` computed in 64 bits is 0, and `lo..hi` is the empty Array: it has
neither `hi - lo + 1` elements nor a first element `lo`. -/
theorem range_of_all_integers_is_empty :
    evalIntegerInfixExpression (fun _ _ => 0) ".." (Object.Integer (-2 ^ 63))
        (Object.Integer (2 ^ 63 - 1))
      = .ok (Object.Array [] 0) := by
  simp [evalIntegerInfixExpression, wrap64, rangeLoop]

/-- C6 (amended): for all signed 64-bit integers `lo ≤ hi` whose distance
`hi - lo + 1` is itself below `2^63`, `lo..hi` on two Integers returns an Array of
exactly `hi - lo + 1` elements, the `i`-th being Integer `lo + i`; its first element
is `lo` and its last `hi`. -/
theorem range_elements (pow : Int → Int → Int) (lo hi : Int)
    (hlo : -2 ^ 63 ≤ lo) (hhi : hi < 2 ^ 63) (hle : lo ≤ hi) (hlen : hi - lo + 1 < 2 ^ 63) :
    ∃ elements : List Object,
      evalIntegerInfixExpression pow ".." (Object.Integer lo) (Object.Integer hi)
        = .ok (Object.Array elements 0) ∧
      (elements.length : Int) = hi - lo + 1 ∧
      (∀ i : Nat, i < elements.length → elements[i]? = some (Object.Integer (lo + i))) ∧
      elements.head? = some (Object.Integer lo) ∧
      elements.getLast? = some (Object.Integer hi) := by
  have hw1 : wrap64 (hi - lo) = hi - lo := wrap64_of_range _ (by omega) (by omega)
  have hw2 : wrap64 (hi - lo + 1) = hi - lo + 1 := wrap64_of_range _ (by omega) (by omega)
  have hlenN : ((hi - lo + 1).toNat : Int) = hi - lo + 1 := Int.toNat_of_nonneg (by omega)
  refine ⟨rangeLoop (hi - lo + 1).toNat lo, ?_, ?_, ?_, ?_, ?_⟩
  · have hnn : ¬ (hi - lo + 1 < 0) := by omega
    simp [evalIntegerInfixExpression, hw1, hw2, hnn]
  · rw [rangeLoop_length, hlenN]
  · intro i hi'
    rw [rangeLoop_length] at hi'
    exact rangeLoop_getElem? _ lo i hi' hlo (by omega)
  · have h0 := rangeLoop_getElem? (hi - lo + 1).toNat lo 0 (by omega) hlo (by omega)
    rw [List.head?_eq_getElem?]
    simpa using h0
  · have hpos : 0 < (hi - lo + 1).toNat := by omega
    have hl := rangeLoop_getElem? (hi - lo + 1).toNat lo ((hi - lo + 1).toNat - 1)
      (by omega) hlo (by omega)
    rw [List.getLast?_eq_getElem?, rangeLoop_length, hl]
    congr 2
    omega

/-- C6 (witness): the range `3..6` is the Array of 3, 4, 5, 6. -/
theorem range_elements_witness :
    (-2 ^ 63 : Int) ≤ 3 ∧ (6 : Int) < 2 ^ 63 ∧ (3 : Int) ≤ 6 ∧ (6 : Int) - 3 + 1 < 2 ^ 63 ∧
      ∃ elements : List Object,
        evalIntegerInfixExpression (fun _ _ => 0) ".." (Object.Integer 3) (Object.Integer 6)
          = .ok (Object.Array elements 0) ∧
        (elements.length : Int) = 6 - 3 + 1 ∧
        (∀ i : Nat, i < elements.length → elements[i]? = some (Object.Integer (3 + i))) ∧
        elements.head? = some (Object.Integer 3) ∧
        elements.getLast? = some (Object.Integer 6) :=
  ⟨by norm_num, by norm_num, by norm_num, by norm_num,
    range_elements (fun _ _ => 0) 3 6 (by norm_num) (by norm_num) (by norm_num) (by norm_num)⟩

end RangeTheorems

/-! ## Iterators and `foreach` -/

section IteratorTheorems

open object ast evaluator

theorem String_Next_lt (s : String) (j : Nat) (h : j < s.length) :
    String_Next s j
      = ((Object.String (String.singleton (s.data.get ⟨j, h⟩)) 0, Object.Integer j, true),
          j + 1) := by
  simp [String_Next, h]

theorem String_Next_ge (s : String) (j : Nat) (h : s.length ≤ j) :
    String_Next s j = ((Object.nil, Object.Integer 0, false), j) := by
  have : ¬ j < s.length := by omega
  simp [String_Next, this]

theorem nextN_String (s : String) (k j : Nat) (h : j + k ≤ s.length) :
    nextN k (Object.String s j) = some (Object.String s (j + k)) := by
  induction k generalizing j with
  | zero => rfl
  | succ k ih =>
    have hj : j < s.length := by omega
    simp only [nextN, Object.Next, String_Next_lt s j hj, Option.some_bind]
    rw [ih (j + 1) (by omega)]
    congr 2
    omega

theorem drain_String (s : String) (fuel j : Nat) (h : s.length < j + fuel) :
    drain fuel (Object.String s j)
      = (s.data.drop j).map (fun c => Object.String (String.singleton c) 0) := by
  induction fuel generalizing j with
  | zero =>
    have : s.data.length ≤ j := by
      have : s.length = s.data.length := rfl
      omega
    simp [drain, List.drop_eq_nil_of_le this]
  | succ fuel ih =>
    by_cases hj : j < s.length
    · have hj' : j < s.data.length := hj
      have hd := List.drop_eq_getElem_cons hj'
      simp only [drain, Object.Next, String_Next_lt s j hj]
      rw [ih (j + 1) (by omega), hd, List.map_cons]
      rfl
    · have hge : s.data.length ≤ j := by
        have : s.length = s.data.length := rfl
        omega
      simp [drain, Object.Next, String_Next_ge s j (by omega), List.drop_eq_nil_of_le hge]

theorem concatValues_singletons (l : List Char) :
    concatValues (l.map (fun c => Object.String (String.singleton c) 0)) = String.mk l := by
  induction l with
  | nil => rfl
  | cons c l ih =>
    simp only [List.map_cons, concatValues, ih]
    apply String.ext
    simp [String.singleton]

/-- C8: for every String `s` of `n` code points, whatever its cursor was: `Reset`
puts the cursor at 0; after it the `k`-th call of `Next` (`k = 0..n-1`) returns a
String holding exactly the `k`-th code point of `s`, the Integer `k` and
`has_more = true`; the call after these returns `has_more = false`; so exactly `n`
strings are yielded, and their concatenation is `s`. -/
theorem string_iteration (s : String) (offset : Nat) :
    (Object.String s offset).Reset = some (Object.String s 0) ∧
    (∀ (k : Nat) (hk : k < s.length),
      nextN k (Object.String s 0) = some (Object.String s k) ∧
      (Object.String s k).Next
        = some ((Object.String (String.singleton (s.data.get ⟨k, hk⟩)) 0, Object.Integer k,
            true), Object.String s (k + 1))) ∧
    (nextN s.length (Object.String s 0) = some (Object.String s s.length) ∧
      (Object.String s s.length).Next
        = some ((Object.nil, Object.Integer 0, false), Object.String s s.length)) ∧
    (drain (s.length + 1) (Object.String s 0)).length = s.length ∧
    concatValues (drain (s.length + 1) (Object.String s 0)) = s := by
  refine ⟨rfl, ?_, ?_, ?_, ?_⟩
  · intro k hk
    refine ⟨by simpa using nextN_String s k 0 (by omega), ?_⟩
    simp [Object.Next, String_Next_lt s k hk]
  · refine ⟨by simpa using nextN_String s s.length 0 (by omega), ?_⟩
    simp [Object.Next, String_Next_ge s s.length (le_refl _)]
  · rw [drain_String s _ 0 (by omega)]
    show _ = s.data.length
    simp
  · rw [drain_String s _ 0 (by omega)]
    simp [concatValues_singletons]

end IteratorTheorems

/-! ## Call environments -/

section CallTheorems

open object ast evaluator

/-- On a plain scope without read-only marks `Set` binds the name in that scope. -/
theorem Set_plain (store : String → Option Object) (outer : Environment) (name : String)
    (val : Object) :
    (Environment.mk store (fun _ => false) outer []).Set name val
      = .ok (.mk (mapSet store name (some val)) (fun _ => false) outer [], val) := by
  simp [Set_mk, landsHere]

/-- The first loop of `extendFunctionEnv` when every default evaluates, without
writing, to a value that depends on its parameter only. -/
theorem setDefaults_pure (Eval : Evaluator) (Env : Environment) (value : String → Object)
    (keys : List String) (defaults : List (String × Node)) (store : String → Option Object)
    (hsub : ∀ k d, (k, d) ∈ defaults → k ∈ keys)
    (hstore : ∀ n, store n ≠ none → n ∈ keys)
    (hpure : ∀ k d, (k, d) ∈ defaults → ∀ st : String → Option Object,
      (∀ n, st n ≠ none → n ∈ keys) →
      Eval d (.mk st (fun _ => false) Env []) = .ok (value k, .mk st (fun _ => false) Env [])) :
    ∃ store', setDefaults Eval defaults (.mk store (fun _ => false) Env [])
        = .ok (.mk store' (fun _ => false) Env []) ∧
      ∀ n, store' n = if n ∈ defaults.map Prod.fst then some (value n) else store n := by
  induction defaults generalizing store with
  | nil => exact ⟨store, rfl, by simp⟩
  | cons kd rest ih =>
    obtain ⟨k, d⟩ := kd
    have hk : k ∈ keys := hsub k d (by simp)
    have hstore' : ∀ n, mapSet store k (some (value k)) n ≠ none → n ∈ keys := by
      intro n hn
      by_cases hnk : n = k
      · rw [hnk]; exact hk
      · exact hstore n (by simpa [mapSet, hnk] using hn)
    obtain ⟨store', h1, h2⟩ := ih (mapSet store k (some (value k)))
      (fun k' d' hm => hsub k' d' (by simp [hm])) hstore'
      (fun k' d' hm => hpure k' d' (by simp [hm]))
    refine ⟨store', ?_, ?_⟩
    · simp only [setDefaults, hpure k d (by simp) store hstore, Set_plain]
      exact h1
    · intro n
      rw [h2 n]
      by_cases hnk : n = k
      · subst hnk
        simp [mapSet]
      · have hiff : n ∈ List.map Prod.fst ((k, d) :: rest) ↔ n ∈ List.map Prod.fst rest := by
          simp [hnk]
        by_cases hm : n ∈ List.map Prod.fst rest
        · rw [if_pos hm, if_pos (hiff.mpr hm)]
        · rw [if_neg hm, if_neg (fun h => hm (hiff.mp h))]
          simp [mapSet, hnk]

/-- The second loop of `extendFunctionEnv` on a plain scope without read-only
marks: parameter `paramIdx + i` receives argument `paramIdx + i` when there is one
and keeps its binding otherwise; other names keep theirs. -/
theorem setParams_plain (args : List Object) (Env : Environment) (params : List String)
    (paramIdx : Nat) (store : String → Option Object) (hnd : params.Nodup) :
    ∃ store', setParams args params paramIdx (.mk store (fun _ => false) Env [])
        = .ok (.mk store' (fun _ => false) Env []) ∧
      (∀ n, n ∉ params → store' n = store n) ∧
      ∀ (i : Nat) (hi : i < params.length),
        store' params[i] = if h : paramIdx + i < args.length then some args[paramIdx + i]
          else store params[i] := by
  induction params generalizing paramIdx store with
  | nil => exact ⟨store, rfl, fun _ _ => rfl, fun i hi => by simp at hi⟩
  | cons p rest ih =>
    have hp : p ∉ rest := (List.nodup_cons.mp hnd).1
    have hr : rest.Nodup := (List.nodup_cons.mp hnd).2
    by_cases hlt : paramIdx < args.length
    · obtain ⟨store', h1, h2, h3⟩ := ih (paramIdx + 1) (mapSet store p (some args[paramIdx])) hr
      refine ⟨store', ?_, ?_, ?_⟩
      · simp only [setParams, hlt, dif_pos, Set_plain]
        exact h1
      · intro n hn
        have hn1 : n ≠ p := fun h => hn (by simp [h])
        have hn2 : n ∉ rest := fun h => hn (by simp [h])
        rw [h2 n hn2]
        simp [mapSet, hn1]
      · intro i hi
        cases i with
        | zero =>
          simp only [List.getElem_cons_zero, Nat.add_zero, hlt, dif_pos]
          rw [h2 p hp]
          simp [mapSet]
        | succ i =>
          have hi' : i < rest.length := by simpa using hi
          have h := h3 i hi'
          have hne : rest[i] ≠ p := fun h => hp (h ▸ List.getElem_mem hi')
          simp only [List.getElem_cons_succ]
          rw [h]
          have heq : paramIdx + 1 + i = paramIdx + (i + 1) := by omega
          simp only [heq, mapSet, hne, if_false]
    · obtain ⟨store', h1, h2, h3⟩ := ih (paramIdx + 1) store hr
      refine ⟨store', ?_, ?_, ?_⟩
      · simp only [setParams, hlt, dif_neg, not_false_eq_true]
        exact h1
      · intro n hn
        exact h2 n (fun h => hn (by simp [h]))
      · intro i hi
        cases i with
        | zero =>
          simp only [List.getElem_cons_zero, Nat.add_zero, hlt, dif_neg, not_false_eq_true]
          exact h2 p hp
        | succ i =>
          have hi' : i < rest.length := by simpa using hi
          have h := h3 i hi'
          simp only [List.getElem_cons_succ]
          rw [h]
          have heq : paramIdx + 1 + i = paramIdx + (i + 1) := by omega
          simp only [heq]

/-- C9 (counterexample): `FN(x, y = x = 7) { }` called without arguments.  What
`y` has as its default is an assignment, evaluated in the new scope: afterwards `x`,
which got no argument and has no default, is bound (to 7) in the new scope. -/
theorem default_binds_other_parameter :
    (extendFunctionEnv (Eval noPragmas builtins noInfix 3) assigningDefault []).map
        (fun e => (e.ownStore "x", e.ownStore "y"))
      = .ok (some (Object.Integer 7), some (Object.Integer 7)) := by
  simp [extendFunctionEnv, setDefaults, setParams, assigningDefault, Eval, evalAssignStatement,
    isError, Type_, noPragmas, NewEnclosedEnvironment, NewEnvironment, Environment.Set, mapSet,
    Object.isNil, Environment.ownStore, Except.map]

/-- C9 (amended): let the parameter names of a Function be pairwise distinct, and
let each default expression evaluate in the new scope — in whatever state of it that
binds default-carrying names only — to one value, `value p` for the default of `p`,
leaving the environment as it was.  Then for every argument list `extendFunctionEnv`
returns a new plain scope enclosing the captured environment in which parameter `i`
is bound to argument `i` when there is one (arguments beyond the last parameter are
ignored) and otherwise to the value of its default if it has one, being unbound if it
has none; no name that is neither a parameter nor carries a default is bound. -/
theorem call_environment (Eval : Evaluator) (fn : Function) (args : List Object)
    (value : String → Object) (hnd : fn.Parameters.Nodup)
    (hpure : ∀ k d, (k, d) ∈ fn.Defaults → ∀ st : String → Option Object,
      (∀ n, st n ≠ none → n ∈ fn.Defaults.map Prod.fst) →
      Eval d (.mk st (fun _ => false) fn.Env [])
        = .ok (value k, .mk st (fun _ => false) fn.Env [])) :
    ∃ store, extendFunctionEnv Eval fn args = .ok (.mk store (fun _ => false) fn.Env []) ∧
      (∀ (i : Nat) (hi : i < fn.Parameters.length),
        store fn.Parameters[i] =
          if h : i < args.length then some args[i]
          else if fn.Parameters[i] ∈ fn.Defaults.map Prod.fst then
            some (value fn.Parameters[i])
          else none) ∧
      (∀ n, n ∉ fn.Parameters → n ∉ fn.Defaults.map Prod.fst → store n = none) := by
  obtain ⟨st1, h1, h2⟩ := setDefaults_pure Eval fn.Env value (fn.Defaults.map Prod.fst)
    fn.Defaults (fun _ => none)
    (fun k d hm => List.mem_map.mpr ⟨(k, d), hm, rfl⟩) (fun n hn => absurd rfl hn) hpure
  obtain ⟨st2, h3, h4, h5⟩ := setParams_plain args fn.Env fn.Parameters 0 st1 hnd
  refine ⟨st2, ?_, ?_, ?_⟩
  · simp only [extendFunctionEnv, NewEnclosedEnvironment, h1]
    exact h3
  · intro i hi
    have h := h5 i hi
    simp only [Nat.zero_add] at h
    rw [h]
    by_cases hlt : i < args.length
    · simp [hlt]
    · simp only [hlt, dif_neg, not_false_eq_true]
      exact h2 _
  · intro n hn1 hn2
    rw [h4 n hn1, h2 n, if_neg hn2]

/-- C9 (witness): `FN(n, m = 3)` called with the one argument 4, as in the third
scenario of the specification: `n` is bound to 4 and `m` to 3. -/
theorem call_environment_witness :
    addDefault.Parameters.Nodup ∧
      ∃ store, extendFunctionEnv (Eval noPragmas builtins noInfix 1) addDefault [Object.Integer 4]
          = .ok (.mk store (fun _ => false) addDefault.Env []) ∧
        (∀ (i : Nat) (hi : i < addDefault.Parameters.length),
          store addDefault.Parameters[i] =
            if h : i < [Object.Integer 4].length then some [Object.Integer 4][i]
            else if addDefault.Parameters[i] ∈ addDefault.Defaults.map Prod.fst then
              some ((fun _ => Object.Integer 3) addDefault.Parameters[i])
            else none) ∧
        (∀ n, n ∉ addDefault.Parameters → n ∉ addDefault.Defaults.map Prod.fst →
          store n = none) :=
  ⟨by decide,
    call_environment (Eval noPragmas builtins noInfix 1) addDefault [Object.Integer 4]
      (fun _ => Object.Integer 3) (by decide)
      (by
        intro k d hm st _
        simp only [addDefault, List.mem_singleton, Prod.mk.injEq] at hm
        obtain ⟨_, hd⟩ := hm
        subst hd
        rfl)⟩

/-- C10 (counterexample): `FN(a, b = a) { }`, defined at top level, called with the
single argument 7: the call environment binds `a` to 7 and `b` to the Error
`identifier not found: a`, not to 7. -/
theorem default_misses_earlier_parameter :
    (extendFunctionEnv (Eval noPragmas builtins noInfix 1)
        (earlierParam "a" "b" NewEnvironment) [Object.Integer 7]).map
        (fun e => (e.ownStore "a", e.ownStore "b"))
      = .ok (some (Object.Integer 7), some (Object.Error "identifier not found: a")) := by
  have hb : builtins "a" = none := by simp [builtins, builtinNames]
  simp [extendFunctionEnv, setDefaults, setParams, earlierParam, Eval, evalIdentifier, hb,
    noPragmas, NewEnclosedEnvironment, NewEnvironment, Environment.Set, Environment.Get, mapSet,
    Object.isNil, Environment.ownStore, Except.map]

/-- C10 (amended): a default-value expression is evaluated before any argument is
bound, so it cannot see the value passed for an earlier parameter.  For every
function `FN(a, b = a) { ... }` with `a` bound neither in the captured environment
nor as a builtin, called with a single argument `v`: with the strict pragma unset
the call environment binds `a` to `v` and `b` to the Error `identifier not found: a`;
with the strict pragma set the process exits with code 1. -/
theorem default_evaluated_before_arguments (PRAGMAS : String → Int)
    (builtins : String → Option Object)
    (evalInfixExpression : String → Object → Object → Environment → Result)
    (fuel : Nat) (a b : String) (Env : Environment) (v : Object)
    (hab : a ≠ b) (hEnv : (Env.Get a).2 = false) (hbi : builtins a = none) :
    (PRAGMAS "strict" ≠ 1 →
      ∃ store, extendFunctionEnv (Eval PRAGMAS builtins evalInfixExpression (fuel + 1))
          (earlierParam a b Env) [v] = .ok (.mk store (fun _ => false) Env []) ∧
        store a = some v ∧ store b = some (Object.Error ("identifier not found: " ++ a))) ∧
    (PRAGMAS "strict" = 1 →
      extendFunctionEnv (Eval PRAGMAS builtins evalInfixExpression (fuel + 1))
        (earlierParam a b Env) [v] = .error (.exit 1)) := by
  have hget : ∃ o, (Environment.mk (fun _ => none) (fun _ => false) Env []).Get a = (o, false) := by
    refine ⟨(Env.Get a).1, ?_⟩
    simp only [Environment.Get]
    exact Prod.ext rfl hEnv
  obtain ⟨o, ho⟩ := hget
  have hba : b ≠ a := fun h => hab h.symm
  constructor
  · intro hs
    refine ⟨mapSet (mapSet (fun _ => none) b
      (some (Object.Error ("identifier not found: " ++ a)))) a (some v), ?_, ?_, ?_⟩
    · simp [extendFunctionEnv, setDefaults, setParams, earlierParam, Eval, evalIdentifier,
        NewEnclosedEnvironment, ho, hbi, hs, Set_plain, Except.map]
    · simp [mapSet]
    · simp [mapSet, hba]
  · intro hs
    simp [extendFunctionEnv, setDefaults, earlierParam, Eval, evalIdentifier,
      NewEnclosedEnvironment, ho, hbi, hs, Except.map]

/-- C10 (witness): the function `FN(a, b = a) { }` defined at top level and called
with 7, the strict pragma unset. -/
theorem default_evaluated_before_arguments_witness :
    "a" ≠ "b" ∧ (NewEnvironment.Get "a").2 = false ∧ builtins "a" = none ∧
      noPragmas "strict" ≠ 1 ∧
      ∃ store, extendFunctionEnv (Eval noPragmas builtins noInfix (0 + 1))
          (earlierParam "a" "b" NewEnvironment) [Object.Integer 7]
          = .ok (.mk store (fun _ => false) NewEnvironment []) ∧
        store "a" = some (Object.Integer 7) ∧
        store "b" = some (Object.Error ("identifier not found: " ++ "a")) :=
  ⟨by decide, rfl, by simp [builtins, builtinNames], by decide,
    (default_evaluated_before_arguments noPragmas builtins noInfix 0 "a" "b" NewEnvironment
      (Object.Integer 7) (by decide) rfl (by simp [builtins, builtinNames])).1 (by decide)⟩

end CallTheorems

section ResultTheorems

open object ast evaluator

/-- C11: the program `RETURN IF (TRUE) { RETURN 1; };` evaluates to a `ReturnValue`
wrapper, the program `LET x = IF (TRUE) { RETURN 1; };` stores one under `x`, and a
call of `FN() { RETURN IF (TRUE) { RETURN 1; }; }` returns one: `RETURN` wraps the
wrapper it is handed, and the boundary unwraps once. -/
theorem return_value_escapes :
    (Eval noPragmas builtins noInfix 6 (.Program [.ReturnStatement returningIf])
        NewEnvironment).map (fun p => p.1) = .ok (.ReturnValue (.Integer 1)) ∧
    (Eval noPragmas builtins noInfix 6 (.Program [.LetStatement "x" returningIf])
        NewEnvironment).map (fun p => p.2.Get "x") = .ok (.ReturnValue (.Integer 1), true) ∧
    applyFunction (Eval noPragmas builtins noInfix 6) returningFunction [] =
      .ok (.ReturnValue (.Integer 1)) := by
  refine ⟨?_, ?_, ?_⟩
  · simp [Eval, evalProgram, evalIfExpression, evalBlockStatement, returningIf,
      nativeBoolToBooleanObject, isError, isTruthy, TRUE, Type_, Object.isNil,
      NewTemporaryScope, NewEnvironment, Environment.outer, Except.map]
  · have hx : "x" ∉ ifPermit := by decide
    simp [Eval, evalProgram, evalIfExpression, evalBlockStatement, returningIf,
      nativeBoolToBooleanObject, isError, isTruthy, TRUE, Type_, Object.isNil,
      NewTemporaryScope, NewEnvironment, Environment.outer, Except.map, Environment.Set,
      Environment.Get, mapSet, hx]
  · simp [applyFunction, extendFunctionEnv, setDefaults, setParams, returningFunction,
      upwrapReturnValue, Eval, evalIfExpression, evalBlockStatement, returningIf,
      nativeBoolToBooleanObject, isError, isTruthy, TRUE, Type_, Object.isNil,
      NewTemporaryScope, NewEnvironment, NewEnclosedEnvironment, Environment.outer, Except.map]

end ResultTheorems

section LoopTheorems

open object ast evaluator

/-- C13: with the strict pragma unset, the body `{ last = e; y; }` evaluates to an
Error in the first iteration of `foreach e in [1, 2]`, yet the loop runs the body for
the second element as well (`last` ends as 2) and returns a Null instead of the
Error; and `WHILE (TRUE) { y; }`, whose body evaluates to an Error in every
iteration, never returns: whatever the bound on the iterations, it is used up. -/
theorem loop_runs_past_error :
    (evalForeachExpression (plainBody (Eval noPragmas builtins noInfix 4) failingBody) "e" "" 3
        (.Array [.Integer 1, .Integer 2] 0) NewEnvironment).map
        (fun p => (p.1, p.2.1.Get "last")) = .ok (.Null true, .Integer 2, true) ∧
    ∀ fuel : Nat, evalForLoopExpression (Eval noPragmas builtins noInfix 3) (.Boolean true)
        unboundBody fuel NewEnvironment = .error .outOfFuel := by
  constructor
  · have h1 : builtins "y" = none := by simp [builtins, builtinNames]
    simp [evalForeachExpression, foreachLoop, plainBody, failingBody, Eval, evalBlockStatement,
      evalAssignStatement, evalIdentifier, noPragmas, h1, isError, Type_, Object.isNil,
      Object.Reset, Object.Next, Array_Next, NewTemporaryScope, NewEnvironment,
      Environment.Set, Environment.Get, Environment.isNil, Environment.outer, mapSet,
      Except.map]
  · intro fuel
    have h1 : builtins "y" = none := by simp [builtins, builtinNames]
    have hc : Eval noPragmas builtins noInfix 3 (.Boolean true) NewEnvironment =
        .ok (TRUE, NewEnvironment) := by
      simp [Eval, nativeBoolToBooleanObject]
    have hb : Eval noPragmas builtins noInfix 3 unboundBody NewEnvironment =
        .ok (.Error "identifier not found: y", NewEnvironment) := by
      simp [unboundBody, Eval, evalBlockStatement, evalIdentifier, noPragmas, h1, isError,
        Type_, Object.isNil, NewEnvironment, Environment.Get, Except.map]
    generalize Eval noPragmas builtins noInfix 3 = E at hc hb
    induction fuel with
    | zero => rfl
    | succ n ih =>
      rw [evalForLoopExpression]
      simp [hc, hb, ih, isError, isTruthy, TRUE, Type_, Object.isNil]

/-- C17: a `WHILE` whose condition is false returns the Boolean true that
`evalForLoopExpression` allocates on entry, not the canonical `TRUE`: compared with
`TRUE`, the identity test of `==` gives `FALSE` and that of `!=` gives `TRUE`, although
both operands are the Boolean true.  (`foreach` over an empty array returns a Null,
which is identical to `NULL`: `!` of it is `TRUE` and `isTruthy` of it is false.) -/
theorem loop_values_not_canonical :
    (evalForLoopExpression (Eval noPragmas builtins (evalInfixExpression sampleHost) 3)
        (.Boolean false) (.BlockStatement []) 1 NewEnvironment).bind
        (fun p => (evalInfixExpression sampleHost "==" p.1 TRUE p.2).bind
          (fun eq => (evalInfixExpression sampleHost "!=" p.1 TRUE p.2).map
            (fun ne => (p.1, eq.1, ne.1)))) =
      .ok (.Boolean true false, FALSE, TRUE) ∧
    (evalForeachExpression
        (plainBody (Eval noPragmas builtins (evalInfixExpression sampleHost) 3)
          (.BlockStatement []))
        "e" "" 1 (.Array [] 0) NewEnvironment).map
        (fun p => (p.1, evalBangOperatorExpression p.1, isTruthy p.1)) =
      .ok (.Null true, TRUE, false) := by
  constructor
  · rfl
  · rfl

end LoopTheorems

section TruthTheorems

open object ast evaluator

/-- The test `left.Type() == a && right.Type() == b` on two values that are not nil. -/
theorem andAlso_isType (l r : Object) (tl tr : String) (hl : Type_ l = some tl)
    (hr : Type_ r = some tr) (a b : String) :
    andAlso (isType l a) (isType r b) = some (decide (tl = a ∧ tr = b)) := by
  by_cases h : tl = a
  · by_cases h2 : tr = b <;> simp [andAlso, isType, hl, hr, h, h2]
  · have : (tl == a) = false := by simpa using h
    simp [andAlso, isType, hl, hr, h, this]

/-- The dispatch of `evalInfixExpression` once its five arithmetic cases are out of
the way. -/
theorem evalInfixExpression_other (host : Host) (operator : String) (l r : Object)
    (env : Environment) (tl tr : String) (hl : Type_ l = some tl) (hr : Type_ r = some tr)
    (hp : (tl, tr) ∉ arithmeticPairs) :
    evalInfixExpression host operator l r env =
      if operator = "&&" then
        .ok (nativeBoolToBooleanObject
          (objectToNativeBoolean l && objectToNativeBoolean r), env)
      else if operator = "||" then
        .ok (nativeBoolToBooleanObject
          (objectToNativeBoolean l || objectToNativeBoolean r), env)
      else if operator = "!~" then keepEnv env (notMatches host l r)
      else if operator = "~=" then matches_ host l r env
      else if operator = "==" then .ok (nativeBoolToBooleanObject (host.identical l r), env)
      else if operator = "!=" then .ok (nativeBoolToBooleanObject (!host.identical l r), env)
      else if tl = "BOOLEAN" ∧ tr = "BOOLEAN" then
        keepEnv env (evalBooleanInfixExpression host operator l r)
      else if tl ≠ tr then
        .ok (.Error ("type mismatch: " ++ tl ++ " " ++ operator ++ " " ++ tr), env)
      else .ok (unknownOperator tl operator tr, env) := by
  simp only [arithmeticPairs, List.mem_cons, Prod.mk.injEq, List.mem_singleton, not_or,
    List.not_mem_nil, or_false] at hp
  obtain ⟨h1, h2, h3, h4, h5⟩ := hp
  have a6 := andAlso_isType l r tl tr hl hr "BOOLEAN" "BOOLEAN"
  simp only [evalInfixExpression, andAlso_isType l r tl tr hl hr, h1, h2, h3, h4, h5,
    decide_False, hl, hr]
  by_cases hb : tl = "BOOLEAN" ∧ tr = "BOOLEAN"
  · simp [hb]
  · simp [hb]

/-- C16 (counterexample): the Integer 0 is truthy for `isTruthy` and false for
`objectToNativeBoolean`. -/
theorem zero_truthy_for_if_false_for_and :
    isTruthy (.Integer 0) = true ∧ objectToNativeBoolean (.Integer 0) = false := by
  simp [isTruthy, objectToNativeBoolean]

/-- C16 (amended): `isTruthy` and `objectToNativeBoolean` give the same answer on a
value exactly when `objectToNativeBoolean` holds of it or it is the canonical `NULL`
or the canonical `FALSE`; on every other value `isTruthy` is true and
`objectToNativeBoolean` is false. -/
theorem truthiness_agreement (v : Object) :
    (isTruthy v = objectToNativeBoolean v ↔
      (objectToNativeBoolean v = true ∨ v = NULL ∨ v = FALSE)) ∧
    (isTruthy v ≠ objectToNativeBoolean v →
      isTruthy v = true ∧ objectToNativeBoolean v = false) := by
  have key : isTruthy v = true ∨ v = NULL ∨ v = FALSE := by
    cases v with
    | Boolean Value canonical => cases Value <;> cases canonical <;> simp [isTruthy, FALSE]
    | Null canonical => cases canonical <;> simp [isTruthy, NULL]
    | _ => simp [isTruthy]
  have hN : objectToNativeBoolean NULL = false := by simp [objectToNativeBoolean, NULL]
  have hF : objectToNativeBoolean FALSE = false := by simp [objectToNativeBoolean, FALSE]
  have tN : isTruthy NULL = false := by simp [isTruthy, NULL]
  have tF : isTruthy FALSE = false := by simp [isTruthy, FALSE]
  rcases key with h | h | h
  · constructor
    · constructor
      · intro e; left; rw [← e, h]
      · rintro (e | e | e)
        · rw [h, e]
        · rw [e, tN] at h; cases h
        · rw [e, tF] at h; cases h
    · intro ne
      refine ⟨h, ?_⟩
      cases hb : objectToNativeBoolean v with
      | false => rfl
      | true => rw [h, hb] at ne; exact absurd rfl ne
  · subst h
    simp [hN, tN]
  · subst h
    simp [hF, tF]

end TruthTheorems

section LogicalTheorems

open object ast evaluator

/-- Apart from a `ReturnValue` and a Regexp, `objectToNativeBoolean` follows the rule
of the specification. -/
theorem objectToNativeBoolean_truthy (v : Object) (hv : specialCased v = false) :
    objectToNativeBoolean v = truthy v := by
  cases v with
  | Integer Value => by_cases h : Value = 0 <;> simp [objectToNativeBoolean, truthy, h]
  | Array Elements offset => cases Elements <;> simp [objectToNativeBoolean, truthy]
  | Hash Pairs offset => cases Pairs <;> simp [objectToNativeBoolean, truthy]
  | Float Value => cases h : floatIsZero Value <;> simp [objectToNativeBoolean, truthy, h]
  | ReturnValue v => simp [specialCased] at hv
  | Regexp p f => simp [specialCased] at hv
  | _ => simp [objectToNativeBoolean, truthy]

/-- The failing input of C15: `1 && 1` is the Error `unknown operator: INTEGER &&
INTEGER`, not a Boolean: two Integers go to the integer arithmetic before the
operator is looked at. -/
theorem and_of_two_integers_is_error :
    evalInfixExpression sampleHost "&&" (.Integer 1) (.Integer 1) NewEnvironment =
      .ok (.Error "unknown operator: INTEGER && INTEGER", NewEnvironment) := by
  simp [evalInfixExpression, andAlso, isType, Type_, keepEnv, evalIntegerInfixExpression,
    Except.map]

end LogicalTheorems

section BlockTheorems

open object ast evaluator

/-- The test of `evalBlockStatement` on the value of a statement. -/
theorem block_test_eq_stops (v : Object) :
    (!v.isNil && (Type_ v == some "RETURN_VALUE" || Type_ v == some "ERROR")) = stops v := by
  cases v <;> simp [Object.isNil, Type_, stops]

/-- A block whose first statements evaluate without a `ReturnValue` or an Error goes
on with the statements after them. -/
theorem evalBlockStatement_append (Eval : Evaluator) (pre rest : List Node) (init : Object)
    (env e : Environment) (vals : List Object)
    (hpre : runStatements Eval pre env = .ok (vals, e))
    (hvals : ∀ x ∈ vals, stops x = false) :
    evalBlockStatement Eval (pre ++ rest) init env =
      evalBlockStatement Eval rest (vals.getLast?.getD init) e := by
  induction pre generalizing init env vals with
  | nil =>
    simp only [runStatements, Except.ok.injEq, Prod.mk.injEq] at hpre
    obtain ⟨h1, h2⟩ := hpre
    subst h1; subst h2
    simp
  | cons s pre ih =>
    simp only [runStatements] at hpre
    cases hs : Eval s env with
    | error a => simp [hs] at hpre
    | ok p =>
      obtain ⟨v, env1⟩ := p
      simp only [hs] at hpre
      cases hr : runStatements Eval pre env1 with
      | error a => simp [hr] at hpre
      | ok q =>
        obtain ⟨vs, env2⟩ := q
        simp only [hr, Except.ok.injEq, Prod.mk.injEq] at hpre
        obtain ⟨h1, h2⟩ := hpre
        subst h1; subst h2
        have hv : stops v = false := hvals v (by simp)
        have hvs : ∀ x ∈ vs, stops x = false := fun x hx => hvals x (by simp [hx])
        rw [List.cons_append, evalBlockStatement]
        simp only [hs, block_test_eq_stops, hv, Bool.false_eq_true, if_false]
        rw [ih v env1 vs hr hvs]
        cases vs with
        | nil => simp
        | cons a l =>
          have h : (a :: l).getLast? = some ((a :: l).getLast (by simp)) :=
            List.getLast?_eq_getLast _ _
          have h2 : (v :: a :: l).getLast? = (a :: l).getLast? := List.getLast?_cons_cons
          rw [h2, h]; rfl

/-- C12: let the statements `pre` of a block evaluate, in order, to values none of
which is a `ReturnValue` or an Error, and let the next statement `s` evaluate to `v`,
leaving the environment `e1`.  If `v` is a `ReturnValue` or an Error, the block
returns `v` and the environment `e1`, whatever statements `post` follow `s`; if it is
neither and `s` is the last statement, the block returns `v` as well. -/
theorem block_short_circuit (Eval : Evaluator) (pre post : List Node) (s : Node)
    (env e e1 : Environment) (vals : List Object) (v : Object)
    (hpre : runStatements Eval pre env = .ok (vals, e))
    (hvals : ∀ x ∈ vals, stops x = false)
    (hs : Eval s e = .ok (v, e1)) :
    (stops v = true → evalBlockStatement Eval (pre ++ s :: post) .nil env = .ok (v, e1)) ∧
    (stops v = false → evalBlockStatement Eval (pre ++ [s]) .nil env = .ok (v, e1)) := by
  constructor
  · intro hv
    rw [evalBlockStatement_append Eval pre (s :: post) .nil env e vals hpre hvals,
      evalBlockStatement]
    simp [hs, block_test_eq_stops, hv]
  · intro hv
    rw [evalBlockStatement_append Eval pre [s] .nil env e vals hpre hvals,
      evalBlockStatement]
    simp [hs, block_test_eq_stops, hv, evalBlockStatement]

/-- C12 (witness): the block `{ 1; RETURN 2; 3; }` returns the `ReturnValue` of 2. -/
theorem block_short_circuit_witness :
    evalBlockStatement (Eval noPragmas builtins noInfix 3)
      ([.ExpressionStatement (.IntegerLiteral 1)] ++
        .ReturnStatement (.IntegerLiteral 2) :: [.ExpressionStatement (.IntegerLiteral 3)])
      .nil NewEnvironment = .ok (.ReturnValue (.Integer 2), NewEnvironment) :=
  (block_short_circuit (Eval noPragmas builtins noInfix 3)
    [.ExpressionStatement (.IntegerLiteral 1)] [.ExpressionStatement (.IntegerLiteral 3)]
    (.ReturnStatement (.IntegerLiteral 2)) NewEnvironment NewEnvironment NewEnvironment
    [.Integer 1] (.ReturnValue (.Integer 2))
    (by simp [runStatements, Eval])
    (by simp [stops])
    (by simp [Eval, isError, Type_, Object.isNil])).1 (by simp [stops])

end BlockTheorems

section RegexpTheorems

open object ast evaluator

/-- C19: let the pattern of the Regexp `r` compile, let it have no capture group (a
search yields at most the whole match) and let the engine find a submatch exactly
when the pattern matches.  Then for every String `s`, `s ~= r` is the canonical
Boolean of "the pattern matches `s`", `s !~ r` is the canonical Boolean of its
negation, and neither changes the environment. -/
theorem match_operators_negate (host : Host) (s : String) (offset : Nat)
    (Value Flags : String) (env : Environment)
    (hc : host.compiles (regexpPattern Value Flags) = true)
    (hcap : (host.FindStringSubmatch (regexpPattern Value Flags) s).length ≤ 1)
    (hm : host.MatchString (regexpPattern Value Flags) s =
      decide (0 < (host.FindStringSubmatch (regexpPattern Value Flags) s).length)) :
    evalInfixExpression host "~=" (.String s offset) (.Regexp Value Flags) env =
      .ok (nativeBoolToBooleanObject (host.MatchString (regexpPattern Value Flags) s), env) ∧
    evalInfixExpression host "!~" (.String s offset) (.Regexp Value Flags) env =
      .ok (nativeBoolToBooleanObject (!host.MatchString (regexpPattern Value Flags) s),
        env) := by
  have hp : ("STRING", "REGEXP") ∉ arithmeticPairs := by decide
  have hnot : ¬ (1 < (host.FindStringSubmatch (regexpPattern Value Flags) s).length) := by
    omega
  constructor
  · rw [evalInfixExpression_other host "~=" (.String s offset) (.Regexp Value Flags) env
      "STRING" "REGEXP" rfl rfl hp]
    simp only [matches_, Inspect, hc, if_true, hnot, gt_iff_lt, if_false, hm]
    by_cases h : 0 < (host.FindStringSubmatch (regexpPattern Value Flags) s).length
    · simp [h, nativeBoolToBooleanObject]
    · simp [h, nativeBoolToBooleanObject]
  · rw [evalInfixExpression_other host "!~" (.String s offset) (.Regexp Value Flags) env
      "STRING" "REGEXP" rfl rfl hp]
    simp only [notMatches, Inspect, hc, if_true, keepEnv]
    cases host.MatchString (regexpPattern Value Flags) s <;>
      simp [nativeBoolToBooleanObject, Except.map]

/-- C19 (witness): `"ab" ~= /b/` is `TRUE` and `"ab" !~ /b/` is `FALSE`. -/
theorem match_operators_negate_witness :
    evalInfixExpression sampleHost "~=" (.String "ab" 0) (.Regexp "b" "") NewEnvironment =
      .ok (TRUE, NewEnvironment) ∧
    evalInfixExpression sampleHost "!~" (.String "ab" 0) (.Regexp "b" "") NewEnvironment =
      .ok (FALSE, NewEnvironment) := by
  have h := match_operators_negate sampleHost "ab" 0 "b" "" NewEnvironment
    (by simp [sampleHost, regexpPattern])
    (by simp [sampleHost, regexpPattern])
    (by simp [sampleHost, regexpPattern])
  have hm : sampleHost.MatchString (regexpPattern "b" "") "ab" = true := by
    simp [sampleHost, regexpPattern]
  rw [hm] at h
  simpa [nativeBoolToBooleanObject] using h

end RegexpTheorems

section CaptureTheorems

open object ast evaluator

/-- The names `$1`, ..., `$31` are on the permit list of an `if`. -/
theorem captureName_mem_ifPermit (k : Nat) (h1 : 1 ≤ k) (h2 : k ≤ 31) :
    captureName k ∈ ifPermit := by
  simp only [ifPermit, captureName, List.mem_map, List.mem_range']
  exact ⟨k, ⟨k - 1, by omega, by omega⟩, rfl⟩

/-- C20 (counterexample): in `foreach e in ["ab"] { e ~= /(a)b/; }` the match writes
the capture `$1` through the scope of the loop into the enclosing environment, which
binds `$1` to `a` once the loop is over. -/
theorem capture_escapes_foreach :
    (evalForeachExpression matchingBody "e" "" 2 (.Array [.String "ab" 0] 0)
        NewEnvironment).map (fun p => (p.1, p.2.1.Get "$1")) =
      .ok (.Null true, .String "a" 0, true) := by
  have h1 : "$" ++ toString 1 = "$1" := by decide
  have hm : evalInfixExpression sampleHost "~=" (.String "ab" 0) (.Regexp "(a)b" "")
      (.mk (mapSet (fun _ => none) "e" (some (.String "ab" 0))) (fun _ => false)
        NewEnvironment ["e"]) =
      .ok (TRUE, .mk (mapSet (fun _ => none) "e" (some (.String "ab" 0))) (fun _ => false)
        (.mk (mapSet (fun _ => none) "$1" (some (.String "a" 0))) (fun _ => false) .nil [])
        ["e"]) := by
    rw [evalInfixExpression_other sampleHost "~=" (.String "ab" 0) (.Regexp "(a)b" "") _
      "STRING" "REGEXP" rfl rfl (by decide)]
    simp [matches_, Inspect, sampleHost, regexpPattern, setCaptures, h1, Environment.Set,
      NewEnvironment, Environment.isNil, mapSet]
  simp [evalForeachExpression, foreachLoop, matchingBody, Object.Reset, Object.Next,
    Array_Next, NewTemporaryScope, Environment.Set, Environment.Get, mapSet, hm, isError,
    Type_, TRUE, Object.isNil, Environment.outer, Except.map]

end CaptureTheorems

section CompoundTheorems

open object ast evaluator

/-- A value of type `INTEGER` is an Integer. -/
theorem Type_INTEGER (o : Object) (h : Type_ o = some "INTEGER") : ∃ n, o = .Integer n := by
  cases o <;> simp [Type_] at h
  exact ⟨_, rfl⟩

/-- A value of type `FLOAT` is a Float. -/
theorem Type_FLOAT (o : Object) (h : Type_ o = some "FLOAT") : ∃ n, o = .Float n := by
  cases o <;> simp [Type_] at h
  exact ⟨_, rfl⟩

/-- A value of type `STRING` is a String. -/
theorem Type_STRING (o : Object) (h : Type_ o = some "STRING") :
    ∃ s k, o = .String s k := by
  cases o <;> simp [Type_] at h
  exact ⟨_, _, rfl⟩

/-- A value of type `BOOLEAN` is a Boolean. -/
theorem Type_BOOLEAN (o : Object) (h : Type_ o = some "BOOLEAN") :
    ∃ b k, o = .Boolean b k := by
  cases o <;> simp [Type_] at h
  exact ⟨_, _, rfl⟩

/-- A value that is not nil has a type. -/
theorem Type_of_not_nil (o : Object) (h : o ≠ .nil) : ∃ t, Type_ o = some t := by
  cases o <;> first | exact absurd rfl h | exact ⟨_, rfl⟩

/-- The operators of arithmetic and of compound assignment are none of the
operators that `evalInfixExpression` handles itself. -/
theorem arithmetic_not_special (o : String)
    (ho : o ∈ ["+", "-", "*", "/", "+=", "-=", "*=", "/="]) :
    o ≠ "&&" ∧ o ≠ "||" ∧ o ≠ "!~" ∧ o ≠ "~=" ∧ o ≠ "==" ∧ o ≠ "!=" ∧
      o ≠ "<" ∧ o ≠ "<=" ∧ o ≠ ">" ∧ o ≠ ">=" := by
  simp only [List.mem_cons, List.mem_singleton, List.not_mem_nil, or_false] at ho
  rcases ho with rfl | rfl | rfl | rfl | rfl | rfl | rfl | rfl <;> decide

/-- An operator of arithmetic or of compound assignment applied to a nil operand is
a nil dereference. -/
theorem arithmetic_nil (host : Host) (o : String)
    (ho : o ∈ ["+", "-", "*", "/", "+=", "-=", "*=", "/="]) (c v : Object) (env : Environment)
    (h : Type_ c = none ∨ Type_ v = none) :
    evalInfixExpression host o c v env = .error .panic := by
  obtain ⟨h1, h2, h3, h4, h5, h6, -, -, -, -⟩ := arithmetic_not_special o ho
  cases hc : Type_ c with
  | none => simp [evalInfixExpression, isType, hc, andAlso]
  | some tl =>
    have hv : Type_ v = none := by
      rcases h with h | h
      · rw [hc] at h; cases h
      · exact h
    have key : ∀ a b, andAlso (isType c a) (isType v b) =
        if tl = a then none else some false := by
      intro a b
      by_cases e : tl = a
      · simp [andAlso, isType, hc, hv, e]
      · have : (tl == a) = false := by simpa using e
        simp [andAlso, isType, hc, hv, e, this]
    simp only [evalInfixExpression, key, h1, h2, h3, h4, h5, h6, if_false, hc, hv]
    repeat' split
    all_goals first | rfl | simp_all

/-- An operator of arithmetic or of compound assignment applied to operands whose
types are not a pair of Integers, Floats or Strings gives an Error. -/
theorem arithmetic_other (host : Host) (o : String)
    (ho : o ∈ ["+", "-", "*", "/", "+=", "-=", "*=", "/="]) (c v : Object) (env : Environment)
    (tl tr : String) (hc : Type_ c = some tl) (hv : Type_ v = some tr)
    (hp : (tl, tr) ∉ arithmeticPairs) :
    ∃ m, evalInfixExpression host o c v env = .ok (.Error m, env) := by
  obtain ⟨h1, h2, h3, h4, h5, h6, h7, h8, h9, h10⟩ := arithmetic_not_special o ho
  rw [evalInfixExpression_other host o c v env tl tr hc hv hp]
  simp only [h1, h2, h3, h4, h5, h6, if_false]
  by_cases hb : tl = "BOOLEAN" ∧ tr = "BOOLEAN"
  · obtain ⟨b1, k1, rfl⟩ := Type_BOOLEAN c (by rw [hc, hb.1])
    obtain ⟨b2, k2, rfl⟩ := Type_BOOLEAN v (by rw [hv, hb.2])
    simp [hb, evalBooleanInfixExpression, Inspect, Type_, keepEnv, unknownOperator, h7, h8,
      h9, h10, Except.map]
  · simp only [hb, if_false]
    by_cases e : tl ≠ tr
    · simp [e]
    · simp [e, unknownOperator]

/-- On any two operands, a compound operator gives what its plain operator gives,
unless both give an Error; neither changes the environment. -/
theorem compound_same_as_plain (host : Host) (op opEq : String)
    (hop : (op, opEq) ∈ compoundOperators) (c v : Object) (env : Environment) :
    (evalInfixExpression host opEq c v env = evalInfixExpression host op c v env ∨
      ∃ m1 m2, evalInfixExpression host opEq c v env = .ok (.Error m1, env) ∧
        evalInfixExpression host op c v env = .ok (.Error m2, env)) ∧
    (∀ r e2, evalInfixExpression host op c v env = .ok (r, e2) → e2 = env) := by
  have ho : op ∈ ["+", "-", "*", "/", "+=", "-=", "*=", "/="] ∧
      opEq ∈ ["+", "-", "*", "/", "+=", "-=", "*=", "/="] := by
    simp only [compoundOperators, List.mem_cons, Prod.mk.injEq, List.mem_singleton,
      List.not_mem_nil, or_false] at hop
    rcases hop with ⟨rfl, rfl⟩ | ⟨rfl, rfl⟩ | ⟨rfl, rfl⟩ | ⟨rfl, rfl⟩ <;> decide
  cases hc : Type_ c with
  | none =>
    have h1 := arithmetic_nil host op ho.1 c v env (Or.inl hc)
    have h2 := arithmetic_nil host opEq ho.2 c v env (Or.inl hc)
    exact ⟨Or.inl (by rw [h1, h2]), by intro r e2 h; rw [h1] at h; cases h⟩
  | some tl =>
    cases hv : Type_ v with
    | none =>
      have h1 := arithmetic_nil host op ho.1 c v env (Or.inr hv)
      have h2 := arithmetic_nil host opEq ho.2 c v env (Or.inr hv)
      exact ⟨Or.inl (by rw [h1, h2]), by intro r e2 h; rw [h1] at h; cases h⟩
    | some tr =>
      by_cases hp : (tl, tr) ∈ arithmeticPairs
      · simp only [compoundOperators, List.mem_cons, Prod.mk.injEq, List.mem_singleton,
          List.not_mem_nil, or_false] at hop
        simp only [arithmeticPairs, List.mem_cons, Prod.mk.injEq, List.mem_singleton,
          List.not_mem_nil, or_false] at hp
        rcases hp with ⟨rfl, rfl⟩ | ⟨rfl, rfl⟩ | ⟨rfl, rfl⟩ | ⟨rfl, rfl⟩ | ⟨rfl, rfl⟩
        · obtain ⟨a, rfl⟩ := Type_INTEGER c hc
          obtain ⟨b, rfl⟩ := Type_INTEGER v hv
          rcases hop with ⟨rfl, rfl⟩ | ⟨rfl, rfl⟩ | ⟨rfl, rfl⟩ | ⟨rfl, rfl⟩ <;>
          simp [evalInfixExpression, andAlso, isType, Type_, keepEnv,
            evalIntegerInfixExpression, Except.map]
          intro r e2
          by_cases hb : b = 0 <;> simp [hb]
          intro _ h; exact h.symm
        · obtain ⟨a, rfl⟩ := Type_FLOAT c hc
          obtain ⟨b, rfl⟩ := Type_FLOAT v hv
          rcases hop with ⟨rfl, rfl⟩ | ⟨rfl, rfl⟩ | ⟨rfl, rfl⟩ | ⟨rfl, rfl⟩ <;>
          simp [evalInfixExpression, andAlso, isType, Type_, keepEnv,
            evalFloatInfixExpression, floatInfix, Except.map]
        · obtain ⟨a, rfl⟩ := Type_FLOAT c hc
          obtain ⟨b, rfl⟩ := Type_INTEGER v hv
          rcases hop with ⟨rfl, rfl⟩ | ⟨rfl, rfl⟩ | ⟨rfl, rfl⟩ | ⟨rfl, rfl⟩ <;>
          simp [evalInfixExpression, andAlso, isType, Type_, keepEnv,
            evalFloatIntegerInfixExpression, floatInfix, Except.map]
        · obtain ⟨a, rfl⟩ := Type_INTEGER c hc
          obtain ⟨b, rfl⟩ := Type_FLOAT v hv
          rcases hop with ⟨rfl, rfl⟩ | ⟨rfl, rfl⟩ | ⟨rfl, rfl⟩ | ⟨rfl, rfl⟩ <;>
          simp [evalInfixExpression, andAlso, isType, Type_, keepEnv,
            evalIntegerFloatInfixExpression, floatInfix, Except.map]
        · obtain ⟨a, ka, rfl⟩ := Type_STRING c hc
          obtain ⟨b, kb, rfl⟩ := Type_STRING v hv
          rcases hop with ⟨rfl, rfl⟩ | ⟨rfl, rfl⟩ | ⟨rfl, rfl⟩ | ⟨rfl, rfl⟩ <;>
          simp [evalInfixExpression, andAlso, isType, Type_, keepEnv,
            evalStringInfixExpression, unknownOperator, Except.map]
      · obtain ⟨m2, h1⟩ := arithmetic_other host op ho.1 c v env tl tr hc hv hp
        obtain ⟨m1, h2⟩ := arithmetic_other host opEq ho.2 c v env tl tr hc hv hp
        refine ⟨Or.inr ⟨m1, m2, h2, h1⟩, ?_⟩
        intro r e2 h
        rw [h1] at h
        simp only [Except.ok.injEq, Prod.mk.injEq] at h
        exact h.2.symm

/-- A name that no scope marks read-only is nowhere a constant with value nil. -/
theorem noNilConst_of_hasConst (x : String) (e : Environment) (h : e.hasConst x = false) :
    e.noNilConst x := by
  induction e with
  | nil => simp [Environment.noNilConst]
  | mk store readonly outer permit ih =>
    simp only [Environment.hasConst, Bool.or_eq_false_iff] at h
    simp only [Environment.noNilConst]
    exact ⟨by simp [h.1], ih h.2⟩

/-- A compound assignment whose right-hand side has evaluated is the shared body of
the four compound cases of `evalAssignStatement`. -/
theorem evalAssignStatement_compound (Eval : Evaluator)
    (f : String → Object → Object → Environment → Result) (PRAGMAS : String → Int)
    (x op opEq : String) (E : Node) (d d1 : Environment) (v : Object)
    (hop : (op, opEq) ∈ compoundOperators) (hE : Eval E d = .ok (v, d1))
    (hv : isError v = false) :
    evalAssignStatement Eval f PRAGMAS x opEq E d = compoundAssign f opEq x v d1 := by
  simp only [compoundOperators, List.mem_cons, Prod.mk.injEq, List.mem_singleton,
    List.not_mem_nil, or_false] at hop
  rcases hop with ⟨rfl, rfl⟩ | ⟨rfl, rfl⟩ | ⟨rfl, rfl⟩ | ⟨rfl, rfl⟩ <;>
  simp [evalAssignStatement, hE, hv]

/-- C18 (counterexample): the program `const k = 1; k += 1;` exits with code 3: the
name is bound, `1 + 1` is the non-error value 2, and yet nothing is rebound and
nothing returned. -/
theorem compound_assignment_to_constant_exits :
    Eval noPragmas builtins (evalInfixExpression sampleHost) 4 constantIncrement
      NewEnvironment = .error (.exit 3) := by
  simp [constantIncrement, Eval, evalProgram, evalAssignStatement, compoundAssign, isError,
    Type_, Object.isNil, NewEnvironment, Environment.SetConst, Environment.Get,
    Environment.Set, mapSet, evalInfixExpression, andAlso, isType, keepEnv,
    evalIntegerInfixExpression, wrap64, Except.map]

end CompoundTheorems

section SwitchTheorems

open object ast evaluator

end SwitchTheorems

section StrictTheorems

open object ast evaluator

end StrictTheorems

section ContextTheorems

open object ast evaluator

/-- C23: a context that is found open at its first poll and done from the second on
does not stop the program `1; 2;`: `EvalContext` polls it once, at its own entry, and
returns 2.  So it is for every context that is open at the first poll: the result
is that of `Eval`.  A context that is done at the first poll gives the Error of its
reason and the environment as it was. -/
theorem cancellation_polled_once :
    EvalContext noPragmas builtins noInfix 3 { polls := some 1, err := "context canceled" }
        (.Program [.ExpressionStatement (.IntegerLiteral 1),
          .ExpressionStatement (.IntegerLiteral 2)]) NewEnvironment =
      .ok (.Integer 2, NewEnvironment) ∧
    (∀ (k fuel : Nat) (err : String) (node : Node) (env : Environment),
      EvalContext noPragmas builtins noInfix fuel { polls := some (k + 1), err := err }
          node env = Eval noPragmas builtins noInfix fuel node env) ∧
    (∀ (fuel : Nat) (err : String) (node : Node) (env : Environment),
      EvalContext noPragmas builtins noInfix fuel { polls := some 0, err := err } node env =
        .ok (.Error err, env)) := by
  refine ⟨?_, ?_, ?_⟩
  · simp [EvalContext, Eval, evalProgram]
  · intro k fuel err node env
    simp [EvalContext]
  · intro fuel err node env
    simp [EvalContext]

end ContextTheorems

section MethodTheorems

open object ast evaluator

/-- C21: let the receiver of `recv.m(args)` evaluate to a value that is not nil and
the arguments evaluate, leaving the environment `env2`.  If `InvokeMethod` of the
receiver returns a value that is not nil, that value is the result, whatever the
environment binds.  If it returns nil: when `env2` binds `<typeName>.m`, the value
bound there is invoked, whether or not `object.m` is bound; otherwise, when `env2`
binds `object.m`, the value bound there is invoked; otherwise the result is the
Error `Failed to invoke method: m`.  Invoking a Function means: its body is
evaluated in its call environment with `self` bound to the receiver, and one
`ReturnValue` wrapper is taken off the value. -/
theorem method_dispatch (Eval : Evaluator)
    (InvokeMethod : Object → String → Environment → List Object → Option Object)
    (heap : Nat → Option Function) (O : Node) (m : String) (A : List Node)
    (env env1 env2 : Environment) (recv : Object) (args : List Object) (T : String)
    (hO : Eval O env = .ok (recv, env1))
    (hA : evalExpression Eval A [] env1 = .ok (args, env2))
    (hT : Type_ recv = some T) :
    (∀ r, InvokeMethod recv m env2 args = some r → r.isNil = false →
      evalObjectCallExpression Eval InvokeMethod heap O m A env = .ok (r, env2)) ∧
    (InvokeMethod recv m env2 args = some .nil →
      (∀ fn, env2.Get (ToLower T ++ "." ++ m) = (fn, true) →
        evalObjectCallExpression Eval InvokeMethod heap O m A env =
          (invokeUserMethod Eval heap fn recv args).map (fun v => (v, env2))) ∧
      (∀ x fn, env2.Get (ToLower T ++ "." ++ m) = (x, false) →
        env2.Get ("object." ++ m) = (fn, true) →
        evalObjectCallExpression Eval InvokeMethod heap O m A env =
          (invokeUserMethod Eval heap fn recv args).map (fun v => (v, env2))) ∧
      (∀ x y, env2.Get (ToLower T ++ "." ++ m) = (x, false) →
        env2.Get ("object." ++ m) = (y, false) →
        evalObjectCallExpression Eval InvokeMethod heap O m A env =
          .ok (.Error ("Failed to invoke method: " ++ m), env2))) ∧
    (∀ ref f store, heap ref = some f →
      extendFunctionEnv Eval f args = .ok (.mk store (fun _ => false) f.Env []) →
      invokeUserMethod Eval heap (.Function ref) recv args =
        (Eval f.Body (.mk (mapSet store "self" (some recv)) (fun _ => false) f.Env [])).map
          (fun p => upwrapReturnValue p.1)) := by
  refine ⟨?_, ?_, ?_⟩
  · intro r hr hn
    simp [evalObjectCallExpression, hO, hA, hr, hn]
  · intro hnil
    refine ⟨?_, ?_, ?_⟩
    · intro fn hg
      simp [evalObjectCallExpression, hO, hA, hnil, Object.isNil, hT, tryAttempts, hg]
    · intro x fn hg1 hg2
      simp [evalObjectCallExpression, hO, hA, hnil, Object.isNil, hT, tryAttempts, hg1, hg2]
    · intro x y hg1 hg2
      simp [evalObjectCallExpression, hO, hA, hnil, Object.isNil, hT, tryAttempts, hg1, hg2]
  · intro ref f store hh he
    simp only [invokeUserMethod, hh, he, Set_plain]
    cases Eval f.Body (.mk (mapSet store "self" (some recv)) (fun _ => false) f.Env []) with
    | error a => rfl
    | ok p => rfl

/-- C21 (witness): `NIL.m()` where Null handles no method and the environment binds
`object.m` to `FN() { RETURN self; }`: the result is the receiver. -/
theorem method_dispatch_witness :
    evalObjectCallExpression (Eval noPragmas builtins noInfix 4) sampleInvokeMethod
        sampleHeap .NullLiteral "m" [] methodEnvironment = .ok (NULL, methodEnvironment) := by
  have h := (method_dispatch (Eval noPragmas builtins noInfix 4) sampleInvokeMethod sampleHeap
    .NullLiteral "m" [] methodEnvironment methodEnvironment methodEnvironment NULL [] "NULL"
    (by simp [Eval]) (by simp [evalExpression]) rfl).2.1
    (by simp [sampleInvokeMethod, NULL, Null_InvokeMethod])
  have hne : ToLower "NULL" ++ "." ++ "m" ≠ "object.m" := by decide
  rw [h.2.1 .nil (.Function 0) (by simp [methodEnvironment, Environment.Get, mapSet, hne])
    (by simp [methodEnvironment, Environment.Get, mapSet])]
  simp [invokeUserMethod, sampleHeap, selfFunction, extendFunctionEnv, setDefaults, setParams,
    NewEnclosedEnvironment, NewEnvironment, Environment.Set, Environment.Get, mapSet, Eval,
    evalBlockStatement, evalIdentifier, isError, Type_, NULL, Object.isNil,
    upwrapReturnValue, Except.map]

end MethodTheorems

section LexerTheorems

open token lexer

/-- The character past the end of the input. -/
theorem getD_length (cs : List Char) (i : Nat) (hi : cs.length ≤ i) : cs.getD i NUL = NUL := by
  rw [List.getD_eq_getElem?_getD, List.getElem?_eq_none hi]; rfl

/-- After `readChar` the cursor is on the character that was next. -/
theorem readChar_eq (l : Lexer) :
    readChar l = lexerAt l.characters l.readPosition l.prevToken := by
  simp only [readChar, lexerAt]
  by_cases h : l.readPosition ≥ l.characters.length
  · rw [if_pos h, getD_length _ _ h]
  · rw [if_neg h]

/-- The step of `readChar` from one index to the next. -/
theorem readChar_lexerAt (cs : List Char) (i : Nat) (prev : Token) :
    readChar (lexerAt cs i prev) = lexerAt cs (i + 1) prev := by
  rw [readChar_eq]; rfl

/-- The character that `peekChar` sees. -/
theorem peekChar_eq (l : Lexer) : peekChar l = l.characters.getD l.readPosition NUL := by
  simp only [peekChar]
  by_cases h : l.readPosition ≥ l.characters.length
  · rw [if_pos h, getD_length _ _ h]
  · rw [if_neg h]

/-- The character at the index where a part of the input starts. -/
theorem getD_append_cons (pre post : List Char) (c : Char) (i : Nat) (hi : i = pre.length) :
    (pre ++ c :: post).getD i NUL = c := by
  subst hi
  rw [List.getD_eq_getElem?_getD, List.getElem?_append_right (Nat.le_refl _)]
  simp

/-- The lexer that `New` returns has its cursor on the first character. -/
theorem New_eq (input : String) :
    New input = lexerAt input.data 0 { Type_ := "", Literal := "" } := by
  simp only [New]
  rw [readChar_eq]

end LexerTheorems

section TokenStreamTheorems

open token lexer

/-- C27: the text `x` lexes as the identifier `x` and the end of the input; with a
block comment followed by another block comment in front of it, the second comment
comes out as the REGEXP token `* b *`; with a block comment followed by a line comment
in front of it, the line comment comes out as an empty REGEXP token and the
identifier `b`.  After a block comment `NextToken` goes on to its `switch` without
looking for a further comment. -/
theorem comment_after_block_comment_is_lexed :
    tokens sampleUnicode 30 2 (New "x") =
      .ok [{ Type_ := IDENT, Literal := "x" }, { Type_ := EOF, Literal := "" }] ∧
    tokens sampleUnicode 30 3 (New "/* a */ /* b */ x") =
      .ok [{ Type_ := REGEXP, Literal := "* b *" }, { Type_ := IDENT, Literal := "x" },
        { Type_ := EOF, Literal := "" }] ∧
    tokens sampleUnicode 30 4 (New "/* a */ // b\nx") =
      .ok [{ Type_ := REGEXP, Literal := "" }, { Type_ := IDENT, Literal := "b" },
        { Type_ := IDENT, Literal := "x" }, { Type_ := EOF, Literal := "" }] := by
  refine ⟨?_, ?_, ?_⟩ <;> rfl

/-- C26: the identifier run `é.x` (the letter U+00E9, a dot, `x`), which is neither
on the allowlist nor starts with a reserved prefix, lexes as the identifier `é`
followed by the identifier `x`: no PERIOD token is returned for its dot, because the
cursor is moved forward by the number of bytes, not of characters, before the dot.
The run `a.x` lexes as `a`, PERIOD, `x`, and the run `a..b` as `a`, DOTDOT, `b`. -/
theorem dot_lost_after_non_ascii_letter :
    tokens sampleUnicode 30 3 (New (String.mk [Char.ofNat 233, '.', 'x'])) =
      .ok [{ Type_ := IDENT, Literal := String.mk [Char.ofNat 233] },
        { Type_ := IDENT, Literal := "x" }, { Type_ := EOF, Literal := "" }] ∧
    tokens sampleUnicode 30 4 (New "a.x") =
      .ok [{ Type_ := IDENT, Literal := "a" }, { Type_ := PERIOD, Literal := "." },
        { Type_ := IDENT, Literal := "x" }, { Type_ := EOF, Literal := "" }] ∧
    tokens sampleUnicode 30 4 (New "a..b") =
      .ok [{ Type_ := IDENT, Literal := "a" }, { Type_ := DOTDOT, Literal := ".." },
        { Type_ := IDENT, Literal := "b" }, { Type_ := EOF, Literal := "" }] := by
  refine ⟨?_, ?_, ?_⟩ <;> rfl

end TokenStreamTheorems

section SlashTheorems

open token lexer

/-- The loop over the flags ends: past the end of the input the character is `NUL`. -/
theorem readFlags_ok (n : Nat) (cs : List Char) (i : Nat) (prev : Token) (flags : String)
    (h1 : cs.length + 1 ≤ i + n) (h2 : 1 ≤ n) :
    ∃ r, readFlags n (lexerAt cs i prev) flags = .ok r := by
  induction n generalizing i flags with
  | zero => omega
  | succ n ih =>
    rw [readFlags]
    by_cases hc : (lexerAt cs i prev).ch = 'i' ∨ (lexerAt cs i prev).ch = 'm'
    · rw [if_pos hc, readChar_lexerAt]
      have hi : i < cs.length := by
        by_contra hge
        have : (lexerAt cs i prev).ch = NUL := getD_length cs i (by omega)
        rw [this] at hc
        rcases hc with hc | hc <;> exact absurd hc (by decide)
      exact ih (i + 1) _ (by omega) (by omega)
    · rw [if_neg hc]
      exact ⟨_, rfl⟩

/-- The loop of `readRegexp` ends: past the end of the input the character is `NUL`. -/
theorem readRegexp_ok (n : Nat) (l : Lexer) (out : String)
    (h1 : l.characters.length + 1 ≤ l.readPosition + n) (h2 : 1 ≤ n) :
    ∃ r, readRegexp n l out = .ok r := by
  induction n generalizing l out with
  | zero => omega
  | succ n ih =>
    rw [readRegexp]
    simp only [readChar_eq]
    by_cases h0 : (lexerAt l.characters l.readPosition l.prevToken).ch = NUL
    · rw [if_pos h0]; exact ⟨_, rfl⟩
    · rw [if_neg h0]
      have hi : l.readPosition < l.characters.length := by
        by_contra hge
        exact h0 (getD_length _ _ (by omega))
      by_cases hs : (lexerAt l.characters l.readPosition l.prevToken).ch = '/'
      · rw [if_pos hs]
        obtain ⟨r, hr⟩ := readFlags_ok (n + 1) l.characters (l.readPosition + 1) l.prevToken ""
          (by omega) (by omega)
        have hr' : readFlags (n + 1) (lexerAt (lexerAt l.characters l.readPosition
            l.prevToken).characters (lexerAt l.characters l.readPosition l.prevToken).readPosition
            (lexerAt l.characters l.readPosition l.prevToken).prevToken) "" = .ok r := hr
        rw [hr']
        exact ⟨_, rfl⟩
      · rw [if_neg hs]
        exact ih _ _ (by simp only [lexerAt]; omega) (by omega)

/-- On a character that is no whitespace `skipWhitespace` leaves the lexer as it is. -/
theorem skipWhitespace_stay (n : Nat) (l : Lexer) (h : isWhitespace l.ch = false) :
    skipWhitespace (n + 1) l = .ok l := by
  rw [skipWhitespace, h]; rfl

/-- C24: let the character under the cursor be `/` and the next character none of
`=`, `/`, `*`.  Given fuel for the length of the input, `NextToken` returns a token;
it is a SLASH token if and only if the kind of the token returned before is one of
RBRACKET, RPAREN, IDENT, INT, FLOAT, and a REGEXP token in every other case. -/
theorem slash_division_or_regexp (u : Unicode) (fuel : Nat) (l : Lexer)
    (hch : l.ch = '/')
    (hp1 : peekChar l ≠ '=') (hp2 : peekChar l ≠ '/') (hp3 : peekChar l ≠ '*')
    (hfuel : l.characters.length + 2 ≤ fuel) :
    ∃ tok l1, NextToken u fuel l = .ok (tok, l1) ∧
      (tok.Type_ = SLASH ↔ l.prevToken.Type_ ∈ [RBRACKET, RPAREN, IDENT, INT, FLOAT]) ∧
      (l.prevToken.Type_ ∉ [RBRACKET, RPAREN, IDENT, INT, FLOAT] → tok.Type_ = REGEXP) := by
  obtain ⟨f, rfl⟩ : ∃ f, fuel = f + 1 := ⟨fuel - 1, by omega⟩
  have hw : isWhitespace l.ch = false := by rw [hch]; decide
  rw [NextToken, skipWhitespace_stay _ _ hw]
  simp only [hch, hp2, hp3, and_false, or_false, if_false]
  have e1 : ¬ (('/' : Char) = '#') := by decide
  have e2 : ¬ (('/' : Char) = '&') := by decide
  have e3 : ¬ (('/' : Char) = '|') := by decide
  have e4 : ¬ (('/' : Char) = '=') := by decide
  have e5 : ¬ (('/' : Char) = ';') := by decide
  have e6 : ¬ (('/' : Char) = '?') := by decide
  have e7 : ¬ (('/' : Char) = '(') := by decide
  have e8 : ¬ (('/' : Char) = ')') := by decide
  have e9 : ¬ (('/' : Char) = ',') := by decide
  have e10 : ¬ (('/' : Char) = '.') := by decide
  have e11 : ¬ (('/' : Char) = '+') := by decide
  have e12 : ¬ (('/' : Char) = '%') := by decide
  have e13 : ¬ (('/' : Char) = lbrace) := by decide
  have e14 : ¬ (('/' : Char) = rbrace) := by decide
  have e15 : ¬ (('/' : Char) = '-') := by decide
  simp only [e1, e2, e3, e4, e5, e6, e7, e8, e9, e10, e11, e12, e13, e14, e15, if_false,
    hp1, if_true]
  by_cases hd : divisionAfter.contains l.prevToken.Type_ = true
  · have hm : l.prevToken.Type_ ∈ [RBRACKET, RPAREN, IDENT, INT, FLOAT] := by
      simpa [divisionAfter] using hd
    rw [if_pos hd]
    refine ⟨_, _, rfl, ?_, ?_⟩
    · simp [newToken, hm]
    · intro hn; exact absurd hm hn
  · have hm : l.prevToken.Type_ ∉ [RBRACKET, RPAREN, IDENT, INT, FLOAT] := by
      simpa [divisionAfter] using hd
    rw [if_neg hd]
    obtain ⟨r, hr⟩ := readRegexp_ok (f + 1) l "" (by omega) (by omega)
    obtain ⟨⟨str, err⟩, l2⟩ := r
    rw [hr]
    refine ⟨_, _, rfl, ?_, ?_⟩
    · constructor
      · intro h
        have hne : (REGEXP : String) ≠ SLASH := by decide
        exact absurd h hne
      · intro h; exact absurd h hm
    · intro _; rfl

/-- C24 (witness): in `a / b`, after the identifier `a`, the `/` is a SLASH token. -/
theorem slash_division_or_regexp_witness :
    ∃ tok l1, NextToken sampleUnicode 7 (lexerAt "a / b".data 2 { Type_ := IDENT, Literal := "a" })
        = .ok (tok, l1) ∧ tok.Type_ = SLASH := by
  obtain ⟨tok, l1, h, hiff, _⟩ := slash_division_or_regexp sampleUnicode 7
    (lexerAt "a / b".data 2 { Type_ := IDENT, Literal := "a" }) rfl (by decide) (by decide)
    (by decide) (by decide)
  exact ⟨tok, l1, h, hiff.mpr (by decide)⟩

end SlashTheorems

section RegexpLiteralTheorems

open token lexer

/-- The loop over the flags keeps the first occurrence of each flag: what
`List.eraseDups` does. -/
theorem eraseDups_loop_eq_foldl (f bs : List Char) :
    List.eraseDups.loop f bs =
      f.foldl (fun a c => if a.contains c then a else a ++ [c]) bs.reverse := by
  induction f generalizing bs with
  | nil => simp [List.eraseDups.loop]
  | cons a as ih =>
    rw [List.eraseDups.loop, List.foldl_cons]
    cases h : bs.elem a with
    | true =>
      have hmem : a ∈ bs := List.mem_of_elem_eq_true h
      have : bs.reverse.contains a = true := by simp [hmem]
      simp only [this, if_true]
      exact ih bs
    | false =>
      have hmem : a ∉ bs := fun hm => by
        rw [List.elem_eq_true_of_mem hm] at h; cases h
      have : bs.reverse.contains a = false := by simp [hmem]
      simp only [this, Bool.false_eq_true, if_false]
      rw [ih (a :: bs), List.reverse_cons]

/-- The loop over the flags on a run `f` of the characters `i` and `m`. -/
theorem readFlags_scan (prev : Token) (f : List Char) :
    ∀ (pre post : List Char) (flags : String) (n : Nat),
      (∀ c ∈ f, c = 'i' ∨ c = 'm') →
      (∀ c, post.head? = some c → c ≠ 'i' ∧ c ≠ 'm') →
      readFlags (f.length + (n + 1)) (lexerAt (pre ++ (f ++ post)) pre.length prev) flags =
        .ok (String.mk (f.foldl (fun a c => if a.contains c then a else a ++ [c]) flags.data),
          lexerAt (pre ++ (f ++ post)) (pre.length + f.length) prev) := by
  induction f with
  | nil =>
    intro pre post flags n _ hpost
    have hch : (lexerAt (pre ++ ([] ++ post)) pre.length prev).ch ≠ 'i' ∧
        (lexerAt (pre ++ ([] ++ post)) pre.length prev).ch ≠ 'm' := by
      simp only [lexerAt, List.nil_append]
      cases post with
      | nil =>
        rw [getD_length _ _ (by simp)]
        exact ⟨by decide, by decide⟩
      | cons c rest =>
        rw [getD_append_cons pre rest c _ rfl]
        exact hpost c rfl
    simp only [List.length_nil, Nat.zero_add, List.foldl_nil, Nat.add_zero]
    rw [readFlags, if_neg (by rintro (h | h); exact hch.1 h; exact hch.2 h)]
  | cons c f ih =>
    intro pre post flags n hf hpost
    have hc : c = 'i' ∨ c = 'm' := hf c (by simp)
    have hch : (lexerAt (pre ++ (c :: f ++ post)) pre.length prev).ch = c := by
      simp only [lexerAt, List.cons_append]
      exact getD_append_cons pre (f ++ post) c _ rfl
    have hlen : (c :: f).length + (n + 1) = (f.length + (n + 1)) + 1 := by
      simp only [List.length_cons]; omega
    rw [hlen, readFlags, hch, if_pos hc, readChar_lexerAt]
    have hcs : pre ++ (c :: f ++ post) = (pre ++ [c]) ++ (f ++ post) := by simp
    have h := ih (pre ++ [c]) post
      (if !flags.data.contains c then flags.push c else flags) n
      (fun x hx => hf x (by simp [hx])) hpost
    simp only [List.length_append, List.length_singleton] at h
    have e1 : List.foldl (fun a c => if a.contains c then a else a ++ [c])
        (if !flags.data.contains c then flags.push c else flags).data f =
        List.foldl (fun a c => if a.contains c then a else a ++ [c]) flags.data (c :: f) := by
      rw [List.foldl_cons]
      congr 1
      by_cases hm : c ∈ flags.data
      · simp [hm]
      · simp [hm, String.push]
    have e2 : pre.length + 1 + f.length = pre.length + (c :: f).length := by
      simp only [List.length_cons]; omega
    rw [hcs, h, e1, e2]

/-- The loop of `readRegexp` over a body `p` that holds neither `/` nor `NUL`. -/
theorem readRegexp_scan (prev : Token) (p : List Char) :
    ∀ (pre post : List Char) (out : String) (n j : Nat), j + 1 = pre.length →
      '/' ∉ p → NUL ∉ p →
      readRegexp (p.length + n) (lexerAt (pre ++ (p ++ post)) j prev) out =
        readRegexp n (lexerAt (pre ++ (p ++ post)) (j + p.length) prev)
          (out ++ String.mk p) := by
  induction p with
  | nil =>
    intro pre post out n j _ _ _
    have e : out ++ String.mk [] = out := by
      apply String.ext; simp
    simp only [List.length_nil, Nat.zero_add, Nat.add_zero, e]
  | cons c p ih =>
    intro pre post out n j hj hs h0
    have hlen : (c :: p).length + n = (p.length + n) + 1 := by
      simp only [List.length_cons]; omega
    have hch : (lexerAt (pre ++ (c :: p ++ post)) (j + 1) prev).ch = c := by
      simp only [lexerAt, List.cons_append]
      exact getD_append_cons pre (p ++ post) c _ hj
    have hc0 : c ≠ NUL := fun e => h0 (by simp [e])
    have hcs : c ≠ '/' := fun e => hs (by simp [e])
    rw [hlen, readRegexp]
    simp only [readChar_lexerAt, hch, if_neg hc0, if_neg hcs]
    have hcat : pre ++ (c :: p ++ post) = (pre ++ [c]) ++ (p ++ post) := by simp
    have h := ih (pre ++ [c]) post (out.push c) n (j + 1) (by simp [hj])
      (fun hm => hs (by simp [hm])) (fun hm => h0 (by simp [hm]))
    have e1 : j + 1 + p.length = j + (c :: p).length := by
      simp only [List.length_cons]; omega
    have e2 : out.push c ++ String.mk p = out ++ String.mk (c :: p) := by
      apply String.ext
      simp [String.push]
    rw [hcat, h, e1, e2]

/-- The end of the loop of `readRegexp`: the closing `/` and the flags behind it. -/
theorem readRegexp_close (prev : Token) (pre f post : List Char) (out : String) (n j : Nat)
    (hj : j + 1 = pre.length)
    (hf : ∀ c ∈ f, c = 'i' ∨ c = 'm')
    (hpost : ∀ c, post.head? = some c → c ≠ 'i' ∧ c ≠ 'm') :
    readRegexp (f.length + (n + 1)) (lexerAt (pre ++ '/' :: (f ++ post)) j prev) out =
      .ok ((if f.eraseDups.isEmpty then out
            else "(?" ++ String.mk f.eraseDups ++ ")" ++ out, false),
        lexerAt (pre ++ '/' :: (f ++ post)) (j + 2 + f.length) prev) := by
  have hlen : f.length + (n + 1) = (f.length + n) + 1 := by omega
  have hch : (lexerAt (pre ++ '/' :: (f ++ post)) (j + 1) prev).ch = '/' := by
    simp only [lexerAt]
    exact getD_append_cons pre (f ++ post) '/' _ hj
  rw [hlen, readRegexp]
  simp only [readChar_lexerAt, hch, if_true]
  have hcs : pre ++ '/' :: (f ++ post) = (pre ++ ['/']) ++ (f ++ post) := by simp
  have h := readFlags_scan prev f (pre ++ ['/']) post "" n hf hpost
  simp only [List.length_append, List.length_singleton] at h
  have hidx : j + 1 + 1 = pre.length + 1 := by omega
  have hfuel : f.length + n + 1 = f.length + (n + 1) := by omega
  rw [hcs, hidx, hfuel, h]
  have hd : List.foldl (fun a c => if a.contains c then a else a ++ [c]) ("" : String).data f
      = f.eraseDups := by
    rw [List.eraseDups, eraseDups_loop_eq_foldl]; rfl
  rw [hd]
  have hl : (String.mk f.eraseDups).length > 0 ↔ ¬ f.eraseDups.isEmpty = true := by
    simp [String.length, List.isEmpty_iff, List.length_pos]
  have hidx2 : pre.length + 1 + f.length = j + 2 + f.length := by omega
  have hn : ¬ (('/' : Char) = NUL) := by decide
  rw [hidx2, if_neg hn]
  simp only
  by_cases he : f.eraseDups.isEmpty = true
  · rw [if_pos he, if_neg (fun h => (hl.mp h) he)]
  · rw [if_neg he, if_pos (hl.mpr he)]

/-- C25: the literal `/a\/b/`, whose body holds an escaped slash, gives the REGEXP
token `a\`: it ends at the first `/`, escaped or not, where the specification has
it end at the next `/` that is not escaped. -/
theorem regexp_ends_at_escaped_slash :
    (NextToken sampleUnicode 20
        (New (String.mk ['/', 'a', backslash, '/', 'b', '/']))).map (fun r => r.1) =
      .ok { Type_ := REGEXP, Literal := String.mk ['a', backslash] } := by
  rfl

/-- Regular-expression literals whose body holds no slash: let the cursor be on the
`/` that opens `/p/f` in regex position
(the token before is none of RBRACKET, RPAREN, IDENT, INT, FLOAT), where the body `p`
is not empty, starts with neither `=` nor `*` and holds neither `/` nor `NUL`, and `f`
is the run of the characters `i` and `m` behind the closing `/`.  Given fuel for the
length of the input, `NextToken` returns the REGEXP token whose literal is `p` when
`f` is empty and `(?d)p` otherwise, `d` being `f` without repeated flags (first
occurrences kept); the cursor is then on the second character behind the literal. -/
theorem regexp_literal (u : Unicode) (fuel : Nat) (pre p f post : List Char) (prev : Token)
    (hprev : prev.Type_ ∉ [RBRACKET, RPAREN, IDENT, INT, FLOAT])
    (hp : p ≠ []) (hp1 : p.head? ≠ some '=') (hp2 : p.head? ≠ some '*')
    (hs : '/' ∉ p) (h0 : NUL ∉ p)
    (hf : ∀ c ∈ f, c = 'i' ∨ c = 'm')
    (hpost : ∀ c, post.head? = some c → c ≠ 'i' ∧ c ≠ 'm')
    (hfuel : (pre ++ '/' :: (p ++ '/' :: (f ++ post))).length + 2 ≤ fuel) :
    NextToken u fuel (lexerAt (pre ++ '/' :: (p ++ '/' :: (f ++ post))) pre.length prev) =
      .ok ({ Type_ := REGEXP, Literal := regexpLiteral p f },
        { lexerAt (pre ++ '/' :: (p ++ '/' :: (f ++ post)))
            (pre.length + p.length + f.length + 3) prev with
          prevToken := { Type_ := REGEXP, Literal := regexpLiteral p f } }) := by
  obtain ⟨c, p', rfl⟩ : ∃ c p', p = c :: p' := by
    cases p with
    | nil => exact absurd rfl hp
    | cons c p' => exact ⟨c, p', rfl⟩
  have hc1 : c ≠ '=' := fun e => hp1 (by simp [e])
  have hc2 : c ≠ '*' := fun e => hp2 (by simp [e])
  have hc3 : c ≠ '/' := fun e => hs (by simp [e])
  simp only [List.length_append, List.length_cons] at hfuel
  obtain ⟨n, rfl⟩ : ∃ n, fuel = (p'.length + (f.length + (n + 1))) + 1 :=
    ⟨fuel - (p'.length + f.length + 2), by omega⟩
  have hF : p'.length + (f.length + (n + 1)) + 1 = (c :: p').length + (f.length + (n + 1)) := by
    simp only [List.length_cons]; omega
  have hch : (lexerAt (pre ++ '/' :: (c :: p' ++ '/' :: (f ++ post))) pre.length prev).ch
      = '/' := getD_append_cons pre _ '/' _ rfl
  have hpk : peekChar (lexerAt (pre ++ '/' :: (c :: p' ++ '/' :: (f ++ post))) pre.length prev)
      = c := by
    rw [peekChar_eq]
    simp only [lexerAt, List.cons_append]
    have : pre ++ '/' :: c :: (p' ++ '/' :: (f ++ post)) =
        (pre ++ ['/']) ++ c :: (p' ++ '/' :: (f ++ post)) := by simp
    rw [this]
    exact getD_append_cons _ _ c _ (by simp)
  have hw : isWhitespace
      (lexerAt (pre ++ '/' :: (c :: p' ++ '/' :: (f ++ post))) pre.length prev).ch = false := by
    rw [hch]; decide
  rw [NextToken, skipWhitespace_stay _ _ hw]
  simp only [hch, hpk, hc1, hc2, hc3, and_false, or_false, if_false]
  have e1 : ¬ (('/' : Char) = '#') := by decide
  have e2 : ¬ (('/' : Char) = '&') := by decide
  have e3 : ¬ (('/' : Char) = '|') := by decide
  have e4 : ¬ (('/' : Char) = '=') := by decide
  have e5 : ¬ (('/' : Char) = ';') := by decide
  have e6 : ¬ (('/' : Char) = '?') := by decide
  have e7 : ¬ (('/' : Char) = '(') := by decide
  have e8 : ¬ (('/' : Char) = ')') := by decide
  have e9 : ¬ (('/' : Char) = ',') := by decide
  have e10 : ¬ (('/' : Char) = '.') := by decide
  have e11 : ¬ (('/' : Char) = '+') := by decide
  have e12 : ¬ (('/' : Char) = '%') := by decide
  have e13 : ¬ (('/' : Char) = lbrace) := by decide
  have e14 : ¬ (('/' : Char) = rbrace) := by decide
  have e15 : ¬ (('/' : Char) = '-') := by decide
  have hd : ¬ (divisionAfter.contains
      (lexerAt (pre ++ '/' :: (c :: p' ++ '/' :: (f ++ post))) pre.length prev).prevToken.Type_
        = true) := by
    simpa [divisionAfter, lexerAt] using hprev
  simp only [e1, e2, e3, e4, e5, e6, e7, e8, e9, e10, e11, e12, e13, e14, e15, if_false,
    if_true, hd]
  have hcs1 : pre ++ '/' :: (c :: p' ++ '/' :: (f ++ post)) =
      (pre ++ ['/']) ++ ((c :: p') ++ ('/' :: (f ++ post))) := by simp
  have hcs2 : (pre ++ ['/']) ++ ((c :: p') ++ ('/' :: (f ++ post))) =
      (pre ++ '/' :: (c :: p')) ++ '/' :: (f ++ post) := by simp
  have h1 := readRegexp_scan prev (c :: p') (pre ++ ['/']) ('/' :: (f ++ post)) ""
    (f.length + (n + 1)) pre.length (by simp) hs h0
  have h2 := readRegexp_close prev (pre ++ '/' :: (c :: p')) f post ("" ++ String.mk (c :: p'))
    n (pre.length + (c :: p').length)
    (by simp only [List.length_append, List.length_cons]; omega) hf hpost
  rw [hF, hcs1, h1, hcs2, h2]
  have hlit : (if f.eraseDups.isEmpty then ("" : String) ++ String.mk (c :: p')
      else "(?" ++ String.mk f.eraseDups ++ ")" ++ (("" : String) ++ String.mk (c :: p')))
      = regexpLiteral (c :: p') f := by
    have e : ("" : String) ++ String.mk (c :: p') = String.mk (c :: p') := by
      apply String.ext; simp
    rw [e]; rfl
  simp only [hlit, advance, readChar_lexerAt]
  have hidx : pre.length + (c :: p').length + 2 + f.length + 1 =
      pre.length + (c :: p').length + f.length + 3 := by omega
  rw [hidx]
  rfl

/-- An instance: at the start of the input, `/ab/im;` gives the REGEXP token
`(?im)ab`. -/
theorem regexp_literal_witness :
    (NextToken sampleUnicode 11 (lexerAt "/ab/im;".data 0 { Type_ := "", Literal := "" })).map
        (fun r => r.1) = .ok { Type_ := REGEXP, Literal := "(?im)ab" } := by
  have h := regexp_literal sampleUnicode 11 [] ['a', 'b'] ['i', 'm'] [';']
    { Type_ := "", Literal := "" } (by decide) (by decide) (by decide) (by decide) (by decide)
    (by decide) (by decide) (by decide) (by decide)
  have e : ([] : List Char) ++ '/' :: (['a', 'b'] ++ '/' :: (['i', 'm'] ++ [';'])) =
      "/ab/im;".data := rfl
  rw [e] at h
  rw [show ([] : List Char).length = 0 from rfl] at h
  rw [h]
  rfl

end RegexpLiteralTheorems

section StringLiteralTheorems

open token lexer

/-- The chain of tests of `readString` does what the specification says. -/
theorem escaped_eq_value (c : Char) : escaped c = (Piece.escape c).value := by
  simp only [escaped, Piece.value]
  by_cases h1 : c = 'n'
  · subst h1; decide
  · by_cases h2 : c = 'r'
    · subst h2; decide
    · by_cases h3 : c = 't'
      · subst h3; decide
      · simp only [h1, h2, h3, if_false]
        by_cases h4 : c = quote
        · subst h4; decide
        · by_cases h5 : c = backslash
          · subst h5; decide
          · simp only [h4, h5, if_false]

/-- One turn of the loop of `readString`. -/
theorem readString_succ (n : Nat) (l : Lexer) (out : String) :
    readString (n + 1) l out =
      if (readChar l).ch = quote then .ok (out, readChar l)
      else if (readChar l).ch = backslash then
        readString n { readChar (readChar l) with ch := escaped (readChar (readChar l)).ch }
          (out.push ({ readChar (readChar l) with
            ch := escaped (readChar (readChar l)).ch }).ch)
      else readString n (readChar l) (out.push (readChar l).ch) := by
  rw [readString]

/-- The loop of `readString` looks at the lexer through `readChar` only. -/
theorem readString_congr (n : Nat) (l l1 : Lexer) (out : String)
    (h1 : l.readPosition = l1.readPosition) (h2 : l.characters = l1.characters)
    (h3 : l.prevToken = l1.prevToken) :
    readString n l out = readString n l1 out := by
  have h : readChar l = readChar l1 := by rw [readChar_eq, readChar_eq, h1, h2, h3]
  cases n with
  | zero => rfl
  | succ n => rw [readString_succ, readString_succ, h]

/-- The loop of `readString` over the pieces of a body. -/
theorem readString_scan (prev : Token) (pieces : List Piece) :
    ∀ (pre post : List Char) (out : String) (n j : Nat), j + 1 = pre.length →
      (∀ q ∈ pieces, q.wellFormed = true) →
      readString (pieces.length + n) (lexerAt (pre ++ (bodySource pieces ++ post)) j prev) out =
        readString n
          (lexerAt (pre ++ (bodySource pieces ++ post)) (j + (bodySource pieces).length) prev)
          (out ++ String.mk (pieces.map Piece.value)) := by
  induction pieces with
  | nil =>
    intro pre post out n j _ _
    have e : out ++ String.mk [] = out := by
      apply String.ext; simp
    simp only [List.length_nil, Nat.zero_add, List.map_nil, e, bodySource, List.flatMap_nil,
      Nat.add_zero]
  | cons q pieces ih =>
    intro pre post out n j hj hw
    have hq : q.wellFormed = true := hw q (by simp)
    have hrest : ∀ x ∈ pieces, x.wellFormed = true := fun x hx => hw x (by simp [hx])
    have hlen : (q :: pieces).length + n = (pieces.length + n) + 1 := by
      simp only [List.length_cons]; omega
    rw [hlen, readString_succ]
    cases q with
    | plain c =>
      simp only [Piece.wellFormed, Bool.and_eq_true, bne_iff_ne, ne_eq] at hq
      have hsrc : bodySource (Piece.plain c :: pieces) = c :: bodySource pieces := by
        simp [bodySource, Piece.source]
      have hch : (lexerAt (pre ++ (c :: bodySource pieces ++ post)) (j + 1) prev).ch = c := by
        simp only [lexerAt, List.cons_append]
        exact getD_append_cons pre _ c _ hj
      rw [hsrc, readChar_lexerAt, hch, if_neg hq.1, if_neg hq.2]
      have hcat : pre ++ (c :: bodySource pieces ++ post) =
          (pre ++ [c]) ++ (bodySource pieces ++ post) := by simp
      have h := ih (pre ++ [c]) post (out.push c) n (j + 1) (by simp [hj]) hrest
      have e1 : j + 1 + (bodySource pieces).length = j + (c :: bodySource pieces).length := by
        simp only [List.length_cons]; omega
      have e2 : out.push c ++ String.mk (pieces.map Piece.value) =
          out ++ String.mk ((Piece.plain c :: pieces).map Piece.value) := by
        apply String.ext
        simp [String.push, Piece.value]
      rw [hcat, h, e1, e2]
    | escape c =>
      have hsrc : bodySource (Piece.escape c :: pieces) =
          backslash :: c :: bodySource pieces := by
        simp [bodySource, Piece.source]
      have hch : (lexerAt (pre ++ (backslash :: c :: bodySource pieces ++ post)) (j + 1)
          prev).ch = backslash := by
        simp only [lexerAt, List.cons_append]
        exact getD_append_cons pre _ backslash _ hj
      have hcat1 : pre ++ (backslash :: c :: bodySource pieces ++ post) =
          (pre ++ [backslash]) ++ c :: (bodySource pieces ++ post) := by simp
      have hch2 : (lexerAt (pre ++ (backslash :: c :: bodySource pieces ++ post)) (j + 1 + 1)
          prev).ch = c := by
        simp only [lexerAt]
        rw [hcat1]
        exact getD_append_cons _ _ c _ (by simp [hj])
      have hbq : ¬ (backslash = quote) := by decide
      rw [hsrc, readChar_lexerAt, hch, if_neg hbq, if_pos rfl, readChar_lexerAt, hch2]
      generalize hE : escaped c = e
      have hv : (Piece.escape c).value = e := by rw [← escaped_eq_value, hE]
      refine Eq.trans (readString_congr _ _
        (lexerAt (pre ++ (backslash :: c :: bodySource pieces ++ post)) (j + 1 + 1) prev) _
        rfl rfl rfl) ?_
      show readString (pieces.length + n)
        (lexerAt (pre ++ (backslash :: c :: bodySource pieces ++ post)) (j + 1 + 1) prev)
        (out.push e) = _
      have hcat : pre ++ (backslash :: c :: bodySource pieces ++ post) =
          (pre ++ [backslash, c]) ++ (bodySource pieces ++ post) := by simp
      have h := ih (pre ++ [backslash, c]) post (out.push e) n (j + 1 + 1)
        (by simp [hj]) hrest
      have e1 : j + 1 + 1 + (bodySource pieces).length =
          j + (backslash :: c :: bodySource pieces).length := by
        simp only [List.length_cons]; omega
      have e2 : out.push e ++ String.mk (pieces.map Piece.value) =
          out ++ String.mk ((Piece.escape c :: pieces).map Piece.value) := by
        apply String.ext
        simp [String.push, hv]
      rw [hcat, h, e1, e2]

/-- C28: let the cursor be on the double quote that opens a string literal whose body
is made of the pieces `pieces` (plain characters other than the double quote and the
backslash, and characters behind a backslash) and is closed by a double quote.
Given fuel for the number of pieces, `readString` returns the text in which each
piece `\n`, `\r`, `\t` is the newline, the carriage return, the tab and every other
piece is its character, and leaves the cursor on the closing double quote, the
first one not behind a backslash. -/
theorem string_literal (prev : Token) (pieces : List Piece) (pre post : List Char)
    (fuel : Nat) (hw : ∀ q ∈ pieces, q.wellFormed = true)
    (hfuel : pieces.length + 1 ≤ fuel) :
    readString fuel
        (lexerAt (pre ++ quote :: (bodySource pieces ++ quote :: post)) pre.length prev) "" =
      .ok (String.mk (pieces.map Piece.value),
        lexerAt (pre ++ quote :: (bodySource pieces ++ quote :: post))
          (pre.length + 1 + (bodySource pieces).length) prev) := by
  obtain ⟨n, rfl⟩ : ∃ n, fuel = pieces.length + (n + 1) := ⟨fuel - pieces.length - 1, by omega⟩
  have hcs : pre ++ quote :: (bodySource pieces ++ quote :: post) =
      (pre ++ [quote]) ++ (bodySource pieces ++ quote :: post) := by simp
  have h := readString_scan prev pieces (pre ++ [quote]) (quote :: post) "" (n + 1) pre.length
    (by simp) hw
  rw [hcs, h, readString_succ]
  have hcat : pre ++ [quote] ++ (bodySource pieces ++ quote :: post) =
      (pre ++ [quote] ++ bodySource pieces) ++ quote :: post := by simp
  have hch : (lexerAt (pre ++ [quote] ++ (bodySource pieces ++ quote :: post))
      (pre.length + (bodySource pieces).length + 1) prev).ch = quote := by
    simp only [lexerAt]
    rw [hcat]
    exact getD_append_cons _ _ quote _ (by simp; omega)
  rw [readChar_lexerAt, hch, if_pos rfl]
  have e : ("" : String) ++ String.mk (pieces.map Piece.value) =
      String.mk (pieces.map Piece.value) := by
    apply String.ext; simp
  have e2 : pre.length + (bodySource pieces).length + 1 =
      pre.length + 1 + (bodySource pieces).length := by omega
  rw [e, e2]

/-- C28 (witness): the literal `"a\nb\"c\q"` is the text a, newline, b, double
quote, c, q. -/
theorem string_literal_witness :
    readString 9 (New (String.mk (quote :: (bodySource [.plain 'a', .escape 'n', .plain 'b',
        .escape quote, .plain 'c', .escape 'q'] ++ [quote])))) "" =
      .ok (String.mk ['a', newline, 'b', quote, 'c', 'q'],
        lexerAt (quote :: (bodySource [.plain 'a', .escape 'n', .plain 'b',
          .escape quote, .plain 'c', .escape 'q'] ++ [quote])) 10
          { Type_ := "", Literal := "" }) := by
  have h := string_literal { Type_ := "", Literal := "" }
    [.plain 'a', .escape 'n', .plain 'b', .escape quote, .plain 'c', .escape 'q'] [] [] 9
    (by decide) (by decide)
  rw [New_eq]
  exact h

end StringLiteralTheorems

section NumberTheorems

open token lexer

/-- The ten characters that `isDigit` accepts. -/
theorem isDigit_cases (c : Char) (h : isDigit c = true) : c ∈ "0123456789".data := by
  simp only [isDigit, Bool.and_eq_true, decide_eq_true_eq] at h
  obtain ⟨h1, h2⟩ := h
  have h1' : 48 ≤ c.toNat := h1
  have h2' : c.toNat ≤ 57 := h2
  have hc : c = Char.ofNat c.toNat := (Char.ofNat_toNat c).symm
  generalize c.toNat = n at h1' h2' hc
  subst hc
  interval_cases n <;> decide

/-- The accept set of a decimal number is the set of the digits. -/
theorem contains_decimal (c : Char) : "0123456789".data.contains c = isDigit c := by
  by_cases h : isDigit c = true
  · rw [h]
    exact List.elem_eq_true_of_mem (isDigit_cases c h)
  · have hall : ∀ x ∈ "0123456789".data, isDigit x = true := by decide
    have hn : ¬ c ∈ "0123456789".data := fun hm => h (hall c hm)
    have hf : isDigit c = false := by simpa using h
    rw [hf]
    cases hcon : "0123456789".data.contains c
    · rfl
    · exact absurd (List.mem_of_elem_eq_true hcon) hn

/-- A digit is none of the characters that `isDigit` rejects. -/
theorem ne_of_isDigit (c x : Char) (h : isDigit c = true) (hx : isDigit x = false) :
    ¬ (c = x) := by
  intro e
  rw [e, hx] at h
  exact absurd h (by decide)

/-- The loop of `readNumber` over a run of accepted characters that ends before a
character that is not accepted. -/
theorem readNumberLoop_scan (accept : List Char) (prev : Token) (hnul : accept.contains NUL = false)
    (r : List Char) :
    ∀ (pre post : List Char) (str : String) (n : Nat),
      (∀ c ∈ r, accept.contains c = true) →
      (∀ c, post.head? = some c → accept.contains c = false) →
      readNumberLoop accept (r.length + (n + 1)) (lexerAt (pre ++ (r ++ post)) pre.length prev)
          str =
        .ok (str ++ String.mk r, lexerAt (pre ++ (r ++ post)) (pre.length + r.length) prev) := by
  induction r with
  | nil =>
    intro pre post str n _ hpost
    have e : str ++ String.mk [] = str := by
      apply String.ext; simp
    have hch : accept.contains (lexerAt (pre ++ ([] ++ post)) pre.length prev).ch = false := by
      cases post with
      | nil =>
        have : (lexerAt (pre ++ ([] ++ [])) pre.length prev).ch = NUL :=
          getD_length _ _ (by simp)
        rw [this]; exact hnul
      | cons c post =>
        have : (lexerAt (pre ++ ([] ++ c :: post)) pre.length prev).ch = c :=
          getD_append_cons pre post c _ rfl
        rw [this]; exact hpost c rfl
    rw [List.length_nil, Nat.zero_add, readNumberLoop, hch, e]
    rfl
  | cons c r ih =>
    intro pre post str n hr hpost
    have hch : (lexerAt (pre ++ (c :: r ++ post)) pre.length prev).ch = c :=
      getD_append_cons pre (r ++ post) c _ rfl
    have hlen : (c :: r).length + (n + 1) = (r.length + (n + 1)) + 1 := by
      simp only [List.length_cons]; omega
    have hacc : accept.contains c = true := hr c (by simp)
    rw [hlen, readNumberLoop, hch, hacc, if_pos rfl, readChar_lexerAt]
    have hcat : pre ++ (c :: r ++ post) = (pre ++ [c]) ++ (r ++ post) := by simp
    have h := ih (pre ++ [c]) post (str.push c) n (fun x hx => hr x (by simp [hx])) hpost
    have e0 : (pre ++ [c]).length = pre.length + 1 := by simp
    rw [e0] at h
    have e1 : pre.length + 1 + r.length = pre.length + (c :: r).length := by
      simp only [List.length_cons]; omega
    have e2 : str.push c ++ String.mk r = str ++ String.mk (c :: r) := by
      apply String.ext; simp [String.push]
    rw [hcat, h, e1, e2]

/-- The two characters that `readNumber` tests for a radix mark. -/
theorem radix_test (pre r : List Char) (prev : Token) (x : Char) (hx : x ≠ NUL)
    (h : r.take 2 ≠ ['0', x]) :
    ¬ ((lexerAt (pre ++ r) pre.length prev).ch = '0' ∧
      peekChar (lexerAt (pre ++ r) pre.length prev) = x) := by
  rintro ⟨h1, h2⟩
  rw [peekChar_eq] at h2
  simp only [lexerAt] at h1 h2
  cases r with
  | nil =>
    rw [getD_length _ _ (by simp)] at h2
    exact hx h2.symm
  | cons a r =>
    rw [getD_append_cons pre r a _ rfl] at h1
    cases r with
    | nil =>
      rw [getD_length _ _ (by simp)] at h2
      exact hx h2.symm
    | cons b r =>
      have hcat : pre ++ a :: b :: r = (pre ++ [a]) ++ b :: r := by simp
      rw [hcat, getD_append_cons (pre ++ [a]) r b _ (by simp)] at h2
      apply h
      rw [h1, h2]
      rfl

/-- Go's `readNumber` on a maximal run of decimal digits that does not start a
hexadecimal or binary literal. -/
theorem readNumber_decimal (prev : Token) (pre d post : List Char) (n : Nat)
    (hdig : ∀ c ∈ d, isDigit c = true)
    (hmax : ∀ c, post.head? = some c → isDigit c = false)
    (hx : (d ++ post).take 2 ≠ ['0', 'x']) (hb : (d ++ post).take 2 ≠ ['0', 'b']) :
    readNumber (d.length + (n + 1)) (lexerAt (pre ++ (d ++ post)) pre.length prev) =
      .ok (String.mk d, lexerAt (pre ++ (d ++ post)) (pre.length + d.length) prev) := by
  have h1 := radix_test pre (d ++ post) prev 'x' (by decide) hx
  have h2 := radix_test pre (d ++ post) prev 'b' (by decide) hb
  have e : ("" : String) ++ String.mk d = String.mk d := by
    apply String.ext; simp
  simp only [readNumber, if_neg h1, if_neg h2]
  rw [readNumberLoop_scan _ prev (by decide) d pre post "" n
    (fun c hc => by rw [contains_decimal]; exact hdig c hc)
    (fun c hc => by rw [contains_decimal]; exact hmax c hc), e]

/-- On a digit `NextToken` goes to `readDecimal`. -/
theorem NextToken_digit (u : Unicode) (f : Nat) (l : Lexer) (hd : isDigit l.ch = true) :
    NextToken u (f + 1) l =
      match readDecimal (f + 1) l with
      | .error a => .error a
      | .ok (tok, l2) => deliver tok l2 := by
  have hw : isWhitespace l.ch = false := by
    have hall : ∀ x ∈ "0123456789".data, isWhitespace x = false := by decide
    exact hall _ (isDigit_cases _ hd)
  have e1 := ne_of_isDigit l.ch '#' hd (by decide)
  have e2 := ne_of_isDigit l.ch '/' hd (by decide)
  have e3 := ne_of_isDigit l.ch '&' hd (by decide)
  have e4 := ne_of_isDigit l.ch '|' hd (by decide)
  have e5 := ne_of_isDigit l.ch '=' hd (by decide)
  have e6 := ne_of_isDigit l.ch ';' hd (by decide)
  have e7 := ne_of_isDigit l.ch '?' hd (by decide)
  have e8 := ne_of_isDigit l.ch '(' hd (by decide)
  have e9 := ne_of_isDigit l.ch ')' hd (by decide)
  have e10 := ne_of_isDigit l.ch ',' hd (by decide)
  have e11 := ne_of_isDigit l.ch '.' hd (by decide)
  have e12 := ne_of_isDigit l.ch '+' hd (by decide)
  have e13 := ne_of_isDigit l.ch '%' hd (by decide)
  have e14 := ne_of_isDigit l.ch lbrace hd (by decide)
  have e15 := ne_of_isDigit l.ch rbrace hd (by decide)
  have e16 := ne_of_isDigit l.ch '-' hd (by decide)
  have e17 := ne_of_isDigit l.ch '*' hd (by decide)
  have e18 := ne_of_isDigit l.ch '<' hd (by decide)
  have e19 := ne_of_isDigit l.ch '>' hd (by decide)
  have e20 := ne_of_isDigit l.ch '~' hd (by decide)
  have e21 := ne_of_isDigit l.ch '!' hd (by decide)
  have e22 := ne_of_isDigit l.ch quote hd (by decide)
  have e23 := ne_of_isDigit l.ch backtick hd (by decide)
  have e24 := ne_of_isDigit l.ch '[' hd (by decide)
  have e25 := ne_of_isDigit l.ch ']' hd (by decide)
  have e26 := ne_of_isDigit l.ch ':' hd (by decide)
  have e27 := ne_of_isDigit l.ch NUL hd (by decide)
  rw [NextToken, skipWhitespace_stay _ _ hw]
  simp only [e1, e2, e3, e4, e5, e6, e7, e8, e9, e10, e11, e12, e13, e14, e15, e16, e17, e18,
    e19, e20, e21, e22, e23, e24, e25, e26, e27, if_false, false_and, false_or, hd, if_true]

/-- C29 (counterexample): in `0x1F` the run of decimal digits at the cursor is `0`
and an `x` follows it, yet `NextToken` returns the INT token `0x1F`; in `1.0x5` it
returns the FLOAT token `1.0x5`. -/
theorem radix_literal_is_one_token :
    (NextToken sampleUnicode 10 (New "0x1F")).map (fun r => r.1) =
        .ok { Type_ := INT, Literal := "0x1F" } ∧
      (NextToken sampleUnicode 10 (New "0b101")).map (fun r => r.1) =
        .ok { Type_ := INT, Literal := "0b101" } ∧
      (NextToken sampleUnicode 10 (New "1.0x5")).map (fun r => r.1) =
        .ok { Type_ := FLOAT, Literal := "1.0x5" } := by
  refine ⟨?_, ?_, ?_⟩ <;> rfl

/-- C29 (amended): let the cursor be on a non-empty maximal run `d` of decimal
digits that does not begin with `0x` or `0b`.  Given fuel for the length of the
input: if `d` is followed by `.` and a non-empty maximal run `e` of decimal digits
that does not begin with `0x` or `0b` either, `NextToken` returns the FLOAT token
`d.e` and leaves the cursor behind `e`; if `d` is not followed by `.` and a digit,
it returns the INT token `d` and leaves the cursor on the character after `d`. -/
theorem decimal_literal (u : Unicode) (prev : Token) (pre d post : List Char) (fuel : Nat)
    (hd : d ≠ []) (hdig : ∀ c ∈ d, isDigit c = true)
    (hx : (d ++ post).take 2 ≠ ['0', 'x']) (hb : (d ++ post).take 2 ≠ ['0', 'b'])
    (hfuel : (pre ++ (d ++ post)).length + 2 ≤ fuel) :
    (∀ e rest, post = '.' :: (e ++ rest) → e ≠ [] → (∀ c ∈ e, isDigit c = true) →
      (∀ c, rest.head? = some c → isDigit c = false) →
      (e ++ rest).take 2 ≠ ['0', 'x'] → (e ++ rest).take 2 ≠ ['0', 'b'] →
      NextToken u fuel (lexerAt (pre ++ (d ++ post)) pre.length prev) =
        .ok ({ Type_ := FLOAT, Literal := String.mk (d ++ '.' :: e) },
          { lexerAt (pre ++ (d ++ post)) (pre.length + d.length + 1 + e.length) prev with
            prevToken := { Type_ := FLOAT, Literal := String.mk (d ++ '.' :: e) } })) ∧
    ((∀ c, post.head? = some c → isDigit c = false) →
      (∀ c rest, post = '.' :: c :: rest → isDigit c = false) →
      NextToken u fuel (lexerAt (pre ++ (d ++ post)) pre.length prev) =
        .ok ({ Type_ := INT, Literal := String.mk d },
          { lexerAt (pre ++ (d ++ post)) (pre.length + d.length) prev with
            prevToken := { Type_ := INT, Literal := String.mk d } })) := by
  obtain ⟨f, rfl⟩ : ∃ f, fuel = f + 1 := ⟨fuel - 1, by omega⟩
  obtain ⟨n, hn⟩ : ∃ n, f + 1 = d.length + (n + 1) := ⟨f - d.length, by
    simp only [List.length_append] at hfuel; omega⟩
  obtain ⟨a, d1, rfl⟩ : ∃ a d1, d = a :: d1 := by
    cases d with
    | nil => exact absurd rfl hd
    | cons a d1 => exact ⟨a, d1, rfl⟩
  have hch : (lexerAt (pre ++ (a :: d1 ++ post)) pre.length prev).ch = a :=
    getD_append_cons pre (d1 ++ post) a _ rfl
  have hda : isDigit (lexerAt (pre ++ (a :: d1 ++ post)) pre.length prev).ch = true := by
    rw [hch]; exact hdig a (by simp)
  rw [NextToken_digit u f _ hda]
  constructor
  · intro e rest hpost he hedig hmax hex heb
    subst hpost
    have hmaxd : ∀ c, ('.' :: (e ++ rest)).head? = some c → isDigit c = false := by
      intro c hc
      simp only [List.head?_cons, Option.some.injEq] at hc
      subst hc; decide
    have h1 := readNumber_decimal prev pre (a :: d1) ('.' :: (e ++ rest)) n hdig hmaxd hx hb
    obtain ⟨b, e1, rfl⟩ : ∃ b e1, e = b :: e1 := by
      cases e with
      | nil => exact absurd rfl he
      | cons b e1 => exact ⟨b, e1, rfl⟩
    have hcat : pre ++ (a :: d1 ++ '.' :: (b :: e1 ++ rest)) =
        (pre ++ (a :: d1)) ++ '.' :: (b :: e1 ++ rest) := by simp
    have hdot : (lexerAt (pre ++ (a :: d1 ++ '.' :: (b :: e1 ++ rest)))
        (pre.length + (a :: d1).length) prev).ch = '.' := by
      simp only [lexerAt]
      rw [hcat]
      exact getD_append_cons _ _ '.' _ (by simp)
    have hcat2 : pre ++ (a :: d1 ++ '.' :: (b :: e1 ++ rest)) =
        (pre ++ (a :: d1 ++ ['.'])) ++ (b :: e1 ++ rest) := by simp
    have hpeek : peekChar (lexerAt (pre ++ (a :: d1 ++ '.' :: (b :: e1 ++ rest)))
        (pre.length + (a :: d1).length) prev) = b := by
      rw [peekChar_eq]
      simp only [lexerAt]
      rw [hcat2]
      exact getD_append_cons _ _ b _ (by simp; omega)
    have hbd : isDigit b = true := hedig b (by simp)
    obtain ⟨m, hm⟩ : ∃ m, f + 1 = (b :: e1).length + (m + 1) := ⟨f - (b :: e1).length, by
      simp only [List.length_append, List.length_cons] at hfuel ⊢; omega⟩
    have h2 := readNumber_decimal prev (pre ++ (a :: d1 ++ ['.'])) (b :: e1) rest m hedig hmax
      hex heb
    have elen : (pre ++ (a :: d1 ++ ['.'])).length = pre.length + (a :: d1).length + 1 := by
      simp; omega
    rw [elen, ← hcat2, ← hm] at h2
    rw [readDecimal]
    rw [hn] at *
    simp only [h1, hdot, hpeek, hbd, and_self, if_true, readChar_lexerAt]
    rw [h2]
    have es : String.mk (a :: d1) ++ "." ++ String.mk (b :: e1) =
        String.mk (a :: d1 ++ '.' :: b :: e1) := by
      apply String.ext; simp
    simp only [deliver, es]
  · intro hmax hnodot
    have h1 := readNumber_decimal prev pre (a :: d1) post n hdig hmax hx hb
    have hno : ¬ ((lexerAt (pre ++ (a :: d1 ++ post)) (pre.length + (a :: d1).length) prev).ch
          = '.' ∧
        isDigit (peekChar (lexerAt (pre ++ (a :: d1 ++ post)) (pre.length + (a :: d1).length)
          prev)) = true) := by
      rintro ⟨h3, h4⟩
      rw [peekChar_eq] at h4
      simp only [lexerAt] at h3 h4
      have hcat : pre ++ (a :: d1 ++ post) = (pre ++ (a :: d1)) ++ post := by simp
      have hl : pre.length + (a :: d1).length = (pre ++ (a :: d1)).length := by simp
      cases post with
      | nil =>
        rw [getD_length _ _ (by simp)] at h3
        exact absurd h3 (by decide)
      | cons p post =>
        rw [hcat, getD_append_cons _ post p _ hl] at h3
        subst h3
        cases post with
        | nil =>
          rw [getD_length _ _ (by simp; omega)] at h4
          exact absurd h4 (by decide)
        | cons q post =>
          have hcat2 : pre ++ (a :: d1 ++ '.' :: q :: post) =
              (pre ++ (a :: d1 ++ ['.'])) ++ q :: post := by simp
          rw [hcat2, getD_append_cons _ post q _ (by simp; omega)] at h4
          rw [hnodot q post rfl] at h4
          exact absurd h4 (by decide)
    rw [readDecimal]
    rw [hn] at *
    simp only [h1, if_neg hno, deliver]

/-- C29 (witness): `12.50;` begins with the FLOAT token `12.50`, and `1..5` with the
INT token `1`, the cursor left on the first `.`; the tokens of `1..5` are INT,
DOTDOT, INT and those of `1.len` are INT, PERIOD, IDENT. -/
theorem decimal_literal_witness :
    NextToken sampleUnicode 8 (lexerAt "12.50;".data 0 { Type_ := "", Literal := "" }) =
        .ok ({ Type_ := FLOAT, Literal := "12.50" },
          { lexerAt "12.50;".data 5 { Type_ := "", Literal := "" } with
            prevToken := { Type_ := FLOAT, Literal := "12.50" } }) ∧
      NextToken sampleUnicode 6 (lexerAt "1..5".data 0 { Type_ := "", Literal := "" }) =
        .ok ({ Type_ := INT, Literal := "1" },
          { lexerAt "1..5".data 1 { Type_ := "", Literal := "" } with
            prevToken := { Type_ := INT, Literal := "1" } }) ∧
      tokens sampleUnicode 10 3 (New "1..5") =
        .ok [{ Type_ := INT, Literal := "1" }, { Type_ := DOTDOT, Literal := ".." },
          { Type_ := INT, Literal := "5" }] ∧
      tokens sampleUnicode 10 3 (New "1.len") =
        .ok [{ Type_ := INT, Literal := "1" }, { Type_ := PERIOD, Literal := "." },
          { Type_ := IDENT, Literal := "len" }] :=
  ⟨(decimal_literal sampleUnicode { Type_ := "", Literal := "" } [] ['1', '2']
      ['.', '5', '0', ';'] 8 (by decide) (by decide) (by decide) (by decide) (by decide)).1
      ['5', '0'] [';'] rfl (by decide) (by decide) (by decide) (by decide) (by decide),
   (decimal_literal sampleUnicode { Type_ := "", Literal := "" } [] ['1']
      ['.', '.', '5'] 6 (by decide) (by decide) (by decide) (by decide) (by decide)).2
      (by decide)
      (fun c rest h => by
        simp only [List.cons.injEq, true_and] at h
        obtain ⟨rfl, _⟩ := h
        decide),
   rfl, rfl⟩

end NumberTheorems

section PrecedenceTheorems

open ast token lexer parser

/-- The precedence constant of each rank of the ladder. -/
theorem ladder_constants :
    ∀ t ∈ binaryOperators,
      precedences.lookup t =
        some ([0, COND, EQUALS, REGEXP_MATCH, LESSGREATER, SUM, PRODUCT, POWER, parser.MOD,
          parser.DOTDOT].getD (ladderRank t) 0) ∧
      1 ≤ ladderRank t ∧ ladderRank t ≤ 9 ∧ t ≠ token.SEMICOLON := by
  decide

/-- The precedence constants grow with the rank. -/
theorem ladder_monotone :
    ∀ i ∈ List.range 10, ∀ j ∈ List.range 10, 1 ≤ i → 1 ≤ j →
      ([0, COND, EQUALS, REGEXP_MATCH, LESSGREATER, SUM, PRODUCT, POWER, parser.MOD,
          parser.DOTDOT].getD i 0 <
        [0, COND, EQUALS, REGEXP_MATCH, LESSGREATER, SUM, PRODUCT, POWER, parser.MOD,
          parser.DOTDOT].getD j 0 ↔ i < j) ∧
      LOWEST < [0, COND, EQUALS, REGEXP_MATCH, LESSGREATER, SUM, PRODUCT, POWER, parser.MOD,
          parser.DOTDOT].getD i 0 := by
  decide

/-- The loop of `parseExpression` ends where its test fails. -/
theorem parseExpressionLoop_exit (u : Unicode) (h : Handlers) (lf : Nat)
    (pe : Nat → Parser → Parsed) (precedence n : Nat) (left : Node) (p : Parser)
    (hc : ¬ (¬ peekTokenIs p token.SEMICOLON = true ∧ precedence < peekPrecedence p)) :
    parseExpressionLoop u h lf pe precedence (n + 1) left p = .ok (left, p) := by
  rw [parseExpressionLoop, if_neg hc]

/-- One turn of the loop of `parseExpression` at a binary operator. -/
theorem parseExpressionLoop_step (u : Unicode) (h : Handlers) (lf : Nat)
    (pe : Nat → Parser → Parsed) (precedence n : Nat) (left e : Node) (p p1 p2 : Parser)
    (hop : p.peekToken.Type_ ∈ binaryOperators)
    (hc : precedence < peekPrecedence p)
    (hn : nextToken u lf p = .ok p1)
    (hfn : parseInfixExpression u lf pe left p1 = .ok (e, p2)) :
    parseExpressionLoop u h lf pe precedence (n + 1) left p =
      parseExpressionLoop u h lf pe precedence n e p2 := by
  have hsemi : ¬ (peekTokenIs p token.SEMICOLON = true) := by
    intro hs
    simp only [peekTokenIs, beq_iff_eq] at hs
    exact (ladder_constants _ hop).2.2.2 hs
  rw [parseExpressionLoop, if_pos ⟨hsemi, hc⟩]
  simp only [infixParseFns, if_pos hop, hn, hfn]

/-- At an atomic operand `parseExpression` starts its loop with the expression that
the operand stands for. -/
theorem parseExpression_atom (u : Unicode) (h : Handlers) (lf n precedence : Nat)
    (p : Parser) (node : Node) (ha : atomNode h p.curToken = some node) :
    parseExpression u h lf (n + 1) precedence p =
      parseExpressionLoop u h lf (parseExpression u h lf n) precedence (n + 1) node p := by
  rw [parseExpression]
  unfold atomNode at ha
  by_cases h1 : p.curToken.Type_ = token.IDENT
  · rw [if_pos h1] at ha
    cases ha
    have hpost : postfixParseFns token.IDENT = none := rfl
    have hpre : prefixParseFns u h lf (parseExpression u h lf n) token.IDENT =
        some parseIdentifier := rfl
    simp only [h1, hpost, hpre, parseIdentifier]
  rw [if_neg h1] at ha
  by_cases h2 : p.curToken.Type_ = token.INT
  · rw [if_pos h2] at ha
    obtain ⟨v, hv, rfl⟩ := Option.map_eq_some'.mp ha
    have hpost : postfixParseFns token.INT = none := rfl
    have hpre : prefixParseFns u h lf (parseExpression u h lf n) token.INT =
        some (parseIntegerLiteral h) := rfl
    simp only [h2, hpost, hpre, parseIntegerLiteral, hv]
  rw [if_neg h2] at ha
  by_cases h3 : p.curToken.Type_ = token.STRING
  · rw [if_pos h3] at ha
    cases ha
    have hpost : postfixParseFns token.STRING = none := rfl
    have hpre : prefixParseFns u h lf (parseExpression u h lf n) token.STRING =
        some parseStringLiteral := rfl
    simp only [h3, hpost, hpre, parseStringLiteral]
  rw [if_neg h3] at ha
  by_cases h4 : p.curToken.Type_ = token.TRUE
  · rw [if_pos h4] at ha
    cases ha
    have hpost : postfixParseFns token.TRUE = none := rfl
    have hpre : prefixParseFns u h lf (parseExpression u h lf n) token.TRUE =
        some parseBoolean := rfl
    simp only [h4, hpost, hpre, parseBoolean, curTokenIs, beq_self_eq_true]
  rw [if_neg h4] at ha
  by_cases h5 : p.curToken.Type_ = token.FALSE
  · rw [if_pos h5] at ha
    cases ha
    have hpost : postfixParseFns token.FALSE = none := rfl
    have hpre : prefixParseFns u h lf (parseExpression u h lf n) token.FALSE =
        some parseBoolean := rfl
    have hne : (token.FALSE == token.TRUE) = false := by decide
    simp only [h5, hpost, hpre, parseBoolean, curTokenIs, hne]
  rw [if_neg h5] at ha
  by_cases h6 : p.curToken.Type_ = token.NULL
  · rw [if_pos h6] at ha
    cases ha
    have hpost : postfixParseFns token.NULL = none := rfl
    have hpre : prefixParseFns u h lf (parseExpression u h lf n) token.NULL =
        some parseNull := rfl
    simp only [h6, hpost, hpre, parseNull]
  rw [if_neg h6] at ha
  cases ha

/-- The precedence that `peekPrecedence` and `curPrecedence` find for a binary
operator is above `LOWEST`, and two of them compare as the ranks do. -/
theorem binary_precedence (t1 t2 : String) (h1 : t1 ∈ binaryOperators)
    (h2 : t2 ∈ binaryOperators) :
    ∃ x1 x2, precedences.lookup t1 = some x1 ∧ precedences.lookup t2 = some x2 ∧
      LOWEST < x1 ∧ LOWEST < x2 ∧ (x1 < x2 ↔ ladderRank t1 < ladderRank t2) := by
  obtain ⟨e1, a1, b1, _⟩ := ladder_constants t1 h1
  obtain ⟨e2, a2, b2, _⟩ := ladder_constants t2 h2
  have m1 := ladder_monotone (ladderRank t1) (List.mem_range.mpr (by omega))
    (ladderRank t2) (List.mem_range.mpr (by omega)) a1 a2
  have m2 := ladder_monotone (ladderRank t2) (List.mem_range.mpr (by omega))
    (ladderRank t1) (List.mem_range.mpr (by omega)) a2 a1
  exact ⟨_, _, e1, e2, m1.2, m2.2, m1.1⟩

/-- C30: let the parser stand on an atomic operand `a` (an identifier, an integer, a
string, `TRUE`, `FALSE` or `NIL`) followed by a binary operator `op1`, and let the
lexer deliver an atomic operand `b`, a binary operator `op2`, an atomic operand `c`
and then a semicolon or the end of the input.  Given fuel, `parseExpression(LOWEST)`
returns `a op1 (b op2 c)` when the rank of `op2` in the ladder is above the rank of
`op1`, and `(a op1 b) op2 c` otherwise, with the parser on `c`. -/
theorem binary_operator_nesting (u : Unicode) (h : Handlers) (lf fuel : Nat) (p : Parser)
    (b op2 c t : Token) (l1 l2 l3 l4 : Lexer) (na nb nc : Node)
    (ha : atomNode h p.curToken = some na) (hop1 : p.peekToken.Type_ ∈ binaryOperators)
    (hb : atomNode h b = some nb) (hop2 : op2.Type_ ∈ binaryOperators)
    (hc : atomNode h c = some nc)
    (ht : t.Type_ = token.SEMICOLON ∨ t.Type_ = token.EOF)
    (h1 : NextToken u lf p.l = .ok (b, l1)) (h2 : NextToken u lf l1 = .ok (op2, l2))
    (h3 : NextToken u lf l2 = .ok (c, l3)) (h4 : NextToken u lf l3 = .ok (t, l4))
    (hfuel : 4 ≤ fuel) :
    parseExpression u h lf fuel LOWEST p =
      .ok (if ladderRank p.peekToken.Type_ < ladderRank op2.Type_ then
            .InfixExpression p.peekToken.Literal na
              (.InfixExpression op2.Literal nb nc)
          else
            .InfixExpression op2.Literal
              (.InfixExpression p.peekToken.Literal na
                nb)
              nc,
        { p with l := l4, prevToken := op2, curToken := c, peekToken := t }) := by
  obtain ⟨k, rfl⟩ : ∃ k, fuel = k + 4 := ⟨fuel - 4, by omega⟩
  obtain ⟨x1, x2, e1, e2, g1, g2, hlt⟩ := binary_precedence _ _ hop1 hop2
  -- the four states of the parser after `nextToken`
  have n1 : nextToken u lf p = .ok ⟨l1, p.curToken, p.peekToken, b, p.errors, p.tern⟩ := by
    simp only [nextToken, h1]
  have n2 : nextToken u lf ⟨l1, p.curToken, p.peekToken, b, p.errors, p.tern⟩ =
      .ok ⟨l2, p.peekToken, b, op2, p.errors, p.tern⟩ := by
    simp only [nextToken, h2]
  have n3 : nextToken u lf ⟨l2, p.peekToken, b, op2, p.errors, p.tern⟩ =
      .ok ⟨l3, b, op2, c, p.errors, p.tern⟩ := by
    simp only [nextToken, h3]
  have n4 : nextToken u lf ⟨l3, b, op2, c, p.errors, p.tern⟩ =
      .ok ⟨l4, op2, c, t, p.errors, p.tern⟩ := by
    simp only [nextToken, h4]
  -- the end of the expression
  have hend : ∀ precedence, LOWEST ≤ precedence →
      ¬ (¬ peekTokenIs ⟨l4, op2, c, t, p.errors, p.tern⟩ token.SEMICOLON = true ∧
        precedence < peekPrecedence ⟨l4, op2, c, t, p.errors, p.tern⟩) := by
    intro precedence hp
    rintro ⟨hs, hl⟩
    rcases ht with ht | ht
    · exact hs (by simp only [peekTokenIs, ht, beq_self_eq_true])
    · have : peekPrecedence ⟨l4, op2, c, t, p.errors, p.tern⟩ = LOWEST := by
        simp only [peekPrecedence, ht]; rfl
      rw [this] at hl
      omega
  -- the operand `c`
  have hcexp : ∀ n precedence, LOWEST ≤ precedence →
      parseExpression u h lf (n + 1) precedence ⟨l4, op2, c, t, p.errors, p.tern⟩ =
        .ok (nc, ⟨l4, op2, c, t, p.errors, p.tern⟩) := by
    intro n precedence hp
    rw [parseExpression_atom u h lf n precedence _ nc hc]
    exact parseExpressionLoop_exit u h lf _ precedence n _ _ (hend precedence hp)
  have hpk1 : peekPrecedence p = x1 := by simp only [peekPrecedence, e1]
  have hcur1 : curPrecedence ⟨l1, p.curToken, p.peekToken, b, p.errors, p.tern⟩ = x1 := by
    simp only [curPrecedence, e1]
  have hpk2 : peekPrecedence ⟨l2, p.peekToken, b, op2, p.errors, p.tern⟩ = x2 := by
    simp only [peekPrecedence, e2]
  have hcur2 : curPrecedence ⟨l3, b, op2, c, p.errors, p.tern⟩ = x2 := by
    simp only [curPrecedence, e2]
  -- `b op2 c` with `b` as the left operand, at any depth
  have hinner : ∀ n left, parseInfixExpression u lf (parseExpression u h lf (n + 1)) left
      ⟨l3, b, op2, c, p.errors, p.tern⟩ =
        .ok (.InfixExpression op2.Literal left nc,
          ⟨l4, op2, c, t, p.errors, p.tern⟩) := by
    intro n left
    simp only [parseInfixExpression, n4, hcur2, hcexp n x2 (by omega)]
  rw [parseExpression_atom u h lf (k + 3) LOWEST p na ha]
  by_cases hr : ladderRank p.peekToken.Type_ < ladderRank op2.Type_
  · rw [if_pos hr]
    have hx : x1 < x2 := hlt.mpr hr
    -- the right operand of `op1` is `b op2 c`
    have hright : parseExpression u h lf (k + 3) x1 ⟨l2, p.peekToken, b, op2, p.errors, p.tern⟩ =
        .ok (.InfixExpression op2.Literal nb nc,
          ⟨l4, op2, c, t, p.errors, p.tern⟩) := by
      rw [parseExpression_atom u h lf (k + 2) x1 _ nb hb]
      rw [parseExpressionLoop_step u h lf _ x1 (k + 2) _ _ _ _ _ hop2 (by rw [hpk2]; exact hx)
        n3 (hinner (k + 1) _)]
      exact parseExpressionLoop_exit u h lf _ x1 (k + 1) _ _ (hend x1 (by omega))
    have hfirst : parseInfixExpression u lf (parseExpression u h lf (k + 3))
        na ⟨l1, p.curToken, p.peekToken, b, p.errors, p.tern⟩ =
          .ok (.InfixExpression p.peekToken.Literal na
            (.InfixExpression op2.Literal nb nc),
            ⟨l4, op2, c, t, p.errors, p.tern⟩) := by
      simp only [parseInfixExpression, n2, hcur1, hright]
    rw [parseExpressionLoop_step u h lf _ LOWEST (k + 3) _ _ _ _ _ hop1
      (by rw [hpk1]; exact g1) n1 hfirst]
    exact parseExpressionLoop_exit u h lf _ LOWEST (k + 2) _ _ (hend LOWEST (by omega))
  · rw [if_neg hr]
    have hx : ¬ x1 < x2 := fun hx => hr (hlt.mp hx)
    -- the right operand of `op1` is `b`
    have hright : parseExpression u h lf (k + 3) x1 ⟨l2, p.peekToken, b, op2, p.errors, p.tern⟩ =
        .ok (nb, ⟨l2, p.peekToken, b, op2, p.errors, p.tern⟩) := by
      rw [parseExpression_atom u h lf (k + 2) x1 _ nb hb]
      exact parseExpressionLoop_exit u h lf _ x1 (k + 2) _ _
        (by rintro ⟨_, hl⟩; rw [hpk2] at hl; exact hx hl)
    have hfirst : parseInfixExpression u lf (parseExpression u h lf (k + 3))
        na ⟨l1, p.curToken, p.peekToken, b, p.errors, p.tern⟩ =
          .ok (.InfixExpression p.peekToken.Literal na
            nb, ⟨l2, p.peekToken, b, op2, p.errors, p.tern⟩) := by
      simp only [parseInfixExpression, n2, hcur1, hright]
    rw [parseExpressionLoop_step u h lf _ LOWEST (k + 3) _ _ _ _ _ hop1
      (by rw [hpk1]; exact g1) n1 hfirst]
    rw [parseExpressionLoop_step u h lf _ LOWEST (k + 2) _ _ _ _ _ hop2
      (by rw [hpk2]; exact g2) n3 (hinner (k + 2) _)]
    exact parseExpressionLoop_exit u h lf _ LOWEST (k + 1) _ _ (hend LOWEST (by omega))

/-- C30 (witness): `a + 2 * c;` parses as `a + (2 * c)`, and `a ** b ** c;` as
`(a ** b) ** c`. -/
theorem binary_operator_nesting_witness :
    (parser.New sampleUnicode 20 (lexer.New "a + 2 * c;")).bind
        (fun p => (parseExpression sampleUnicode sampleHandlers 20 4 LOWEST p).map
          (fun r => r.1)) =
      .ok (.InfixExpression "+" (.Identifier "a")
        (.InfixExpression "*" (.IntegerLiteral 2) (.Identifier "c"))) ∧
    (parser.New sampleUnicode 20 (lexer.New "a ** b ** c;")).bind
        (fun p => (parseExpression sampleUnicode sampleHandlers 20 4 LOWEST p).map
          (fun r => r.1)) =
      .ok (.InfixExpression "**"
        (.InfixExpression "**" (.Identifier "a") (.Identifier "b")) (.Identifier "c")) := by
  have hp1 : parser.New sampleUnicode 20 (lexer.New "a + 2 * c;") =
      .ok ⟨lexerAt "a + 2 * c;".data 3 ⟨"+", "+"⟩, noToken, ⟨"IDENT", "a"⟩, ⟨"+", "+"⟩, [],
        false⟩ := rfl
  have hp2 : parser.New sampleUnicode 20 (lexer.New "a ** b ** c;") =
      .ok ⟨lexerAt "a ** b ** c;".data 4 ⟨"**", "**"⟩, noToken, ⟨"IDENT", "a"⟩, ⟨"**", "**"⟩, [],
        false⟩ := rfl
  have t1 := binary_operator_nesting sampleUnicode sampleHandlers 20 4
    ⟨lexerAt "a + 2 * c;".data 3 ⟨"+", "+"⟩, noToken, ⟨"IDENT", "a"⟩, ⟨"+", "+"⟩, [], false⟩
    ⟨"INT", "2"⟩ ⟨"*", "*"⟩ ⟨"IDENT", "c"⟩ ⟨";", ";"⟩
    (lexerAt "a + 2 * c;".data 5 ⟨"INT", "2"⟩) (lexerAt "a + 2 * c;".data 7 ⟨"*", "*"⟩)
    (lexerAt "a + 2 * c;".data 9 ⟨"IDENT", "c"⟩) (lexerAt "a + 2 * c;".data 10 ⟨";", ";"⟩)
    (.Identifier "a") (.IntegerLiteral 2) (.Identifier "c")
    rfl (by decide) rfl (by decide) rfl (Or.inl rfl) rfl rfl rfl rfl (by decide)
  have t2 := binary_operator_nesting sampleUnicode sampleHandlers 20 4
    ⟨lexerAt "a ** b ** c;".data 4 ⟨"**", "**"⟩, noToken, ⟨"IDENT", "a"⟩, ⟨"**", "**"⟩, [],
      false⟩
    ⟨"IDENT", "b"⟩ ⟨"**", "**"⟩ ⟨"IDENT", "c"⟩ ⟨";", ";"⟩
    (lexerAt "a ** b ** c;".data 6 ⟨"IDENT", "b"⟩) (lexerAt "a ** b ** c;".data 9 ⟨"**", "**"⟩)
    (lexerAt "a ** b ** c;".data 11 ⟨"IDENT", "c"⟩) (lexerAt "a ** b ** c;".data 12 ⟨";", ";"⟩)
    (.Identifier "a") (.Identifier "b") (.Identifier "c")
    rfl (by decide) rfl (by decide) rfl (Or.inl rfl) rfl rfl rfl rfl (by decide)
  constructor
  · rw [hp1]
    simp only [Except.bind]
    rw [t1]
    rfl
  · rw [hp2]
    simp only [Except.bind]
    rw [t2]
    rfl

end PrecedenceTheorems

section TotalityTheorems

open object ast evaluator

/-- On two Integers `evalInfixExpression` is `evalIntegerInfixExpression`. -/
theorem evalInfixExpression_integers (host : Host) (operator : String) (l r : Int)
    (env : Environment) :
    evalInfixExpression host operator (.Integer l) (.Integer r) env =
      keepEnv env (evalIntegerInfixExpression host.ipow operator (.Integer l) (.Integer r)) := by
  simp [evalInfixExpression, andAlso, isType, Type_]

/-- C36: for integers `lo` and `hi` with `hi` more than one below `lo` (and `lo - hi`
at most `2^63`, so that the length does not wrap), the range `lo..hi` does not
return: `make` is called with a negative length, a run-time panic, and so the
evaluation of the infix expression `lo..hi` panics too.  When `hi` is one below `lo`
the range is the empty Array. -/
theorem range_below_start_panics (host : Host) (PRAGMAS : String → Int)
    (builtins : String → Option Object) (fuel : Nat) (env : Environment) (lo hi : Int)
    (h1 : hi + 1 < lo) (h2 : lo - hi ≤ 2 ^ 63) :
    evalIntegerInfixExpression host.ipow ".." (.Integer lo) (.Integer hi) = .error .panic ∧
    Eval PRAGMAS builtins (evalInfixExpression host) (fuel + 2)
      (.InfixExpression ".." (.IntegerLiteral lo) (.IntegerLiteral hi)) env = .error .panic ∧
    evalIntegerInfixExpression host.ipow ".." (.Integer lo) (.Integer (lo - 1)) =
      .ok (.Array [] 0) := by
  have hw1 : wrap64 (hi - lo) = hi - lo := wrap64_of_range _ (by omega) (by omega)
  have hw2 : wrap64 (hi - lo + 1) = hi - lo + 1 := wrap64_of_range _ (by omega) (by omega)
  have hneg : hi - lo + 1 < 0 := by omega
  have hp : evalIntegerInfixExpression host.ipow ".." (.Integer lo) (.Integer hi) =
      .error .panic := by
    simp [evalIntegerInfixExpression, hw1, hw2, hneg]
  refine ⟨hp, ?_, ?_⟩
  · have he : isError (Object.Integer lo) = false := rfl
    have he2 : isError (Object.Integer hi) = false := rfl
    simp only [Eval, he, he2, evalInfixExpression_integers, hp, keepEnv, Except.map]
    rfl
  · have hm : lo - 1 - lo = -1 := by omega
    have hw3 : wrap64 (-1) = -1 := by decide
    have hw0 : wrap64 0 = 0 := by decide
    simp [evalIntegerInfixExpression, hm, hw3, hw0, rangeLoop]

/-- C36 (witness): `5..3` panics, as a call of `evalIntegerInfixExpression` and as an
expression; `5..4` is the empty Array. -/
theorem range_below_start_panics_witness :
    evalIntegerInfixExpression sampleHost.ipow ".." (.Integer 5) (.Integer 3) =
        .error .panic ∧
      Eval noPragmas builtins (evalInfixExpression sampleHost) 2
        (.InfixExpression ".." (.IntegerLiteral 5) (.IntegerLiteral 3)) NewEnvironment =
        .error .panic ∧
      evalIntegerInfixExpression sampleHost.ipow ".." (.Integer 5) (.Integer (5 - 1)) =
        .ok (.Array [] 0) :=
  range_below_start_panics sampleHost noPragmas builtins 0 NewEnvironment 5 3
    (by norm_num) (by norm_num)

/-- The type of the two Boolean singletons. -/
theorem Type_nativeBool (b : Bool) : Type_ (nativeBoolToBooleanObject b) = some "BOOLEAN" := by
  cases b <;> rfl

/-- When `evalIntegerInfixExpression` panics on two Integers. -/
theorem evalIntegerInfixExpression_panic (pow : Int → Int → Int) (operator : String)
    (l r : Int) :
    evalIntegerInfixExpression pow operator (.Integer l) (.Integer r) = .error .panic ↔
      ((operator = "/" ∨ operator = "/=" ∨ operator = "%") ∧ r = 0) ∨
      (operator = ".." ∧ wrap64 (wrap64 (r - l) + 1) < 0) := by
  unfold evalIntegerInfixExpression
  dsimp only
  by_cases h0 : operator = "+"
  · subst h0; simp
  rw [if_neg h0]
  by_cases h1 : operator = "+="
  · subst h1; simp
  rw [if_neg h1]
  by_cases h2 : operator = "%"
  · subst h2
    by_cases hr : r = 0
    · simp [hr]
    · simp [hr]
  rw [if_neg h2]
  by_cases h3 : operator = "**"
  · subst h3; simp
  rw [if_neg h3]
  by_cases h4 : operator = "-"
  · subst h4; simp
  rw [if_neg h4]
  by_cases h5 : operator = "-="
  · subst h5; simp
  rw [if_neg h5]
  by_cases h6 : operator = "*"
  · subst h6; simp
  rw [if_neg h6]
  by_cases h7 : operator = "*="
  · subst h7; simp
  rw [if_neg h7]
  by_cases h8 : operator = "/"
  · subst h8
    by_cases hr : r = 0
    · simp [hr]
    · simp [hr]
  rw [if_neg h8]
  by_cases h9 : operator = "/="
  · subst h9
    by_cases hr : r = 0
    · simp [hr]
    · simp [hr]
  rw [if_neg h9]
  by_cases h10 : operator = "<"
  · subst h10; simp
  rw [if_neg h10]
  by_cases h11 : operator = "<="
  · subst h11; simp
  rw [if_neg h11]
  by_cases h12 : operator = ">"
  · subst h12; simp
  rw [if_neg h12]
  by_cases h13 : operator = ">="
  · subst h13; simp
  rw [if_neg h13]
  by_cases h14 : operator = "=="
  · subst h14; simp
  rw [if_neg h14]
  by_cases h15 : operator = "!="
  · subst h15; simp
  rw [if_neg h15]
  by_cases h16 : operator = ".."
  · subst h16
    by_cases hn : wrap64 (wrap64 (r - l) + 1) < 0
    · simp [hn]
    · simp [hn]
  rw [if_neg h16]
  simp [*]

/-- What `evalIntegerInfixExpression` returns on two Integers when it does not
panic. -/
theorem evalIntegerInfixExpression_value (pow : Int → Int → Int) (operator : String)
    (l r : Int) :
    evalIntegerInfixExpression pow operator (.Integer l) (.Integer r) = .error .panic ∨
      ∃ v, evalIntegerInfixExpression pow operator (.Integer l) (.Integer r) = .ok v ∧
        (Type_ v = some "INTEGER" ∨ Type_ v = some "BOOLEAN" ∨ Type_ v = some "ARRAY" ∨
          Type_ v = some "ERROR") := by
  unfold evalIntegerInfixExpression
  dsimp only
  by_cases h0 : operator = "+"
  · subst h0; simp [Type_]
  rw [if_neg h0]
  by_cases h1 : operator = "+="
  · subst h1; simp [Type_]
  rw [if_neg h1]
  by_cases h2 : operator = "%"
  · subst h2
    by_cases hr : r = 0
    · simp [hr]
    · simp [hr, Type_]
  rw [if_neg h2]
  by_cases h3 : operator = "**"
  · subst h3; simp [Type_]
  rw [if_neg h3]
  by_cases h4 : operator = "-"
  · subst h4; simp [Type_]
  rw [if_neg h4]
  by_cases h5 : operator = "-="
  · subst h5; simp [Type_]
  rw [if_neg h5]
  by_cases h6 : operator = "*"
  · subst h6; simp [Type_]
  rw [if_neg h6]
  by_cases h7 : operator = "*="
  · subst h7; simp [Type_]
  rw [if_neg h7]
  by_cases h8 : operator = "/"
  · subst h8
    by_cases hr : r = 0
    · simp [hr]
    · simp [hr, Type_]
  rw [if_neg h8]
  by_cases h9 : operator = "/="
  · subst h9
    by_cases hr : r = 0
    · simp [hr]
    · simp [hr, Type_]
  rw [if_neg h9]
  by_cases h10 : operator = "<"
  · subst h10
    rw [if_pos rfl]
    exact Or.inr ⟨_, rfl, Or.inr (Or.inl (Type_nativeBool _))⟩
  rw [if_neg h10]
  by_cases h11 : operator = "<="
  · subst h11
    rw [if_pos rfl]
    exact Or.inr ⟨_, rfl, Or.inr (Or.inl (Type_nativeBool _))⟩
  rw [if_neg h11]
  by_cases h12 : operator = ">"
  · subst h12
    rw [if_pos rfl]
    exact Or.inr ⟨_, rfl, Or.inr (Or.inl (Type_nativeBool _))⟩
  rw [if_neg h12]
  by_cases h13 : operator = ">="
  · subst h13
    rw [if_pos rfl]
    exact Or.inr ⟨_, rfl, Or.inr (Or.inl (Type_nativeBool _))⟩
  rw [if_neg h13]
  by_cases h14 : operator = "=="
  · subst h14
    rw [if_pos rfl]
    exact Or.inr ⟨_, rfl, Or.inr (Or.inl (Type_nativeBool _))⟩
  rw [if_neg h14]
  by_cases h15 : operator = "!="
  · subst h15
    rw [if_pos rfl]
    exact Or.inr ⟨_, rfl, Or.inr (Or.inl (Type_nativeBool _))⟩
  rw [if_neg h15]
  by_cases h16 : operator = ".."
  · subst h16
    by_cases hn : wrap64 (wrap64 (r - l) + 1) < 0
    · simp [hn]
    · simp [hn, Type_]
  rw [if_neg h16]
  simp [Type_]

/-- C39: on two Integers `evalIntegerInfixExpression` panics exactly in two cases:
the operator is `/`, `/=` or `%` and the right operand is 0 (Go's integer division by
zero), or the operator is `..` and the length computed for the range is negative.
In every other case it returns an Integer, a Boolean, an Array or an Error.  So
`1 / 0`, `1 /= 0` and `1 % 0` panic. -/
theorem integer_infix_panics_iff (pow : Int → Int → Int) (operator : String) (l r : Int) :
    (evalIntegerInfixExpression pow operator (.Integer l) (.Integer r) = .error .panic ↔
      ((operator = "/" ∨ operator = "/=" ∨ operator = "%") ∧ r = 0) ∨
      (operator = ".." ∧ wrap64 (wrap64 (r - l) + 1) < 0)) ∧
    (evalIntegerInfixExpression pow operator (.Integer l) (.Integer r) = .error .panic ∨
      ∃ v, evalIntegerInfixExpression pow operator (.Integer l) (.Integer r) = .ok v ∧
        (Type_ v = some "INTEGER" ∨ Type_ v = some "BOOLEAN" ∨ Type_ v = some "ARRAY" ∨
          Type_ v = some "ERROR")) ∧
    evalIntegerInfixExpression pow "/" (.Integer 1) (.Integer 0) = .error .panic ∧
    evalIntegerInfixExpression pow "/=" (.Integer 1) (.Integer 0) = .error .panic ∧
    evalIntegerInfixExpression pow "%" (.Integer 1) (.Integer 0) = .error .panic :=
  ⟨evalIntegerInfixExpression_panic pow operator l r,
    evalIntegerInfixExpression_value pow operator l r,
    by simp [evalIntegerInfixExpression], by simp [evalIntegerInfixExpression],
    by simp [evalIntegerInfixExpression]⟩

end TotalityTheorems

section IndexTheorems

open object ast evaluator

/-- On a String `evalIndexExpression` is `evalStringIndexExpression`. -/
theorem evalIndexExpression_String (host : Host) (s : String) (off : Nat) (index : Object) :
    evalIndexExpression host (.String s off) index =
      evalStringIndexExpression (.String s off) index := by
  simp [evalIndexExpression, Type_]

/-- A string has at least as many bytes as code points. -/
theorem length_le_utf8ByteSize (s : String) : s.length ≤ s.utf8ByteSize := by
  have h : ∀ l : List Char, l.length ≤ String.utf8ByteSize.go l := by
    intro l
    induction l with
    | nil => simp [String.utf8ByteSize.go]
    | cons c cs ih =>
      have hc : 0 < c.utf8Size := Char.utf8Size_pos c
      simp only [String.utf8ByteSize.go, List.length_cons]
      omega
  exact h s.data

/-- C40: let `s` be a String of `n` code points and `b` bytes (`n ≤ b`).  For an
Integer index `i`, `evalIndexExpression` returns the String of the `i`-th code point
when `0 ≤ i < n` and Null when `i < 0` or `i > b`, but for `n ≤ i ≤ b` it panics: the
bound it tests is the number of bytes, and the index goes into the slice of code
points.  For an index that is not an Integer it panics as well (the type assertion
fails).  So `"hello"[5]` panics. -/
theorem string_index_panics (host : Host) (s : String) (off : Nat) :
    (s.length : Int) ≤ s.utf8ByteSize ∧
    (∀ (i : Nat) (c : Char), s.data[i]? = some c →
      evalIndexExpression host (.String s off) (.Integer i) =
        .ok (.String (String.singleton c) 0)) ∧
    (∀ i : Int, (s.length : Int) ≤ i → i ≤ s.utf8ByteSize →
      evalIndexExpression host (.String s off) (.Integer i) = .error .panic) ∧
    (∀ i : Int, i < 0 ∨ (s.utf8ByteSize : Int) < i →
      evalIndexExpression host (.String s off) (.Integer i) = .ok NULL) ∧
    (∀ index : Object, (∀ i, index ≠ .Integer i) →
      evalIndexExpression host (.String s off) index = .error .panic) ∧
    evalIndexExpression host (.String "hello" 0) (.Integer 5) = .error .panic := by
  have hle := length_le_utf8ByteSize s
  refine ⟨by exact_mod_cast hle, ?_, ?_, ?_, ?_, ?_⟩
  · intro i c hc
    have hi : i < s.data.length := by
      by_contra hge
      rw [List.getElem?_eq_none (by omega)] at hc
      exact absurd hc (by simp)
    have hi2 : i < s.length := hi
    have h1 : ¬ ((i : Int) < 0 ∨ (i : Int) > (s.utf8ByteSize : Int)) := by omega
    rw [evalIndexExpression_String]
    simp only [evalStringIndexExpression, if_neg h1, Int.toNat_ofNat, hc]
  · intro i h1 h2
    have h3 : ¬ (i < 0 ∨ i > (s.utf8ByteSize : Int)) := by omega
    have h4 : s.data[i.toNat]? = none := by
      apply List.getElem?_eq_none
      have : s.data.length = s.length := rfl
      omega
    rw [evalIndexExpression_String]
    simp only [evalStringIndexExpression, if_neg h3, h4]
  · intro i h1
    have h3 : i < 0 ∨ i > (s.utf8ByteSize : Int) := by omega
    rw [evalIndexExpression_String]
    simp only [evalStringIndexExpression, if_pos h3]
  · intro index h
    rw [evalIndexExpression_String]
    cases index with
    | Integer i => exact absurd rfl (h i)
    | _ => rfl
  · rfl

end IndexTheorems

section HashTheorems

open object ast evaluator

/-- C34: the Strings `aaclpandjleialla` and `lmcgbmbgiollafdb` have the same 64-bit
FNV-1a hash, hence the same `HashKey`.  With `h = set({}, "aaclpandjleialla", 1)`,
the Hash `h' = set(h, "lmcgbmbgiollafdb", 2)` has one key instead of two, and
`h'["aaclpandjleialla"]` is 2 where `h["aaclpandjleialla"]` is 1: the entry of the
other key is replaced. -/
theorem set_replaces_colliding_key (host : Host) :
    hashKey host (.String "aaclpandjleialla" 0) =
        some { Type_ := "STRING", Value := 10136609758691774847 } ∧
    hashKey host (.String "lmcgbmbgiollafdb" 0) =
        some { Type_ := "STRING", Value := 10136609758691774847 } ∧
    ((setFun host [.Hash [] 0, .String "aaclpandjleialla" 0, .Integer 1]).bind fun h =>
      (setFun host [h, .String "lmcgbmbgiollafdb" 0, .Integer 2]).bind fun h' =>
        (evalHashIndexExpression host h (.String "aaclpandjleialla" 0)).bind fun before =>
          (evalHashIndexExpression host h' (.String "aaclpandjleialla" 0)).bind fun after =>
            (hashKeys [h']).map fun keys => (before, after, keys)) =
      .ok (.Integer 1, .Integer 2, .Array [.String "lmcgbmbgiollafdb" 0] 0) := by
  refine ⟨?_, ?_, ?_⟩ <;> rfl

end HashTheorems

section PostfixTheorems

open object ast evaluator

/-- C35 (counterexample): the program `const k = 1; k++` exits with code 3: `k` is
bound to the Integer 1, and yet nothing is rebound and nothing returned. -/
theorem postfix_on_constant_exits :
    Eval noPragmas builtins noInfix 3
      (.Program [.ConstStatement "k" (.IntegerLiteral 1), .PostfixExpression "k" "++"])
      NewEnvironment = .error (.exit 3) := by
  simp [Eval, evalProgram, evalPostfixExpression, isError, Type_, Object.isNil,
    NewEnvironment, Environment.SetConst, Environment.Get, Environment.Set, mapSet]

end PostfixTheorems

section PragmaTheorems

open object ast evaluator

/-- Writing the same pragma twice is writing it once. -/
theorem pragmaStore_idem (P : List (String × Int)) (input : String) :
    pragmaStore (pragmaStore P input) input = pragmaStore P input := by
  unfold pragmaStore
  by_cases h : P.any (fun e => e.1 == input) = true
  · have h2 : (P.map (fun e => if e.1 == input then (input, 1) else e)).any
        (fun e => e.1 == input) = true := by
      simp only [List.any_eq_true, List.mem_map] at h ⊢
      obtain ⟨e, he, hk⟩ := h
      exact ⟨(input, 1), ⟨e, he, by simp [hk]⟩, by simp⟩
    rw [if_pos h, if_pos h2, List.map_map]
    apply List.map_congr_left
    intro e _
    by_cases hk : e.1 = input
    · simp [hk]
    · simp [hk]
  · have h2 : (P ++ [(input, (1 : Int))]).any (fun e => e.1 == input) = true := by
      simp
    rw [if_neg h, if_pos h2, List.map_append]
    congr 1
    · rw [← List.map_id P]
      rw [List.map_map]
      apply List.map_congr_left
      intro e he
      have hk : ¬ e.1 = input := by
        intro hk
        exact h (List.any_eq_true.mpr ⟨e, he, by simp [hk]⟩)
      simp [hk]
    · simp

/-- The keys after a write are the keys before it and the key written. -/
theorem mem_pragmaStore (P : List (String × Int)) (input : String) (e : String × Int)
    (h : e ∈ pragmaStore P input) : e.1 = input ∨ e ∈ P := by
  unfold pragmaStore at h
  split at h
  · obtain ⟨a, ha, hae⟩ := List.mem_map.mp h
    by_cases hk : (a.1 == input) = true
    · rw [if_pos hk] at hae
      left; rw [← hae]
    · rw [if_neg hk] at hae
      right; rw [← hae]; exact ha
  · rcases List.mem_append.mp h with h1 | h1
    · exact Or.inr h1
    · left
      simp only [List.mem_singleton] at h1
      rw [h1]

/-- What a call of `pragma` with one String does to the entries. -/
theorem pragmaFun_String (toLower : String → String) (P : List (String × Int))
    (k : String) (off : Nat) :
    pragmaFun toLower P [.String k off] =
      if "no-".data.isPrefixOf (toLower k).data then
        .ok (.Array ((P.filter (fun e => e.1 != String.mk ((toLower k).data.drop 3))).map
            (fun e => Object.String e.1 0)) 0,
          P.filter (fun e => e.1 != String.mk ((toLower k).data.drop 3)))
      else
        .ok (.Array ((pragmaStore P (toLower k)).map (fun e => Object.String e.1 0)) 0,
          pragmaStore P (toLower k)) := by
  simp only [pragmaFun]

/-- The entries after a call of `pragma` are entries from before the call or
have a key that is a value of `toLower`. -/
theorem pragmaFun_entries (toLower : String → String) (P P1 : List (String × Int))
    (args : List Object) (v : Object) (hf : pragmaFun toLower P args = .ok (v, P1)) :
    ∀ e ∈ P1, e ∈ P ∨ ∃ s, e.1 = toLower s := by
  match args, hf with
  | [], hf =>
    simp only [pragmaFun, Except.ok.injEq, Prod.mk.injEq] at hf
    obtain ⟨_, rfl⟩ := hf
    exact fun e he => Or.inl he
  | [a], hf =>
    cases a with
    | String k off =>
      rw [pragmaFun_String] at hf
      split at hf
      · simp only [Except.ok.injEq, Prod.mk.injEq] at hf
        obtain ⟨_, rfl⟩ := hf
        exact fun e he => Or.inl (List.mem_filter.mp he).1
      · simp only [Except.ok.injEq, Prod.mk.injEq] at hf
        obtain ⟨_, rfl⟩ := hf
        intro e he
        rcases mem_pragmaStore P _ e he with h | h
        · exact Or.inr ⟨k, h⟩
        · exact Or.inl h
    | nil => simp [pragmaFun, Type_] at hf
    | _ =>
      simp only [pragmaFun, Type_, Except.ok.injEq, Prod.mk.injEq] at hf
      obtain ⟨_, rfl⟩ := hf
      exact fun e he => Or.inl he
  | _ :: _ :: _, hf =>
    simp only [pragmaFun, Except.ok.injEq, Prod.mk.injEq] at hf
    obtain ⟨_, rfl⟩ := hf
    exact fun e he => Or.inl he

/-- Every key of the map is in lower case: it is a value of `toLower`. -/
theorem pragmaRun_lower (toLower : String → String)
    (h1 : ∀ s, toLower (toLower s) = toLower s) (calls : List (List Object)) :
    ∀ P : List (String × Int), (∀ e ∈ P, toLower e.1 = e.1) →
      ∀ e ∈ pragmaRun toLower P calls, toLower e.1 = e.1 := by
  induction calls with
  | nil => intro P hP; exact hP
  | cons args rest ih =>
    intro P hP
    simp only [pragmaRun]
    cases hf : pragmaFun toLower P args with
    | error a => exact ih P hP
    | ok r =>
      obtain ⟨v, P1⟩ := r
      apply ih P1
      intro e he
      rcases pragmaFun_entries toLower P P1 args v hf e he with h | ⟨s, hs⟩
      · exact hP e h
      · rw [hs, h1]

/-- C33: let the entries `P` of the map be what a sequence of calls of `pragma` has
made of the empty map, and let `strings.ToLower` map its own values to themselves
and leave the prefix `no-` in place.  For every string `k`, a second call
`pragma(k)` leaves the entries that the first has left; and `pragma("no-" + k)`
after `pragma(k)` leaves entries none of which has the key `k`, and returns the
Array of the keys left, in which `k` does not occur. -/
theorem pragma_twice_and_removed (toLower : String → String)
    (h1 : ∀ s, toLower (toLower s) = toLower s)
    (h2 : ∀ s, toLower ("no-" ++ s) = "no-" ++ toLower s)
    (calls : List (List Object)) (k : String) (off : Nat) :
    ∃ r1 P1 r2 r3 P3 elements,
      pragmaFun toLower (pragmaRun toLower [] calls) [.String k off] = .ok (r1, P1) ∧
      pragmaFun toLower P1 [.String k off] = .ok (r2, P1) ∧
      pragmaFun toLower P1 [.String ("no-" ++ k) off] = .ok (r3, P3) ∧
      (∀ e ∈ P3, e.1 ≠ k) ∧
      r3 = .Array elements 0 ∧ (∀ o ∈ elements, ∀ n, o ≠ Object.String k n) ∧
      elements = P3.map (fun e => Object.String e.1 0) := by
  have hinv : ∀ e ∈ pragmaRun toLower [] calls, toLower e.1 = e.1 :=
    pragmaRun_lower toLower h1 calls [] (by simp)
  generalize pragmaRun toLower [] calls = P at hinv
  -- the call that removes
  have hdata : ("no-" ++ toLower k).data = "no-".data ++ (toLower k).data := by simp
  have hpre : "no-".data.isPrefixOf (toLower ("no-" ++ k)).data = true := by
    rw [h2, hdata]
    exact List.isPrefixOf_iff_prefix.mpr (List.prefix_append _ _)
  have hreal : String.mk ((toLower ("no-" ++ k)).data.drop 3) = toLower k := by
    rw [h2, hdata]
    have : ("no-".data ++ (toLower k).data).drop 3 = (toLower k).data :=
      List.drop_left' rfl
    rw [this]
  have hthird : ∀ P1 : List (String × Int),
      pragmaFun toLower P1 [.String ("no-" ++ k) off] =
        .ok (.Array ((P1.filter (fun e => e.1 != toLower k)).map
            (fun e => Object.String e.1 0)) 0, P1.filter (fun e => e.1 != toLower k)) := by
    intro P1
    rw [pragmaFun_String, if_pos hpre, hreal]
  -- no entry left has the key `k`
  have hkey : ∀ P1 : List (String × Int), (∀ e ∈ P1, e.1 = toLower k ∨ e ∈ P) →
      ∀ e ∈ P1.filter (fun e => e.1 != toLower k), e.1 ≠ k := by
    intro P1 hP1 e he hek
    obtain ⟨he1, he2⟩ := List.mem_filter.mp he
    have hne : e.1 ≠ toLower k := by simpa using he2
    rcases hP1 e he1 with h | h
    · exact hne h
    · have := hinv e h
      rw [hek] at this hne
      exact hne this.symm
  have hfinish : ∀ P1 : List (String × Int), (∀ e ∈ P1, e.1 = toLower k ∨ e ∈ P) →
      ∀ r1 r2, pragmaFun toLower P [.String k off] = .ok (r1, P1) →
        pragmaFun toLower P1 [.String k off] = .ok (r2, P1) →
        ∃ r1 P1 r2 r3 P3 elements,
          pragmaFun toLower P [.String k off] = .ok (r1, P1) ∧
          pragmaFun toLower P1 [.String k off] = .ok (r2, P1) ∧
          pragmaFun toLower P1 [.String ("no-" ++ k) off] = .ok (r3, P3) ∧
          (∀ e ∈ P3, e.1 ≠ k) ∧
          r3 = .Array elements 0 ∧ (∀ o ∈ elements, ∀ n, o ≠ Object.String k n) ∧
          elements = P3.map (fun e => Object.String e.1 0) := by
    intro P1 hP1 r1 r2 hc1 hc2
    refine ⟨r1, P1, r2, _, _, _, hc1, hc2, hthird P1, hkey P1 hP1, rfl, ?_, rfl⟩
    intro o ho n hon
    obtain ⟨e, he, heo⟩ := List.mem_map.mp ho
    rw [hon] at heo
    simp only [Object.String.injEq] at heo
    exact hkey P1 hP1 e he heo.1
  by_cases hp : "no-".data.isPrefixOf (toLower k).data = true
  · have hc1 : pragmaFun toLower P [.String k off] =
        .ok (.Array ((P.filter (fun e => e.1 != String.mk ((toLower k).data.drop 3))).map
            (fun e => Object.String e.1 0)) 0,
          P.filter (fun e => e.1 != String.mk ((toLower k).data.drop 3))) := by
      rw [pragmaFun_String, if_pos hp]
    have hc2 : pragmaFun toLower
        (P.filter (fun e => e.1 != String.mk ((toLower k).data.drop 3))) [.String k off] =
        .ok (.Array ((P.filter (fun e => e.1 != String.mk ((toLower k).data.drop 3))).map
            (fun e => Object.String e.1 0)) 0,
          P.filter (fun e => e.1 != String.mk ((toLower k).data.drop 3))) := by
      rw [pragmaFun_String, if_pos hp, List.filter_filter]
      simp only [Bool.and_self]
    exact hfinish _ (fun e he => Or.inr (List.mem_filter.mp he).1) _ _ hc1 hc2
  · have hc1 : pragmaFun toLower P [.String k off] =
        .ok (.Array ((pragmaStore P (toLower k)).map (fun e => Object.String e.1 0)) 0,
          pragmaStore P (toLower k)) := by
      rw [pragmaFun_String, if_neg hp]
    have hc2 : pragmaFun toLower (pragmaStore P (toLower k)) [.String k off] =
        .ok (.Array ((pragmaStore P (toLower k)).map (fun e => Object.String e.1 0)) 0,
          pragmaStore P (toLower k)) := by
      rw [pragmaFun_String, if_neg hp, pragmaStore_idem]
    exact hfinish _ (fun e he => mem_pragmaStore P _ e he) _ _ hc1 hc2

/-- The lowering of ASCII letters maps its own values to themselves. -/
theorem ToLower_idem (s : String) : ToLower (ToLower s) = ToLower s := by
  have hc : ∀ c : Char, c.toLower.toLower = c.toLower := by
    intro c
    by_cases h : c.toNat ≥ 65 ∧ c.toNat ≤ 90
    · have hc : c = Char.ofNat c.toNat := (Char.ofNat_toNat c).symm
      obtain ⟨ha, hb⟩ := h
      generalize c.toNat = n at ha hb hc
      subst hc
      interval_cases n <;> decide
    · have hl : c.toLower = c := by simp only [Char.toLower, if_neg h]
      rw [hl, hl]
  apply String.ext
  simp [ToLower, hc]

/-- The lowering of ASCII letters leaves the prefix `no-` in place. -/
theorem ToLower_no (s : String) : ToLower ("no-" ++ s) = "no-" ++ ToLower s := by
  apply String.ext
  simp only [ToLower, String.data_append, List.map_append]
  rfl

/-- C33 (witness): with the lowering of ASCII letters for `strings.ToLower`, after
the call `pragma("debug")` a second call `pragma("strict")` leaves the entries of
the first, and `pragma("no-strict")` leaves no entry with the key `strict`. -/
theorem pragma_twice_and_removed_witness :
    ∃ r1 P1 r2 r3 P3 elements,
      pragmaFun ToLower
          (pragmaRun ToLower [] [[.String "debug" 0]])
          [.String "strict" 0] = .ok (r1, P1) ∧
      pragmaFun ToLower P1 [.String "strict" 0] = .ok (r2, P1) ∧
      pragmaFun ToLower P1 [.String ("no-" ++ "strict") 0] = .ok (r3, P3) ∧
      (∀ e ∈ P3, e.1 ≠ "strict") ∧
      r3 = .Array elements 0 ∧ (∀ o ∈ elements, ∀ n, o ≠ Object.String "strict" n) ∧
      elements = P3.map (fun e => Object.String e.1 0) :=
  pragma_twice_and_removed ToLower ToLower_idem ToLower_no
    [[.String "debug" 0]] "strict" 0

end PragmaTheorems

section ProgressTheorems

open token lexer

/-- At a double quote `NextToken` goes to `readString`. -/
theorem NextToken_quote (u : Unicode) (f : Nat) (l : Lexer) (hch : l.ch = quote) :
    NextToken u (f + 1) l =
      match readString (f + 1) l "" with
      | .error a => .error a
      | .ok (str, l2) => advance { Type_ := STRING, Literal := str } l2 := by
  have hw : isWhitespace l.ch = false := by rw [hch]; decide
  have e1 : ¬ (l.ch = '#') := by rw [hch]; decide
  have e2 : ¬ (l.ch = '/') := by rw [hch]; decide
  have e3 : ¬ (l.ch = '&') := by rw [hch]; decide
  have e4 : ¬ (l.ch = '|') := by rw [hch]; decide
  have e5 : ¬ (l.ch = '=') := by rw [hch]; decide
  have e6 : ¬ (l.ch = ';') := by rw [hch]; decide
  have e7 : ¬ (l.ch = '?') := by rw [hch]; decide
  have e8 : ¬ (l.ch = '(') := by rw [hch]; decide
  have e9 : ¬ (l.ch = ')') := by rw [hch]; decide
  have e10 : ¬ (l.ch = ',') := by rw [hch]; decide
  have e11 : ¬ (l.ch = '.') := by rw [hch]; decide
  have e12 : ¬ (l.ch = '+') := by rw [hch]; decide
  have e13 : ¬ (l.ch = '%') := by rw [hch]; decide
  have e14 : ¬ (l.ch = lbrace) := by rw [hch]; decide
  have e15 : ¬ (l.ch = rbrace) := by rw [hch]; decide
  have e16 : ¬ (l.ch = '-') := by rw [hch]; decide
  have e17 : ¬ (l.ch = '*') := by rw [hch]; decide
  have e18 : ¬ (l.ch = '<') := by rw [hch]; decide
  have e19 : ¬ (l.ch = '>') := by rw [hch]; decide
  have e20 : ¬ (l.ch = '~') := by rw [hch]; decide
  have e21 : ¬ (l.ch = '!') := by rw [hch]; decide
  have e23 : ¬ (l.ch = backtick) := by rw [hch]; decide
  have e24 : ¬ (l.ch = '[') := by rw [hch]; decide
  have e25 : ¬ (l.ch = ']') := by rw [hch]; decide
  have e26 : ¬ (l.ch = ':') := by rw [hch]; decide
  have e27 : ¬ (l.ch = NUL) := by rw [hch]; decide
  rw [NextToken, skipWhitespace_stay _ _ hw]
  simp only [e1, e2, e3, e4, e5, e6, e7, e8, e9, e10, e11, e12, e13, e14, e15, e16, e17, e18, e19, e20, e21, e23, e24, e25, e26, e27, if_false, false_and, false_or]
  simp only [hch, if_true]

/-- At the character `@`, which no case of the `switch` names, `NextToken` goes to
`readIdentifier`. -/
theorem NextToken_at (u : Unicode) (f : Nat) (l : Lexer) (hch : l.ch = '@') :
    NextToken u (f + 1) l =
      match readIdentifier u (f + 1) l with
      | .error a => .error a
      | .ok (id, l2) => deliver { Type_ := LookupIdentifier id, Literal := id } l2 := by
  have hw : isWhitespace l.ch = false := by rw [hch]; decide
  have hd : isDigit l.ch = false := by rw [hch]; decide
  have e1 : ¬ (l.ch = '#') := by rw [hch]; decide
  have e2 : ¬ (l.ch = '/') := by rw [hch]; decide
  have e3 : ¬ (l.ch = '&') := by rw [hch]; decide
  have e4 : ¬ (l.ch = '|') := by rw [hch]; decide
  have e5 : ¬ (l.ch = '=') := by rw [hch]; decide
  have e6 : ¬ (l.ch = ';') := by rw [hch]; decide
  have e7 : ¬ (l.ch = '?') := by rw [hch]; decide
  have e8 : ¬ (l.ch = '(') := by rw [hch]; decide
  have e9 : ¬ (l.ch = ')') := by rw [hch]; decide
  have e10 : ¬ (l.ch = ',') := by rw [hch]; decide
  have e11 : ¬ (l.ch = '.') := by rw [hch]; decide
  have e12 : ¬ (l.ch = '+') := by rw [hch]; decide
  have e13 : ¬ (l.ch = '%') := by rw [hch]; decide
  have e14 : ¬ (l.ch = lbrace) := by rw [hch]; decide
  have e15 : ¬ (l.ch = rbrace) := by rw [hch]; decide
  have e16 : ¬ (l.ch = '-') := by rw [hch]; decide
  have e17 : ¬ (l.ch = '*') := by rw [hch]; decide
  have e18 : ¬ (l.ch = '<') := by rw [hch]; decide
  have e19 : ¬ (l.ch = '>') := by rw [hch]; decide
  have e20 : ¬ (l.ch = '~') := by rw [hch]; decide
  have e21 : ¬ (l.ch = '!') := by rw [hch]; decide
  have e22 : ¬ (l.ch = quote) := by rw [hch]; decide
  have e23 : ¬ (l.ch = backtick) := by rw [hch]; decide
  have e24 : ¬ (l.ch = '[') := by rw [hch]; decide
  have e25 : ¬ (l.ch = ']') := by rw [hch]; decide
  have e26 : ¬ (l.ch = ':') := by rw [hch]; decide
  have e27 : ¬ (l.ch = NUL) := by rw [hch]; decide
  rw [NextToken, skipWhitespace_stay _ _ hw]
  simp only [e1, e2, e3, e4, e5, e6, e7, e8, e9, e10, e11, e12, e13, e14, e15, e16, e17, e18, e19, e20, e21, e22, e23, e24, e25, e26, e27, if_false, false_and, false_or, hd, Bool.false_eq_true]

/-- Behind the last double quote of the input `readString` never returns. -/
theorem readString_unterminated (cs : List Char) (prev : Token) (n : Nat) :
    ∀ (i : Nat) (out : String), (∀ j, i < j → cs.getD j NUL ≠ quote) →
      readString n (lexerAt cs i prev) out = .error .outOfFuel := by
  induction n with
  | zero => intro i out _; rfl
  | succ n ih =>
    intro i out h
    have hq : ¬ ((lexerAt cs (i + 1) prev).ch = quote) := h (i + 1) (by omega)
    rw [readString_succ, readChar_lexerAt, if_neg hq]
    by_cases hb : (lexerAt cs (i + 1) prev).ch = backslash
    · rw [if_pos hb, readChar_lexerAt]
      generalize escaped (lexerAt cs (i + 1 + 1) prev).ch = e
      refine Eq.trans (readString_congr _ _ (lexerAt cs (i + 1 + 1) prev) _ rfl rfl rfl) ?_
      exact ih (i + 1 + 1) _ (fun j hj => h j (by omega))
    · rw [if_neg hb]
      exact ih (i + 1) _ (fun j hj => h j (by omega))

/-- At the character `@` `NextToken` returns the IDENT token with the empty literal
and leaves the cursor where it is. -/
theorem NextToken_at_stays (u : Unicode) (hat : isIdentifier u '@' = false) (f : Nat)
    (l : Lexer) (hch : l.ch = '@') :
    NextToken u (f + 1) l =
      .ok ({ Type_ := IDENT, Literal := "" },
        { l with prevToken := { Type_ := IDENT, Literal := "" } }) := by
  have hid : isIdentifier u l.ch = false := by rw [hch]; exact hat
  have hloop : readIdentifierLoop u (f + 1) l "" = .ok ("", l) := by
    rw [readIdentifierLoop, hid]
    rfl
  have hread : readIdentifier u (f + 1) l = .ok ("", l) := by
    simp only [readIdentifier, hloop]
    rfl
  rw [NextToken_at u f l hch, hread]
  rfl

/-- C38: a character that is neither named in the `switch` of `NextToken` nor part of
an identifier, such as `@`, is not consumed: every call of `NextToken` at it returns
the IDENT token with the empty literal and leaves the cursor on it, so that the EOF
token is never returned; and at a double quote that no later double quote closes,
`NextToken` does not return, whatever the fuel. -/
theorem lexer_stalls (u : Unicode) (hat : isIdentifier u '@' = false) (fuel n : Nat)
    (l : Lexer) (hch : l.ch = '@') (pre body : List Char) (prev : Token)
    (hq : quote ∉ body) :
    tokens u (fuel + 1) n l = .ok (List.replicate n { Type_ := IDENT, Literal := "" }) ∧
    NextToken u fuel (lexerAt (pre ++ quote :: body) pre.length prev) =
      .error .outOfFuel := by
  constructor
  · induction n generalizing l with
    | zero => rfl
    | succ n ih =>
      rw [tokens, NextToken_at_stays u hat fuel l hch]
      simp only []
      have h := ih { l with prevToken := { Type_ := IDENT, Literal := "" } } hch
      rw [h]
      rfl
  · cases fuel with
    | zero => rfl
    | succ f =>
      have hc : (lexerAt (pre ++ quote :: body) pre.length prev).ch = quote :=
        getD_append_cons pre body quote _ rfl
      have hun : ∀ j, pre.length < j → (pre ++ quote :: body).getD j NUL ≠ quote := by
        intro j hj
        rw [List.getD_eq_getElem?_getD, List.getElem?_append_right (by omega)]
        obtain ⟨k, rfl⟩ : ∃ k, j = pre.length + 1 + k := ⟨j - pre.length - 1, by omega⟩
        have e : pre.length + 1 + k - pre.length = k + 1 := by omega
        rw [e, List.getElem?_cons_succ]
        cases hk : body[k]? with
        | none => decide
        | some c =>
          intro hcq
          simp only [Option.getD_some] at hcq
          rw [hcq] at hk
          exact hq (List.getElem?_mem hk)
      rw [NextToken_quote u f _ hc, readString_unterminated _ prev (f + 1) pre.length "" hun]

/-- C38 (witness): on the text `@` three calls of `NextToken` return three IDENT
tokens with the empty literal, and on the text `"a` the call does not return. -/
theorem lexer_stalls_witness :
    tokens sampleUnicode 5 3 (New "@") =
        .ok (List.replicate 3 { Type_ := IDENT, Literal := "" }) ∧
      NextToken sampleUnicode 100 (lexerAt ([] ++ quote :: ['a']) 0
        { Type_ := "", Literal := "" }) = .error .outOfFuel :=
  lexer_stalls sampleUnicode (by decide) 4 3 (New "@") rfl [] ['a']
    { Type_ := "", Literal := "" } (by decide)

end ProgressTheorems

section TernaryTheorems

open ast token lexer parser

/-- C31: in `a ? -b ? c : d : e;` the true branch `-b ? c : d` holds a ternary, and
no nesting error is recorded: the branch is parsed at the precedence of its first
token `-`, so it ends before the inner `?`; the missing `:` is reported, and the inner
ternary is then parsed with the condition nil.  The same precedence makes
`a ? -b + 1 : c;`, which is not nested, a parse error: the branch ends before `+`. -/
theorem nested_ternary_unreported :
    (parser.New sampleUnicode 30 (lexer.New "a ? -b ? c : d : e;")).bind
        (fun p => (parseExpression sampleUnicode sampleHandlers 30 10 LOWEST p).map
          (fun r => (r.1, r.2.errors, r.2.tern))) =
      .ok (.TernaryExpression .nil (.Identifier "c") (.Identifier "d"),
        ["expected next token to be :, got IDENT instead around line 0"], false) ∧
    (parser.New sampleUnicode 30 (lexer.New "a ? -b + 1 : c;")).bind
        (fun p => (parseExpression sampleUnicode sampleHandlers 30 10 LOWEST p).map
          (fun r => (r.1, r.2.errors, r.2.tern))) =
      .ok (.InfixExpression "+" .nil (.IntegerLiteral 1),
        ["expected next token to be :, got IDENT instead around line 0"], false) := by
  constructor <;> rfl

/-- The latch: a call of `parseTernaryExpression` with the latch set records the
error `nested ternary expressions are illegal`, returns nil and leaves the latch
set; a call with the latch clear that returns, with an expression or with nil,
leaves the latch clear. -/
theorem ternary_latch (u : Unicode) (lfuel : Nat) (parseExpression : Nat → Parser → Parsed)
    (condition : Node) (p : Parser) :
    (p.tern = true →
      parseTernaryExpression u lfuel parseExpression condition p =
        .ok (.nil, { p with errors := p.errors ++
          ["nested ternary expressions are illegal, around line " ++
            toString (GetLine p.l)] })) ∧
    (p.tern = false → ∀ e p1,
      parseTernaryExpression u lfuel parseExpression condition p = .ok (e, p1) →
        p1.tern = false) := by
  constructor
  · intro h
    rw [parseTernaryExpression, if_pos h]
  · intro h e p1 hp
    have hf : ¬ (p.tern = true) := by rw [h]; decide
    rw [parseTernaryExpression, if_neg hf] at hp
    split at hp
    · cases hp
    · dsimp only at hp
      split at hp
      · cases hp
      · split at hp
        · cases hp
        · simp only [Except.ok.injEq, Prod.mk.injEq] at hp
          rw [← hp.2]
        · split at hp
          · cases hp
          · split at hp
            · cases hp
            · simp only [Except.ok.injEq, Prod.mk.injEq] at hp
              rw [← hp.2]

/-- Instances: in `a ? b : c;` the call at `?`, entered with the latch clear,
returns with the latch clear; the sources `a ? b ? c : d : e;`, `a ? (b ? c : d) : e;`
and `a ? b : c ? d : e;` record the nesting error, and `a ? b : c;` records no
error. -/
theorem ternary_latch_witness :
    (∃ e p1, parseTernaryExpression sampleUnicode 30
        (parseExpression sampleUnicode sampleHandlers 30 10) (.Identifier "a")
        ⟨lexerAt "a ? b : c;".data 5 ⟨"IDENT", "b"⟩, ⟨"IDENT", "a"⟩, ⟨"?", "?"⟩, ⟨"IDENT", "b"⟩,
          [], false⟩ = .ok (e, p1) ∧ p1.tern = false) ∧
    (parser.New sampleUnicode 30 (lexer.New "a ? b : c;")).bind
        (fun p => (parseExpression sampleUnicode sampleHandlers 30 10 LOWEST p).map
          (fun r => (r.1, r.2.errors))) =
      .ok (.TernaryExpression (.Identifier "a") (.Identifier "b") (.Identifier "c"), []) ∧
    (parser.New sampleUnicode 30 (lexer.New "a ? b ? c : d : e;")).bind
        (fun p => (parseExpression sampleUnicode sampleHandlers 30 10 LOWEST p).map
          (fun r => r.2.errors.head?)) =
      .ok (some "nested ternary expressions are illegal, around line 0") ∧
    (parser.New sampleUnicode 30 (lexer.New "a ? (b ? c : d) : e;")).bind
        (fun p => (parseExpression sampleUnicode sampleHandlers 30 10 LOWEST p).map
          (fun r => r.2.errors.head?)) =
      .ok (some "nested ternary expressions are illegal, around line 0") ∧
    (parser.New sampleUnicode 30 (lexer.New "a ? b : c ? d : e;")).bind
        (fun p => (parseExpression sampleUnicode sampleHandlers 30 10 LOWEST p).map
          (fun r => r.2.errors.head?)) =
      .ok (some "nested ternary expressions are illegal, around line 0") := by
  refine ⟨?_, ?_, ?_, ?_, ?_⟩
  · have h : parseTernaryExpression sampleUnicode 30
        (parseExpression sampleUnicode sampleHandlers 30 10) (.Identifier "a")
        ⟨lexerAt "a ? b : c;".data 5 ⟨"IDENT", "b"⟩, ⟨"IDENT", "a"⟩, ⟨"?", "?"⟩, ⟨"IDENT", "b"⟩,
          [], false⟩ =
        .ok (.TernaryExpression (.Identifier "a") (.Identifier "b") (.Identifier "c"),
          ⟨lexerAt "a ? b : c;".data 10 ⟨";", ";"⟩, ⟨":", ":"⟩, ⟨"IDENT", "c"⟩, ⟨";", ";"⟩,
            [], false⟩) := rfl
    exact ⟨_, _, h, (ternary_latch sampleUnicode 30
      (parseExpression sampleUnicode sampleHandlers 30 10) (.Identifier "a") _).2 rfl _ _ h⟩
  all_goals rfl

end TernaryTheorems

section RegexpFieldTheorems

open ast token lexer parser

/-- C32: the literal `/(?:a)b/`, whose text between the slashes is `(?:a)b`, is lexed
as the REGEXP token `(?:a)b`, parsed as the RegexpLiteral with the value `b` and the
flags `:a`, and evaluated to the Regexp with these fields: the group `(?:a)` at the
start of the pattern is read as a flag prefix.  The literal `/ab/im` gives the value
`ab` and the flags `im`. -/
theorem regexp_group_read_as_flags :
    (parser.New sampleUnicode 30 (lexer.New "/(?:a)b/")).bind
        (fun p => (parseExpression sampleUnicode sampleHandlers 30 10 LOWEST p).bind
          (fun r => (evaluator.Eval evaluator.noPragmas evaluator.builtins evaluator.noInfix 2
            r.1 object.NewEnvironment).map (fun v => (p.curToken, r.1, v.1)))) =
      .ok ({ Type_ := REGEXP, Literal := "(?:a)b" }, .RegexpLiteral "b" ":a",
        object.Object.Regexp "b" ":a") ∧
    (parser.New sampleUnicode 30 (lexer.New "/ab/im")).bind
        (fun p => (parseExpression sampleUnicode sampleHandlers 30 10 LOWEST p).bind
          (fun r => (evaluator.Eval evaluator.noPragmas evaluator.builtins evaluator.noInfix 2
            r.1 object.NewEnvironment).map (fun v => (p.curToken, r.1, v.1)))) =
      .ok ({ Type_ := REGEXP, Literal := "(?im)ab" }, .RegexpLiteral "ab" "im",
        object.Object.Regexp "ab" "im") := by
  constructor <;> rfl

end RegexpFieldTheorems

section LogicalDispatchTheorems

open object ast evaluator

/-- On the five pairs of operand types that go to the arithmetic, `&&` and `||` are
unknown operators. -/
theorem logical_on_arithmetic_pair (host : Host) (op : String) (hop : op = "&&" ∨ op = "||")
    (l r : Object) (env : Environment) (tl tr : String)
    (hl : Type_ l = some tl) (hr : Type_ r = some tr) (hp : (tl, tr) ∈ arithmeticPairs) :
    evalInfixExpression host op l r env = .ok (unknownOperator tl op tr, env) := by
  simp only [arithmeticPairs, List.mem_cons, Prod.mk.injEq, List.mem_singleton,
    List.not_mem_nil, or_false] at hp
  rcases hp with ⟨rfl, rfl⟩ | ⟨rfl, rfl⟩ | ⟨rfl, rfl⟩ | ⟨rfl, rfl⟩ | ⟨rfl, rfl⟩
  · obtain ⟨a, rfl⟩ := Type_INTEGER l hl
    obtain ⟨b, rfl⟩ := Type_INTEGER r hr
    rcases hop with rfl | rfl <;>
    simp [evalInfixExpression, andAlso, isType, Type_, keepEnv,
      evalIntegerInfixExpression, unknownOperator, Except.map]
  · obtain ⟨a, rfl⟩ := Type_FLOAT l hl
    obtain ⟨b, rfl⟩ := Type_FLOAT r hr
    rcases hop with rfl | rfl <;>
    simp [evalInfixExpression, andAlso, isType, Type_, keepEnv,
      evalFloatInfixExpression, floatInfix, Except.map]
  · obtain ⟨a, rfl⟩ := Type_FLOAT l hl
    obtain ⟨b, rfl⟩ := Type_INTEGER r hr
    rcases hop with rfl | rfl <;>
    simp [evalInfixExpression, andAlso, isType, Type_, keepEnv,
      evalFloatIntegerInfixExpression, floatInfix, Except.map]
  · obtain ⟨a, rfl⟩ := Type_INTEGER l hl
    obtain ⟨b, rfl⟩ := Type_FLOAT r hr
    rcases hop with rfl | rfl <;>
    simp [evalInfixExpression, andAlso, isType, Type_, keepEnv,
      evalIntegerFloatInfixExpression, floatInfix, Except.map]
  · obtain ⟨a, ka, rfl⟩ := Type_STRING l hl
    obtain ⟨b, kb, rfl⟩ := Type_STRING r hr
    rcases hop with rfl | rfl <;>
    simp [evalInfixExpression, andAlso, isType, Type_, keepEnv,
      evalStringInfixExpression, Except.map]

/-- C15: let `l` and `r` be operands that are not nil, of the types `tl` and `tr`.
When the pair of types is one of Integer/Integer, Float/Float, Float/Integer,
Integer/Float, String/String, `l && r` and `l || r` are not Booleans but the Errors
`unknown operator: tl && tr` and `unknown operator: tl || tr`: the operands go to the
arithmetic of their types before the operator is looked at.  For every other pair
`&&` is the Boolean conjunction and `||` the Boolean disjunction of
`objectToNativeBoolean` of the operands, the environment unchanged, as specified;
`objectToNativeBoolean` is the truthiness rule of the specification, with rules of
its own for a Regexp (false exactly when its pattern is empty) and a `ReturnValue`
(the truthiness of the value inside it). -/
theorem logical_operators (host : Host) (l r : Object) (env : Environment) (tl tr : String)
    (hl : Type_ l = some tl) (hr : Type_ r = some tr) :
    ((tl, tr) ∈ arithmeticPairs →
      evalInfixExpression host "&&" l r env = .ok (unknownOperator tl "&&" tr, env) ∧
      evalInfixExpression host "||" l r env = .ok (unknownOperator tl "||" tr, env)) ∧
    ((tl, tr) ∉ arithmeticPairs →
      evalInfixExpression host "&&" l r env =
        .ok (nativeBoolToBooleanObject
          (objectToNativeBoolean l && objectToNativeBoolean r), env) ∧
      evalInfixExpression host "||" l r env =
        .ok (nativeBoolToBooleanObject
          (objectToNativeBoolean l || objectToNativeBoolean r), env)) ∧
    (∀ v, specialCased v = false → objectToNativeBoolean v = truthy v) ∧
    (∀ Value Flags, objectToNativeBoolean (.Regexp Value Flags) = (Value != "")) ∧
    (∀ v, objectToNativeBoolean (.ReturnValue v) =
      match v with
      | .Regexp Value _ => Value != ""
      | other => truthy other) := by
  refine ⟨?_, ?_, ?_, ?_, ?_⟩
  · intro hp
    exact ⟨logical_on_arithmetic_pair host "&&" (Or.inl rfl) l r env tl tr hl hr hp,
      logical_on_arithmetic_pair host "||" (Or.inr rfl) l r env tl tr hl hr hp⟩
  · intro hp
    constructor
    · rw [evalInfixExpression_other host "&&" l r env tl tr hl hr hp]; simp
    · rw [evalInfixExpression_other host "||" l r env tl tr hl hr hp]; simp
  · exact objectToNativeBoolean_truthy
  · intro Value Flags; simp [objectToNativeBoolean]
  · intro v
    cases v with
    | Regexp Value Flags => simp [objectToNativeBoolean]
    | ReturnValue w => simp [objectToNativeBoolean, truthy]
    | Integer Value => exact objectToNativeBoolean_truthy (.Integer Value) rfl
    | Array Elements offset => exact objectToNativeBoolean_truthy (.Array Elements offset) rfl
    | Hash Pairs offset => exact objectToNativeBoolean_truthy (.Hash Pairs offset) rfl
    | Float Value => exact objectToNativeBoolean_truthy (.Float Value) rfl
    | _ => simp [objectToNativeBoolean, truthy]

/-- C15 (witness): `1 && 1` and `1 || 0` are Errors, where the specification has the
Boolean true; `0 && "a"` is `FALSE` and `0 || "a"` is `TRUE`. -/
theorem logical_operators_witness :
    evalInfixExpression sampleHost "&&" (.Integer 1) (.Integer 1) NewEnvironment =
      .ok (.Error "unknown operator: INTEGER && INTEGER", NewEnvironment) ∧
    evalInfixExpression sampleHost "||" (.Integer 1) (.Integer 0) NewEnvironment =
      .ok (.Error "unknown operator: INTEGER || INTEGER", NewEnvironment) ∧
    evalInfixExpression sampleHost "&&" (.Integer 0) (.String "a" 0) NewEnvironment =
      .ok (FALSE, NewEnvironment) ∧
    evalInfixExpression sampleHost "||" (.Integer 0) (.String "a" 0) NewEnvironment =
      .ok (TRUE, NewEnvironment) := by
  have h1 := (logical_operators sampleHost (.Integer 1) (.Integer 1) NewEnvironment
    "INTEGER" "INTEGER" rfl rfl).1 (by decide)
  have h2 := (logical_operators sampleHost (.Integer 1) (.Integer 0) NewEnvironment
    "INTEGER" "INTEGER" rfl rfl).1 (by decide)
  have h3 := (logical_operators sampleHost (.Integer 0) (.String "a" 0) NewEnvironment
    "INTEGER" "STRING" rfl rfl).2.1 (by decide)
  refine ⟨?_, ?_, ?_, ?_⟩
  · rw [h1.1]; rfl
  · rw [h2.2]; rfl
  · rw [h3.1]; rfl
  · rw [h3.2]; rfl

end LogicalDispatchTheorems

section ConstantWriteTheorems

open object ast evaluator

/-- Where `Set` finds the name as a constant with a value other than nil, in the
scope or in a scope the write is handed to, it exits with code 3. -/
theorem Set_refuses (d : Environment) (x : String) (v : Object)
    (h : d.refuses x = true) : d.Set x v = .error (.exit 3) := by
  induction d with
  | nil => simp [Environment.refuses] at h
  | mk store readonly outer permit ih =>
    rw [Set_mk]
    by_cases hg : (!((store x).getD Object.nil).isNil && readonly x) = true
    · rw [if_pos hg]
    · rw [if_neg hg]
      have h2 : landsHere permit x = false ∧ outer.refuses x = true := by
        simp only [Environment.refuses, Bool.or_eq_true] at h
        rcases h with h | h
        · exact absurd h hg
        · simpa using h
      have ho : outer.isNil = false := by
        cases outer with
        | nil => simp [Environment.refuses] at h2
        | mk _ _ _ _ => rfl
      simp [h2.1, ho, ih h2.2, Except.map]

/-- Where it does not, and some scope takes the write, `Set` completes. -/
theorem Set_not_refused (d : Environment) (x : String) (v : Object) (j : Nat)
    (h : d.refuses x = false) (ht : d.target x = some j) :
    ∃ d', d.Set x v = .ok (d', v) := by
  induction d generalizing j with
  | nil => simp [Environment.target] at ht
  | mk store readonly outer permit ih =>
    simp only [Environment.refuses, Bool.or_eq_false_iff] at h
    rw [Set_mk]
    simp only [h.1, Bool.false_eq_true, if_false]
    simp only [Environment.target] at ht
    split
    · exact ⟨_, rfl⟩
    · rename_i hl
      simp only [hl, if_false, Bool.false_eq_true] at ht
      have hr : outer.refuses x = false := by simpa [hl] using h.2
      cases ho : outer.target x with
      | none => simp [ho] at ht
      | some j' =>
        have hn : outer.isNil = false := by
          cases outer with
          | nil => simp [Environment.target] at ho
          | mk _ _ _ _ => rfl
        obtain ⟨o', ho'⟩ := ih j' hr ho
        exact ⟨.mk store readonly o' permit, by simp [hn, ho', Except.map]⟩

/-- On an environment of the shape `Built` in which `x` is bound to a value other
than nil, a `Set` that completes is seen by `Get`. -/
theorem Set_then_Get_bound (d : Environment) (x : String) (v : Object) (d' : Environment)
    (r c : Object) (hb : d.Built) (hs : d.Set x v = .ok (d', r)) (hg : d.Get x = (c, true))
    (hc : c.isNil = false) : d'.Get x = (v, true) := by
  induction d generalizing d' r with
  | nil => simp [Environment.Set] at hs
  | mk store readonly outer permit ih =>
    obtain ⟨hguard, h2 | h2⟩ := Set_ok_cases _ _ _ _ _ _ _ _ hs
    · obtain ⟨_, he, _⟩ := h2
      subst he
      simp [Environment.Get, mapSet]
    · obtain ⟨hl, o', ho, he⟩ := h2
      subst he
      simp only [Environment.Built] at hb
      have hp : permit ≠ [] := by
        intro h0; simp [landsHere, h0] at hl
      have hnp : x ∉ permit := by
        intro hm; simp [landsHere, hm] at hl
      cases hst : store x with
      | some o =>
        exfalso
        have hgo : o = c := by
          simp only [Environment.Get, hst] at hg
          exact (Prod.mk.inj hg).1
        rcases hb.1 hp x (by simp [hst]) with hm | hro
        · exact hnp hm
        · subst hgo
          simp [hst, hro, hc] at hguard
      | none =>
        simp only [Environment.Get, hst] at hg ⊢
        exact ih o' r hb.2 ho hg

/-- C18 (amended): let `op` be one of `+`, `-`, `*`, `/`, let the right-hand side of
`x op= E` evaluate to a value `v`, leaving the environment `d1`, of the shape
`Built`, in which `x` is bound to `c` and some scope takes a write of `x`.  The plain
`c op v` leaves `d1` as it is.  When `v` is an Error the statement returns `v` and
leaves `d1` as it is.  When `v` is not an Error: if `c op v` is a value `r` that is not
an Error, then, when `Set` does not find `x` as a constant with a value other than
nil, in the scope or in a scope the write is handed to, the statement returns `r`
and `x` is bound to `r` afterwards, and when it does, the statement exits with code 3;
if `c op v` is an Error, the statement returns an Error and leaves `d1`, hence the
binding of `x`, as it is; if it aborts, so does the statement. -/
theorem compound_assignment (Eval : Evaluator) (host : Host) (PRAGMAS : String → Int)
    (x op opEq : String) (E : Node) (d d1 : Environment) (c v : Object) (j : Nat)
    (hop : (op, opEq) ∈ compoundOperators)
    (hE : Eval E d = .ok (v, d1))
    (hc : d1.Get x = (c, true))
    (hB : d1.Built) (ht : d1.target x = some j) :
    (∀ r e2, evalInfixExpression host op c v d1 = .ok (r, e2) → e2 = d1) ∧
    (isError v = true →
      evalAssignStatement Eval (evalInfixExpression host) PRAGMAS x opEq E d = .ok (v, d1)) ∧
    (isError v = false →
    (∀ r, evalInfixExpression host op c v d1 = .ok (r, d1) → isError r = false →
      (d1.refuses x = false →
        ∃ d2, evalAssignStatement Eval (evalInfixExpression host) PRAGMAS x opEq E d =
          .ok (r, d2) ∧ d2.Get x = (r, true)) ∧
      (d1.refuses x = true →
        evalAssignStatement Eval (evalInfixExpression host) PRAGMAS x opEq E d =
          .error (.exit 3))) ∧
    (∀ r, evalInfixExpression host op c v d1 = .ok (r, d1) → isError r = true →
      ∃ m, evalAssignStatement Eval (evalInfixExpression host) PRAGMAS x opEq E d =
          .ok (.Error m, d1)) ∧
    (∀ a, evalInfixExpression host op c v d1 = .error a →
      evalAssignStatement Eval (evalInfixExpression host) PRAGMAS x opEq E d =
        .error a)) := by
  obtain ⟨hsame, henv⟩ := compound_same_as_plain host op opEq hop c v d1
  have hmem : op ∈ ["+", "-", "*", "/", "+=", "-=", "*=", "/="] := by
    simp only [compoundOperators, List.mem_cons, Prod.mk.injEq, List.mem_singleton,
      List.not_mem_nil, or_false] at hop
    rcases hop with ⟨rfl, _⟩ | ⟨rfl, _⟩ | ⟨rfl, _⟩ | ⟨rfl, _⟩ <;> simp
  refine ⟨henv, ?_, ?_⟩
  · intro hv
    simp [evalAssignStatement, hE, hv]
  intro hv
  rw [evalAssignStatement_compound Eval (evalInfixExpression host) PRAGMAS x op opEq E d d1 v
    hop hE hv]
  refine ⟨?_, ?_, ?_⟩
  · intro r hr hne
    have heq : evalInfixExpression host opEq c v d1 = .ok (r, d1) := by
      rcases hsame with h | ⟨m1, m2, _, h2⟩
      · rw [h, hr]
      · rw [hr] at h2
        simp only [Except.ok.injEq, Prod.mk.injEq, and_true] at h2
        rw [h2] at hne
        simp [isError, Type_, Object.isNil] at hne
    have hcn : c.isNil = false := by
      cases c with
      | nil =>
        rw [arithmetic_nil host op hmem .nil v d1 (Or.inl rfl)] at hr
        cases hr
      | _ => rfl
    constructor
    · intro href
      obtain ⟨d2, hs⟩ := Set_not_refused d1 x r j href ht
      refine ⟨d2, ?_, Set_then_Get_bound d1 x r d2 r c hB hs hc hcn⟩
      simp [compoundAssign, hc, heq, hne, hs]
    · intro href
      simp [compoundAssign, hc, heq, hne, Set_refuses d1 x r href]
  · intro r hr he
    have heq : ∃ m, evalInfixExpression host opEq c v d1 = .ok (.Error m, d1) := by
      rcases hsame with h | ⟨m1, _, h1, _⟩
      · cases r with
        | Error m => exact ⟨m, by rw [h, hr]⟩
        | _ => simp [isError, Type_, Object.isNil] at he
      · exact ⟨m1, h1⟩
    obtain ⟨m, hm⟩ := heq
    exact ⟨m, by simp [compoundAssign, hc, hm, isError, Type_, Object.isNil]⟩
  · intro a ha
    have heq : evalInfixExpression host opEq c v d1 = .error a := by
      rcases hsame with h | ⟨_, m2, _, h2⟩
      · rw [h, ha]
      · rw [ha] at h2; cases h2
    simp [compoundAssign, hc, heq]

/-- C18 (witness): with `n` bound to 2 in the root, `n += 3` returns 5 and binds `n`
to 5; with `n` the constant 2 of the root, `n += 3` made in the temporary scope of
an `if` exits with code 3, and made in a function-call scope it returns 5 and binds
`n` there. -/
theorem compound_assignment_witness :
    (∃ d2, evalAssignStatement (Eval noPragmas builtins (evalInfixExpression sampleHost) 1)
        (evalInfixExpression sampleHost) noPragmas "n" "+=" (.IntegerLiteral 3)
        (.mk (mapSet (fun _ => none) "n" (some (.Integer 2))) (fun _ => false) .nil []) =
          .ok (.Integer 5, d2) ∧ d2.Get "n" = (.Integer 5, true)) ∧
    evalAssignStatement (Eval noPragmas builtins (evalInfixExpression sampleHost) 1)
        (evalInfixExpression sampleHost) noPragmas "n" "+=" (.IntegerLiteral 3)
        (NewTemporaryScope (NewEnvironment.SetConst "n" (.Integer 2)).1 ifPermit) =
          .error (.exit 3) ∧
    (∃ d2, evalAssignStatement (Eval noPragmas builtins (evalInfixExpression sampleHost) 1)
        (evalInfixExpression sampleHost) noPragmas "n" "+=" (.IntegerLiteral 3)
        (NewEnclosedEnvironment (NewEnvironment.SetConst "n" (.Integer 2)).1) =
          .ok (.Integer 5, d2) ∧ d2.Get "n" = (.Integer 5, true)) := by
  have hplus : ∀ env, evalInfixExpression sampleHost "+" (.Integer 2) (.Integer 3) env =
      .ok (.Integer 5, env) := by
    intro env
    simp [evalInfixExpression, andAlso, isType, Type_, keepEnv,
      evalIntegerInfixExpression, wrap64, Except.map]
  refine ⟨?_, ?_, ?_⟩
  · exact (((compound_assignment (Eval noPragmas builtins (evalInfixExpression sampleHost) 1)
      sampleHost noPragmas "n" "+" "+=" (.IntegerLiteral 3)
      (.mk (mapSet (fun _ => none) "n" (some (.Integer 2))) (fun _ => false) .nil [])
      (.mk (mapSet (fun _ => none) "n" (some (.Integer 2))) (fun _ => false) .nil [])
      (.Integer 2) (.Integer 3) 0 (by decide) (by simp [Eval])
      (by simp [Environment.Get, mapSet])
      (by simp [Environment.Built])
      (by simp [Environment.target, landsHere])).2.2 (by simp [isError, Type_])).1 (.Integer 5) (hplus _)
      (by simp [isError, Type_])).1 (by simp [Environment.refuses, mapSet, landsHere])
  · exact (((compound_assignment (Eval noPragmas builtins (evalInfixExpression sampleHost) 1)
      sampleHost noPragmas "n" "+" "+=" (.IntegerLiteral 3)
      (NewTemporaryScope (NewEnvironment.SetConst "n" (.Integer 2)).1 ifPermit)
      (NewTemporaryScope (NewEnvironment.SetConst "n" (.Integer 2)).1 ifPermit)
      (.Integer 2) (.Integer 3) 1 (by decide) (by simp [Eval])
      (by simp [NewTemporaryScope, NewEnvironment, Environment.SetConst, Environment.Get,
        mapSet])
      (by simp [NewTemporaryScope, NewEnvironment, Environment.SetConst, Environment.Built])
      (by
        have hx : "n" ∉ ifPermit := by decide
        have hp : ¬ ifPermit.length = 0 := by decide
        simp [NewTemporaryScope, NewEnvironment, Environment.SetConst, Environment.target,
          landsHere, hx, hp])).2.2 (by simp [isError, Type_])).1 (.Integer 5) (hplus _)
      (by simp [isError, Type_])).2
      (by
        have hx : "n" ∉ ifPermit := by decide
        have hp : ¬ ifPermit.length = 0 := by decide
        simp [NewTemporaryScope, NewEnvironment, Environment.SetConst, Environment.refuses,
          landsHere, mapSet, Object.isNil, hx, hp])
  · exact (((compound_assignment (Eval noPragmas builtins (evalInfixExpression sampleHost) 1)
      sampleHost noPragmas "n" "+" "+=" (.IntegerLiteral 3)
      (NewEnclosedEnvironment (NewEnvironment.SetConst "n" (.Integer 2)).1)
      (NewEnclosedEnvironment (NewEnvironment.SetConst "n" (.Integer 2)).1)
      (.Integer 2) (.Integer 3) 0 (by decide) (by simp [Eval])
      (by simp [NewEnclosedEnvironment, NewEnvironment, Environment.SetConst,
        Environment.Get, mapSet])
      (by simp [NewEnclosedEnvironment, NewEnvironment, Environment.SetConst,
        Environment.Built])
      (by simp [NewEnclosedEnvironment, Environment.target, landsHere])).2.2 (by simp [isError, Type_])).1 (.Integer 5)
      (hplus _) (by simp [isError, Type_])).1
      (by simp [NewEnclosedEnvironment, NewEnvironment, Environment.SetConst,
        Environment.refuses, landsHere])

/-- C35 (amended): let the environment `d` be of the shape `Built` and let some
scope of it take a write of `x`.  If `x` is bound to Integer `n`: when `Set` does
not find `x` as a constant with a value other than nil, in the scope or in a scope
the write is handed to, the postfix `x++` returns Integer `n` and `x` is bound to
`n + 1` (in 64 bits) afterwards, and `x--` returns `n` and binds `n - 1`; when it
does, both exit with code 3.  If `x` is bound to a value that is not an Integer
both return the Error `x is not an int`, and if `x` is not bound the Error
`x is unknown`, the environment staying as it is. -/
theorem postfix_operators (PRAGMAS : String → Int) (builtins : String → Option Object)
    (f : String → Object → Object → Environment → Result) (fuel : Nat)
    (d : Environment) (x : String) (j : Nat)
    (hB : d.Built) (ht : d.target x = some j) :
    (∀ n, d.Get x = (.Integer n, true) →
      (d.refuses x = false →
        (∃ d1, Eval PRAGMAS builtins f (fuel + 1) (.PostfixExpression x "++") d =
            .ok (.Integer n, d1) ∧ d1.Get x = (.Integer (wrap64 (n + 1)), true)) ∧
        (∃ d1, Eval PRAGMAS builtins f (fuel + 1) (.PostfixExpression x "--") d =
            .ok (.Integer n, d1) ∧ d1.Get x = (.Integer (wrap64 (n - 1)), true))) ∧
      (d.refuses x = true →
        Eval PRAGMAS builtins f (fuel + 1) (.PostfixExpression x "++") d =
          .error (.exit 3) ∧
        Eval PRAGMAS builtins f (fuel + 1) (.PostfixExpression x "--") d =
          .error (.exit 3))) ∧
    (∀ c, d.Get x = (c, true) → (∀ n, c ≠ .Integer n) →
      Eval PRAGMAS builtins f (fuel + 1) (.PostfixExpression x "++") d =
          .ok (.Error (x ++ " is not an int"), d) ∧
      Eval PRAGMAS builtins f (fuel + 1) (.PostfixExpression x "--") d =
          .ok (.Error (x ++ " is not an int"), d)) ∧
    (∀ c, d.Get x = (c, false) →
      Eval PRAGMAS builtins f (fuel + 1) (.PostfixExpression x "++") d =
          .ok (.Error (x ++ " is unknown"), d) ∧
      Eval PRAGMAS builtins f (fuel + 1) (.PostfixExpression x "--") d =
          .ok (.Error (x ++ " is unknown"), d)) := by
  refine ⟨?_, ?_, ?_⟩
  · intro n hg
    constructor
    · intro href
      constructor
      · obtain ⟨d1, hs⟩ := Set_not_refused d x (.Integer (wrap64 (n + 1))) j href ht
        refine ⟨d1, ?_, Set_then_Get_bound d x _ d1 _ _ hB hs hg rfl⟩
        simp [Eval, evalPostfixExpression, hg, hs]
      · obtain ⟨d1, hs⟩ := Set_not_refused d x (.Integer (wrap64 (n - 1))) j href ht
        refine ⟨d1, ?_, Set_then_Get_bound d x _ d1 _ _ hB hs hg rfl⟩
        simp [Eval, evalPostfixExpression, hg, hs]
    · intro href
      constructor
      · simp [Eval, evalPostfixExpression, hg, Set_refuses d x _ href]
      · simp [Eval, evalPostfixExpression, hg, Set_refuses d x _ href]
  · intro c hg hc
    cases c with
    | Integer n => exact absurd rfl (hc n)
    | _ => simp [Eval, evalPostfixExpression, hg]
  · intro c hg
    simp [Eval, evalPostfixExpression, hg]

/-- C35 (witness): with `i` bound to 0 in the root, `i++` returns 0 and binds `i`
to 1; with `i` the constant 0 of the root, `i++` made in a function-call scope
returns 0 and binds `i` to 1 there. -/
theorem postfix_operators_witness :
    (∃ d1, Eval noPragmas builtins noInfix 1 (.PostfixExpression "i" "++")
        (.mk (mapSet (fun _ => none) "i" (some (.Integer 0))) (fun _ => false) .nil []) =
          .ok (.Integer 0, d1) ∧ d1.Get "i" = (.Integer (wrap64 (0 + 1)), true)) ∧
    (∃ d1, Eval noPragmas builtins noInfix 1 (.PostfixExpression "i" "++")
        (NewEnclosedEnvironment (NewEnvironment.SetConst "i" (.Integer 0)).1) =
          .ok (.Integer 0, d1) ∧ d1.Get "i" = (.Integer (wrap64 (0 + 1)), true)) :=
  ⟨(((postfix_operators noPragmas builtins noInfix 0
    (.mk (mapSet (fun _ => none) "i" (some (.Integer 0))) (fun _ => false) .nil []) "i" 0
    (by simp [Environment.Built])
    (by simp [Environment.target, landsHere])).1 0
    (by simp [Environment.Get, mapSet])).1
    (by simp [Environment.refuses, mapSet, landsHere])).1,
   (((postfix_operators noPragmas builtins noInfix 0
    (NewEnclosedEnvironment (NewEnvironment.SetConst "i" (.Integer 0)).1) "i" 0
    (by simp [NewEnclosedEnvironment, NewEnvironment, Environment.SetConst,
      Environment.Built])
    (by simp [NewEnclosedEnvironment, Environment.target, landsHere])).1 0
    (by simp [NewEnclosedEnvironment, NewEnvironment, Environment.SetConst,
      Environment.Get, mapSet])).1
    (by simp [NewEnclosedEnvironment, NewEnvironment, Environment.SetConst,
      Environment.refuses, landsHere])).1⟩

end ConstantWriteTheorems

section CaptureScopeTheorems

open object ast evaluator

/-- The capture names `$1`, ..., `$31` differ from one another. -/
theorem captureName_inj (a b : Nat) (ha1 : 1 ≤ a) (ha2 : a ≤ 31) (hb1 : 1 ≤ b) (hb2 : b ≤ 31)
    (h : captureName a = captureName b) : a = b := by
  have hnd : ifPermit.Nodup := by decide
  have hlen : ifPermit.length = 31 := by decide
  have hget : ∀ k (h1 : 1 ≤ k) (h2 : k ≤ 31),
      ifPermit[k - 1]? = some (captureName k) := by
    intro k h1 h2
    simp only [ifPermit, List.getElem?_map, captureName]
    rw [List.getElem?_range' 1 1 (by omega)]
    simp only [Option.map_some', mul_one]
    congr 3
    omega
  have hA := hget a ha1 ha2
  have hB := hget b hb1 hb2
  have hia : a - 1 < ifPermit.length := by omega
  have hib : b - 1 < ifPermit.length := by omega
  rw [List.getElem?_eq_getElem hia] at hA
  rw [List.getElem?_eq_getElem hib] at hB
  have heq : ifPermit[a - 1] = ifPermit[b - 1] := by
    rw [Option.some.inj hA, Option.some.inj hB, h]
  have := (List.Nodup.getElem_inj_iff hnd).mp heq
  omega

/-- The capture writes of one match, made in the scope of an `if`, all stay in that
scope when there are at most 31 of them and none of the names is read-only there:
afterwards the scope binds the `m`-th of the names to the `m`-th capture and every
other name as before, and its outer scope is as it was. -/
theorem setCaptures_ifPermit (readonly : String → Bool) (outer : Environment)
    (caps : List String) (i : Nat) (store : String → Option Object)
    (hro : ∀ n ∈ ifPermit, readonly n = false) (hi : 1 ≤ i) (hlen : i + caps.length ≤ 32) :
    ∃ store', setCaptures caps i (.mk store readonly outer ifPermit) =
        .ok (.mk store' readonly outer ifPermit) ∧
      (∀ m (hm : m < caps.length),
        store' (captureName (i + m)) = some (.String (caps.get ⟨m, hm⟩) 0)) ∧
      (∀ name, (∀ m, m < caps.length → name ≠ captureName (i + m)) →
        store' name = store name) := by
  induction caps generalizing i store with
  | nil =>
    exact ⟨store, rfl, fun m hm => absurd hm (Nat.not_lt_zero m), fun _ _ => rfl⟩
  | cons c rest ih =>
    simp only [List.length_cons] at hlen
    have hm : captureName i ∈ ifPermit := captureName_mem_ifPermit i hi (by omega)
    have hl : landsHere ifPermit (captureName i) = true := by
      simp [landsHere, hm]
    have hs : (Environment.mk store readonly outer ifPermit).Set ("$" ++ toString i)
        (.String c 0) =
        .ok (.mk (mapSet store (captureName i) (some (.String c 0))) readonly outer ifPermit,
          .String c 0) := by
      show (Environment.mk store readonly outer ifPermit).Set (captureName i) _ = _
      rw [Set_mk]
      simp [hro _ hm, hl]
    obtain ⟨store', h', hcap, hframe⟩ :=
      ih (i + 1) (mapSet store (captureName i) (some (.String c 0))) (by omega) (by omega)
    refine ⟨store', by rw [setCaptures, hs]; exact h', ?_, ?_⟩
    · intro m hmlt
      cases m with
      | zero =>
        have hne : ∀ m, m < rest.length → captureName i ≠ captureName (i + 1 + m) := by
          intro m hm2 he
          have := captureName_inj i (i + 1 + m) hi (by omega) (by omega) (by omega) he
          omega
        rw [Nat.add_zero, hframe (captureName i) hne]
        simp [mapSet]
      | succ m =>
        have hm3 : m < rest.length := by simpa using hmlt
        have := hcap m hm3
        rw [show i + (m + 1) = i + 1 + m by omega]
        simpa using this
    · intro name hne
      rw [hframe name (fun m hm2 => by
        have := hne (m + 1) (by simp; omega)
        rwa [show i + (m + 1) = i + 1 + m by omega] at this)]
      have h0 := hne 0 (by simp)
      simp only [Nat.add_zero] at h0
      simp [mapSet, h0]

/-- C20 (amended): let `1 ≤ k ≤ 31`, and let no capture name be read-only in the scope.
In the temporary scope of an `if`, a write of `$k` is stored in that scope and leaves
the enclosing environment as it is.  So do the capture writes of a match made
there: when the pattern compiles and finds the text with at most 31 captures,
`s ~= r` is `TRUE`, the scope binds `$1`, `$2`, ... to the captures in their order and
every other name as before, and the enclosing environment is as it was.  A write of
a name that is not a capture name is handed to the enclosing environment.  In the
temporary scope of a `foreach`, whose permit list holds the loop variables only, a
write of `$k` is handed to the enclosing environment, and so is that of any other
name that is not a loop variable. -/
theorem capture_write_scopes (host : Host) (store : String → Option Object)
    (readonly : String → Bool)
    (outer : Environment) (k : Nat) (v : Object) (Ident Index : String)
    (hk1 : 1 ≤ k) (hk2 : k ≤ 31) (hro : ∀ n ∈ ifPermit, readonly n = false)
    (ho : outer.isNil = false) (hId : Ident ≠ captureName k) (hIx : Index ≠ captureName k) :
    (Environment.mk store readonly outer ifPermit).Set (captureName k) v =
      .ok (.mk (mapSet store (captureName k) (some v)) readonly outer ifPermit, v) ∧
    (∀ (s : String) (off : Nat) (Value Flags whole : String) (caps : List String),
      host.compiles (regexpPattern Value Flags) = true →
      host.FindStringSubmatch (regexpPattern Value Flags) s = whole :: caps →
      caps.length ≤ 31 →
      ∃ store', evalInfixExpression host "~=" (.String s off) (.Regexp Value Flags)
          (.mk store readonly outer ifPermit) =
            .ok (TRUE, .mk store' readonly outer ifPermit) ∧
        (∀ m (hm : m < caps.length),
          store' (captureName (1 + m)) = some (.String (caps.get ⟨m, hm⟩) 0)) ∧
        (∀ name, (∀ m, m < caps.length → name ≠ captureName (1 + m)) →
          store' name = store name)) ∧
    (Environment.mk store readonly outer (foreachPermit Ident Index)).Set (captureName k) v =
      (outer.Set (captureName k) v).map
        (fun p => (.mk store readonly p.1 (foreachPermit Ident Index), p.2)) ∧
    (∀ name, name ∉ ifPermit → readonly name = false →
      (Environment.mk store readonly outer ifPermit).Set name v =
        (outer.Set name v).map (fun p => (.mk store readonly p.1 ifPermit, p.2))) ∧
    (∀ name, name ∉ foreachPermit Ident Index → readonly name = false →
      (Environment.mk store readonly outer (foreachPermit Ident Index)).Set name v =
        (outer.Set name v).map
          (fun p => (.mk store readonly p.1 (foreachPermit Ident Index), p.2))) := by
  have hm : captureName k ∈ ifPermit := captureName_mem_ifPermit k hk1 hk2
  have hne : ¬ ifPermit.length = 0 := by decide
  have hlen2 : ¬ (foreachPermit Ident Index).length = 0 := by
    simp [foreachPermit]
  refine ⟨?_, ?_, ?_, ?_, ?_⟩
  · rw [Set_mk]
    simp [hro _ hm, landsHere, hm]
  · intro s off Value Flags whole caps hcomp hfind hlen
    obtain ⟨store', hset, hcap, hframe⟩ :=
      setCaptures_ifPermit readonly outer caps 1 store hro (by omega) (by omega)
    refine ⟨store', ?_, hcap, hframe⟩
    rw [evalInfixExpression_other host "~=" (.String s off) (.Regexp Value Flags) _
      "STRING" "REGEXP" rfl rfl (by decide)]
    cases caps with
    | nil =>
      simp only [setCaptures, Except.ok.injEq, Environment.mk.injEq, true_and, and_true]
        at hset
      simp [matches_, Inspect, hcomp, hfind, ← hset]
    | cons c rest =>
      simp [matches_, Inspect, hcomp, hfind, hset]
  · have hnot : captureName k ∉ foreachPermit Ident Index := by
      by_cases hx : Index = ""
      · simp [foreachPermit, hx, Ne.symm hId]
      · simp [foreachPermit, hx, Ne.symm hId, Ne.symm hIx]
    rw [Set_mk]
    simp [hro _ hm, landsHere, hnot, hlen2, ho]
  · intro name hn hr
    rw [Set_mk]
    simp [hr, landsHere, hn, hne, ho]
  · intro name hn hr
    rw [Set_mk]
    simp [hr, landsHere, hn, hlen2, ho]

/-- C20 (witness): over a fresh root, `$1` written in the scope of an `if` stays
there, and written in the scope of `foreach e in ...` it is handed to the root; the
match `"ab" ~= /(a)b/` made in the scope of an `if` binds `$1` to `a` there. -/
theorem capture_write_scopes_witness :
    (NewTemporaryScope NewEnvironment ifPermit).Set "$1" (.String "a" 0) =
      .ok (.mk (mapSet (fun _ => none) "$1" (some (.String "a" 0))) (fun _ => false)
        NewEnvironment ifPermit, .String "a" 0) ∧
    (NewTemporaryScope NewEnvironment ["e"]).Set "$1" (.String "a" 0) =
      (NewEnvironment.Set "$1" (.String "a" 0)).map
        (fun p => (.mk (fun _ => none) (fun _ => false) p.1 ["e"], p.2)) ∧
    (∃ store', evalInfixExpression sampleHost "~=" (.String "ab" 0) (.Regexp "(a)b" "")
        (NewTemporaryScope NewEnvironment ifPermit) =
          .ok (TRUE, .mk store' (fun _ => false) NewEnvironment ifPermit) ∧
      store' "$1" = some (.String "a" 0)) := by
  have h := capture_write_scopes sampleHost (fun _ => none) (fun _ => false) NewEnvironment 1
    (.String "a" 0) "e" "" (by decide) (by decide) (fun _ _ => rfl) rfl
    (by decide) (by decide)
  refine ⟨h.1, h.2.2.1, ?_⟩
  obtain ⟨store', h1, h2, _⟩ := h.2.1 "ab" 0 "(a)b" "" "ab" ["a"]
    (by simp [sampleHost, regexpPattern]) (by simp [sampleHost, regexpPattern]) (by decide)
  exact ⟨store', h1, h2 0 (by decide)⟩

end CaptureScopeTheorems

/-! ## The exit with code 5 -/

section MachineScopeTheorems

open machine
open object (Object Type_)

theorem sound_of_functions (m m1 : Memory) (h : m1.functions = m.functions) (hs : m.sound) :
    m1.sound := by
  unfold Memory.sound at hs ⊢
  intro f hf
  rw [h] at hf
  exact hs f hf

theorem rooted_isNil (e : Environment) (h : e.rooted = true) : e.isNil = false := by
  cases e with
  | nil => simp [Environment.rooted, Environment.permits] at h
  | mk id outer permit => rfl

theorem rooted_mk_nil (id : Nat) (permit : List String)
    (h : (Environment.mk id .nil permit).rooted = true) : permit = [] := by
  simpa [Environment.rooted, Environment.permits] using h

theorem rooted_mk_outer (id : Nat) (outer : Environment) (permit : List String)
    (ho : outer.isNil = false) :
    (Environment.mk id outer permit).rooted = outer.rooted := by
  cases outer with
  | nil => simp [Environment.isNil] at ho
  | mk id2 o p => simp only [Environment.rooted, Environment.permits, List.getLast?_cons_cons]

/-- A scope made over a chain whose outermost scope is plain has a non-nil outer
scope, and the outermost scope of its chain is plain. -/
theorem rooted_push (id : Nat) (env : Environment) (keys : List String)
    (h : env.rooted = true) : (Environment.mk id env keys).rooted = true := by
  rw [rooted_mk_outer id env keys (rooted_isNil env h)]
  exact h

theorem Set_functions (env : Environment) : ∀ (mem : Memory) (name : String) (val : Object)
    (m1 : Memory), machine.Set mem env name val = .ok m1 → m1.functions = mem.functions := by
  induction env with
  | nil => intro mem name val m1 h; simp [machine.Set] at h
  | mk id outer permit ih =>
    intro mem name val m1 h
    simp only [machine.Set] at h
    split at h
    · cases h
    · split at h
      · split at h
        · cases h; rfl
        · split at h
          · exact ih _ _ _ _ h
          · cases h
      · cases h; rfl

theorem exit3_ne_exit5 {α : Type} :
    (Except.error (Abort.exit 3) : Except Abort α) ≠ .error (.exit 5) := by
  intro h
  injection h with h
  exact absurd h (by decide)

theorem Set_not_exit5 (env : Environment) : ∀ (mem : Memory) (name : String) (val : Object),
    env.rooted = true → machine.Set mem env name val ≠ .error (.exit 5) := by
  induction env with
  | nil => intro _ _ _ h; simp [Environment.rooted, Environment.permits] at h
  | mk id outer permit ih =>
    intro mem name val hr
    simp only [machine.Set]
    split
    · exact exit3_ne_exit5
    · split
      · split
        · intro h; cases h
        · split
          · rename_i ho
            have ho1 : outer.isNil = false := by simpa using ho
            rw [rooted_mk_outer id outer permit ho1] at hr
            exact ih _ _ _ hr
          · rename_i hl _ ho
            have ho1 : outer.isNil = true := by simpa using ho
            cases outer with
            | nil =>
              have hp := rooted_mk_nil id permit hr
              subst hp
              simp at hl
            | mk _ _ _ => simp [Environment.isNil] at ho1
      · intro h; cases h

/-- On a chain whose outermost scope is plain, `Set` exits with code 3 or writes
the name into the first scope, counting outward, that is plain or has the name on its
permit list. -/
theorem Set_lands (env : Environment) : ∀ (mem : Memory) (name : String) (val : Object),
    env.rooted = true →
      machine.Set mem env name val = .error (.exit 3) ∨
        ∃ j a, env.target name = some j ∧ env.address j = some a ∧
          machine.Set mem env name val = .ok (mem.write a name val) := by
  induction env with
  | nil => intro _ _ _ h; simp [Environment.rooted, Environment.permits] at h
  | mk id outer permit ih =>
    intro mem name val hr
    simp only [machine.Set, Environment.target, object.landsHere]
    split
    · exact Or.inl rfl
    · split
      · rename_i hl
        split
        · rename_i hc
          have hc1 : name ∈ permit := by simpa using hc
          refine Or.inr ⟨0, id, ?_, rfl, rfl⟩
          simp [hc1]
        · rename_i hc
          have hc1 : name ∉ permit := by simpa using hc
          split
          · rename_i ho
            have ho1 : outer.isNil = false := by simpa using ho
            rw [rooted_mk_outer id outer permit ho1] at hr
            rcases ih mem name val hr with h3 | ⟨j, a, hj, ha, hset⟩
            · exact Or.inl h3
            · refine Or.inr ⟨j + 1, a, ?_, ha, hset⟩
              have hl0 : ¬ permit.length = 0 := by omega
              simp [hc1, hl0, hj]
          · rename_i ho
            have ho1 : outer.isNil = true := by simpa using ho
            cases outer with
            | nil =>
              have hp := rooted_mk_nil id permit hr
              subst hp
              simp at hl
            | mk _ _ _ => simp [Environment.isNil] at ho1
      · rename_i hl
        refine Or.inr ⟨0, id, ?_, rfl, rfl⟩
        have hl0 : permit.length = 0 := by omega
        simp [hl0]

theorem keeps_ok {α : Type} (v : α) (m : Memory) (h : m.sound) :
    keeps (.ok (v, m) : Except Abort (α × Memory)) := by
  unfold keeps
  refine ⟨(by intro h0; cases h0), ?_⟩
  intro v1 m1 h1
  cases h1
  exact h

theorem keeps_error {α : Type} (a : Abort) (h : a ≠ .exit 5) :
    keeps (.error a : Except Abort (α × Memory)) := by
  unfold keeps
  refine ⟨?_, by intro _ _ h0; cases h0⟩
  intro h0
  cases h0
  exact h rfl

theorem writes_ok (m : Memory) (h : m.sound) : writes (.ok m) := by
  unfold writes
  refine ⟨(by intro h0; cases h0), ?_⟩
  intro m1 h1
  cases h1
  exact h

theorem writes_error (a : Abort) (h : a ≠ .exit 5) : writes (.error a) := by
  unfold writes
  refine ⟨?_, by intro _ h0; cases h0⟩
  intro h0
  cases h0
  exact h rfl

theorem not_exit5_of {α : Type} {r : Except Abort α} {a : Abort}
    (hr : r ≠ .error (.exit 5)) (h : r = .error a) : a ≠ .exit 5 := by
  intro h0
  subst h0
  exact hr h

/-- An operation on values, run beside the memory, keeps the invariant when it is
not the exit with code 5. -/
theorem keepMem_keeps (mem : Memory) (r : Except Abort Object) (hs : mem.sound)
    (hr : r ≠ .error (.exit 5)) : keeps (keepMem mem r) := by
  unfold keepMem
  cases r with
  | error a =>
    refine keeps_error a ?_
    intro h0; subst h0; exact hr rfl
  | ok v => exact keeps_ok v mem hs

theorem keeps_map {α β : Type} (r : Except Abort (α × Memory)) (g : α → β) (hr : keeps r) :
    keeps (r.map (fun p => (g p.1, p.2))) := by
  cases hres : r with
  | error a =>
    refine keeps_error a ?_
    intro h; subst h; exact hr.1 hres
  | ok p =>
    obtain ⟨v, m1⟩ := p
    exact keeps_ok (g v) m1 (hr.2 v m1 hres)

/-- On a chain whose outermost scope is plain, `Set` does not exit with code 5 and
hands on a sound memory. -/
theorem Set_writes (mem : Memory) (env : Environment) (name : String) (val : Object)
    (hr : env.rooted = true) (hs : mem.sound) : writes (machine.Set mem env name val) := by
  unfold writes
  refine ⟨Set_not_exit5 env mem name val hr, ?_⟩
  intro m1 h
  exact sound_of_functions mem m1 (Set_functions env mem name val m1 h) hs

theorem SetConst_writes (mem : Memory) (env : Environment) (name : String) (val : Object)
    (hs : mem.sound) : writes (machine.SetConst mem env name val) := by
  cases env with
  | nil => exact writes_error _ (by decide)
  | mk id outer permit => exact writes_ok _ (sound_of_functions mem _ rfl hs)

theorem ite_not_exit5 {α : Type} (c : Prop) [Decidable c] (a b : Except Abort α)
    (ha : a ≠ .error (.exit 5)) (hb : b ≠ .error (.exit 5)) :
    (if c then a else b) ≠ .error (.exit 5) := by
  split
  · exact ha
  · exact hb

theorem evalIntegerInfixExpression_not_exit5 (pow : Int → Int → Int) (operator : String)
    (left right : Object) :
    evaluator.evalIntegerInfixExpression pow operator left right ≠ .error (.exit 5) := by
  unfold evaluator.evalIntegerInfixExpression
  split
  · dsimp only
    repeat' (first | apply ite_not_exit5 | (intro h; cases h))
  · intro h; cases h

theorem evalStringInfixExpression_not_exit5 (operator : String) (left right : Object) :
    evaluator.evalStringInfixExpression operator left right ≠ .error (.exit 5) := by
  unfold evaluator.evalStringInfixExpression
  split
  · repeat' split
    all_goals (intro h; cases h)
  · intro h; cases h

theorem evalBooleanInfixExpression_not_exit5 (host : evaluator.Host) (operator : String)
    (left right : Object) :
    evaluator.evalBooleanInfixExpression host operator left right ≠ .error (.exit 5) := by
  unfold evaluator.evalBooleanInfixExpression
  split
  · repeat' split
    all_goals first
      | exact evalStringInfixExpression_not_exit5 _ _ _
      | (intro h; cases h)
  · intro h; cases h

theorem evalFloatInfixExpression_not_exit5 (host : evaluator.Host) (operator : String)
    (left right : Object) :
    evaluator.evalFloatInfixExpression host operator left right ≠ .error (.exit 5) := by
  unfold evaluator.evalFloatInfixExpression
  split <;> (intro h; cases h)

theorem evalFloatIntegerInfixExpression_not_exit5 (host : evaluator.Host) (operator : String)
    (left right : Object) :
    evaluator.evalFloatIntegerInfixExpression host operator left right ≠ .error (.exit 5) := by
  unfold evaluator.evalFloatIntegerInfixExpression
  split <;> (intro h; cases h)

theorem evalIntegerFloatInfixExpression_not_exit5 (host : evaluator.Host) (operator : String)
    (left right : Object) :
    evaluator.evalIntegerFloatInfixExpression host operator left right ≠ .error (.exit 5) := by
  unfold evaluator.evalIntegerFloatInfixExpression
  split <;> (intro h; cases h)

theorem notMatches_not_exit5 (host : evaluator.Host) (left right : Object) :
    evaluator.notMatches host left right ≠ .error (.exit 5) := by
  unfold evaluator.notMatches
  repeat' split
  all_goals (intro h; cases h)

theorem evalPrefixExpression_not_exit5 (operator : String) (right : Object) :
    evaluator.evalPrefixExpression operator right ≠ .error (.exit 5) := by
  simp only [evaluator.evalPrefixExpression]
  split
  · intro h; cases h
  · split
    · unfold evaluator.evalMinusPrefixOperatorExpression
      split
      · intro h; cases h
      · intro h; cases h
      · split
        · intro h; cases h
        · intro h; cases h
    · split
      · intro h; cases h
      · intro h; cases h

theorem evalArrayIndexExpression_not_exit5 (array index : Object) :
    evaluator.evalArrayIndexExpression array index ≠ .error (.exit 5) := by
  unfold evaluator.evalArrayIndexExpression
  split
  · dsimp only
    apply ite_not_exit5
    · intro h; cases h
    · split <;> (intro h; cases h)
  · intro h; cases h

theorem evalHashIndexExpression_not_exit5 (host : evaluator.Host) (hash index : Object) :
    evaluator.evalHashIndexExpression host hash index ≠ .error (.exit 5) := by
  unfold evaluator.evalHashIndexExpression
  repeat' split
  all_goals (intro h; cases h)

theorem evalStringIndexExpression_not_exit5 (input index : Object) :
    evaluator.evalStringIndexExpression input index ≠ .error (.exit 5) := by
  unfold evaluator.evalStringIndexExpression
  split
  · dsimp only
    apply ite_not_exit5
    · intro h; cases h
    · split <;> (intro h; cases h)
  · intro h; cases h

theorem evalIndexExpression_not_exit5 (host : evaluator.Host) (left index : Object) :
    evaluator.evalIndexExpression host left index ≠ .error (.exit 5) := by
  unfold evaluator.evalIndexExpression
  repeat' split
  all_goals first
    | exact evalArrayIndexExpression_not_exit5 _ _
    | exact evalHashIndexExpression_not_exit5 _ _ _
    | exact evalStringIndexExpression_not_exit5 _ _
    | (intro h; cases h)

theorem evalIdentifier_not_exit5 (w : World) (Value : String) (env : Environment)
    (mem : Memory) : evalIdentifier w Value env mem ≠ .error (.exit 5) := by
  simp only [evalIdentifier]
  repeat' split
  all_goals (intro h; cases h)

theorem setCaptures_writes (rest : List String) : ∀ (i : Nat) (env : Environment)
    (mem : Memory), env.rooted = true → mem.sound → writes (setCaptures rest i env mem) := by
  induction rest with
  | nil => intro i env mem _ hs; exact writes_ok mem hs
  | cons capture rest ih =>
    intro i env mem hr hs
    simp only [setCaptures]
    split
    · rename_i a heq; exact writes_error a (not_exit5_of (Set_writes mem env _ _ hr hs).1 heq)
    rename_i m1 heq
    have hs1 := (Set_writes mem env _ _ hr hs).2 _ heq
    exact ih (i + 1) env m1 hr hs1

theorem matches_keeps (host : evaluator.Host) (left right : Object) (env : Environment)
    (mem : Memory) (hr : env.rooted = true) (hs : mem.sound) :
    keeps (matches_ host left right env mem) := by
  unfold matches_
  split
  · exact keeps_error _ (by decide)
  · split
    · exact keeps_error _ (by decide)
    · split
      · dsimp only
        have hstep : ∀ res : List String, writes (if res.length > 1 then
            setCaptures (res.drop 1) 1 env mem else .ok mem) := by
          intro res
          split
          · exact setCaptures_writes _ 1 env mem hr hs
          · exact writes_ok mem hs
        split
        · rename_i a heq; exact keeps_error a (not_exit5_of (hstep _).1 heq)
        rename_i m1 heq
        have hs1 := (hstep _).2 _ heq
        split
        · exact keeps_ok _ m1 hs1
        · exact keeps_ok _ m1 hs1
      · exact keeps_ok _ mem hs
    · exact keeps_ok _ mem hs

/-- The infix dispatch keeps the invariant. -/
theorem evalInfixExpression_keeps (host : evaluator.Host) (operator : String)
    (left right : Object) (env : Environment) (mem : Memory) (hr : env.rooted = true)
    (hs : mem.sound) : keeps (evalInfixExpression host operator left right env mem) := by
  unfold evalInfixExpression
  repeat' split
  all_goals first
    | exact keeps_error _ (by decide)
    | exact keeps_ok _ mem hs
    | exact matches_keeps host left right env mem hr hs
    | exact keepMem_keeps mem _ hs (evalIntegerInfixExpression_not_exit5 _ _ _ _)
    | exact keepMem_keeps mem _ hs (evalFloatInfixExpression_not_exit5 _ _ _ _)
    | exact keepMem_keeps mem _ hs (evalFloatIntegerInfixExpression_not_exit5 _ _ _ _)
    | exact keepMem_keeps mem _ hs (evalIntegerFloatInfixExpression_not_exit5 _ _ _ _)
    | exact keepMem_keeps mem _ hs (evalStringInfixExpression_not_exit5 _ _ _)
    | exact keepMem_keeps mem _ hs (evalBooleanInfixExpression_not_exit5 _ _ _ _)
    | exact keepMem_keeps mem _ hs (notMatches_not_exit5 _ _ _)

theorem evalProgram_keeps (E : Evaluator) (hE : E.safe) (stmts : List Node) :
    ∀ (init : Object) (env : Environment) (mem : Memory), env.rooted = true → mem.sound →
      keeps (evalProgram E stmts init env mem) := by
  induction stmts with
  | nil => intro init env mem _ hs; exact keeps_ok init mem hs
  | cons s rest ih =>
    intro init env mem hr hs
    have h1 := hE s env mem hr hs
    simp only [evalProgram]
    split
    · rename_i a h; rw [h] at h1; exact keeps_error a (fun h0 => h1.1 (by rw [h0]))
    · rename_i Value mem1 h
      exact keeps_ok Value mem1 (h1.2 _ _ h)
    · rename_i Message mem1 h
      exact keeps_ok _ mem1 (h1.2 _ _ h)
    · rename_i result mem1 _ _ h
      exact ih result env mem1 hr (h1.2 _ _ h)

theorem evalBlockStatement_keeps (E : Evaluator) (hE : E.safe) (stmts : List Node) :
    ∀ (init : Object) (env : Environment) (mem : Memory), env.rooted = true → mem.sound →
      keeps (evalBlockStatement E stmts init env mem) := by
  induction stmts with
  | nil => intro init env mem _ hs; exact keeps_ok init mem hs
  | cons s rest ih =>
    intro init env mem hr hs
    simp only [evalBlockStatement]
    have hstep := hE s env mem hr hs
    split
    · rename_i a heq; exact keeps_error a (not_exit5_of hstep.1 heq)
    rename_i v m1 heq
    have hs1 := hstep.2 _ _ heq
    split
    · exact keeps_ok v m1 hs1
    · exact ih v env m1 hr hs1

theorem evalPostfixExpression_keeps (operator Name : String) (env : Environment)
    (mem : Memory) (hr : env.rooted = true) (hs : mem.sound) :
    keeps (evalPostfixExpression env operator Name mem) := by
  unfold evalPostfixExpression
  split
  · split
    · exact keeps_ok _ mem hs
    · split
      · rename_i a heq; exact keeps_error a (not_exit5_of (Set_writes mem env _ _ hr hs).1 heq)
      rename_i m1 heq
      have hs1 := (Set_writes mem env _ _ hr hs).2 _ heq
      exact keeps_ok _ m1 hs1
    · exact keeps_ok _ mem hs
  · split
    · split
      · exact keeps_ok _ mem hs
      · split
        · rename_i a heq; exact keeps_error a (not_exit5_of (Set_writes mem env _ _ hr hs).1 heq)
        rename_i m1 heq
        have hs1 := (Set_writes mem env _ _ hr hs).2 _ heq
        exact keeps_ok _ m1 hs1
      · exact keeps_ok _ mem hs
    · exact keeps_ok _ mem hs

theorem alloc_sound (m : Memory) (hs : m.sound) : m.alloc.sound :=
  sound_of_functions m _ rfl hs

theorem evalIfExpression_keeps (E : Evaluator) (hE : E.safe)
    (Condition Consequence : Node) (Alternative : Option Node) (env : Environment)
    (mem : Memory) (hr : env.rooted = true) (hs : mem.sound) :
    keeps (evalIfExpression E Condition Consequence Alternative env mem) := by
  have hn : (NewTemporaryScope env evaluator.ifPermit mem).1.rooted = true :=
    rooted_push _ env _ hr
  have hm : (NewTemporaryScope env evaluator.ifPermit mem).2.sound := alloc_sound mem hs
  unfold evalIfExpression
  have hstep := hE Condition _ _ hn hm
  split
  · rename_i a heq; exact keeps_error a (not_exit5_of hstep.1 heq)
  rename_i condition m1 heq
  have hs1 := hstep.2 _ _ heq
  split
  · exact keeps_ok _ m1 hs1
  · split
    · exact hE _ _ _ hn hs1
    · split
      · exact hE _ _ _ hn hs1
      · exact keeps_ok _ m1 hs1

theorem evalTernaryExpression_keeps (E : Evaluator) (hE : E.safe)
    (Condition IfTrue IfFalse : Node) (env : Environment) (mem : Memory)
    (hr : env.rooted = true) (hs : mem.sound) :
    keeps (evalTernaryExpression E Condition IfTrue IfFalse env mem) := by
  unfold evalTernaryExpression
  have hstep := hE Condition _ _ hr hs
  split
  · rename_i a heq; exact keeps_error a (not_exit5_of hstep.1 heq)
  rename_i condition m1 heq
  have hs1 := hstep.2 _ _ heq
  split
  · exact keeps_ok _ m1 hs1
  · split
    · exact hE _ _ _ hr hs1
    · exact hE _ _ _ hr hs1

theorem evalForLoopExpression_keeps (E : Evaluator) (hE : E.safe)
    (Condition Consequence : Node) (fuel : Nat) : ∀ (env : Environment) (mem : Memory),
      env.rooted = true → mem.sound →
        keeps (evalForLoopExpression E Condition Consequence fuel env mem) := by
  induction fuel with
  | zero => intro env mem _ _; exact keeps_error _ (by decide)
  | succ n ih =>
    intro env mem hr hs
    simp only [evalForLoopExpression]
    have hstep := hE Condition _ _ hr hs
    split
    · rename_i a heq; exact keeps_error a (not_exit5_of hstep.1 heq)
    rename_i condition m1 heq
    have hs1 := hstep.2 _ _ heq
    split
    · exact keeps_ok _ m1 hs1
    · split
      · have hstep := hE Consequence _ _ hr hs1
        split
        · rename_i a heq; exact keeps_error a (not_exit5_of hstep.1 heq)
        rename_i rt m2 heq
        have hs2 := hstep.2 _ _ heq
        split
        · exact keeps_error _ (by decide)
        · split
          · exact keeps_ok _ m2 hs2
          · exact ih env m2 hr hs2
      · exact keeps_ok _ m1 hs1

theorem foreachLoop_keeps (w : World) (E : Evaluator) (hE : E.safe) (Ident Index : String)
    (Body : Node) (fuel : Nat) : ∀ (ret idx : Object) (ok : Bool) (child : Environment)
      (helper : Object) (mem : Memory), child.rooted = true → mem.sound →
        keeps (foreachLoop w E Ident Index Body fuel ret idx ok child helper mem) := by
  induction fuel with
  | zero => intro _ _ _ _ _ _ _ _; exact keeps_error _ (by decide)
  | succ n ih =>
    intro ret idx ok child helper mem hr hs
    simp only [foreachLoop]
    split
    · split
      · rename_i a heq; exact keeps_error a (not_exit5_of (Set_writes mem child _ _ hr hs).1 heq)
      rename_i m1 heq
      have hs1 := (Set_writes mem child _ _ hr hs).2 _ heq
      have hstep : writes (if Index ≠ "" then machine.Set m1 child Index idx else .ok m1) := by
        split
        · exact Set_writes m1 child _ _ hr hs1
        · exact writes_ok m1 hs1
      split
      · rename_i a heq; exact keeps_error a (not_exit5_of hstep.1 heq)
      rename_i m2 heq
      have hs2 := hstep.2 _ heq
      have hstep := hE Body _ _ hr hs2
      split
      · rename_i a heq; exact keeps_error a (not_exit5_of hstep.1 heq)
      rename_i rt m3 heq
      have hs3 := hstep.2 _ _ heq
      split
      · exact keeps_error _ (by decide)
      · split
        · exact keeps_ok _ m3 hs3
        · split
          · exact keeps_error _ (by decide)
          · exact ih _ _ _ child _ _ hr (sound_of_functions m3 _ rfl hs3)
    · exact keeps_ok _ mem hs

theorem evalForeachExpression_keeps (w : World) (E : Evaluator) (hE : E.safe)
    (Index Ident : String) (Value Body : Node) (fuel : Nat) (env : Environment)
    (mem : Memory) (hr : env.rooted = true) (hs : mem.sound) :
    keeps (evalForeachExpression w E Index Ident Value Body fuel env mem) := by
  unfold evalForeachExpression
  have hstep := hE Value _ _ hr hs
  split
  · rename_i a heq; exact keeps_error a (not_exit5_of hstep.1 heq)
  rename_i val m1 heq
  have hs1 := hstep.2 _ _ heq
  split
  · split
    · exact keeps_error _ (by decide)
    · exact keeps_ok _ m1 hs1
  · dsimp only
    split
    · exact keeps_error _ (by decide)
    · exact foreachLoop_keeps w E hE Ident Index Body fuel _ _ _ _ _ _
        (rooted_push _ env _ hr) (alloc_sound m1 hs1)

theorem evalExpression_keeps (E : Evaluator) (hE : E.safe) (exps : List Node) :
    ∀ (result : List Object) (env : Environment) (mem : Memory), env.rooted = true →
      mem.sound → keeps (evalExpression E exps result env mem) := by
  induction exps with
  | nil => intro result env mem _ hs; exact keeps_ok result mem hs
  | cons e rest ih =>
    intro result env mem hr hs
    simp only [evalExpression]
    have hstep := hE e env mem hr hs
    split
    · rename_i a heq; exact keeps_error a (not_exit5_of hstep.1 heq)
    rename_i v m1 heq
    have hs1 := hstep.2 _ _ heq
    split
    · exact keeps_ok _ m1 hs1
    · exact ih _ env m1 hr hs1

theorem compoundAssign_keeps (host : evaluator.Host) (operator Name : String)
    (evaluated : Object) (env : Environment) (mem : Memory) (hr : env.rooted = true)
    (hs : mem.sound) : keeps (compoundAssign host operator Name evaluated env mem) := by
  unfold compoundAssign
  split
  · exact keeps_ok _ mem hs
  · split
    · rename_i a heq; exact keeps_error a (not_exit5_of (evalInfixExpression_keeps host _ _ _ env mem hr hs).1 heq)
    rename_i res m1 heq
    have hs1 := (evalInfixExpression_keeps host _ _ _ env mem hr hs).2 _ _ heq
    split
    · exact keeps_ok _ m1 hs1
    · split
      · rename_i a heq; exact keeps_error a (not_exit5_of (Set_writes m1 env _ _ hr hs1).1 heq)
      rename_i m2 heq
      have hs2 := (Set_writes m1 env _ _ hr hs1).2 _ heq
      exact keeps_ok _ m2 hs2

theorem evalAssignStatement_keeps (E : Evaluator) (hE : E.safe) (host : evaluator.Host)
    (Name Operator : String) (Value : Node) (env : Environment) (mem : Memory)
    (hr : env.rooted = true) (hs : mem.sound) :
    keeps (evalAssignStatement E host Name Operator Value env mem) := by
  unfold evalAssignStatement
  have hstep := hE Value env mem hr hs
  split
  · rename_i a heq; exact keeps_error a (not_exit5_of hstep.1 heq)
  rename_i v m1 heq
  have hs1 := hstep.2 _ _ heq
  split
  · exact keeps_ok _ m1 hs1
  · split
    · exact compoundAssign_keeps host _ _ _ env m1 hr hs1
    · split
      · exact compoundAssign_keeps host _ _ _ env m1 hr hs1
      · split
        · exact compoundAssign_keeps host _ _ _ env m1 hr hs1
        · split
          · exact compoundAssign_keeps host _ _ _ env m1 hr hs1
          · split
            · split
              · exact keeps_error _ (by decide)
              · split
                · rename_i a heq; exact keeps_error a (not_exit5_of (Set_writes m1 env _ _ hr hs1).1 heq)
                rename_i m2 heq
                have hs2 := (Set_writes m1 env _ _ hr hs1).2 _ heq
                exact keeps_ok _ m2 hs2
            · exact keeps_ok _ m1 hs1

theorem evalHashLiteral_keeps (host : evaluator.Host) (E : Evaluator) (hE : E.safe)
    (Pairs : List (Node × Node)) : ∀ (pairs : List (object.HashKey × Object × Object))
      (env : Environment) (mem : Memory), env.rooted = true → mem.sound →
        keeps (evalHashLiteral host E Pairs pairs env mem) := by
  induction Pairs with
  | nil => intro pairs env mem _ hs; exact keeps_ok _ mem hs
  | cons p rest ih =>
    intro pairs env mem hr hs
    obtain ⟨keyNode, valueNode⟩ := p
    simp only [evalHashLiteral]
    have hstep := hE keyNode env mem hr hs
    split
    · rename_i a heq; exact keeps_error a (not_exit5_of hstep.1 heq)
    rename_i key m1 heq
    have hs1 := hstep.2 _ _ heq
    split
    · exact keeps_ok _ m1 hs1
    · split
      · split
        · exact keeps_error _ (by decide)
        · exact keeps_ok _ m1 hs1
      · have hstep := hE valueNode env m1 hr hs1
        split
        · rename_i a heq; exact keeps_error a (not_exit5_of hstep.1 heq)
        rename_i value m2 heq
        have hs2 := hstep.2 _ _ heq
        split
        · exact keeps_ok _ m2 hs2
        · exact ih _ env m2 hr hs2

theorem scanExprs_keeps (E : Evaluator) (hE : E.safe) (host : evaluator.Host) (obj : Object)
    (Block : List Node) (exprs : List Node) : ∀ (env : Environment) (mem : Memory),
      env.rooted = true → mem.sound → keeps (scanExprs E host obj Block exprs env mem) := by
  induction exprs with
  | nil => intro env mem _ hs; exact keeps_ok _ mem hs
  | cons val rest ih =>
    intro env mem hr hs
    simp only [scanExprs]
    have hstep := hE val env mem hr hs
    split
    · rename_i a heq; exact keeps_error a (not_exit5_of hstep.1 heq)
    rename_i out m1 heq
    have hs1 := hstep.2 _ _ heq
    split
    · split
      · exact keeps_error _ (by decide)
      · exact keeps_map _ _ (evalBlockStatement_keeps E hE Block _ env m1 hr hs1)
      · split
        · have hstep := matches_keeps host obj out env m1 hr hs1
          split
          · rename_i a heq; exact keeps_error a (not_exit5_of hstep.1 heq)
          rename_i m m2 heq
          have hs2 := hstep.2 _ _ heq
          split
          · exact keeps_map _ _ (evalBlockStatement_keeps E hE Block _ env m2 hr hs2)
          · exact ih env m2 hr hs2
        · exact ih env m1 hr hs1
    · exact keeps_error _ (by decide)

theorem scanChoices_keeps (E : Evaluator) (hE : E.safe) (host : evaluator.Host) (obj : Object)
    (Choices : List (Bool × List Node × List Node)) : ∀ (env : Environment) (mem : Memory),
      env.rooted = true → mem.sound → keeps (scanChoices E host obj Choices env mem) := by
  induction Choices with
  | nil => intro env mem _ hs; exact keeps_ok _ mem hs
  | cons opt rest ih =>
    intro env mem hr hs
    simp only [scanChoices]
    split
    · exact ih env mem hr hs
    · have h1 := scanExprs_keeps E hE host obj opt.2.2 opt.2.1 env mem hr hs
      split
      · rename_i a h; rw [h] at h1; exact keeps_error a (fun h0 => h1.1 (by rw [h0]))
      · rename_i blockOut mem1 h
        exact keeps_ok _ mem1 (h1.2 _ _ h)
      · rename_i mem1 h
        exact ih env mem1 hr (h1.2 _ _ h)

theorem defaultChoice_keeps (E : Evaluator) (hE : E.safe)
    (Choices : List (Bool × List Node × List Node)) : ∀ (env : Environment) (mem : Memory),
      env.rooted = true → mem.sound → keeps (defaultChoice E Choices env mem) := by
  induction Choices with
  | nil => intro env mem _ hs; exact keeps_ok _ mem hs
  | cons opt rest ih =>
    intro env mem hr hs
    simp only [defaultChoice]
    split
    · exact evalBlockStatement_keeps E hE _ _ env mem hr hs
    · exact ih env mem hr hs

theorem evalSwitchStatement_keeps (E : Evaluator) (hE : E.safe) (host : evaluator.Host)
    (Value : Node) (Choices : List (Bool × List Node × List Node)) (env : Environment)
    (mem : Memory) (hr : env.rooted = true) (hs : mem.sound) :
    keeps (evalSwitchStatement E host Value Choices env mem) := by
  unfold evalSwitchStatement
  have hstep := hE Value env mem hr hs
  split
  · rename_i a heq; exact keeps_error a (not_exit5_of hstep.1 heq)
  rename_i obj m1 heq
  have hs1 := hstep.2 _ _ heq
  have h1 := scanChoices_keeps E hE host obj Choices env m1 hr hs1
  split
  · rename_i a h; rw [h] at h1; exact keeps_error a (fun h0 => h1.1 (by rw [h0]))
  · rename_i blockOut mem2 h
    exact keeps_ok _ mem2 (h1.2 _ _ h)
  · rename_i mem2 h
    exact defaultChoice_keeps E hE Choices env mem2 hr (h1.2 _ _ h)

theorem setDefaults_writes (E : Evaluator) (hE : E.safe) (Defaults : List (String × Node)) :
    ∀ (env : Environment) (mem : Memory), env.rooted = true → mem.sound →
      writes (setDefaults E Defaults env mem) := by
  induction Defaults with
  | nil => intro env mem _ hs; exact writes_ok mem hs
  | cons d rest ih =>
    intro env mem hr hs
    obtain ⟨key, val⟩ := d
    simp only [setDefaults]
    have hstep := hE val env mem hr hs
    split
    · rename_i a heq; exact writes_error a (not_exit5_of hstep.1 heq)
    rename_i v m1 heq
    have hs1 := hstep.2 _ _ heq
    split
    · rename_i a heq; exact writes_error a (not_exit5_of (Set_writes m1 env _ _ hr hs1).1 heq)
    rename_i m2 heq
    have hs2 := (Set_writes m1 env _ _ hr hs1).2 _ heq
    exact ih env m2 hr hs2

theorem setParams_writes (args : List Object) (Parameters : List String) :
    ∀ (paramIdx : Nat) (env : Environment) (mem : Memory), env.rooted = true → mem.sound →
      writes (setParams args Parameters paramIdx env mem) := by
  induction Parameters with
  | nil => intro _ env mem _ hs; exact writes_ok mem hs
  | cons param rest ih =>
    intro paramIdx env mem hr hs
    simp only [setParams]
    split
    · split
      · rename_i a heq; exact writes_error a (not_exit5_of (Set_writes mem env _ _ hr hs).1 heq)
      rename_i m1 heq
      have hs1 := (Set_writes mem env _ _ hr hs).2 _ heq
      exact ih _ env m1 hr hs1
    · exact ih _ env mem hr hs

theorem sound_lookup (mem : Memory) (hs : mem.sound) (ref : Nat) (f : Function)
    (h : mem.functions[ref]? = some f) : f.Env.rooted = true := by
  unfold Memory.sound at hs
  exact hs f (List.mem_iff_getElem?.mpr ⟨ref, h⟩)

/-- The environment of a call: made by `NewEnclosedEnvironment` over the environment
of the function value, so with a plain outermost scope when that has one. -/
theorem extendFunctionEnv_keeps (E : Evaluator) (hE : E.safe) (fn : Function)
    (args : List Object) (mem : Memory) (hf : fn.Env.rooted = true) (hs : mem.sound) :
    extendFunctionEnv E fn args mem ≠ .error (.exit 5) ∧
      ∀ env1 mem1, extendFunctionEnv E fn args mem = .ok (env1, mem1) →
        env1.outer = fn.Env ∧ env1.rooted = true ∧ mem1.sound := by
  have hn : (NewEnclosedEnvironment fn.Env mem).1.rooted = true := rooted_push _ fn.Env _ hf
  have hm : (NewEnclosedEnvironment fn.Env mem).2.sound := alloc_sound mem hs
  have h1 := setDefaults_writes E hE fn.Defaults _ _ hn hm
  unfold extendFunctionEnv
  split
  · rename_i a h
    refine ⟨?_, by intro _ _ h0; cases h0⟩
    intro h0
    cases h0
    exact h1.1 h
  · rename_i m1 h
    have h2 := setParams_writes args fn.Parameters 0 _ m1 hn (h1.2 m1 h)
    cases hres : setParams args fn.Parameters 0 (NewEnclosedEnvironment fn.Env mem).1 m1 with
    | error a =>
      refine ⟨?_, by intro _ _ h0; cases h0⟩
      intro h0
      cases h0
      exact h2.1 hres
    | ok m2 =>
      refine ⟨(by intro h0; cases h0), ?_⟩
      intro env1 mem1 h0
      cases h0
      exact ⟨rfl, hn, h2.2 m2 hres⟩

/-- The builtin `eval` keeps the invariant, whatever the parser gives it. -/
theorem evalFun_keeps (parse : String → Option Node) (E : Evaluator) (hE : Evaluator.safe E)
    (env : Environment) (args : List Object) (mem : Memory) (hr : env.rooted = true)
    (hs : mem.sound) : keeps (evalFun parse E env args mem) := by
  simp only [evalFun]
  split
  · split
    · split
      · exact hE _ _ _ hr hs
      · exact keeps_error _ (by decide)
    · split
      · exact keeps_error _ (by decide)
      · exact keeps_ok _ mem hs
  · exact keeps_ok _ mem hs

/-- A builtin other than `eval` is not handed an environment and makes no function
value: its call keeps the invariant.  Where it ends the process, as `exit` does, with
a code of the program's choosing, that is `Abort.quit`, not the exit of `Set`. -/
theorem callOther_keeps
    (Fn : List Object → Reach → Nat → Option (Except Int (Object × Reach)))
    (args : List Object) (mem : Memory) (hs : mem.sound) :
    keeps (callOther Fn args mem) := by
  unfold callOther
  split
  · exact keeps_error _ (by decide)
  · exact keeps_error _ (fun h => by cases h)
  · exact keeps_ok _ _ (sound_of_functions mem _ rfl hs)

/-- Go's `applyFunction` keeps the invariant. -/
theorem applyFunction_keeps (w : World) (E : Evaluator) (hE : E.safe)
    (env : Environment) (fn : Object) (args : List Object) (mem : Memory)
    (hr : env.rooted = true) (hs : mem.sound) :
    keeps (applyFunction w E env fn args mem) := by
  unfold applyFunction
  split
  · split
    · exact keeps_error _ (by decide)
    · rename_i f h
      have hx := extendFunctionEnv_keeps E hE f args mem (sound_lookup mem hs _ f h) hs
      split
      · rename_i a h1
        refine keeps_error a ?_
        intro h0; subst h0; exact hx.1 h1
      · rename_i extendEnv mem1 h1
        obtain ⟨_, hr1, hs1⟩ := hx.2 _ _ h1
        have hstep := hE f.Body extendEnv mem1 hr1 hs1
        split
        · rename_i a heq; exact keeps_error a (not_exit5_of hstep.1 heq)
        rename_i evaluated m2 heq
        have hs2 := hstep.2 _ _ heq
        exact keeps_ok _ m2 hs2
  · split
    · exact keeps_error _ (by decide)
    · exact evalFun_keeps _ E hE env args mem hr hs
    · exact callOther_keeps _ args mem hs
  · split
    · exact keeps_error _ (by decide)
    · exact keeps_ok _ mem hs

theorem invokeUserMethod_keeps (E : Evaluator) (hE : E.safe) (fn obj : Object)
    (args : List Object) (mem : Memory) (hs : mem.sound) :
    keeps (invokeUserMethod E fn obj args mem) := by
  unfold invokeUserMethod
  split
  · split
    · exact keeps_error _ (by decide)
    · rename_i f h
      have hx := extendFunctionEnv_keeps E hE f args mem (sound_lookup mem hs _ f h) hs
      split
      · rename_i a h1
        refine keeps_error a ?_
        intro h0; subst h0; exact hx.1 h1
      · rename_i extendEnv mem1 h1
        obtain ⟨_, hr1, hs1⟩ := hx.2 _ _ h1
        split
        · rename_i a heq; exact keeps_error a (not_exit5_of (Set_writes mem1 extendEnv _ _ hr1 hs1).1 heq)
        rename_i m2 heq
        have hs2 := (Set_writes mem1 extendEnv _ _ hr1 hs1).2 _ heq
        have hstep := hE f.Body extendEnv m2 hr1 hs2
        split
        · rename_i a heq; exact keeps_error a (not_exit5_of hstep.1 heq)
        rename_i evaluated m3 heq
        have hs3 := hstep.2 _ _ heq
        exact keeps_ok _ m3 hs3
  · exact keeps_error _ (by decide)

theorem tryAttempts_keeps (E : Evaluator) (hE : E.safe) (obj : Object) (method : String)
    (args : List Object) (env : Environment) (mem : Memory) (hs : mem.sound)
    (attempts : List String) :
    ∀ r, tryAttempts E obj method args env mem attempts = some r → keeps r := by
  induction attempts with
  | nil => intro r h; simp [tryAttempts] at h
  | cons attempt rest ih =>
    intro r h
    simp only [tryAttempts] at h
    split at h
    · cases h
      exact invokeUserMethod_keeps E hE _ obj args mem hs
    · exact ih r h

theorem evalObjectCallExpression_keeps (w : World) (E : Evaluator) (hE : E.safe)
    (Object_ : Node) (method : String) (Arguments : List Node) (env : Environment)
    (mem : Memory) (hr : env.rooted = true) (hs : mem.sound) :
    keeps (evalObjectCallExpression w E Object_ method Arguments env mem) := by
  unfold evalObjectCallExpression
  have hstep := hE Object_ env mem hr hs
  split
  · rename_i a heq; exact keeps_error a (not_exit5_of hstep.1 heq)
  rename_i obj m1 heq
  have hs1 := hstep.2 _ _ heq
  have hstep := evalExpression_keeps E hE Arguments [] env m1 hr hs1
  split
  · rename_i a heq; exact keeps_error a (not_exit5_of hstep.1 heq)
  rename_i args m2 heq
  have hs2 := hstep.2 _ _ heq
  split
  · exact keeps_error _ (by decide)
  · split
    · exact keeps_error _ (by decide)
    · split
      · exact keeps_ok _ m2 hs2
      · split
        · exact keeps_error _ (by decide)
        · split
          · rename_i r h
            exact tryAttempts_keeps E hE obj method args _ m2 hs2 _ r h
          · exact keeps_ok _ m2 hs2

/-- The evaluator keeps the invariant: on a chain whose outermost scope is plain and
a sound memory it does not exit with code 5 and hands on a sound memory, for
every node and every amount of fuel. -/
theorem Eval_safe (w : World) (fuel : Nat) : Evaluator.safe (Eval w fuel) := by
  induction fuel with
  | zero =>
    intro node env mem _ _
    simp only [Eval]
    exact keeps_error _ (by decide)
  | succ n ih =>
    intro node env mem hr hs
    cases node with
    | nil => simp only [Eval]; exact keeps_ok _ mem hs
    | Program Statements =>
      simp only [Eval]; exact evalProgram_keeps _ ih Statements _ env mem hr hs
    | ExpressionStatement Expression => simp only [Eval]; exact ih Expression env mem hr hs
    | IntegerLiteral Value => simp only [Eval]; exact keeps_ok _ mem hs
    | FloatLiteral Value => simp only [Eval]; exact keeps_ok _ mem hs
    | Boolean Value => simp only [Eval]; exact keeps_ok _ mem hs
    | NullLiteral => simp only [Eval]; exact keeps_ok _ mem hs
    | StringLiteral Value => simp only [Eval]; exact keeps_ok _ mem hs
    | RegexpLiteral Value Flags => simp only [Eval]; exact keeps_ok _ mem hs
    | BacktickLiteral Value =>
      simp only [Eval]
      split
      · exact keeps_error _ (by decide)
      · exact keeps_ok _ _ (sound_of_functions mem _ rfl hs)
    | PrefixExpression Operator Right =>
      simp only [Eval]
      have hstep := ih Right env mem hr hs
      split
      · rename_i a heq; exact keeps_error a (not_exit5_of hstep.1 heq)
      rename_i v m1 heq
      have hs1 := hstep.2 _ _ heq
      split
      · exact keeps_ok v m1 hs1
      · exact keepMem_keeps m1 _ hs1 (evalPrefixExpression_not_exit5 _ _)
    | PostfixExpression Name Operator =>
      simp only [Eval]; exact evalPostfixExpression_keeps _ _ env mem hr hs
    | InfixExpression Operator Left Right =>
      simp only [Eval]
      have hstep := ih Left env mem hr hs
      split
      · rename_i a heq; exact keeps_error a (not_exit5_of hstep.1 heq)
      rename_i l m1 heq
      have hs1 := hstep.2 _ _ heq
      split
      · exact keeps_ok l m1 hs1
      · have hstep := ih Right env m1 hr hs1
        split
        · rename_i a heq; exact keeps_error a (not_exit5_of hstep.1 heq)
        rename_i r m2 heq
        have hs2 := hstep.2 _ _ heq
        split
        · exact keeps_ok r m2 hs2
        · split
          · rename_i a heq; exact keeps_error a (not_exit5_of (evalInfixExpression_keeps w.host Operator l r env m2 hr hs2).1 heq)
          rename_i res m3 heq
          have hs3 := (evalInfixExpression_keeps w.host Operator l r env m2 hr hs2).2 _ _ heq
          split
          · exact keeps_error _ (by decide)
          · exact keeps_ok res m3 hs3
    | BlockStatement Statements =>
      simp only [Eval]; exact evalBlockStatement_keeps _ ih Statements _ env mem hr hs
    | IfExpression Condition Consequence Alternative =>
      simp only [Eval]; exact evalIfExpression_keeps _ ih _ _ _ env mem hr hs
    | TernaryExpression Condition IfTrue IfFalse =>
      simp only [Eval]; exact evalTernaryExpression_keeps _ ih _ _ _ env mem hr hs
    | ForLoopExpression Condition Consequence =>
      simp only [Eval]; exact evalForLoopExpression_keeps _ ih _ _ _ env mem hr hs
    | ForeachStatement Index Ident Value Body =>
      simp only [Eval]; exact evalForeachExpression_keeps w _ ih _ _ _ _ _ env mem hr hs
    | ReturnStatement ReturnValue =>
      simp only [Eval]
      have hstep := ih ReturnValue env mem hr hs
      split
      · rename_i a heq; exact keeps_error a (not_exit5_of hstep.1 heq)
      rename_i v m1 heq
      have hs1 := hstep.2 _ _ heq
      split
      · exact keeps_ok v m1 hs1
      · exact keeps_ok _ m1 hs1
    | LetStatement Name Value =>
      simp only [Eval]
      have hstep := ih Value env mem hr hs
      split
      · rename_i a heq; exact keeps_error a (not_exit5_of hstep.1 heq)
      rename_i v m1 heq
      have hs1 := hstep.2 _ _ heq
      split
      · exact keeps_ok v m1 hs1
      · split
        · rename_i a heq; exact keeps_error a (not_exit5_of (Set_writes m1 env _ _ hr hs1).1 heq)
        rename_i m2 heq
        have hs2 := (Set_writes m1 env _ _ hr hs1).2 _ heq
        exact keeps_ok v m2 hs2
    | ConstStatement Name Value =>
      simp only [Eval]
      have hstep := ih Value env mem hr hs
      split
      · rename_i a heq; exact keeps_error a (not_exit5_of hstep.1 heq)
      rename_i v m1 heq
      have hs1 := hstep.2 _ _ heq
      split
      · exact keeps_ok v m1 hs1
      · split
        · rename_i a heq; exact keeps_error a (not_exit5_of (SetConst_writes m1 env _ _ hs1).1 heq)
        rename_i m2 heq
        have hs2 := (SetConst_writes m1 env _ _ hs1).2 _ heq
        exact keeps_ok v m2 hs2
    | Identifier Value =>
      simp only [Eval]
      exact keepMem_keeps mem _ hs (evalIdentifier_not_exit5 _ _ _ _)
    | FunctionLiteral Parameters Defaults Body =>
      simp only [Eval]
      refine keeps_ok _ _ ?_
      unfold Memory.sound at hs ⊢
      intro f hf
      rcases List.mem_append.mp hf with h | h
      · exact hs f h
      · rw [List.mem_singleton] at h
        subst h
        exact hr
    | FunctionDefineLiteral Name Parameters Defaults Body =>
      simp only [Eval]
      have hs0 : Memory.sound { mem with functions := mem.functions ++
          [{ Parameters := Parameters, Body := Body, Defaults := Defaults, Env := env }] } := by
        unfold Memory.sound at hs ⊢
        intro f hf
        rcases List.mem_append.mp hf with h | h
        · exact hs f h
        · rw [List.mem_singleton] at h
          subst h
          exact hr
      have hstep := Set_writes _ env Name (Object.Function mem.functions.length) hr hs0
      split
      · rename_i a heq; exact keeps_error a (not_exit5_of hstep.1 heq)
      rename_i m1 heq
      exact keeps_ok _ m1 (hstep.2 _ heq)
    | ObjectCallExpression Object_ method Arguments =>
      simp only [Eval]
      have hstep := evalObjectCallExpression_keeps w _ ih Object_ method Arguments env mem hr hs
      split
      · rename_i a heq; exact keeps_error a (not_exit5_of hstep.1 heq)
      rename_i res m1 heq
      have hs1 := hstep.2 _ _ heq
      split
      · exact keeps_error _ (by decide)
      · exact keeps_ok res m1 hs1
    | CallExpression Function Arguments =>
      simp only [Eval]
      have hstep := ih Function env mem hr hs
      split
      · rename_i a heq; exact keeps_error a (not_exit5_of hstep.1 heq)
      rename_i function m1 heq
      have hs1 := hstep.2 _ _ heq
      split
      · exact keeps_ok _ m1 hs1
      · have hstep := evalExpression_keeps _ ih Arguments [] env m1 hr hs1
        split
        · rename_i a heq; exact keeps_error a (not_exit5_of hstep.1 heq)
        rename_i args m2 heq
        have hs2 := hstep.2 _ _ heq
        split
        · exact keeps_ok _ m2 hs2
        · have hstep := applyFunction_keeps w _ ih env function args m2 hr hs2
          split
          · rename_i a heq; exact keeps_error a (not_exit5_of hstep.1 heq)
          rename_i res m3 heq
          have hs3 := hstep.2 _ _ heq
          split
          · exact keeps_error _ (by decide)
          · exact keeps_ok res m3 hs3
    | ArrayLiteral Elements =>
      simp only [Eval]
      have hstep := evalExpression_keeps _ ih Elements [] env mem hr hs
      split
      · rename_i a heq; exact keeps_error a (not_exit5_of hstep.1 heq)
      rename_i elements m1 heq
      have hs1 := hstep.2 _ _ heq
      split
      · exact keeps_ok _ m1 hs1
      · exact keeps_ok _ m1 hs1
    | IndexExpression Left Index =>
      simp only [Eval]
      have hstep := ih Left env mem hr hs
      split
      · rename_i a heq; exact keeps_error a (not_exit5_of hstep.1 heq)
      rename_i l m1 heq
      have hs1 := hstep.2 _ _ heq
      split
      · exact keeps_ok l m1 hs1
      · have hstep := ih Index env m1 hr hs1
        split
        · rename_i a heq; exact keeps_error a (not_exit5_of hstep.1 heq)
        rename_i r m2 heq
        have hs2 := hstep.2 _ _ heq
        split
        · exact keeps_ok r m2 hs2
        · exact keepMem_keeps m2 _ hs2 (evalIndexExpression_not_exit5 _ _ _)
    | AssignStatement Name Operator Value =>
      simp only [Eval]; exact evalAssignStatement_keeps _ ih w.host _ _ _ env mem hr hs
    | HashLiteral Pairs =>
      simp only [Eval]; exact evalHashLiteral_keeps w.host _ ih Pairs [] env mem hr hs
    | SwitchExpression Value Choices =>
      simp only [Eval]; exact evalSwitchStatement_keeps _ ih w.host _ _ env mem hr hs

end MachineScopeTheorems

section MachineClaimTheorems

open machine
open object (Object Type_)

theorem empty_sound : Memory.empty.sound := by
  intro f hf
  simp [Memory.empty] at hf

/-- C37: the exit with code 5 of `Environment.Set` is unreachable from evaluation.
Call an environment rooted when the outermost scope of its chain is plain, as the
one made by `NewEnvironment` is, and a memory sound when every function value in it
holds a rooted environment.  In every world, from a sound memory: `NewEnvironment`
gives a rooted environment; a temporary scope made over a rooted environment, as
`evalIfExpression` and `evalForeachExpression` make it, has a non-nil outer scope
and is rooted; `Set` on a rooted environment exits
with code 3 or writes the name into the first scope, counting outward, that is
plain or has the name on its permit list, and does not exit with code 5; `Eval`, on
every node, with every amount of fuel, on every rooted environment, does not exit
with code 5 and hands on a sound memory; so does `applyFunction`; and
`extendFunctionEnv`, for a function value of the memory, does not exit with code 5
and gives a rooted environment with a non-nil outer scope.  (The builtin `exit`
ends the process with a code that the program chooses; that is `Abort.quit`, not
the exit of `Set`.) -/
theorem exit5_unreachable (w : World) (mem : Memory) (hmem : mem.sound) :
    ((NewEnvironment mem).1.rooted = true ∧ (NewEnvironment mem).2.sound) ∧
    (∀ (env : Environment) (keys : List String), env.rooted = true →
      (NewTemporaryScope env keys mem).1.outer.isNil = false ∧
        (NewTemporaryScope env keys mem).1.rooted = true ∧
        (NewTemporaryScope env keys mem).2.sound) ∧
    (∀ (env : Environment) (name : String) (val : Object), env.rooted = true →
      machine.Set mem env name val ≠ .error (.exit 5) ∧
        (machine.Set mem env name val = .error (.exit 3) ∨
          ∃ j a, env.target name = some j ∧ env.address j = some a ∧
            machine.Set mem env name val = .ok (mem.write a name val))) ∧
    (∀ (fuel : Nat) (node : Node) (env : Environment), env.rooted = true →
      Eval w fuel node env mem ≠ .error (.exit 5) ∧
        ∀ v mem1, Eval w fuel node env mem = .ok (v, mem1) → mem1.sound) ∧
    (∀ (fuel : Nat) (env : Environment) (fn : Object) (args : List Object),
      env.rooted = true →
        applyFunction w (Eval w fuel) env fn args mem ≠ .error (.exit 5) ∧
          ∀ v mem1, applyFunction w (Eval w fuel) env fn args mem = .ok (v, mem1) →
            mem1.sound) ∧
    (∀ (fuel : Nat) (ref : Nat) (fn : Function) (args : List Object),
      mem.functions[ref]? = some fn →
        extendFunctionEnv (Eval w fuel) fn args mem ≠ .error (.exit 5) ∧
          ∀ env1 mem1, extendFunctionEnv (Eval w fuel) fn args mem = .ok (env1, mem1) →
            env1.outer.isNil = false ∧ env1.rooted = true ∧ mem1.sound) := by
  refine ⟨⟨rfl, alloc_sound mem hmem⟩, ?_, ?_, ?_, ?_, ?_⟩
  · intro env keys hr
    exact ⟨rooted_isNil env hr, rooted_push _ env keys hr, alloc_sound mem hmem⟩
  · intro env name val hr
    exact ⟨Set_not_exit5 env mem name val hr, Set_lands env mem name val hr⟩
  · intro fuel node env hr
    exact Eval_safe w fuel node env mem hr hmem
  · intro fuel env fn args hr
    exact applyFunction_keeps w _ (Eval_safe w fuel) env fn args mem hr hmem
  · intro fuel ref fn args hf
    have hfr := sound_lookup mem hmem ref fn hf
    have hx := extendFunctionEnv_keeps (Eval w fuel) (Eval_safe w fuel) fn args mem hfr hmem
    refine ⟨hx.1, ?_⟩
    intro env1 mem1 h
    obtain ⟨h0, h1, h2⟩ := hx.2 env1 mem1 h
    refine ⟨?_, h1, h2⟩
    rw [h0]
    exact rooted_isNil fn.Env hfr

/-- An instance: the world of the examples and the memory of a process that has
made nothing yet.  The program `sampleProgram`, which defines a function that writes
from inside an `IF`, calls it from inside a `foreach` and writes the result from
there, evaluates to 2 in the environment made by `NewEnvironment`, leaves `y` bound to
2 in that environment and has made six environments by then; and `Eval` on that
program, with any amount of fuel, does not exit with code 5. -/
theorem exit5_unreachable_witness :
    (NewEnvironment Memory.empty).2.sound ∧
    (Eval sampleWorld 12 sampleProgram (NewEnvironment Memory.empty).1
        (NewEnvironment Memory.empty).2).map
      (fun p => (p.1, Get p.2 (NewEnvironment Memory.empty).1 "y", p.2.scopes)) =
        .ok (.Integer 2, (.Integer 2, true), 6) ∧
    (∀ fuel : Nat, Eval sampleWorld fuel sampleProgram (NewEnvironment Memory.empty).1
        (NewEnvironment Memory.empty).2 ≠ .error (.exit 5)) :=
  ⟨alloc_sound _ empty_sound, rfl, fun fuel =>
    ((exit5_unreachable sampleWorld (NewEnvironment Memory.empty).2
      (alloc_sound _ empty_sound)).2.2.2.1 fuel sampleProgram
        (NewEnvironment Memory.empty).1 rfl).1⟩

end MachineClaimTheorems

section StrictSiteTheorems

open machine
open object (Object Type_)

end StrictSiteTheorems
